import Mathlib

/-!
# KlayGE, OpenGL ES shader objects: a shallow embedding

The embedded source is `KlayGE/Plugins/Src/Render/OpenGLES/OGLESShaderObject.cpp`.

Conventions of the embedding.

* `std::string` is a list of bytes, `std::vector<T>` a list; a byte is a `Fin 256`.
* Integer casts are written out: `static_cast<uint8_t>(n)` is `n % 256`, and so on.
* A C++ pointer to an object that is only read is the object itself inside an `Option`
  (`none` is the null pointer).
* Code that would dereference a null pointer, index a vector out of range, or fail a
  `BOOST_ASSERT` returns `Except.error` with the matching `Fault`; every other path returns
  `Except.ok`.  Code without such a path is a plain function.
* A read past the end of a stream is no fault: `std::istream::read` stores the bytes that
  are left and sets the fail bit of the stream, which the embedded code never tests.  What
  a local without an initialiser holds before it is read into is a parameter
  (`Indeterminate`).
* Calls into the driver and into the effect system (both outside the embedded file) are
  either read from a record of what the collaborator answers, or recorded as a `Call`.
-/

namespace KlayGE

/-! ## Bytes, strings, faults -/

/-- One `char` or `uint8_t`. -/
abbrev Byte := Fin 256

/-- The type `std::string`: a sequence of bytes. -/
abbrev Str := List Byte

/-- A string literal of the source, as its bytes. -/
def ascii (s : String) : Str := s.toList.map (fun c => Fin.ofNat c.toNat)

/-- The ways in which the embedded code can leave its defined behaviour. -/
inductive Fault where
  /-- A null pointer was dereferenced. -/
  | null_deref
  /-- A `BOOST_ASSERT` failed. -/
  | assert_failed
  /-- A vector was indexed outside its bounds. -/
  | out_of_range
  /-- `KFL_UNREACHABLE` was reached. -/
  | unreachable
  /-- A member that was never assigned was read. -/
  | indeterminate
  /-- A default-constructed `std::function` was called. -/
  | bad_function_call
deriving DecidableEq, Repr

deriving instance DecidableEq for Except

/-- `BOOST_ASSERT(c)`. -/
def BOOST_ASSERT (c : Bool) : Except Fault Unit :=
  if c then .ok () else .error .assert_failed

/-- Dereference of a pointer. -/
def deref {α : Type} : Option α → Except Fault α
  | some a => .ok a
  | none => .error .null_deref

/-- Read of a member that is assigned only on some paths (`none`: never assigned). -/
def assigned {α : Type} : Option α → Except Fault α
  | some a => .ok a
  | none => .error .indeterminate

/-- Unchecked `v[i]` of a `std::vector`. -/
def at_index {α : Type} (v : List α) (i : Nat) : Except Fault α :=
  match v[i]? with
  | some a => .ok a
  | none => .error .out_of_range

/-- The loop `for (i = 0; i < n; ++i) body(i)` over a state. -/
def forLoop {σ : Type} (n : Nat) (body : Nat → σ → σ) (st : σ) : σ :=
  (List.range n).foldl (fun st i => body i st) st

/-- `std::vector::resize(n)` with `d` the value-initialised element. -/
def resize {α : Type} (v : List α) (n : Nat) (d : α) : List α :=
  v.take n ++ List.replicate (n - v.length) d

/-! ## Little-endian integers -/

/-- `Native2LE` followed by writing the `w` bytes of the integer: the little-endian bytes of
`n`, low byte first.  Only the low `8 * w` bits of `n` are represented. -/
def Native2LE : Nat → Nat → List Byte
  | 0, _ => []
  | w + 1, n => Fin.ofNat n :: Native2LE w (n / 256)

/-- Reading the bytes of an integer followed by `LE2Native`: the value of little-endian
bytes. -/
def LE2Native : List Byte → Nat
  | [] => 0
  | b :: bs => b.val + 256 * LE2Native bs

/-! ## Streams -/

/-- The call `res.read(p, n)` of `ResIdentifier`, which forwards to `std::istream::read`.
`dest` is the `n` bytes at `p` before the call; the result is the `n` bytes at `p` after the
call and the rest of the stream.  The call never fails.  With at least `n` bytes left, the
next `n` bytes are stored at `p`.  With fewer left, the bytes left are stored at the start
of `p`, the other bytes at `p` stay as they were, and the stream is at its end with its fail
bit set, so that every later read stores nothing, as it does on the empty rest. -/
def read (dest : List Byte) (res : List Byte) : List Byte × List Byte :=
  (res.take dest.length ++ dest.drop res.length, res.drop dest.length)

/-- Read into a `uint8_t` that holds `x` before the call: the value of the variable after
the call, and the rest of the stream. -/
def read_u8 (x : Nat) (res : List Byte) : Nat × List Byte :=
  let r := read (Native2LE 1 x) res
  (LE2Native r.1, r.2)

/-- Read into a `uint16_t` that holds `x` before the call, followed by `LE2Native`.  The
memory of the variable is taken to be its little-endian bytes (a little-endian host, on
which `LE2Native` is the identity); this shows only when the stream ends inside the
integer. -/
def read_u16 (x : Nat) (res : List Byte) : Nat × List Byte :=
  let r := read (Native2LE 2 x) res
  (LE2Native r.1, r.2)

/-- Read into a `uint32_t` that holds `x` before the call, followed by `LE2Native`; the
memory of the variable is taken as for `read_u16`. -/
def read_u32 (x : Nat) (res : List Byte) : Nat × List Byte :=
  let r := read (Native2LE 4 x) res
  (LE2Native r.1, r.2)

/-- The call `os.write(p, n)`: the first `n` bytes at `p` are appended to the stream. -/
def write (os : List Byte) (p : List Byte) (n : Nat) : List Byte :=
  os ++ p.take n

/-! ## Shader stages -/

/-- The enum `ShaderStage`, in the order in which `default_shader_profiles` and
`gl_shader_types` are indexed by it. -/
inductive ShaderStage where
  | Vertex
  | Pixel
  | Geometry
  | Compute
  | Hull
  | Domain
deriving DecidableEq, Repr

/-- The cast `static_cast<uint32_t>(stage)`. -/
def ShaderStage.toNat : ShaderStage → Nat
  | .Vertex => 0
  | .Pixel => 1
  | .Geometry => 2
  | .Compute => 3
  | .Hull => 4
  | .Domain => 5

/-- The cast `static_cast<ShaderStage>(stage)` for `stage < NumShaderStages`. -/
def ShaderStage.ofIndex : Nat → ShaderStage
  | 0 => .Vertex
  | 1 => .Pixel
  | 2 => .Geometry
  | 3 => .Compute
  | 4 => .Hull
  | _ => .Domain

/-- The constant `NumShaderStages`. -/
def NumShaderStages : Nat := 6

/-- The table `default_shader_profiles`. -/
def default_shader_profiles : List Str :=
  [ascii "vs_5_0", ascii "ps_5_0", ascii "gs_5_0", ascii "cs_5_0", ascii "hs_5_0", ascii "ds_5_0"]

/-- The enum `VertexElementUsage` (declared in a header that is not among the sources): a
value is modelled by the byte that `static_cast<uint8_t>` gives for it, so that the cast and
its inverse `static_cast<VertexElementUsage>` are `val` and the constructor. -/
structure VertexElementUsage where
  val : Byte
deriving DecidableEq, Repr

def VEU_Position : VertexElementUsage := ⟨0⟩
def VEU_Normal : VertexElementUsage := ⟨1⟩
def VEU_Diffuse : VertexElementUsage := ⟨2⟩
def VEU_Specular : VertexElementUsage := ⟨3⟩
def VEU_BlendWeight : VertexElementUsage := ⟨4⟩
def VEU_BlendIndex : VertexElementUsage := ⟨5⟩
def VEU_TextureCoord : VertexElementUsage := ⟨6⟩
def VEU_Tangent : VertexElementUsage := ⟨7⟩
def VEU_Binormal : VertexElementUsage := ⟨8⟩

/-- One entry of `ShaderDesc::so_decl`, as far as the embedded file reads it. -/
structure StreamOutputDecl where
  usage : VertexElementUsage
  usage_index : Byte
  slot : Int
deriving DecidableEq, Repr

/-- The struct `ShaderDesc` of the effect system, as far as the embedded file reads it. -/
structure ShaderDesc where
  func_name : Str
  profile : Str
  so_decl : List StreamOutputDecl
deriving DecidableEq, Repr

/-- The class `OGLESShaderStageObject` together with its six subclasses.  The members of
the vertex subclass (`usages_`, `usage_indices_`, `glsl_attrib_names_`) and of the
tessellation subclasses (`ds_partitioning_`, `ds_output_primitive_`) are carried by every
stage and touched only by the overrides of the subclass, which dispatch on `stage_`. -/
structure OGLESShaderStageObject where
  stage_ : ShaderStage
  is_available_ : Bool
  is_validate_ : Bool
  hw_res_ready_ : Bool
  shader_func_name_ : Str
  glsl_src_ : Str
  pnames_ : List Str
  glsl_res_names_ : List Str
  tex_sampler_pairs_ : List (Str × Str)
  gl_shader_ : Nat
  glsl_tfb_varyings_ : List Str
  tfb_separate_attribs_ : Bool
  usages_ : List VertexElementUsage
  usage_indices_ : List Byte
  glsl_attrib_names_ : List Str
  ds_partitioning_ : Nat
  ds_output_primitive_ : Nat
deriving DecidableEq, Repr

/-- The state in which the base-class constructor leaves a stage object: nothing compiled,
every container empty. -/
def OGLESShaderStageObject.base (stage : ShaderStage) : OGLESShaderStageObject where
  stage_ := stage
  is_available_ := false
  is_validate_ := false
  hw_res_ready_ := false
  shader_func_name_ := []
  glsl_src_ := []
  pnames_ := []
  glsl_res_names_ := []
  tex_sampler_pairs_ := []
  gl_shader_ := 0
  glsl_tfb_varyings_ := []
  tfb_separate_attribs_ := false
  usages_ := []
  usage_indices_ := []
  glsl_attrib_names_ := []
  ds_partitioning_ := 0
  ds_output_primitive_ := 0

/-- The constructors of the six subclasses.  `hs_support` and `ds_support` are the device
capabilities that the hull and domain constructors read. -/
def OGLESShaderStageObject.new (stage : ShaderStage) (hs_support ds_support : Bool) :
    OGLESShaderStageObject :=
  match stage with
  | .Vertex => { OGLESShaderStageObject.base .Vertex with is_available_ := true }
  | .Pixel => { OGLESShaderStageObject.base .Pixel with is_available_ := true }
  | .Geometry =>
    { OGLESShaderStageObject.base .Geometry with is_available_ := false, is_validate_ := false }
  | .Compute =>
    { OGLESShaderStageObject.base .Compute with is_available_ := false, is_validate_ := false }
  | .Hull => { OGLESShaderStageObject.base .Hull with is_available_ := hs_support }
  | .Domain => { OGLESShaderStageObject.base .Domain with is_available_ := ds_support }

/-! ## The stage codec: `StreamOut` -/

/-- The override `OGLESVertexShaderStageObject::StageSpecificStreamOut`; the other stages
inherit the empty base implementation. -/
def StageSpecificStreamOut (s : OGLESShaderStageObject) (os : List Byte) : List Byte :=
  match s.stage_ with
  | .Vertex =>
    let num8 := s.usages_.length % 256
    let os := write os (Native2LE 1 num8) 1
    let os := forLoop s.usages_.length
      (fun i os =>
        let veu := (s.usages_.getD i VEU_Position).val
        write os [veu] 1) os
    let num8 := s.usage_indices_.length % 256
    let os := write os (Native2LE 1 num8) 1
    let os :=
      if s.usage_indices_ ≠ [] then write os s.usage_indices_ s.usage_indices_.length else os
    let num8 := s.glsl_attrib_names_.length % 256
    let os := write os (Native2LE 1 num8) 1
    forLoop s.glsl_attrib_names_.length
      (fun i os =>
        let name := s.glsl_attrib_names_.getD i []
        let len8 := name.length % 256
        let os := write os (Native2LE 1 len8) 1
        write os name name.length) os
  | _ => os

/-- The body of `if (!glsl_src_.empty())` in `StreamOut`: the bytes collected in
`native_shader_block`. -/
def StreamOut.block (s : OGLESShaderStageObject) : List Byte :=
  let oss : List Byte := []
  let len32 := s.glsl_src_.length % 2 ^ 32
  let oss := write oss (Native2LE 4 len32) 4
  let oss := write oss s.glsl_src_ s.glsl_src_.length
  let num16 := s.pnames_.length % 2 ^ 16
  let oss := write oss (Native2LE 2 num16) 2
  let oss := forLoop s.pnames_.length
    (fun i oss =>
      let name := s.pnames_.getD i []
      let len8 := name.length % 256
      let oss := write oss (Native2LE 1 len8) 1
      write oss name name.length) oss
  let num16 := s.glsl_res_names_.length % 2 ^ 16
  let oss := write oss (Native2LE 2 num16) 2
  let oss := forLoop s.glsl_res_names_.length
    (fun i oss =>
      let name := s.glsl_res_names_.getD i []
      let len8 := name.length % 256
      let oss := write oss (Native2LE 1 len8) 1
      write oss name name.length) oss
  let num16 := s.tex_sampler_pairs_.length % 2 ^ 16
  let oss := write oss (Native2LE 2 num16) 2
  let oss := forLoop num16
    (fun i oss =>
      let pair := s.tex_sampler_pairs_.getD i ([], [])
      let len8 := pair.1.length % 256
      let oss := write oss (Native2LE 1 len8) 1
      let oss := write oss pair.1 len8
      let len8 := pair.2.length % 256
      let oss := write oss (Native2LE 1 len8) 1
      write oss pair.2 len8) oss
  StageSpecificStreamOut s oss

/-- The method `OGLESShaderStageObject::StreamOut`: the bytes appended to `os`. -/
def StreamOut (s : OGLESShaderStageObject) (os : List Byte) : List Byte :=
  let native_shader_block := if s.glsl_src_ ≠ [] then StreamOut.block s else []
  let len := native_shader_block.length % 2 ^ 32
  let os := write os (Native2LE 4 len) 4
  if len > 0 then write os native_shader_block len else os

/-! ## The stage codec: `StreamIn` -/

/-- The values that the locals of `StreamIn` and of `StageSpecificStreamIn` declared without
an initialiser hold before the first read into them.  The C++ leaves them indeterminate;
they show in the result only when the stream ends before the read.  A local declared in the
body of a loop has a value for each iteration `i`. -/
structure Indeterminate where
  native_shader_block_len : Nat
  len32 : Nat
  num16 : Nat
  pnames_len8 : Nat → Nat
  glsl_res_names_len8 : Nat → Nat
  tex_sampler_pairs_len8 : Nat → Nat
  num8 : Nat
  veu : Nat → Nat
  glsl_attrib_names_len8 : Nat → Nat

/-- The loop of `StreamIn` over a vector of names that was resized to the count read:
iteration `i` reads a `uint8_t len8`, resizes element `i` to `len8` bytes (`resize` keeps
the bytes the element had) and reads `len8` bytes into it.  `len8 i` is what the local
`len8` holds before the read of iteration `i`.  Every read gives a pair: `.1` is what was
read, `.2` the rest of the stream. -/
def read_names (len8 : Nat → Nat) : Nat → List Str → List Byte → List Str × List Byte
  | _, [], res => ([], res)
  | i, name :: names, res =>
    let len := read_u8 (len8 i) res
    let name := read (resize name len.1 0) len.2
    let names := read_names len8 (i + 1) names name.2
    (name.1 :: names.1, names.2)

/-- The loop of `StreamIn` that reads `n` texture/sampler pairs, in reading order, from
iteration `i` on.  The second read into `len8` finds the length of the texture name in
it. -/
def read_pairs (len8 : Nat → Nat) : Nat → Nat → List Byte → List (Str × Str) × List Byte
  | _, 0, res => ([], res)
  | i, n + 1, res =>
    let len := read_u8 (len8 i) res
    let tex_name := read (resize [] len.1 0) len.2
    let len := read_u8 len.1 tex_name.2
    let sampler_name := read (resize [] len.1 0) len.2
    let pairs := read_pairs len8 (i + 1) n sampler_name.2
    ((tex_name.1, sampler_name.1) :: pairs.1, pairs.2)

/-- The loop of `StageSpecificStreamIn` that reads `n` usages, one byte each, from
iteration `i` on; every element of the resized vector is assigned. -/
def read_usages (veu : Nat → Nat) : Nat → Nat → List Byte → List VertexElementUsage × List Byte
  | _, 0, res => ([], res)
  | i, n + 1, res =>
    let v := read_u8 (veu i) res
    let usages := read_usages veu (i + 1) n v.2
    (VertexElementUsage.mk (Fin.ofNat v.1) :: usages.1, usages.2)

/-- The vertex override of `StageSpecificStreamIn`.  `usage_indices_` is resized and read
into only when the count read is positive.  The local `num8` is read into three times. -/
def StageSpecificStreamIn.vertex (ind : Indeterminate) (s : OGLESShaderStageObject)
    (res : List Byte) : OGLESShaderStageObject × List Byte :=
  let num8 := read_u8 ind.num8 res
  let usages := read_usages ind.veu 0 num8.1 num8.2
  let s := { s with usages_ := usages.1 }
  let num8 := read_u8 num8.1 usages.2
  let indices :=
    if num8.1 > 0 then read (resize s.usage_indices_ num8.1 0) num8.2
    else (s.usage_indices_, num8.2)
  let s := { s with usage_indices_ := indices.1 }
  let num8 := read_u8 num8.1 indices.2
  let names :=
    read_names ind.glsl_attrib_names_len8 0 (resize s.glsl_attrib_names_ num8.1 []) num8.2
  ({ s with glsl_attrib_names_ := names.1 }, names.2)

/-- The override `OGLESVertexShaderStageObject::StageSpecificStreamIn`; the other stages
inherit the empty base implementation. -/
def StageSpecificStreamIn (ind : Indeterminate) (s : OGLESShaderStageObject)
    (res : List Byte) : OGLESShaderStageObject × List Byte :=
  match s.stage_ with
  | .Vertex => StageSpecificStreamIn.vertex ind s res
  | _ => (s, res)

/-- The body of `if (native_shader_block_len >= 24)` in `StreamIn`, after `is_validate_`
is set.  The local `num16` is read into three times. -/
def StreamIn.block (ind : Indeterminate) (s : OGLESShaderStageObject) (res : List Byte) :
    OGLESShaderStageObject × List Byte :=
  let len32 := read_u32 ind.len32 res
  let glsl_src := read (resize s.glsl_src_ len32.1 0) len32.2
  let s := { s with glsl_src_ := glsl_src.1 }
  let num16 := read_u16 ind.num16 glsl_src.2
  let pnames := read_names ind.pnames_len8 0 (resize s.pnames_ num16.1 []) num16.2
  let s := { s with pnames_ := pnames.1 }
  let num16 := read_u16 num16.1 pnames.2
  let glsl_res_names :=
    read_names ind.glsl_res_names_len8 0 (resize s.glsl_res_names_ num16.1 []) num16.2
  let s := { s with glsl_res_names_ := glsl_res_names.1 }
  let num16 := read_u16 num16.1 glsl_res_names.2
  let pairs := read_pairs ind.tex_sampler_pairs_len8 0 num16.1 num16.2
  let s := { s with tex_sampler_pairs_ := s.tex_sampler_pairs_ ++ pairs.1 }
  StageSpecificStreamIn ind s pairs.2

/-- The method `OGLESShaderStageObject::StreamIn`.  `sd` is the shader descriptor
`effect.GetShaderDesc(shader_desc_ids[stage_])`; the result is the stage and the unread
rest of the stream. -/
def StreamIn (ind : Indeterminate) (s : OGLESShaderStageObject) (sd : ShaderDesc)
    (res : List Byte) : OGLESShaderStageObject × List Byte :=
  let native_shader_block_len := read_u32 ind.native_shader_block_len res
  let s := { s with shader_func_name_ := sd.func_name }
  let s := { s with is_validate_ := false }
  if native_shader_block_len.1 ≥ 24 then
    let s := { s with is_validate_ := true }
    StreamIn.block ind s native_shader_block_len.2
  else
    (s, native_shader_block_len.2)

/-! ## The record layout in the words of the specification -/

/-- Layout of one name: a `u8` length and the bytes of the name. -/
def Layout.name (name : Str) : List Byte :=
  Native2LE 1 name.length ++ name

/-- Layout of a name list: a little-endian `u16` count followed by each name. -/
def Layout.names (names : List Str) : List Byte :=
  Native2LE 2 names.length ++ names.flatMap Layout.name

/-- Layout of the pair list: a little-endian `u16` count followed, for each pair, by the
texture name and the sampler name. -/
def Layout.pairs (pairs : List (Str × Str)) : List Byte :=
  Native2LE 2 pairs.length ++ pairs.flatMap (fun p => Layout.name p.1 ++ Layout.name p.2)

/-- Layout of the stage-specific trailing data: for a vertex stage a `u8` count and one
byte per usage, a `u8` count and the usage-index bytes, a `u8` count and each attribute
name; nothing for the other stages. -/
def Layout.trailing (s : OGLESShaderStageObject) : List Byte :=
  match s.stage_ with
  | .Vertex =>
    Native2LE 1 s.usages_.length ++ s.usages_.map (fun u => u.val) ++
      (Native2LE 1 s.usage_indices_.length ++ s.usage_indices_) ++
      (Native2LE 1 s.glsl_attrib_names_.length ++ s.glsl_attrib_names_.flatMap Layout.name)
  | _ => []

/-- Layout of the block of a stage with non-empty source: a little-endian `u32` source
length and the source bytes, the used names, the resource names, the pairs, the trailing
data. -/
def Layout.block (s : OGLESShaderStageObject) : List Byte :=
  Native2LE 4 s.glsl_src_.length ++ s.glsl_src_ ++ Layout.names s.pnames_ ++
    Layout.names s.glsl_res_names_ ++ Layout.pairs s.tex_sampler_pairs_ ++ Layout.trailing s

/-- Layout of the whole record: a little-endian `u32` block length followed by the block;
the block is empty exactly when the source is empty. -/
def Layout.record (s : OGLESShaderStageObject) : List Byte :=
  if s.glsl_src_ = [] then Native2LE 4 0
  else Native2LE 4 (Layout.block s).length ++ Layout.block s

/-- The field widths of the record: every name fits a `u8` length, the three lists fit a
`u16` count, the vertex arrays of a vertex stage fit a `u8` count, and the block fits the
`u32` block length. -/
def FitsRecord (s : OGLESShaderStageObject) : Prop :=
  (∀ name ∈ s.pnames_, name.length ≤ 255) ∧
  (∀ name ∈ s.glsl_res_names_, name.length ≤ 255) ∧
  (∀ p ∈ s.tex_sampler_pairs_, p.1.length ≤ 255 ∧ p.2.length ≤ 255) ∧
  s.pnames_.length ≤ 65535 ∧ s.glsl_res_names_.length ≤ 65535 ∧
  s.tex_sampler_pairs_.length ≤ 65535 ∧
  (s.stage_ = .Vertex →
    s.usages_.length ≤ 255 ∧ s.usage_indices_.length ≤ 255 ∧
    s.glsl_attrib_names_.length ≤ 255 ∧ ∀ name ∈ s.glsl_attrib_names_, name.length ≤ 255) ∧
  (StreamOut.block s).length < 2 ^ 32


/-! ## The bytes of `StreamOut` in closed form -/

/-- The bytes `StreamOut` writes for one name: the length cast to a byte, then every byte
of the name. -/
def enc_name (name : Str) : List Byte := Native2LE 1 (name.length % 256) ++ name

/-- The bytes `StreamOut` writes for one pair: each name is cut to the length that its
length byte announces. -/
def enc_pair (p : Str × Str) : List Byte :=
  Native2LE 1 (p.1.length % 256) ++ p.1.take (p.1.length % 256) ++
    (Native2LE 1 (p.2.length % 256) ++ p.2.take (p.2.length % 256))

/-- The trailing data of a vertex stage as `StageSpecificStreamOut` writes it. -/
def enc_vertex (s : OGLESShaderStageObject) : List Byte :=
  Native2LE 1 (s.usages_.length % 256) ++ s.usages_.map (fun u => u.val) ++
    (Native2LE 1 (s.usage_indices_.length % 256) ++ s.usage_indices_) ++
    (Native2LE 1 (s.glsl_attrib_names_.length % 256) ++ s.glsl_attrib_names_.flatMap enc_name)

/-- The stage-specific trailing data as `StageSpecificStreamOut` writes it. -/
def enc_specific (s : OGLESShaderStageObject) : List Byte :=
  if s.stage_ = .Vertex then enc_vertex s else []

/-- The bytes of `native_shader_block` for a stage with non-empty source, exactly as
`StreamOut` writes them (counts and lengths cut to their field widths). -/
def enc_block (s : OGLESShaderStageObject) : List Byte :=
  Native2LE 4 (s.glsl_src_.length % 2 ^ 32) ++ s.glsl_src_ ++
    (Native2LE 2 (s.pnames_.length % 2 ^ 16) ++ s.pnames_.flatMap enc_name) ++
    (Native2LE 2 (s.glsl_res_names_.length % 2 ^ 16) ++ s.glsl_res_names_.flatMap enc_name) ++
    (Native2LE 2 (s.tex_sampler_pairs_.length % 2 ^ 16) ++
      (s.tex_sampler_pairs_.take (s.tex_sampler_pairs_.length % 2 ^ 16)).flatMap enc_pair) ++
    enc_specific s

/-- The stage that `StreamIn` makes of a target stage `t` when it decodes the record of `s`:
the names and the source are replaced, the pairs are appended to those of `t`, the vertex
arrays are replaced for a vertex stage (the usage indices only when `s` has some). -/
def decoded (t s : OGLESShaderStageObject) (sd : ShaderDesc) : OGLESShaderStageObject :=
  { t with
    shader_func_name_ := sd.func_name
    is_validate_ := true
    glsl_src_ := s.glsl_src_
    pnames_ := s.pnames_
    glsl_res_names_ := s.glsl_res_names_
    tex_sampler_pairs_ := t.tex_sampler_pairs_ ++ s.tex_sampler_pairs_
    usages_ := if s.stage_ = .Vertex then s.usages_ else t.usages_
    usage_indices_ :=
      if s.stage_ = .Vertex ∧ s.usage_indices_ ≠ [] then s.usage_indices_ else t.usage_indices_
    glsl_attrib_names_ := if s.stage_ = .Vertex then s.glsl_attrib_names_ else t.glsl_attrib_names_ }


/-! ## The translator `DXBC2GLSL` as `CompileShader` reads it

The translator is a library outside the embedded file.  Its state after `FeedDXBC` is a
record of the answers of the accessors that `CompileShader` calls. -/

/-- The enum `ShaderInputType` of the translator. -/
inductive ShaderInputType where
  | SIT_CBUFFER
  | SIT_TBUFFER
  | SIT_TEXTURE
  | SIT_SAMPLER
  | SIT_UAV_RWTYPED
  | SIT_STRUCTURED
  | SIT_UAV_RWSTRUCTURED
  | SIT_BYTEADDRESS
  | SIT_UAV_RWBYTEADDRESS
  | SIT_UAV_APPEND_STRUCTURED
  | SIT_UAV_CONSUME_STRUCTURED
  | SIT_UAV_RWSTRUCTURED_WITH_COUNTER
deriving DecidableEq, Repr

/-- The enum `ShaderSRVDimension` of the translator. -/
inductive ShaderSRVDimension where
  | SSD_UNKNOWN
  | SSD_BUFFER
  | SSD_TEXTURE1D
  | SSD_TEXTURE1DARRAY
  | SSD_TEXTURE2D
  | SSD_TEXTURE2DARRAY
  | SSD_TEXTURE2DMS
  | SSD_TEXTURE2DMSARRAY
  | SSD_TEXTURE3D
  | SSD_TEXTURECUBE
  | SSD_TEXTURECUBEARRAY
  | SSD_BUFFEREX
deriving DecidableEq, Repr

/-- One variable of a constant buffer: `VariableName(i, j)` and `VariableUsed(i, j)`. -/
structure DXBCVariable where
  name : Str
  used : Bool
deriving DecidableEq, Repr

/-- One resource: `ResourceName(i)`, `ResourceUsed(i)`, `ResourceType(i)` and
`ResourceDimension(i)`. -/
structure DXBCResource where
  name : Str
  used : Bool
  type : ShaderInputType
  dimension : ShaderSRVDimension
deriving DecidableEq, Repr

/-- One input parameter: the fields of `InputParam(i)` that the vertex stage reads. -/
structure DXBCInputParam where
  semantic_name : Str
  semantic_index : Nat
  mask : Nat
deriving DecidableEq, Repr

/-- The translator after a successful `FeedDXBC`. -/
structure DXBC2GLSL where
  GLSLString : Str
  cbuffers : List (List DXBCVariable)
  resources : List DXBCResource
  input_params : List DXBCInputParam
  DSPartitioning : Nat
  DSOutputPrimitive : Nat
deriving DecidableEq, Repr

/-! ## `GetShaderProfile` and `CompileShader` -/

/-- The method `OGLESShaderStageObject::GetShaderProfile`; `sd` is the descriptor
`effect.GetShaderDesc(shader_desc_id)`. -/
def GetShaderProfile (s : OGLESShaderStageObject) (sd : ShaderDesc) : Str :=
  let shader_profile := sd.profile
  if s.is_available_ then
    if shader_profile = ascii "auto" then
      default_shader_profiles.getD s.stage_.toNat []
    else shader_profile
  else []

/-- The text that `std::format` prints for an unsigned integer: its decimal digits. -/
def decimal (n : Nat) : Str := ascii (Nat.repr n)

/-- The chain of comparisons in the vertex override of `StageSpecificAttachShader`: the
usage, the usage index and the attribute name of an input semantic.  The comparisons of
`CT_HASH` with `RT_HASH` are comparisons of the semantic names; an unknown semantic reaches
`KFL_UNREACHABLE`. -/
def StageSpecificAttachShader.semantic (semantic : Str) (semantic_index : Nat) :
    Except Fault (VertexElementUsage × Byte × Str) :=
  if semantic = ascii "POSITION" then
    pure (VEU_Position, 0, ascii "POSITION0")
  else if semantic = ascii "NORMAL" then
    pure (VEU_Normal, 0, ascii "NORMAL0")
  else if semantic = ascii "COLOR" then
    if semantic_index = 0 then pure (VEU_Diffuse, 0, ascii "COLOR0")
    else pure (VEU_Specular, 0, ascii "COLOR1")
  else if semantic = ascii "BLENDWEIGHT" then
    pure (VEU_BlendWeight, 0, ascii "BLENDWEIGHT0")
  else if semantic = ascii "BLENDINDICES" then
    pure (VEU_BlendIndex, 0, ascii "BLENDINDICES0")
  else if (ascii "TEXCOORD").isPrefixOf semantic then
    pure (VEU_TextureCoord, Fin.ofNat semantic_index, ascii "TEXCOORD" ++ decimal semantic_index)
  else if semantic = ascii "TANGENT" then
    pure (VEU_Tangent, 0, ascii "TANGENT0")
  else if semantic = ascii "BINORMAL" then
    pure (VEU_Binormal, 0, ascii "BINORMAL0")
  else
    Except.error Fault.unreachable

/-- The body of the loop of the vertex override of `StageSpecificAttachShader`, for one
input parameter. -/
def StageSpecificAttachShader.input (s : OGLESShaderStageObject) (p : DXBCInputParam) :
    Except Fault OGLESShaderStageObject :=
  if p.mask ≠ 0 then
    let semantic := p.semantic_name
    let semantic_index := p.semantic_index
    if semantic ≠ ascii "SV_VertexID" ∧ semantic ≠ ascii "SV_InstanceID" then do
      let (usage, usage_index, glsl_param_name) ←
        StageSpecificAttachShader.semantic semantic semantic_index
      pure { s with
        usages_ := s.usages_ ++ [usage]
        usage_indices_ := s.usage_indices_ ++ [usage_index]
        glsl_attrib_names_ := s.glsl_attrib_names_ ++ [glsl_param_name] }
    else pure s
  else pure s

/-- The loop of the vertex override over the input parameters, in order. -/
def StageSpecificAttachShader.inputs (s : OGLESShaderStageObject) :
    List DXBCInputParam → Except Fault OGLESShaderStageObject
  | [] => pure s
  | p :: ps => do
    let s ← StageSpecificAttachShader.input s p
    StageSpecificAttachShader.inputs s ps

/-- The virtual method `StageSpecificAttachShader`: the vertex override maps the input
semantics, the hull override stores the tessellation enums of the translator, the other
stages inherit the empty base implementation. -/
def StageSpecificAttachShader (s : OGLESShaderStageObject) (dxbc2glsl : DXBC2GLSL) :
    Except Fault OGLESShaderStageObject :=
  match s.stage_ with
  | .Vertex => StageSpecificAttachShader.inputs s dxbc2glsl.input_params
  | .Hull =>
    pure { s with
      ds_partitioning_ := dxbc2glsl.DSPartitioning
      ds_output_primitive_ := dxbc2glsl.DSOutputPrimitive }
  | _ => pure s

/-- Push of one name on both `pnames_` and `glsl_res_names_`. -/
def push_name (s : OGLESShaderStageObject) (name : Str) : OGLESShaderStageObject :=
  { s with pnames_ := s.pnames_ ++ [name], glsl_res_names_ := s.glsl_res_names_ ++ [name] }

/-- The loops of `CompileShader` over the constant buffers and their variables: every used
variable is pushed on both name lists. -/
def CompileShader.variables (s : OGLESShaderStageObject) (dxbc2glsl : DXBC2GLSL) :
    OGLESShaderStageObject :=
  dxbc2glsl.cbuffers.foldl
    (fun s cbuffer => cbuffer.foldl (fun s v => if v.used then push_name s v.name else s) s) s

/-- The loop of `CompileShader` over the resources.  The state is the stage together with
the local vectors `tex_names` and `sampler_names`. -/
def CompileShader.resources (s : OGLESShaderStageObject) (dxbc2glsl : DXBC2GLSL) :
    OGLESShaderStageObject × List Str × List Str :=
  dxbc2glsl.resources.foldl
    (fun (st : OGLESShaderStageObject × List Str × List Str) r =>
      let (s, tex_names, sampler_names) := st
      if r.used then
        let res_name := r.name
        if r.type = .SIT_TEXTURE then
          if r.dimension = .SSD_BUFFER then (push_name s res_name, tex_names, sampler_names)
          else (s, tex_names ++ [res_name], sampler_names)
        else if r.type = .SIT_SAMPLER then (s, tex_names, sampler_names ++ [res_name])
        else (s, tex_names, sampler_names)
      else (s, tex_names, sampler_names))
    (s, [], [])

/-- The nested loops of `CompileShader` over `tex_names` and `sampler_names`: each pair is
pushed on `tex_sampler_pairs_` and its combined name on both name lists. -/
def CompileShader.combine (s : OGLESShaderStageObject) (tex_names sampler_names : List Str) :
    OGLESShaderStageObject :=
  tex_names.foldl
    (fun s tex_name => sampler_names.foldl
      (fun s sampler_name =>
        let combined_sampler_name := tex_name ++ ascii "_" ++ sampler_name
        let s := { s with tex_sampler_pairs_ := s.tex_sampler_pairs_ ++ [(tex_name, sampler_name)] }
        push_name s combined_sampler_name) s) s

/-- The body of the `try` block of `CompileShader` after a successful `FeedDXBC`. -/
def CompileShader.translated (s : OGLESShaderStageObject) (dxbc2glsl : DXBC2GLSL) :
    Except Fault OGLESShaderStageObject :=
  let s := { s with glsl_src_ := dxbc2glsl.GLSLString }
  let s := { s with pnames_ := [] }
  let s := { s with glsl_res_names_ := [] }
  let s := CompileShader.variables s dxbc2glsl
  let (s, tex_names, sampler_names) := CompileShader.resources s dxbc2glsl
  let s := CompileShader.combine s tex_names sampler_names
  StageSpecificAttachShader s dxbc2glsl

/-- The collaborators of one call of `CompileShader`.

* `KLAYGE_IS_DEV_PLATFORM`: the configuration switch of the same name, defined outside the
  embedded file.
* `sd`: the descriptor of the stage; `ps_func_name`: the entry point of the descriptor of
  the pixel stage.
* `hs_stage`: the hull stage object of the shader object of the pass (`none`: null).
* `CompileToDXBC`: the bytecode that `ShaderStageObject::CompileToDXBC` returns for a
  stage, an entry point and a profile (the macro list and the flags are fixed by the device
  capabilities).
* `FeedDXBC`: the translator state after `FeedDXBC` on a bytecode, `has_ps`, the two
  tessellation enums of the stage (`none`: a `std::exception` was thrown; the version and
  the rules are fixed by the device capabilities and the stage). -/
structure CompileEnv where
  KLAYGE_IS_DEV_PLATFORM : Bool
  sd : ShaderDesc
  ps_func_name : Str
  hs_stage : Option OGLESShaderStageObject
  CompileToDXBC : ShaderStage → Str → Str → List Byte
  FeedDXBC : ShaderStage → List Byte → Bool → Nat → Nat → Option DXBC2GLSL

/-- The `switch (stage_)` of `CompileShader`: a domain stage takes the tessellation enums of
the hull stage (on a development-platform build), a geometry or compute stage is marked
invalid. -/
def CompileShader.dispatch (env : CompileEnv) (s : OGLESShaderStageObject) :
    Except Fault OGLESShaderStageObject :=
  match s.stage_ with
  | .Vertex => pure s
  | .Pixel => pure s
  | .Hull => pure s
  | .Domain =>
    if env.KLAYGE_IS_DEV_PLATFORM then do
      let hs_stage := env.hs_stage
      BOOST_ASSERT hs_stage.isSome
      let hs ← deref hs_stage
      pure { s with
        ds_partitioning_ := hs.ds_partitioning_
        ds_output_primitive_ := hs.ds_output_primitive_ }
    else pure s
  | _ => pure { s with is_validate_ := false }

/-- The part of `CompileShader` after the `switch`: the block `if (is_validate_)`. -/
def CompileShader.compile (env : CompileEnv) (has_ps : Bool) (s : OGLESShaderStageObject) :
    Except Fault OGLESShaderStageObject :=
  if s.is_validate_ then
    if env.KLAYGE_IS_DEV_PLATFORM then
      let shader_profile := GetShaderProfile s env.sd
      let s := { s with is_validate_ := if shader_profile ≠ [] then true else false }
      if s.is_validate_ then
        let code := env.CompileToDXBC s.stage_ env.sd.func_name shader_profile
        if code = [] then
          pure { s with is_validate_ := false }
        else
          match env.FeedDXBC s.stage_ code has_ps s.ds_partitioning_ s.ds_output_primitive_ with
          | some dxbc2glsl => CompileShader.translated s dxbc2glsl
          | none => pure { s with is_validate_ := false }
      else pure s
    else pure s
  else pure s

/-- The method `OGLESShaderStageObject::CompileShader`. -/
def CompileShader (env : CompileEnv) (s : OGLESShaderStageObject) :
    Except Fault OGLESShaderStageObject := do
  let s := { s with shader_func_name_ := env.sd.func_name }
  let has_ps : Bool := if env.ps_func_name ≠ [] then true else false
  let s := { s with is_validate_ := true }
  let s ← CompileShader.dispatch env s
  CompileShader.compile env has_ps s


/-! ## The name lists of a translation in the words of the specification -/

/-- The names of the used variables of all constant buffers, in declaration order. -/
def usedVariables (tr : DXBC2GLSL) : List Str :=
  tr.cbuffers.flatMap (fun cbuffer => (cbuffer.filter (fun v => v.used)).map (fun v => v.name))

/-- The names of the used texture resources of buffer dimension, in declaration order. -/
def usedBufferTextures (tr : DXBC2GLSL) : List Str :=
  (tr.resources.filter
    (fun r => r.used ∧ r.type = .SIT_TEXTURE ∧ r.dimension = .SSD_BUFFER)).map (fun r => r.name)

/-- The names of the used texture resources that are not of buffer dimension: the `T`
textures of the cross product. -/
def usedTextures (tr : DXBC2GLSL) : List Str :=
  (tr.resources.filter
    (fun r => r.used ∧ r.type = .SIT_TEXTURE ∧ r.dimension ≠ .SSD_BUFFER)).map (fun r => r.name)

/-- The names of the used sampler resources: the `S` samplers of the cross product. -/
def usedSamplers (tr : DXBC2GLSL) : List Str :=
  (tr.resources.filter (fun r => r.used ∧ r.type = .SIT_SAMPLER)).map (fun r => r.name)

/-- The combined name of a texture/sampler pair: texture, underscore, sampler. -/
def combinedName (p : Str × Str) : Str := p.1 ++ ascii "_" ++ p.2

/-- The cross product of the used textures and the used samplers in texture-major order. -/
def crossProduct (tr : DXBC2GLSL) : List (Str × Str) :=
  (usedTextures tr).flatMap (fun t => (usedSamplers tr).map (fun s => (t, s)))

/-- A stage with `names` appended to both name lists and `pairs` to the pair list. -/
def push_all (s : OGLESShaderStageObject) (names : List Str) (pairs : List (Str × Str)) :
    OGLESShaderStageObject :=
  { s with
    pnames_ := s.pnames_ ++ names
    glsl_res_names_ := s.glsl_res_names_ ++ names
    tex_sampler_pairs_ := s.tex_sampler_pairs_ ++ pairs }


/-! ## The effect system as the embedded file uses it

The effect system (`RenderEffect`, `RenderEffectParameter`, `RenderEffectConstantBuffer`)
is outside the embedded file.  An effect is modelled by what the embedded file reads from
it; what the embedded file writes to it is recorded as a list of `Call`s. -/

/-- The enum `RenderEffectDataType`; only some of its enumerators are listed.  The embedded
file compares with `REDT_buffer`, `REDT_float4x4` and `REDT_struct`. -/
inductive RenderEffectDataType where
  | REDT_bool
  | REDT_int
  | REDT_float
  | REDT_float2
  | REDT_float3
  | REDT_float4
  | REDT_float4x4
  | REDT_texture2D
  | REDT_sampler
  | REDT_buffer
  | REDT_struct
deriving DecidableEq, Repr

/-- Modelled from the spec: the declaration of one parameter of an effect, `parameter
object exposes type, arraySize`; `name` is what `ParameterByName` looks it up by. -/
structure ParameterDecl where
  name : Str
  type : RenderEffectDataType
  array_size : Nat
deriving DecidableEq, Repr

/-- Modelled from the spec: an effect instance.  `id` tells effect instances apart,
`params` is its parameter table, `cbuffers` are the names of its constant buffers in index
order (`CBufferByIndex`, `NumCBuffers`). -/
structure RenderEffect where
  id : Nat
  params : List ParameterDecl
  cbuffers : List Str
deriving DecidableEq, Repr

/-- A `RenderEffectParameter` object, as a `RenderEffectParameter*` points at it: the
effect instance that owns it, its position in the parameter table of that effect, and its
declaration.  Two pointers are equal exactly when they point at the same position of the
same effect instance. -/
structure RenderEffectParameter where
  effect : Nat
  index : Nat
  decl : ParameterDecl
deriving DecidableEq, Repr

/-- The accessor `RenderEffectParameter::Name`. -/
def RenderEffectParameter.Name (p : RenderEffectParameter) : Str := p.decl.name

/-- The accessor `RenderEffectParameter::Type` (`Type` is reserved in Lean). -/
def RenderEffectParameter.type (p : RenderEffectParameter) : RenderEffectDataType := p.decl.type

/-- The accessor `RenderEffectParameter::ArraySize`. -/
def RenderEffectParameter.ArraySize (p : RenderEffectParameter) : Nat := p.decl.array_size

/-- The position of the first element of a list that satisfies `p`, counted from `i`. -/
def find_index {α : Type} (p : α → Bool) : List α → Nat → Option Nat
  | [], _ => none
  | x :: xs, i => if p x then some i else find_index p xs (i + 1)

/-- Modelled from the spec: `ParameterByName(name) -> parameter-or-null`, the first
parameter of the effect with that name. -/
def RenderEffect.ParameterByName (effect : RenderEffect) (name : Str) :
    Option RenderEffectParameter :=
  match find_index (fun d => d.name = name) effect.params 0 with
  | some i =>
    match effect.params[i]? with
    | some d => some ⟨effect.id, i, d⟩
    | none => none
  | none => none

/-- Modelled from the spec: `ConstantBufferByName(name) -> buffer-or-null`.  A pointer to
a constant buffer of the effect is modelled by the index of the buffer. -/
def RenderEffect.CBufferByName (effect : RenderEffect) (name : Str) : Option Nat :=
  find_index (fun n => n = name) effect.cbuffers 0

/-- The accessor `RenderEffect::NumCBuffers`. -/
def RenderEffect.NumCBuffers (effect : RenderEffect) : Nat := effect.cbuffers.length

/-- The accessor `RenderEffect::CBufferByIndex`, as a pointer. -/
def RenderEffect.CBufferByIndex (effect : RenderEffect) (j : Nat) : Option Nat :=
  if j < effect.cbuffers.length then some j else none

/-- The calls that the embedded file makes on the effect, and the driver calls that assign
a bind point to a uniform block and register transform-feedback varyings. -/
inductive Call where
  /-- The call `glUniformBlockBinding(program, block_index, binding)`. -/
  | glUniformBlockBinding (block_index : Option Nat) (binding : Nat)
  /-- The call `cbuff->Resize(size)` on the constant buffer with index `cbuff`. -/
  | Resize (cbuff : Nat) (size : Int)
  /-- The call `param->BindToCBuffer(effect, cb_index, offset, stride)`. -/
  | BindToCBuffer (param : RenderEffectParameter) (cb_index : Nat) (offset stride : Int)
  /-- The call `glTransformFeedbackVaryings(program, n, names, mode)`; `separate_attribs`
  tells `GL_SEPARATE_ATTRIBS` from `GL_INTERLEAVED_ATTRIBS`. -/
  | glTransformFeedbackVaryings (names : List Str) (separate_attribs : Bool)
deriving DecidableEq, Repr

/-! ## The driver as the embedded file queries it -/

/-- One active uniform of a uniform block: its name as `glGetActiveUniform` returns it
(without the terminating NUL) and what `glGetActiveUniformsiv` reports for it. -/
structure ActiveUniform where
  name : Str
  array_stride : Int
  matrix_stride : Int
  offset : Int
  is_row_major : Int
deriving DecidableEq, Repr

/-- One active uniform block: its name, its data size, and its active uniforms in the
order of `GL_UNIFORM_BLOCK_ACTIVE_UNIFORM_INDICES`. -/
structure ActiveUniformBlock where
  name : Str
  data_size : Int
  uniforms : List ActiveUniform
deriving DecidableEq, Repr

/-- What the driver answers about one program object once it is linked (or restored from
a binary): the link status, the active uniform blocks in index order, the location of a
uniform and of an attribute by name (`-1`: none), the number of binary formats and the
retrievable binary with its format. -/
structure GLProgram where
  link_status : Bool
  blocks : List ActiveUniformBlock
  glGetUniformLocation : Str → Int
  glGetAttribLocation : Str → Int
  num_program_binary_formats : Int
  binary : List Byte
  binary_format : Nat

/-- The call `glGetUniformBlockIndex(program, name)`: the index of the first active block
with that name (`none`: `GL_INVALID_INDEX`). -/
def GLProgram.glGetUniformBlockIndex (gl : GLProgram) (name : Str) : Option Nat :=
  find_index (fun b => b.name = name) gl.blocks 0

/-! ## `AttachUBOs` -/

/-- The idiom `iter = std::find(v.begin(), v.end(), c); if (iter != v.end()) *iter = 0`:
the vector with its first `c` overwritten by NUL, or `none` when `c` does not occur. -/
def find_and_cut (c : Byte) : List Byte → Option (List Byte)
  | [] => none
  | x :: xs =>
    if x = c then some (0 :: xs)
    else
      match find_and_cut c xs with
      | some ys => some (x :: ys)
      | none => none

/-- The C string that starts at `&v[0]`: the bytes before the first NUL. -/
def c_str (v : List Byte) : Str := v.takeWhile (fun b => b ≠ 0)

/-- The member `find` of `std::map<std::string, GLint>`: the value at a key. -/
def map_find : List (Str × Int) → Str → Option Int
  | [], _ => none
  | e :: m, k => if e.1 = k then some e.2 else map_find m k

/-- The member `insert` of `std::map<std::string, GLint>` for a key that is not in the
map: the entries stay in ascending order of their keys. -/
def map_insert : List (Str × Int) → Str → Int → List (Str × Int)
  | [], k, v => [(k, v)]
  | e :: m, k, v => if k < e.1 then (k, v) :: e :: m else e :: map_insert m k v

/-- Assignment through the iterator that `find` returned: `struct_iter->second = v`. -/
def map_assign : List (Str × Int) → Str → Int → List (Str × Int)
  | [], _, _ => []
  | e :: m, k, v => if e.1 = k then (e.1, v) :: m else e :: map_assign m k v

/-- The body of the loop of `AttachUBOs` over the active uniforms of one block.  The state
is `struct_offsets` and the `BindToCBuffer` calls made so far. -/
def AttachUBOs.uniform (effect : RenderEffect) (cb_index : Nat)
    (st : List (Str × Int) × List Call) (u : ActiveUniform) :
    Except Fault (List (Str × Int) × List Call) :=
  let (struct_offsets, calls) := st
  let uniform_name : List Byte := u.name ++ [0]
  let uniform_name :=
    match find_and_cut 91 uniform_name with
    | some v => v
    | none => uniform_name
  match find_and_cut 46 uniform_name with
  | some uniform_name =>
    let struct_name := c_str uniform_name
    match map_find struct_offsets struct_name with
    | none => pure (map_insert struct_offsets struct_name u.offset, calls)
    | some second => pure (map_assign struct_offsets struct_name (min second u.offset), calls)
  | none => do
    let param ← deref (effect.ParameterByName (c_str uniform_name))
    let stride :=
      if param.ArraySize ≠ 0 then u.array_stride
      else if param.type ≠ .REDT_float4x4 then 4
      else u.matrix_stride
    pure (struct_offsets, calls ++ [Call.BindToCBuffer param cb_index u.offset stride])

/-- The loop of `AttachUBOs` over the active uniforms of one block, in order. -/
def AttachUBOs.uniforms (effect : RenderEffect) (cb_index : Nat) :
    List (Str × Int) × List Call → List ActiveUniform →
    Except Fault (List (Str × Int) × List Call)
  | st, [] => pure st
  | st, u :: us => do
    let st ← AttachUBOs.uniform effect cb_index st u
    AttachUBOs.uniforms effect cb_index st us

/-- The loop of `AttachUBOs` over `struct_offsets`, in the order of the map: each struct
parameter is bound at its folded offset with stride 1. -/
def AttachUBOs.structs (effect : RenderEffect) (cb_index : Nat) :
    List (Str × Int) → Except Fault (List Call)
  | [] => pure []
  | item :: items => do
    let param ← deref (effect.ParameterByName item.1)
    BOOST_ASSERT (param.type = .REDT_struct)
    let calls ← AttachUBOs.structs effect cb_index items
    pure (Call.BindToCBuffer param cb_index item.2 1 :: calls)

/-- What one iteration of the outer loop of `AttachUBOs` does for block `i`: the index of
the constant buffer it found, and its calls in the order in which they are made, split into
the block binding and the resize, the bindings of the members that are not struct members,
and the bindings of the structs. -/
structure BlockAttachment where
  cb_index : Nat
  setup : List Call
  member_binds : List Call
  struct_binds : List Call
deriving DecidableEq, Repr

/-- The calls of one iteration in the order in which they are made. -/
def BlockAttachment.calls (b : BlockAttachment) : List Call :=
  b.setup ++ b.member_binds ++ b.struct_binds

/-- The body of the outer loop of `AttachUBOs` for the active block `i`. -/
def AttachUBOs.block (gl : GLProgram) (effect : RenderEffect) (i : Nat)
    (block : ActiveUniformBlock) : Except Fault BlockAttachment := do
  let ubo_name := block.name
  let cbuff := effect.CBufferByName ubo_name
  BOOST_ASSERT cbuff.isSome
  let cbuff ← deref cbuff
  let cb_index :=
    ((List.range effect.NumCBuffers).find? (fun j => effect.CBufferByIndex j = some cbuff)).getD 0
  let setup :=
    [Call.glUniformBlockBinding (gl.glGetUniformBlockIndex ubo_name) i,
     Call.Resize cbuff block.data_size]
  let (struct_offsets, member_binds) ← AttachUBOs.uniforms effect cb_index ([], []) block.uniforms
  let struct_binds ← AttachUBOs.structs effect cb_index struct_offsets
  pure ⟨cb_index, setup, member_binds, struct_binds⟩

/-- The outer loop of `AttachUBOs` from block `i` on. -/
def AttachUBOs.blocks (gl : GLProgram) (effect : RenderEffect) :
    Nat → List ActiveUniformBlock → Except Fault (List BlockAttachment)
  | _, [] => pure []
  | i, block :: blocks => do
    let b ← AttachUBOs.block gl effect i block
    let bs ← AttachUBOs.blocks gl effect (i + 1) blocks
    pure (b :: bs)

/-- The method `OGLESShaderObject::AttachUBOs`: what it does per active block.  The member
`all_cbuff_indices_` ends up as the list of the `cb_index` of the blocks. -/
def AttachUBOs (gl : GLProgram) (effect : RenderEffect) : Except Fault (List BlockAttachment) :=
  AttachUBOs.blocks gl effect 0 gl.blocks


/-! ## Names of uniforms in the words of the specification -/

/-- The name of a uniform cut at its first `[`. -/
def cutAtBracket (name : Str) : Str := name.takeWhile (fun b => b ≠ 91)

/-- The name of a uniform cut at its first `[` and at its first `.`, whichever comes
first. -/
def cutAtBracketAndDot (name : Str) : Str := name.takeWhile (fun b => b ≠ 91 ∧ b ≠ 46)

/-- The leaf uniforms of the struct `k` among `us`: those with a `.` in their name whose
name cut at its first `[` and `.` is `k`. -/
def leavesOf (k : Str) (us : List ActiveUniform) : List ActiveUniform :=
  us.filter (fun u => (46 : Byte) ∈ u.name ∧ cutAtBracketAndDot u.name = k)

/-- The stride that `AttachUBOs` selects for a member bound to `param`. -/
def selectStride (param : RenderEffectParameter) (u : ActiveUniform) : Int :=
  if param.ArraySize ≠ 0 then u.array_stride
  else if param.type ≠ .REDT_float4x4 then 4
  else u.matrix_stride

/-- The map `struct_offsets` after one more uniform, apart from the effect: the part of
`AttachUBOs.uniform` that works on the map. -/
def foldStruct (m : List (Str × Int)) (u : ActiveUniform) : List (Str × Int) :=
  if (46 : Byte) ∈ u.name then
    match map_find m (cutAtBracketAndDot u.name) with
    | none => map_insert m (cutAtBracketAndDot u.name) u.offset
    | some second => map_assign m (cutAtBracketAndDot u.name) (min second u.offset)
  else m

/-- The driver state with the row-major flag of every active uniform replaced by `f`. -/
def GLProgram.withRowMajor (gl : GLProgram) (f : ActiveUniform → Int) : GLProgram :=
  { gl with
    blocks := gl.blocks.map (fun b =>
      { b with uniforms := b.uniforms.map (fun u => { u with is_row_major := f u }) }) }

/-- The vector `uniform_name` after the cut at `[`. -/
def after_bracket (v : List Byte) : List Byte :=
  match find_and_cut 91 v with
  | some w => w
  | none => v

/-- The `BindToCBuffer` call that `AttachUBOs` makes for an active uniform that is not a
struct member (`none` for a struct member, and for a member without a parameter). -/
def memberCall (effect : RenderEffect) (cb_index : Nat) (u : ActiveUniform) : Option Call :=
  if (46 : Byte) ∈ u.name then none
  else
    match effect.ParameterByName (cutAtBracket u.name) with
    | some param => some (Call.BindToCBuffer param cb_index u.offset (selectStride param u))
    | none => none

/-- The value that the fold of `struct_offsets` holds for a struct after one more uniform:
the offset of the first leaf, then the minimum with each further leaf. -/
def foldMin (k : Str) (acc : Option Int) (u : ActiveUniform) : Option Int :=
  if (46 : Byte) ∈ u.name ∧ cutAtBracketAndDot u.name = k then
    match acc with
    | none => some u.offset
    | some second => some (min second u.offset)
  else acc

/-- The effect declares what the reflection of the program needs: a constant buffer for
every active block, a parameter for every member that is not a struct member, and a struct
parameter for every struct with a leaf member. -/
def Declares (effect : RenderEffect) (gl : GLProgram) : Prop :=
  ∀ block ∈ gl.blocks,
    (effect.CBufferByName block.name).isSome ∧
    (∀ u ∈ block.uniforms, (46 : Byte) ∉ u.name →
      (effect.ParameterByName (cutAtBracket u.name)).isSome) ∧
    (∀ u ∈ block.uniforms, (46 : Byte) ∈ u.name →
      (effect.ParameterByName (cutAtBracketAndDot u.name)).map (fun p => p.type) =
        some .REDT_struct)

instance (effect : RenderEffect) (gl : GLProgram) : Decidable (Declares effect gl) := by
  unfold Declares
  infer_instance

/-- The names that the driver reports are C strings: no name holds a NUL. -/
def NulFree (gl : GLProgram) : Prop :=
  ∀ block ∈ gl.blocks, ∀ u ∈ block.uniforms, (0 : Byte) ∉ u.name

instance (gl : GLProgram) : Decidable (NulFree gl) := by
  unfold NulFree
  infer_instance


/-! ## The shader object: `DoLinkShaders` and `Clone` -/

/-- The struct `TextureBind` of one slot: the views and the sampler that the last `Bind`
resolved for the slot (handles; `none`: empty). -/
structure TextureBind where
  buff_srv : Option Nat
  tex_srv : Option Nat
  sampler : Option Nat
deriving DecidableEq, Repr

/-- The functor `SetOGLESShaderParameter` stored in `ParameterBind::func`, by what its
constructor captures besides the four slot arrays of the program: the location, the slot
(`stage`) and the parameters.  `empty` is a default-constructed `std::function`. -/
inductive SetOGLESShaderParameter where
  | empty
  | GraphicsBufferPtr (location : Int) (stage : Nat) (buff_param : Option RenderEffectParameter)
  | TexturePtr (location : Int) (stage : Nat)
      (tex_param sampler_param : Option RenderEffectParameter)
deriving DecidableEq, Repr

/-- The struct `ParameterBind`.  The member `tex_sampler_bind_index` is an `int` that is
assigned only for a combined binding; `none` is the member before any assignment. -/
structure ParameterBind where
  combined_sampler_name : Str
  param : Option RenderEffectParameter
  location : Int
  tex_sampler_bind_index : Option Nat
  func : SetOGLESShaderParameter
deriving DecidableEq, Repr

/-- An entry of `tex_sampler_binds_`, a `std::tuple`: the combined name, the texture
parameter, the sampler parameter, the stage mask. -/
abbrev TexSamplerBind := Str × Option RenderEffectParameter × Option RenderEffectParameter × Nat

/-- The class `OGLESShaderObject`.  `Stage` is the stage table of the shared
`ShaderObjectTemplate` (`none`: no stage object); `glsl_bin_format_` and
`glsl_bin_program_` are the members of the shared `OGLESShaderObjectTemplate`.
`attrib_locs_` is a `std::map` that the embedded file only fills with `emplace` and looks
keys up in; it is kept in insertion order. -/
structure OGLESShaderObject where
  Stage : ShaderStage → Option OGLESShaderStageObject
  glsl_bin_format_ : Nat
  glsl_bin_program_ : List Byte
  is_validate_ : Bool
  hw_res_ready_ : Bool
  param_binds_ : List ParameterBind
  tex_sampler_binds_ : List TexSamplerBind
  textures_ : List TextureBind
  gl_bind_targets_ : List Nat
  gl_bind_textures_ : List Nat
  gl_bind_samplers_ : List Nat
  all_cbuff_indices_ : List Nat
  attrib_locs_ : List ((VertexElementUsage × Byte) × Int)

/-- The constructor `OGLESShaderObject(so_template, gl_so_template)`: the two templates
are taken over, every container of the object is empty.  The initial `is_validate_` and
`hw_res_ready_` of the base class are parameters, their initialisers being outside the
embedded file. -/
def OGLESShaderObject.new (Stage : ShaderStage → Option OGLESShaderStageObject)
    (glsl_bin_format_ : Nat) (glsl_bin_program_ : List Byte) (is_validate_ hw_res_ready_ : Bool) :
    OGLESShaderObject where
  Stage := Stage
  glsl_bin_format_ := glsl_bin_format_
  glsl_bin_program_ := glsl_bin_program_
  is_validate_ := is_validate_
  hw_res_ready_ := hw_res_ready_
  param_binds_ := []
  tex_sampler_binds_ := []
  textures_ := []
  gl_bind_targets_ := []
  gl_bind_textures_ := []
  gl_bind_samplers_ := []
  all_cbuff_indices_ := []
  attrib_locs_ := []

/-- The loop `for (i = 0; i < n; ++i) body(i)` over a state, with a body that can fault:
`k` iterations from index `i` on. -/
def forLoopM {σ : Type} (body : Nat → σ → Except Fault σ) : Nat → Nat → σ → Except Fault σ
  | 0, _, st => pure st
  | k + 1, i, st => do
    let st ← body i st
    forLoopM body k (i + 1) st

/-- The first loop of `LinkGLSL`: every stage object of the program must have a compiled
shader. -/
def LinkGLSL.attach (prog : OGLESShaderObject) : Except Fault Unit :=
  forLoopM
    (fun stage _ =>
      match prog.Stage (ShaderStage.ofIndex stage) with
      | some shader_stage => BOOST_ASSERT (shader_stage.gl_shader_ ≠ 0)
      | none => pure ())
    NumShaderStages 0 ()

/-- The stage whose transform-feedback varyings `LinkGLSL` registers: the domain stage if
it has varyings, else the vertex stage if it has some, else none. -/
def LinkGLSL.tfb_stage (prog : OGLESShaderObject) : Option OGLESShaderStageObject :=
  let ds_stage := prog.Stage .Domain
  let vs_stage := prog.Stage .Vertex
  match ds_stage with
  | some ds =>
    if ds.glsl_tfb_varyings_ ≠ [] then some ds
    else
      match vs_stage with
      | some vs => if vs.glsl_tfb_varyings_ ≠ [] then some vs else none
      | none => none
  | none =>
    match vs_stage with
    | some vs => if vs.glsl_tfb_varyings_ ≠ [] then some vs else none
    | none => none

/-- The method `OGLESShaderObject::LinkGLSL`; `gl` is what the driver answers once the
program is linked.  The block under `KLAYGE_DEBUG` only logs and is left out. -/
def LinkGLSL (gl : GLProgram) (prog : OGLESShaderObject) :
    Except Fault (OGLESShaderObject × List Call) := do
  LinkGLSL.attach prog
  let calls :=
    match LinkGLSL.tfb_stage prog with
    | some tfb_stage =>
      [Call.glTransformFeedbackVaryings tfb_stage.glsl_tfb_varyings_
        tfb_stage.tfb_separate_attribs_]
    | none => []
  let linked := gl.link_status
  pure ({ prog with is_validate_ := prog.is_validate_ && linked }, calls)

/-- The four `resize(index + 1)` calls on the slot arrays, `index` being the size of
`textures_`.  The cast of the size to `uint32_t` is the identity here: a program has one
slot per uniform, far fewer than `2 ^ 32`. -/
def grow_slots (prog : OGLESShaderObject) : OGLESShaderObject :=
  let index := prog.textures_.length
  { prog with
    textures_ := resize prog.textures_ (index + 1) ⟨none, none, none⟩
    gl_bind_targets_ := resize prog.gl_bind_targets_ (index + 1) 0
    gl_bind_textures_ := resize prog.gl_bind_textures_ (index + 1) 0
    gl_bind_samplers_ := resize prog.gl_bind_samplers_ (index + 1) 0 }

/-- The body of the loop of `DoLinkShaders` over the used names of one stage, for the
index `pi`.  The inner loop over `tex_sampler_binds_` stops at its first entry with the
used name. -/
def DoLinkShaders.bind_param (gl : GLProgram) (effect : RenderEffect)
    (shader_stage : OGLESShaderStageObject) (pi : Nat) (prog : OGLESShaderObject) :
    Except Fault OGLESShaderObject := do
  let res_name ← at_index shader_stage.glsl_res_names_ pi
  let location := gl.glGetUniformLocation res_name
  if location ≠ -1 then
    let pname ← at_index shader_stage.pnames_ pi
    match effect.ParameterByName pname with
    | some p => do
      BOOST_ASSERT (p.type = .REDT_buffer)
      let index := prog.textures_.length
      let prog := grow_slots prog
      let pb : ParameterBind :=
        { combined_sampler_name := []
          param := some p
          location := location
          tex_sampler_bind_index := none
          func := .GraphicsBufferPtr location index (some p) }
      pure { prog with param_binds_ := prog.param_binds_ ++ [pb] }
    | none =>
      match find_index (fun e => e.1 = pname) prog.tex_sampler_binds_ 0 with
      | some i => do
        let entry ← at_index prog.tex_sampler_binds_ i
        let index := prog.textures_.length
        let prog := grow_slots prog
        let pb : ParameterBind :=
          { combined_sampler_name := entry.1
            param := none
            location := location
            tex_sampler_bind_index := some i
            func := .TexturePtr location index entry.2.1 entry.2.2.1 }
        pure { prog with param_binds_ := prog.param_binds_ ++ [pb] }
      | none => pure prog
  else pure prog

/-- The body of the loop of `DoLinkShaders` over the stages, for the stage with index
`stage`. -/
def DoLinkShaders.bind_stage (gl : GLProgram) (effect : RenderEffect) (stage : Nat)
    (prog : OGLESShaderObject) : Except Fault OGLESShaderObject :=
  match prog.Stage (ShaderStage.ofIndex stage) with
  | some shader_stage =>
    forLoopM (DoLinkShaders.bind_param gl effect shader_stage) shader_stage.pnames_.length 0 prog
  | none => pure prog

/-- The member `emplace` of `attrib_locs_`: a key that is already in the map keeps its
value. -/
def emplace (m : List ((VertexElementUsage × Byte) × Int)) (k : VertexElementUsage × Byte)
    (v : Int) : List ((VertexElementUsage × Byte) × Int) :=
  if m.any (fun e => e.1 = k) then m else m ++ [(k, v)]

/-- The last block of `DoLinkShaders`: the attribute locations of the vertex stage. -/
def DoLinkShaders.attribs (gl : GLProgram) (prog : OGLESShaderObject) :
    Except Fault OGLESShaderObject := do
  let vs_shader_stage ← deref (prog.Stage .Vertex)
  forLoopM
    (fun pi prog => do
      let usage ← at_index vs_shader_stage.usages_ pi
      let usage_index ← at_index vs_shader_stage.usage_indices_ pi
      let name ← at_index vs_shader_stage.glsl_attrib_names_ pi
      pure { prog with
        attrib_locs_ := emplace prog.attrib_locs_ (usage, usage_index) (gl.glGetAttribLocation name) })
    vs_shader_stage.glsl_attrib_names_.length 0 prog

/-- The block of `DoLinkShaders` that retrieves the program binary into the shared
template, when the program is still valid after linking. -/
def DoLinkShaders.retrieve_binary (gl : GLProgram) (prog : OGLESShaderObject) :
    OGLESShaderObject :=
  if prog.is_validate_ then
    if gl.num_program_binary_formats > 0 then
      { prog with glsl_bin_program_ := gl.binary, glsl_bin_format_ := gl.binary_format }
    else prog
  else prog

/-- The method `OGLESShaderObject::DoLinkShaders`: the program afterwards, and the calls it
made.  `gl` is what the driver answers once the program is linked. -/
def DoLinkShaders (gl : GLProgram) (effect : RenderEffect) (prog : OGLESShaderObject) :
    Except Fault (OGLESShaderObject × List Call) :=
  if prog.is_validate_ then do
    let (prog, link_calls) ← LinkGLSL gl prog
    let attachments ← AttachUBOs gl effect
    let prog := { prog with all_cbuff_indices_ := attachments.map BlockAttachment.cb_index }
    let prog := DoLinkShaders.retrieve_binary gl prog
    let prog ← forLoopM (DoLinkShaders.bind_stage gl effect) NumShaderStages 0 prog
    let prog ← DoLinkShaders.attribs gl prog
    pure (prog, link_calls ++ attachments.flatMap BlockAttachment.calls)
  else pure (prog, [])

/-- The first loop of `Clone`: every entry of `tex_sampler_binds_` is copied, its two
parameters looked up by name in the new effect. -/
def Clone.tex_sampler_binds (effect : RenderEffect) :
    List TexSamplerBind → Except Fault (List TexSamplerBind)
  | [] => pure []
  | entry :: entries => do
    let tex ← deref entry.2.1
    let sampler ← deref entry.2.2.1
    let rest ← Clone.tex_sampler_binds effect entries
    pure ((entry.1, effect.ParameterByName tex.Name, effect.ParameterByName sampler.Name,
      entry.2.2.2) :: rest)

/-- The body of the loop of `Clone` over the parameter bindings of the original. -/
def Clone.param_bind (effect : RenderEffect) (ret : OGLESShaderObject) (pb : ParameterBind) :
    Except Fault OGLESShaderObject :=
  match pb.param with
  | some pb_param => do
    let p ← deref (effect.ParameterByName pb_param.Name)
    BOOST_ASSERT (p.type = .REDT_buffer)
    let index := ret.textures_.length
    let ret := grow_slots ret
    let new_pb : ParameterBind :=
      { combined_sampler_name := []
        param := some p
        location := pb.location
        tex_sampler_bind_index := none
        func := .GraphicsBufferPtr pb.location index (some p) }
    pure { ret with param_binds_ := ret.param_binds_ ++ [new_pb] }
  | none =>
    let pname := pb.combined_sampler_name
    match find_index (fun e => e.1 = pname) ret.tex_sampler_binds_ 0 with
    | some _ => do
      let tex_sampler_bind_index ← assigned pb.tex_sampler_bind_index
      let entry ← at_index ret.tex_sampler_binds_ tex_sampler_bind_index
      let index := ret.textures_.length
      let ret := grow_slots ret
      let new_pb : ParameterBind :=
        { combined_sampler_name := pname
          param := none
          location := pb.location
          tex_sampler_bind_index := some tex_sampler_bind_index
          func := .TexturePtr pb.location index entry.2.1 entry.2.2.1 }
      pure { ret with param_binds_ := ret.param_binds_ ++ [new_pb] }
    | none => pure ret

/-- The loop of `Clone` over the parameter bindings of the original, in order. -/
def Clone.param_binds (effect : RenderEffect) (ret : OGLESShaderObject) :
    List ParameterBind → Except Fault OGLESShaderObject
  | [] => pure ret
  | pb :: pbs => do
    let ret ← Clone.param_bind effect ret pb
    Clone.param_binds effect ret pbs

/-- The link step of `Clone`: with a cached binary the binary is handed to the driver
(`glProgramBinary`, nothing of the object changes), without one `LinkGLSL` runs.  The
block under `KLAYGE_DEBUG` only logs and is left out. -/
def Clone.link (gl : GLProgram) (glsl_bin_program_ : List Byte) (ret : OGLESShaderObject) :
    Except Fault (OGLESShaderObject × List Call) :=
  if glsl_bin_program_ ≠ [] then pure (ret, []) else LinkGLSL gl ret

/-- The method `OGLESShaderObject::Clone`: the new program, and the calls made.  `gl` is
what the driver answers about the program object of the new program once its binary is
restored or it is linked. -/
def Clone (gl : GLProgram) (effect : RenderEffect) (prog : OGLESShaderObject) :
    Except Fault (OGLESShaderObject × List Call) := do
  let ret := OGLESShaderObject.new prog.Stage prog.glsl_bin_format_ prog.glsl_bin_program_
    false false
  let ret := { ret with is_validate_ := prog.is_validate_ }
  let ret := { ret with hw_res_ready_ := prog.hw_res_ready_ }
  let binds ← Clone.tex_sampler_binds effect prog.tex_sampler_binds_
  let ret := { ret with tex_sampler_binds_ := binds }
  if ret.is_validate_ then do
    let (ret, link_calls) ← Clone.link gl prog.glsl_bin_program_ ret
    let attachments ← AttachUBOs gl effect
    let ret := { ret with all_cbuff_indices_ := attachments.map BlockAttachment.cb_index }
    let ret := { ret with attrib_locs_ := prog.attrib_locs_ }
    let ret ← Clone.param_binds effect ret prog.param_binds_
    pure (ret, link_calls ++ attachments.flatMap BlockAttachment.calls)
  else pure (ret, [])


/-- A parameter binding as `DoLinkShaders` registers it against the table `table`: a plain
binding has a parameter, no combined name and no table index; a binding with a null
parameter has a table index that is in range and points at the entry with its combined
name. -/
def WellBound (table : List TexSamplerBind) (pb : ParameterBind) : Prop :=
  match pb.param with
  | some _ => pb.combined_sampler_name = [] ∧ pb.tex_sampler_bind_index = none
  | none =>
    pb.tex_sampler_bind_index.bind (fun i => (table[i]?).map (fun e => e.1)) =
      some pb.combined_sampler_name

instance (table : List TexSamplerBind) (pb : ParameterBind) : Decidable (WellBound table pb) := by
  unfold WellBound
  split <;> infer_instance

/-- The effect has a buffer parameter with the name of the parameter of a plain binding,
which is what `Clone` asserts of every plain binding. -/
def BufferDeclared (effect : RenderEffect) (pb : ParameterBind) : Prop :=
  match pb.param with
  | some p => (effect.ParameterByName p.Name).map (fun q => q.type) = some .REDT_buffer
  | none => True

instance (effect : RenderEffect) (pb : ParameterBind) : Decidable (BufferDeclared effect pb) := by
  unfold BufferDeclared
  split <;> infer_instance

/-- The four slot arrays of a program all have length `n`. -/
def SlotsOfLength (prog : OGLESShaderObject) (n : Nat) : Prop :=
  prog.textures_.length = n ∧ prog.gl_bind_targets_.length = n ∧
  prog.gl_bind_textures_.length = n ∧ prog.gl_bind_samplers_.length = n

instance (prog : OGLESShaderObject) (n : Nat) : Decidable (SlotsOfLength prog n) := by
  unfold SlotsOfLength
  infer_instance

/-- An entry of the bind table with its two parameters looked up by name in `effect`. -/
def rebound (effect : RenderEffect) (e : TexSamplerBind) : TexSamplerBind :=
  (e.1, e.2.1.bind (fun p => effect.ParameterByName p.Name),
    e.2.2.1.bind (fun p => effect.ParameterByName p.Name), e.2.2.2)

/-- The relation between a binding of the original, whose table is `table`, and the binding
that `Clone` registers for it against `effect`: same location, combined name and table
index; a parameter is replaced by the parameter of `effect` with the same name, which
belongs to `effect`, and the function captures that parameter; a null parameter stays null,
and the function captures the parameters of `effect` with the names of the texture and the
sampler of the table entry that the binding points at. -/
def ClonedFrom (effect : RenderEffect) (table : List TexSamplerBind)
    (pb new_pb : ParameterBind) : Prop :=
  new_pb.location = pb.location ∧
  new_pb.combined_sampler_name = pb.combined_sampler_name ∧
  new_pb.tex_sampler_bind_index = pb.tex_sampler_bind_index ∧
  (∀ p, pb.param = some p →
    new_pb.param = effect.ParameterByName p.Name ∧
    (∃ q, new_pb.param = some q ∧ q.Name = p.Name ∧ q.effect = effect.id) ∧
    ∃ slot, new_pb.func =
      .GraphicsBufferPtr pb.location slot (effect.ParameterByName p.Name)) ∧
  (pb.param = none →
    new_pb.param = none ∧
    ∃ (slot i : Nat) (e : TexSamplerBind),
      pb.tex_sampler_bind_index = some i ∧ table[i]? = some e ∧
      new_pb.func = .TexturePtr pb.location slot
        (e.2.1.bind (fun p => effect.ParameterByName p.Name))
        (e.2.2.1.bind (fun p => effect.ParameterByName p.Name)))

/-! ## `RetrieveTfbVaryings` -/

/-- The `switch (decl.usage)` of `RetrieveTfbVaryings`: the name of the varying of one
stream-output declaration; a usage without a case reaches `KFL_UNREACHABLE`. -/
def RetrieveTfbVaryings.name (decl : StreamOutputDecl) : Except Fault Str :=
  if decl.usage = VEU_Position then pure (ascii "gl_Position")
  else if decl.usage = VEU_Normal then pure (ascii "v_NORMAL0")
  else if decl.usage = VEU_Diffuse then pure (ascii "v_COLOR0")
  else if decl.usage = VEU_Specular then pure (ascii "v_COLOR1")
  else if decl.usage = VEU_BlendWeight then pure (ascii "v_BLENDWEIGHT0")
  else if decl.usage = VEU_BlendIndex then pure (ascii "v_BLENDINDICES0")
  else if decl.usage = VEU_TextureCoord then
    pure (ascii "v_TEXCOORD" ++ decimal decl.usage_index.val)
  else if decl.usage = VEU_Tangent then pure (ascii "v_TANGENT0")
  else if decl.usage = VEU_Binormal then pure (ascii "v_BINORMAL0")
  else Except.error Fault.unreachable

/-- The body of the loop of `RetrieveTfbVaryings` for one declaration.  The state is the
local `slot`, the flag `tfb_separate_attribs` and the vector `tfb_varyings`. -/
def RetrieveTfbVaryings.decl (st : Int × Bool × List Str) (decl : StreamOutputDecl) :
    Except Fault (Int × Bool × List Str) := do
  let (slot, tfb_separate_attribs, tfb_varyings) := st
  let (slot, tfb_separate_attribs) :=
    if slot < 0 then (decl.slot, tfb_separate_attribs)
    else if slot ≠ decl.slot then (slot, true)
    else (slot, tfb_separate_attribs)
  let glsl_param_name ← RetrieveTfbVaryings.name decl
  pure (slot, tfb_separate_attribs, tfb_varyings ++ [glsl_param_name])

/-- The loop of `RetrieveTfbVaryings` over `sd.so_decl`, in order. -/
def RetrieveTfbVaryings.decls (st : Int × Bool × List Str) :
    List StreamOutputDecl → Except Fault (Int × Bool × List Str)
  | [] => pure st
  | decl :: decls => do
    let st ← RetrieveTfbVaryings.decl st decl
    RetrieveTfbVaryings.decls st decls

set_option linter.unusedVariables false in
/-- The method `OGLESShaderStageObject::RetrieveTfbVaryings`.  The arguments
`tfb_varyings` and `tfb_separate_attribs` are the values of the two reference parameters
before the call, the result holds their values after it. -/
def RetrieveTfbVaryings (sd : ShaderDesc) (tfb_varyings : List Str)
    (tfb_separate_attribs : Bool) : Except Fault (List Str × Bool) := do
  let slot : Int := -1
  let tfb_separate_attribs := false
  let (_, tfb_separate_attribs, tfb_varyings) ←
    RetrieveTfbVaryings.decls (slot, tfb_separate_attribs, tfb_varyings) sd.so_decl
  pure (tfb_varyings, tfb_separate_attribs)

/-- The enumerators of `VertexElementUsage` that the embedded file names. -/
def vertex_element_usages : List VertexElementUsage :=
  [VEU_Position, VEU_Normal, VEU_Diffuse, VEU_Specular, VEU_BlendWeight, VEU_BlendIndex,
   VEU_TextureCoord, VEU_Tangent, VEU_Binormal]

/-! ## The vertex inputs in the words of the specification -/

/-- An input parameter for which the vertex stage emits an attribute: its mask is not 0 and
its semantic is neither `SV_VertexID` nor `SV_InstanceID`. -/
def emitted (p : DXBCInputParam) : Bool :=
  p.mask ≠ 0 ∧ p.semantic_name ≠ ascii "SV_VertexID" ∧ p.semantic_name ≠ ascii "SV_InstanceID"

/-- The semantics that the vertex stage maps: seven names, and every name that starts with
`TEXCOORD`. -/
def KnownSemantic (semantic : Str) : Prop :=
  semantic ∈ [ascii "POSITION", ascii "NORMAL", ascii "COLOR", ascii "BLENDWEIGHT",
    ascii "BLENDINDICES", ascii "TANGENT", ascii "BINORMAL"] ∨
  (ascii "TEXCOORD").isPrefixOf semantic = true

instance (semantic : Str) : Decidable (KnownSemantic semantic) := by
  unfold KnownSemantic
  infer_instance

/-- The table of the specification for one input parameter `p` and the entry `e` (usage,
usage index, attribute name) emitted for it.  The usage index of a `TEXCOORD` input is a
byte: the semantic index cut to eight bits. -/
def SemanticEntry (p : DXBCInputParam) (e : VertexElementUsage × Byte × Str) : Prop :=
  (p.semantic_name = ascii "POSITION" → e = (VEU_Position, 0, ascii "POSITION0")) ∧
  (p.semantic_name = ascii "NORMAL" → e = (VEU_Normal, 0, ascii "NORMAL0")) ∧
  (p.semantic_name = ascii "COLOR" → p.semantic_index = 0 →
    e = (VEU_Diffuse, 0, ascii "COLOR0")) ∧
  (p.semantic_name = ascii "COLOR" → p.semantic_index ≠ 0 →
    e = (VEU_Specular, 0, ascii "COLOR1")) ∧
  (p.semantic_name = ascii "BLENDWEIGHT" → e = (VEU_BlendWeight, 0, ascii "BLENDWEIGHT0")) ∧
  (p.semantic_name = ascii "BLENDINDICES" → e = (VEU_BlendIndex, 0, ascii "BLENDINDICES0")) ∧
  ((ascii "TEXCOORD").isPrefixOf p.semantic_name = true →
    e.1 = VEU_TextureCoord ∧ e.2.1.val = p.semantic_index % 256 ∧
    e.2.2 = ascii "TEXCOORD" ++ decimal p.semantic_index) ∧
  (p.semantic_name = ascii "TANGENT" → e = (VEU_Tangent, 0, ascii "TANGENT0")) ∧
  (p.semantic_name = ascii "BINORMAL" → e = (VEU_Binormal, 0, ascii "BINORMAL0"))

/-! ## `Bind` and `Unbind`

`Bind` works on the render engine and the driver, which are outside the embedded file.  The
values that it reads there are collected in a `BindEnv`, the state of the driver that the
embedded file switches is a `GLState`, and the other calls are recorded as `EngineCall`s. -/

/-- The driver constant `GL_TEXTURE_2D`. -/
def GL_TEXTURE_2D : Nat := 0x0DE1

/-- The driver constant `GL_TEXTURE_BUFFER_OES`. -/
def GL_TEXTURE_BUFFER_OES : Nat := 0x8C2A

/-- The driver constant `GL_UNIFORM_BUFFER`. -/
def GL_UNIFORM_BUFFER : Nat := 0x8A11

/-- The capability of the driver that `glEnable(GL_RASTERIZER_DISCARD)` and
`glDisable(GL_RASTERIZER_DISCARD)` switch. -/
structure GLState where
  GL_RASTERIZER_DISCARD : Bool
deriving DecidableEq, Repr

/-- What `Bind` reads outside the program and the effect table.

* `srv`: the shader resource view that `param->Value(srv)` gives for a parameter, as a
  handle (`none`: a null view).
* `sampler`: the sampler state object that `param->Value(sampler)` gives (`none`: null).
* `RetrieveGLTargetTexture`: the target and the texture of a view.
* `GLSampler`: the driver name of a sampler state object.
* `GLvbo`: the driver name of the hardware buffer of the constant buffer of the effect
  with a given index, after its `Update` (`none`: `HWBuff()` is null). -/
structure BindEnv where
  srv : RenderEffectParameter → Option Nat
  sampler : RenderEffectParameter → Option Nat
  RetrieveGLTargetTexture : Nat → Nat × Nat
  GLSampler : Nat → Nat
  GLvbo : Nat → Option Nat

/-- The calls that `Bind` makes on the render engine, on the constant buffers and on the
sampler state objects. -/
inductive EngineCall where
  /-- The call `re.UseProgram(glsl_program_)` with the program of this object. -/
  | UseProgram
  /-- The call `re.Uniform1i(location, value)`. -/
  | Uniform1i (location : Int) (value : Nat)
  /-- The call `gl_sampler.Active(srv->TextureResource())`. -/
  | Active (sampler srv : Nat)
  /-- The call `cbuff->Update()` on the constant buffer with index `cbuff`. -/
  | Update (cbuff : Nat)
  /-- The call `re.BindBuffersBase(target, first, count, buffers)`: `buffers[i]` is bound at
  the bind point `first + i`. -/
  | BindBuffersBase (target first : Nat) (buffers : List Nat)
  /-- The call `re.BindTextures(first, count, targets, textures)`. -/
  | BindTextures (first : Nat) (targets textures : List Nat)
  /-- The call `re.BindSamplers(first, count, samplers)`. -/
  | BindSamplers (first : Nat) (samplers : List Nat)
deriving DecidableEq, Repr

/-- Unchecked `v[i] = x` on a `std::vector`. -/
def assign_index {α : Type} (v : List α) (i : Nat) (x : α) : Except Fault (List α) :=
  if i < v.length then .ok (v.set i x) else .error .out_of_range

/-- The first `n` elements behind `&v[0]`, as a call that takes a pointer and a count reads
them. -/
def first_n {α : Type} (v : List α) (n : Nat) : Except Fault (List α) :=
  if n ≤ v.length then .ok (v.take n) else .error .out_of_range

/-- The call operator of `SetOGLESShaderParameter`: what `pb.func()` does to the slot arrays
of the program, and the calls it makes. -/
def SetOGLESShaderParameter.call (env : BindEnv) (func : SetOGLESShaderParameter)
    (prog : OGLESShaderObject) : Except Fault (OGLESShaderObject × List EngineCall) :=
  match func with
  | .empty => .error .bad_function_call
  | .GraphicsBufferPtr location_ stage_ buff_param_ => do
    let buff_param ← deref buff_param_
    let srv := env.srv buff_param
    let slot ← at_index prog.textures_ stage_
    let buffers ← assign_index prog.textures_ stage_ { slot with buff_srv := srv }
    let (target, texture) :=
      match srv with
      | some gl_srv => env.RetrieveGLTargetTexture gl_srv
      | none => (GL_TEXTURE_BUFFER_OES, 0)
    let gl_bind_targets ← assign_index prog.gl_bind_targets_ stage_ target
    let gl_bind_textures ← assign_index prog.gl_bind_textures_ stage_ texture
    let gl_bind_samplers ← assign_index prog.gl_bind_samplers_ stage_ 0
    pure ({ prog with
        textures_ := buffers
        gl_bind_targets_ := gl_bind_targets
        gl_bind_textures_ := gl_bind_textures
        gl_bind_samplers_ := gl_bind_samplers },
      [EngineCall.Uniform1i location_ stage_])
  | .TexturePtr location_ stage_ tex_param_ sampler_param_ => do
    let tex_param ← deref tex_param_
    let srv := env.srv tex_param
    let slot ← at_index prog.textures_ stage_
    let samplers ← assign_index prog.textures_ stage_ { slot with tex_srv := srv }
    let sampler_param ← deref sampler_param_
    let sampler := env.sampler sampler_param
    let slot ← at_index samplers stage_
    let samplers ← assign_index samplers stage_ { slot with sampler := sampler }
    match srv with
    | some gl_srv => do
      let gl_sampler ← deref sampler
      let (target, texture) := env.RetrieveGLTargetTexture gl_srv
      let gl_bind_targets ← assign_index prog.gl_bind_targets_ stage_ target
      let gl_bind_textures ← assign_index prog.gl_bind_textures_ stage_ texture
      let gl_bind_samplers ← assign_index prog.gl_bind_samplers_ stage_ (env.GLSampler gl_sampler)
      pure ({ prog with
          textures_ := samplers
          gl_bind_targets_ := gl_bind_targets
          gl_bind_textures_ := gl_bind_textures
          gl_bind_samplers_ := gl_bind_samplers },
        [EngineCall.Active gl_sampler gl_srv, EngineCall.Uniform1i location_ stage_])
    | none => do
      let gl_bind_targets ← assign_index prog.gl_bind_targets_ stage_ GL_TEXTURE_2D
      let gl_bind_textures ← assign_index prog.gl_bind_textures_ stage_ 0
      let gl_bind_samplers ← assign_index prog.gl_bind_samplers_ stage_ 0
      pure ({ prog with
          textures_ := samplers
          gl_bind_targets_ := gl_bind_targets
          gl_bind_textures_ := gl_bind_textures
          gl_bind_samplers_ := gl_bind_samplers },
        [EngineCall.Uniform1i location_ stage_])

/-- The loop of `Bind` over `param_binds_`: every binding function is called, in order. -/
def Bind.params (env : BindEnv) :
    OGLESShaderObject → List ParameterBind → Except Fault (OGLESShaderObject × List EngineCall)
  | prog, [] => pure (prog, [])
  | prog, pb :: pbs => do
    let (prog, calls) ← SetOGLESShaderParameter.call env pb.func prog
    let (prog, more) ← Bind.params env prog pbs
    pure (prog, calls ++ more)

/-- The loop of `Bind` over `all_cbuff_indices_`: each constant buffer is updated and the
driver name of its hardware buffer is pushed on `gl_bind_cbuffs`. -/
def Bind.cbuffers (env : BindEnv) (effect : RenderEffect) :
    List Nat → Except Fault (List EngineCall × List Nat)
  | [] => pure ([], [])
  | cb_index :: rest => do
    let cbuff ← deref (effect.CBufferByIndex cb_index)
    let vbo ← deref (env.GLvbo cbuff)
    let (calls, gl_bind_cbuffs) ← Bind.cbuffers env effect rest
    pure (EngineCall.Update cbuff :: calls, vbo :: gl_bind_cbuffs)

/-- The block of `Bind` on the constant buffers. -/
def Bind.bind_cbuffers (env : BindEnv) (effect : RenderEffect) (prog : OGLESShaderObject) :
    Except Fault (List EngineCall) :=
  if prog.all_cbuff_indices_ ≠ [] then do
    let (calls, gl_bind_cbuffs) ← Bind.cbuffers env effect prog.all_cbuff_indices_
    pure (calls ++ [EngineCall.BindBuffersBase GL_UNIFORM_BUFFER 0 gl_bind_cbuffs])
  else pure []

/-- The block of `Bind` on the textures. -/
def Bind.bind_textures (prog : OGLESShaderObject) : Except Fault (List EngineCall) :=
  if prog.gl_bind_textures_ ≠ [] then do
    let targets ← first_n prog.gl_bind_targets_ prog.gl_bind_textures_.length
    pure [EngineCall.BindTextures 0 targets prog.gl_bind_textures_]
  else pure []

/-- The block of `Bind` on the samplers. -/
def Bind.bind_samplers (prog : OGLESShaderObject) : List EngineCall :=
  if prog.gl_bind_samplers_ ≠ [] then [EngineCall.BindSamplers 0 prog.gl_bind_samplers_]
  else []

/-- The method `OGLESShaderObject::Bind`: the program, the state of the driver and the
calls made.  The block under `KLAYGE_DEBUG` only logs and is left out. -/
def Bind (env : BindEnv) (effect : RenderEffect) (prog : OGLESShaderObject) (gl : GLState) :
    Except Fault (OGLESShaderObject × GLState × List EngineCall) := do
  let gl :=
    if (match prog.Stage .Pixel with
        | none => true
        | some ps => decide (ps.glsl_src_ = [])) then
      { gl with GL_RASTERIZER_DISCARD := true }
    else gl
  let (prog, param_calls) ← Bind.params env prog prog.param_binds_
  let cbuffer_calls ← Bind.bind_cbuffers env effect prog
  let texture_calls ← Bind.bind_textures prog
  pure (prog, gl,
    [EngineCall.UseProgram] ++ param_calls ++ cbuffer_calls ++ texture_calls ++
      Bind.bind_samplers prog)

/-- The method `OGLESShaderObject::Unbind`: the state of the driver afterwards. -/
def Unbind (prog : OGLESShaderObject) (gl : GLState) : GLState :=
  if (match prog.Stage .Pixel with
      | none => true
      | some ps => decide (ps.glsl_src_ = [])) then
    { gl with GL_RASTERIZER_DISCARD := false }
  else gl

/-! ## What `Bind` needs to run to completion -/

/-- A binding function can be called on slot arrays of length `n`: it is not empty, its
slot is below `n`, its parameters are not null, and a texture parameter that holds a view
comes with a sampler parameter that holds a sampler state object. -/
def FuncReady (env : BindEnv) (n : Nat) (func : SetOGLESShaderParameter) : Prop :=
  match func with
  | .empty => False
  | .GraphicsBufferPtr _ stage buff_param => stage < n ∧ buff_param.isSome = true
  | .TexturePtr _ stage tex_param sampler_param =>
    stage < n ∧
    match tex_param, sampler_param with
    | some t, some s => (env.srv t).isSome = true → (env.sampler s).isSome = true
    | _, _ => False

instance (env : BindEnv) (n : Nat) (func : SetOGLESShaderParameter) :
    Decidable (FuncReady env n func) := by
  unfold FuncReady
  split
  · infer_instance
  · infer_instance
  · exact @instDecidableAnd _ _ _ (by split <;> infer_instance)

/-- The program can be bound with the effect: its four slot arrays have one length, every
binding function can be called on them, and every recorded constant-buffer index names a
constant buffer of the effect that has a hardware buffer. -/
def Bindable (env : BindEnv) (effect : RenderEffect) (prog : OGLESShaderObject) : Prop :=
  SlotsOfLength prog prog.textures_.length ∧
  (∀ pb ∈ prog.param_binds_, FuncReady env prog.textures_.length pb.func) ∧
  (∀ cb ∈ prog.all_cbuff_indices_,
    cb < effect.cbuffers.length ∧ (env.GLvbo cb).isSome = true)

instance (env : BindEnv) (effect : RenderEffect) (prog : OGLESShaderObject) :
    Decidable (Bindable env effect prog) := by
  unfold Bindable
  infer_instance

/-- The condition of `Bind` and `Unbind` in the words of the specification: the pixel stage
is absent or has empty translated source. -/
def NoPixelOutput (prog : OGLESShaderObject) : Prop :=
  prog.Stage .Pixel = none ∨ ∃ ps, prog.Stage .Pixel = some ps ∧ ps.glsl_src_ = []

/-! ## `GetAttribLocation` and `AppendTexSamplerBinds` -/

/-- The method `OGLESShaderObject::GetAttribLocation`. -/
def GetAttribLocation (prog : OGLESShaderObject) (usage : VertexElementUsage)
    (usage_index : Byte) : Int :=
  match prog.attrib_locs_.find? (fun e => e.1 = (usage, usage_index)) with
  | some iter => iter.2
  | none => -1

/-- The attributes that a vertex stage declares, in order: usage, usage index and
attribute name of each. -/
def declaredAttribs (vs : OGLESShaderStageObject) :
    List ((VertexElementUsage × Byte) × Str) :=
  (vs.usages_.zip vs.usage_indices_).zip vs.glsl_attrib_names_

/-- The inner loop of `AppendTexSamplerBinds` over the table: the first entry with the
combined name gets the mask or-ed in, and the loop stops (`none`: no entry has the name, the
flag `found` stays false).  The stage mask is a `uint32_t`; the bitwise or of two such
values is one again. -/
def AppendTexSamplerBinds.find (mask : Nat) (combined_sampler_name : Str) :
    List TexSamplerBind → Option (List TexSamplerBind)
  | [] => none
  | e :: es =>
    if e.1 = combined_sampler_name then some ((e.1, e.2.1, e.2.2.1, e.2.2.2 ||| mask) :: es)
    else
      match AppendTexSamplerBinds.find mask combined_sampler_name es with
      | some es => some (e :: es)
      | none => none

/-- The body of the outer loop of `AppendTexSamplerBinds` for one pair. -/
def AppendTexSamplerBinds.pair (effect : RenderEffect) (mask : Nat)
    (tex_sampler_binds : List TexSamplerBind) (tex_sampler : Str × Str) :
    List TexSamplerBind :=
  let combined_sampler_name := tex_sampler.1 ++ ascii "_" ++ tex_sampler.2
  match AppendTexSamplerBinds.find mask combined_sampler_name tex_sampler_binds with
  | some found => found
  | none =>
    tex_sampler_binds ++
      [(combined_sampler_name, effect.ParameterByName tex_sampler.1,
        effect.ParameterByName tex_sampler.2, mask)]

/-- The method `OGLESShaderObject::AppendTexSamplerBinds`. -/
def AppendTexSamplerBinds (stage : ShaderStage) (effect : RenderEffect)
    (tex_sampler_pairs : List (Str × Str)) (prog : OGLESShaderObject) : OGLESShaderObject :=
  let mask := 1 <<< stage.toNat
  { prog with
    tex_sampler_binds_ :=
      tex_sampler_pairs.foldl (AppendTexSamplerBinds.pair effect mask) prog.tex_sampler_binds_ }

/-- A sequence of calls of `AppendTexSamplerBinds` on one program, each with its stage, its
effect and its pairs. -/
def AppendTexSamplerBinds.sequence (calls : List (ShaderStage × RenderEffect × List (Str × Str)))
    (prog : OGLESShaderObject) : OGLESShaderObject :=
  calls.foldl (fun prog c => AppendTexSamplerBinds c.1 c.2.1 c.2.2 prog) prog

/-- The stage mask of the first entry of the table with the combined name `name`. -/
def firstMask (table : List TexSamplerBind) (name : Str) : Option Nat :=
  (table.find? (fun e => e.1 = name)).map (fun e => e.2.2.2)

/-! ## The bindings of `DoLinkShaders` in the words of the specification -/

/-- The driver location of the binding that the used name with index `pi` of a stage
resolves to: the resource name at that index has a location other than -1, and the used
name is a parameter of the effect or a combined name of the bind table (`none`: the index
resolves to nothing). -/
def resolvedLocation (gl : GLProgram) (effect : RenderEffect) (table : List TexSamplerBind)
    (shader_stage : OGLESShaderStageObject) (pi : Nat) : Option Int :=
  match shader_stage.glsl_res_names_[pi]?, shader_stage.pnames_[pi]? with
  | some res_name, some pname =>
    if gl.glGetUniformLocation res_name ≠ -1 ∧
        ((effect.ParameterByName pname).isSome = true ∨ pname ∈ table.map (fun e => e.1)) then
      some (gl.glGetUniformLocation res_name)
    else none
  | _, _ => none

/-- The locations that the used names of all stages of a program resolve to, in the order
of the stages and, within a stage, of the used-name list. -/
def resolvedLocations (gl : GLProgram) (effect : RenderEffect) (table : List TexSamplerBind)
    (Stage : ShaderStage → Option OGLESShaderStageObject) : List Int :=
  (List.range NumShaderStages).flatMap (fun stage =>
    match Stage (ShaderStage.ofIndex stage) with
    | some shader_stage =>
      (List.range shader_stage.pnames_.length).filterMap
        (resolvedLocation gl effect table shader_stage)
    | none => [])

/-! ## The slot arrays in the words of the specification -/

/-- The slot index that a binding function captured (its member `stage_`); `none` for an
empty function. -/
def SetOGLESShaderParameter.slot (func : SetOGLESShaderParameter) : Option Nat :=
  match func with
  | .empty => none
  | .GraphicsBufferPtr _ stage _ => some stage
  | .TexturePtr _ stage _ _ => some stage

/-- The four slot arrays have one slot per registered binding, and the `k`-th registered
binding (counting from 0) has the slot index `k`. -/
def SlotIndexed (prog : OGLESShaderObject) : Prop :=
  SlotsOfLength prog prog.param_binds_.length ∧
  prog.param_binds_.map (fun pb => pb.func.slot) =
    (List.range prog.param_binds_.length).map some

instance (prog : OGLESShaderObject) : Decidable (SlotIndexed prog) := by
  unfold SlotIndexed
  infer_instance

/-! ## The parameters of a table entry -/

/-- The texture parameter and the sampler parameter of the first entry of the table with
the combined name `name`. -/
def firstParams (table : List TexSamplerBind) (name : Str) :
    Option (Option RenderEffectParameter × Option RenderEffectParameter) :=
  (table.find? (fun e => e.1 = name)).map (fun e => (e.2.1, e.2.2.1))

/-- The pairs passed in a sequence of calls of `AppendTexSamplerBinds`, in the order in
which the calls go through them. -/
def passedPairs (calls : List (ShaderStage × RenderEffect × List (Str × Str))) :
    List (Str × Str) :=
  calls.flatMap (fun c => c.2.2)

/-- The first pair of a list with the combined name `name`. -/
def firstPair (pairs : List (Str × Str)) (name : Str) : Option (Str × Str) :=
  pairs.find? (fun q => combinedName q = name)

/-! ## The bindings of `DoLinkShaders` in full, in the words of the specification -/

/-- The binding that the used name with index `pi` of a stage resolves to, as a function of
the slot that the binding is given (`none`: the index resolves to nothing).  The resource
name at the index must have a driver location other than -1.  If the effect has a parameter
named by the used name, the binding is a plain one with that parameter and that location.
Otherwise, if the table has an entry whose combined name is the used name, the binding is a
combined one: a null parameter, that location, the index of the first such entry, and the
texture and sampler parameters of that entry. -/
def resolvedBinding (gl : GLProgram) (effect : RenderEffect) (table : List TexSamplerBind)
    (shader_stage : OGLESShaderStageObject) (pi : Nat) : Option (Nat → ParameterBind) :=
  match shader_stage.glsl_res_names_[pi]?, shader_stage.pnames_[pi]? with
  | some res_name, some pname =>
    if gl.glGetUniformLocation res_name ≠ -1 then
      match effect.ParameterByName pname with
      | some p =>
        some (fun slot =>
          { combined_sampler_name := []
            param := some p
            location := gl.glGetUniformLocation res_name
            tex_sampler_bind_index := none
            func := .GraphicsBufferPtr (gl.glGetUniformLocation res_name) slot (some p) })
      | none =>
        match table.findIdx? (fun e => e.1 = pname) with
        | some i =>
          (table[i]?).map (fun e => fun slot =>
            { combined_sampler_name := pname
              param := none
              location := gl.glGetUniformLocation res_name
              tex_sampler_bind_index := some i
              func := .TexturePtr (gl.glGetUniformLocation res_name) slot e.2.1 e.2.2.1 })
        | none => none
    else none
  | _, _ => none

/-- The bindings that the used names of all stages of a program resolve to, in the order of
the stages and, within a stage, of the used-name list; each still waits for its slot. -/
def resolvedBindings (gl : GLProgram) (effect : RenderEffect) (table : List TexSamplerBind)
    (Stage : ShaderStage → Option OGLESShaderStageObject) : List (Nat → ParameterBind) :=
  (List.range NumShaderStages).flatMap (fun stage =>
    match Stage (ShaderStage.ofIndex stage) with
    | some shader_stage =>
      (List.range shader_stage.pnames_.length).filterMap
        (resolvedBinding gl effect table shader_stage)
    | none => [])

/-- The bindings of a list with consecutive slots from `slot` on. -/
def withSlots : Nat → List (Nat → ParameterBind) → List ParameterBind
  | _, [] => []
  | slot, f :: fs => f slot :: withSlots (slot + 1) fs

/-- What `DoLinkShaders` needs of a stage object to run to completion: a compiled shader
(`LinkGLSL` asserts it), a resource name for every used name, and the buffer type for every
parameter of the effect that is named by a used name whose resource name has a location
(the loop over the used names asserts it). -/
def StageLinkable (gl : GLProgram) (effect : RenderEffect) (st : OGLESShaderStageObject) :
    Prop :=
  st.gl_shader_ ≠ 0 ∧ st.pnames_.length ≤ st.glsl_res_names_.length ∧
  ∀ x ∈ List.zip st.glsl_res_names_ st.pnames_, gl.glGetUniformLocation x.1 ≠ -1 →
    (effect.ParameterByName x.2).all (fun p => decide (p.type = .REDT_buffer)) = true

instance (gl : GLProgram) (effect : RenderEffect) (st : OGLESShaderStageObject) :
    Decidable (StageLinkable gl effect st) := by
  unfold StageLinkable
  infer_instance

/-- What `DoLinkShaders` needs to run to completion: every stage object is `StageLinkable`,
there is a vertex stage with a usage and a usage index for every attribute name, and the
effect declares what the reflection names (`NulFree`, `Declares`). -/
def Linkable (gl : GLProgram) (effect : RenderEffect) (prog : OGLESShaderObject) : Prop :=
  (∀ stage < NumShaderStages,
    (prog.Stage (ShaderStage.ofIndex stage)).all
      (fun st => decide (StageLinkable gl effect st)) = true) ∧
  (prog.Stage .Vertex).any (fun vs =>
      decide (vs.glsl_attrib_names_.length ≤ vs.usages_.length ∧
        vs.glsl_attrib_names_.length ≤ vs.usage_indices_.length)) = true ∧
  NulFree gl ∧ Declares effect gl

instance (gl : GLProgram) (effect : RenderEffect) (prog : OGLESShaderObject) :
    Decidable (Linkable gl effect prog) := by
  unfold Linkable
  infer_instance

/-! ## Sample inputs of the codec -/

instance (s : OGLESShaderStageObject) : Decidable (FitsRecord s) := by
  unfold FitsRecord
  infer_instance

/-- Some values for the locals of `StreamIn` without an initialiser; the block length 30
is one that passes the guard of `StreamIn`. -/
def sampleIndeterminate : Indeterminate where
  native_shader_block_len := 30
  len32 := 2
  num16 := 1
  pnames_len8 := fun _ => 1
  glsl_res_names_len8 := fun _ => 0
  tex_sampler_pairs_len8 := fun _ => 0
  num8 := 1
  veu := fun _ => 6
  glsl_attrib_names_len8 := fun _ => 1

/-- A shader descriptor with entry point `main`. -/
def sampleDesc : ShaderDesc := ⟨ascii "main", ascii "auto", []⟩

/-- A vertex stage with two used names, one pair and two vertex attributes. -/
def sampleVertexStage : OGLESShaderStageObject :=
  { OGLESShaderStageObject.new .Vertex false false with
    is_validate_ := true
    glsl_src_ := ascii "void main(){}"
    pnames_ := [ascii "mvp", ascii "tex_samp"]
    glsl_res_names_ := [ascii "mvp", ascii "tex_samp"]
    tex_sampler_pairs_ := [(ascii "tex", ascii "samp")]
    usages_ := [VEU_Position, VEU_TextureCoord]
    usage_indices_ := [0, 1]
    glsl_attrib_names_ := [ascii "POSITION0", ascii "TEXCOORD1"] }

/-- A pixel stage whose whole artifact is the one-byte source `a`: its block has 11 bytes. -/
def shortStage : OGLESShaderStageObject :=
  { OGLESShaderStageObject.new .Pixel false false with glsl_src_ := ascii "a" }

/-- A pixel stage with one pair whose texture name is 256 bytes long. -/
def longNameStage : OGLESShaderStageObject :=
  { OGLESShaderStageObject.new .Pixel false false with
    glsl_src_ := ascii "a"
    tex_sampler_pairs_ := [(List.replicate 256 116, ascii "s")] }


/-! ## Sample inputs of `CompileShader` -/

/-- A translation with one used variable, one used buffer texture, two used textures, two
used samplers, and one unused texture. -/
def sampleTranslation : DXBC2GLSL where
  GLSLString := ascii "void main(){}"
  cbuffers := [[⟨ascii "mvp", true⟩, ⟨ascii "unused", false⟩]]
  resources :=
    [⟨ascii "buf", true, .SIT_TEXTURE, .SSD_BUFFER⟩,
     ⟨ascii "t0", true, .SIT_TEXTURE, .SSD_TEXTURE2D⟩,
     ⟨ascii "s0", true, .SIT_SAMPLER, .SSD_UNKNOWN⟩,
     ⟨ascii "t1", true, .SIT_TEXTURE, .SSD_TEXTURECUBE⟩,
     ⟨ascii "t2", false, .SIT_TEXTURE, .SSD_TEXTURE2D⟩,
     ⟨ascii "s1", true, .SIT_SAMPLER, .SSD_UNKNOWN⟩]
  input_params := [⟨ascii "POSITION", 0, 15⟩, ⟨ascii "TEXCOORD", 1, 3⟩]
  DSPartitioning := 0
  DSOutputPrimitive := 0

/-- A build and an effect for which every compilation yields `sampleTranslation`. -/
def sampleEnv (dev : Bool) : CompileEnv where
  KLAYGE_IS_DEV_PLATFORM := dev
  sd := sampleDesc
  ps_func_name := ascii "ps_main"
  hs_stage := none
  CompileToDXBC := fun _ _ _ => [68, 88, 66, 67]
  FeedDXBC := fun _ _ _ _ _ => some sampleTranslation

/-- A pixel stage that already holds one pair. -/
def stageWithPair : OGLESShaderStageObject :=
  { OGLESShaderStageObject.new .Pixel false false with
    tex_sampler_pairs_ := [(ascii "old_t", ascii "old_s")] }

/-- The vertex stage that `CompileShader` makes of a newly constructed one with
`sampleEnv true`. -/
def sampleCompiled : OGLESShaderStageObject :=
  { OGLESShaderStageObject.new .Vertex false false with
    is_validate_ := true
    shader_func_name_ := ascii "main"
    glsl_src_ := ascii "void main(){}"
    pnames_ := [ascii "mvp", ascii "buf", ascii "t0_s0", ascii "t0_s1", ascii "t1_s0",
      ascii "t1_s1"]
    glsl_res_names_ := [ascii "mvp", ascii "buf", ascii "t0_s0", ascii "t0_s1", ascii "t1_s0",
      ascii "t1_s1"]
    tex_sampler_pairs_ := [(ascii "t0", ascii "s0"), (ascii "t0", ascii "s1"),
      (ascii "t1", ascii "s0"), (ascii "t1", ascii "s1")]
    usages_ := [VEU_Position, VEU_TextureCoord]
    usage_indices_ := [0, 1]
    glsl_attrib_names_ := [ascii "POSITION0", ascii "TEXCOORD1"] }


/-! ## Sample inputs of `AttachUBOs` -/

/-- An effect with a matrix, a float array, a struct, a buffer, a texture and a sampler, and
two constant buffers. -/
def sampleEffect (id : Nat) : RenderEffect where
  id := id
  params :=
    [⟨ascii "mvp", .REDT_float4x4, 0⟩, ⟨ascii "weights", .REDT_float, 4⟩,
     ⟨ascii "light", .REDT_struct, 0⟩, ⟨ascii "buf", .REDT_buffer, 0⟩,
     ⟨ascii "tex", .REDT_texture2D, 0⟩, ⟨ascii "samp", .REDT_sampler, 0⟩]
  cbuffers := [ascii "global", ascii "per_frame"]

/-- The active uniforms of a block with a matrix, an array and the three leaves of a struct
at the raw offsets 40, 24 and 56. -/
def sampleUniforms (row_major : Int) : List ActiveUniform :=
  [⟨ascii "mvp", 0, 16, 64, row_major⟩,
   ⟨ascii "light.pos", 0, 0, 40, 0⟩,
   ⟨ascii "weights[0]", 16, 0, 128, 0⟩,
   ⟨ascii "light.color", 0, 0, 24, 0⟩,
   ⟨ascii "light.dir[0]", 0, 0, 56, 0⟩]

/-- A linked program whose only active block is `per_frame`; the uniforms `buf`,
`tex_samp` and `t_s` have the locations 3, 5 and 9. -/
def sampleProgram (row_major : Int) : GLProgram where
  link_status := true
  blocks := [⟨ascii "per_frame", 192, sampleUniforms row_major⟩]
  glGetUniformLocation := fun name =>
    if name = ascii "buf" then 3
    else if name = ascii "tex_samp" then 5
    else if name = ascii "t_s" then 9
    else -1
  glGetAttribLocation := fun name => if name = ascii "POSITION0" then 0 else -1
  num_program_binary_formats := 1
  binary := [1, 2, 3]
  binary_format := 7

/-- The parameter object `light` of `sampleEffect 1`. -/
def sampleLight : RenderEffectParameter := ⟨1, 2, ⟨ascii "light", .REDT_struct, 0⟩⟩

/-- The parameter object `mvp` of `sampleEffect 1`. -/
def sampleMvp : RenderEffectParameter := ⟨1, 0, ⟨ascii "mvp", .REDT_float4x4, 0⟩⟩

/-- The parameter object `weights` of `sampleEffect 1`. -/
def sampleWeights : RenderEffectParameter := ⟨1, 1, ⟨ascii "weights", .REDT_float, 4⟩⟩

/-- What `AttachUBOs` does for `sampleProgram` and `sampleEffect 1`. -/
def sampleAttachment : BlockAttachment where
  cb_index := 1
  setup := [Call.glUniformBlockBinding (some 0) 0, Call.Resize 1 192]
  member_binds :=
    [Call.BindToCBuffer sampleMvp 1 64 16, Call.BindToCBuffer sampleWeights 1 128 16]
  struct_binds := [Call.BindToCBuffer sampleLight 1 24 1]

/-- The property that `AttachUBOs` returns for `gl` and `effect` and, per block, binds each
struct with leaves once, with stride 1, at the least offset of its leaves. -/
def StructOffsetsFolded (gl : GLProgram) (effect : RenderEffect) : Prop :=
  ∃ r, AttachUBOs gl effect = .ok r ∧
    ∀ (i : Nat) (block : ActiveUniformBlock) (att : BlockAttachment),
      gl.blocks[i]? = some block → r[i]? = some att →
      effect.CBufferByName block.name = some att.cb_index ∧
      ∀ k, leavesOf k block.uniforms ≠ [] →
        ∃ param off,
          effect.ParameterByName k = some param ∧
          Call.BindToCBuffer param att.cb_index off 1 ∈ att.struct_binds ∧
          (∃ u ∈ leavesOf k block.uniforms, u.offset = off) ∧
          (∀ u ∈ leavesOf k block.uniforms, off ≤ u.offset) ∧
          ∀ p cb off' stride, Call.BindToCBuffer p cb off' stride ∈ att.struct_binds →
            p.Name = k → off' = off

/-- The property that `AttachUBOs` returns for `gl` and `effect` and, per block, binds each
member without a dot through its name cut at the bracket, at its offset, with the stride
that the array size and the type of the parameter select. -/
def MembersBound (gl : GLProgram) (effect : RenderEffect) : Prop :=
  ∃ r, AttachUBOs gl effect = .ok r ∧
    ∀ (i : Nat) (block : ActiveUniformBlock) (att : BlockAttachment),
      gl.blocks[i]? = some block → r[i]? = some att →
      effect.CBufferByName block.name = some att.cb_index ∧
      ∀ u ∈ block.uniforms, (46 : Byte) ∉ u.name →
        ∃ param, effect.ParameterByName (cutAtBracket u.name) = some param ∧
          Call.BindToCBuffer param att.cb_index u.offset
            (if param.ArraySize ≠ 0 then u.array_stride
             else if param.type ≠ .REDT_float4x4 then 4
             else u.matrix_stride) ∈ att.member_binds


/-! ## Sample inputs of `DoLinkShaders` and `Clone` -/

/-- The parameter object `buf` of `sampleEffect id`. -/
def sampleBuf (id : Nat) : RenderEffectParameter := ⟨id, 3, ⟨ascii "buf", .REDT_buffer, 0⟩⟩

/-- The parameter object `tex` of `sampleEffect id`. -/
def sampleTex (id : Nat) : RenderEffectParameter := ⟨id, 4, ⟨ascii "tex", .REDT_texture2D, 0⟩⟩

/-- The parameter object `samp` of `sampleEffect id`. -/
def sampleSamp (id : Nat) : RenderEffectParameter := ⟨id, 5, ⟨ascii "samp", .REDT_sampler, 0⟩⟩

/-- A compiled vertex stage with four used names: a block member, a buffer, a combined
name of the table, and a name that is neither a parameter nor in the table. -/
def sampleLinkStage : OGLESShaderStageObject :=
  { sampleVertexStage with
    gl_shader_ := 1
    pnames_ := [ascii "mvp", ascii "buf", ascii "tex_samp", ascii "t_s"]
    glsl_res_names_ := [ascii "mvp", ascii "buf", ascii "tex_samp", ascii "t_s"] }

/-- The bind table of the sample program: an entry `a_b` and then the entry `tex_samp` of
the vertex stage, against `sampleEffect id`. -/
def sampleTable (id : Nat) : List TexSamplerBind :=
  [(ascii "a_b", some (sampleTex id), some (sampleSamp id), 2),
   (ascii "tex_samp", some (sampleTex id), some (sampleSamp id), 1)]

/-- A valid program with one vertex stage, before `DoLinkShaders`. -/
def sampleShaderObject : OGLESShaderObject :=
  { OGLESShaderObject.new
      (fun stage => if stage = .Vertex then some sampleLinkStage else none) 0 [] true true with
    tex_sampler_binds_ := sampleTable 1 }

/-- The two bindings that `DoLinkShaders` registers for the sample program against
`sampleEffect id`. -/
def sampleBinds (id : Nat) : List ParameterBind :=
  [⟨[], some (sampleBuf id), 3, none, .GraphicsBufferPtr 3 0 (some (sampleBuf id))⟩,
   ⟨ascii "tex_samp", none, 5, some 1,
     .TexturePtr 5 1 (some (sampleTex id)) (some (sampleSamp id))⟩]

/-- The sample program as `DoLinkShaders` leaves it for `sampleProgram 0` and
`sampleEffect 1`. -/
def sampleLinked : OGLESShaderObject :=
  { sampleShaderObject with
    glsl_bin_format_ := 7
    glsl_bin_program_ := [1, 2, 3]
    param_binds_ := sampleBinds 1
    textures_ := [⟨none, none, none⟩, ⟨none, none, none⟩]
    gl_bind_targets_ := [0, 0]
    gl_bind_textures_ := [0, 0]
    gl_bind_samplers_ := [0, 0]
    all_cbuff_indices_ := [1]
    attrib_locs_ := [((VEU_Position, 0), 0), ((VEU_TextureCoord, 1), -1)] }

/-- The calls that `DoLinkShaders` makes for the sample program. -/
def sampleLinkCalls : List Call :=
  [Call.glUniformBlockBinding (some 0) 0, Call.Resize 1 192,
   Call.BindToCBuffer sampleMvp 1 64 16, Call.BindToCBuffer sampleWeights 1 128 16,
   Call.BindToCBuffer sampleLight 1 24 1]


/-- The program that `Clone` returns for `sampleLinked` and `sampleEffect 2`: the table and
the bindings name the parameter objects of `sampleEffect 2`, all else is as in
`sampleLinked`. -/
def sampleCloned : OGLESShaderObject :=
  { sampleLinked with
    tex_sampler_binds_ := sampleTable 2
    param_binds_ := sampleBinds 2 }

/-- The calls that `Clone` makes for `sampleLinked` and `sampleEffect 2`. -/
def sampleCloneCalls : List Call :=
  [Call.glUniformBlockBinding (some 0) 0, Call.Resize 1 192,
   Call.BindToCBuffer ⟨2, 0, ⟨ascii "mvp", .REDT_float4x4, 0⟩⟩ 1 64 16,
   Call.BindToCBuffer ⟨2, 1, ⟨ascii "weights", .REDT_float, 4⟩⟩ 1 128 16,
   Call.BindToCBuffer ⟨2, 2, ⟨ascii "light", .REDT_struct, 0⟩⟩ 1 24 1]


/-- A translation with six input parameters: a position, a second colour, a texture
coordinate with index 3, an input with mask 0, the built-in vertex index, and a texture
coordinate with index 258. -/
def sampleInputs : DXBC2GLSL :=
  ⟨[], [], [],
    [⟨ascii "POSITION", 0, 15⟩, ⟨ascii "COLOR", 1, 15⟩, ⟨ascii "TEXCOORD", 3, 3⟩,
     ⟨ascii "NORMAL", 0, 0⟩, ⟨ascii "SV_VertexID", 0, 1⟩, ⟨ascii "TEXCOORD", 258, 3⟩], 0, 0⟩

/-- A hull stage that was compiled with partitioning 3 and output primitive 2. -/
def sampleHullStage : OGLESShaderStageObject :=
  { OGLESShaderStageObject.new .Hull true false with
    is_validate_ := true
    ds_partitioning_ := 3
    ds_output_primitive_ := 2 }


/-! ## Sample inputs of `Bind` -/

/-- Values at bind time: the texture parameter holds the view 40, the sampler parameter the
sampler state object 50, the buffer parameter a null view; the constant buffer with index
`cb` has the hardware buffer `300 + cb`. -/
def sampleBindEnv : BindEnv where
  srv := fun p => if p.Name = ascii "tex" then some 40 else none
  sampler := fun p => if p.Name = ascii "samp" then some 50 else none
  RetrieveGLTargetTexture := fun v => (GL_TEXTURE_2D, 100 + v)
  GLSampler := fun s => 200 + s
  GLvbo := fun cb => some (300 + cb)

/-- A compiled pixel stage with non-empty source. -/
def samplePixelStage : OGLESShaderStageObject :=
  { OGLESShaderStageObject.new .Pixel false false with
    is_validate_ := true
    gl_shader_ := 2
    glsl_src_ := ascii "void main(){}" }

/-- The linked sample program with a pixel stage added to its stage table. -/
def samplePixelProgram : OGLESShaderObject :=
  { sampleLinked with
    Stage := fun stage =>
      if stage = .Vertex then some sampleLinkStage
      else if stage = .Pixel then some samplePixelStage
      else none }


/-- Two calls of `AppendTexSamplerBinds`: the vertex stage passes the pairs `tex`/`samp`
and `a`/`b`, the pixel stage passes `a`/`b` and then `a`/`b` again. -/
def sampleAppendCalls : List (ShaderStage × RenderEffect × List (Str × Str)) :=
  [(.Vertex, sampleEffect 1, [(ascii "tex", ascii "samp"), (ascii "a", ascii "b")]),
   (.Pixel, sampleEffect 1, [(ascii "a", ascii "b"), (ascii "a", ascii "b")])]

/-- A compiled pixel stage that uses the buffer `buf`, as the sample vertex stage does. -/
def samplePixelUse : OGLESShaderStageObject :=
  { samplePixelStage with
    pnames_ := [ascii "buf"]
    glsl_res_names_ := [ascii "buf"] }

/-- A valid program with the sample vertex stage and a pixel stage that uses the same
buffer, before `DoLinkShaders`. -/
def sampleTwoStages : OGLESShaderObject :=
  { sampleShaderObject with
    Stage := fun stage =>
      if stage = .Vertex then some sampleLinkStage
      else if stage = .Pixel then some samplePixelUse
      else none }

/-- A stream with a block of 25 bytes: a source of 13 bytes, one used name `a`, no resource
name and no pair. -/
def sampleUnequalStream : List Byte :=
  [25, 0, 0, 0, 13, 0, 0, 0] ++ ascii "void main(){}" ++ [1, 0, 1, 97, 0, 0, 0, 0]

/-- The pixel stage that `StreamIn` makes of `sampleUnequalStream`: valid, with the source,
one used name and no resource name. -/
def sampleUnequalStage : OGLESShaderStageObject :=
  { OGLESShaderStageObject.new .Pixel false false with
    shader_func_name_ := sampleDesc.func_name
    is_validate_ := true
    glsl_src_ := ascii "void main(){}"
    pnames_ := [ascii "a"] }

/-- The two-stage sample program as `DoLinkShaders` leaves it for `sampleProgram 0` and
`sampleEffect 1`: the buffer `buf` is bound once for the vertex stage, in slot 0, and once
for the pixel stage, in slot 2. -/
def sampleTwoLinked : OGLESShaderObject :=
  { sampleLinked with
    Stage := sampleTwoStages.Stage
    param_binds_ := sampleBinds 1 ++
      [⟨[], some (sampleBuf 1), 3, none, .GraphicsBufferPtr 3 2 (some (sampleBuf 1))⟩]
    textures_ := [⟨none, none, none⟩, ⟨none, none, none⟩, ⟨none, none, none⟩]
    gl_bind_targets_ := [0, 0, 0]
    gl_bind_textures_ := [0, 0, 0]
    gl_bind_samplers_ := [0, 0, 0] }

/-- The stream `sampleUnequalStream` with the block length 1000 in place of 25, followed by
two bytes of a next record. -/
def sampleWrongLengthStream : List Byte :=
  [232, 3, 0, 0] ++ sampleUnequalStream.drop 4 ++ [7, 7]

/-- The first 20 bytes of `sampleUnequalStream`: the stream ends inside the source. -/
def sampleTruncatedStream : List Byte :=
  sampleUnequalStream.take 20

/-- A stream whose block length is 23, followed by 23 bytes. -/
def sampleBlock23Stream : List Byte :=
  [23, 0, 0, 0, 19, 0, 0, 0] ++ ascii "void main(){}" ++ [0, 0, 0, 0, 0, 0]

/-- A pixel stage whose source is 2^32 - 1 bytes `a`, with no names and no pairs: its
block has 2^32 + 9 bytes. -/
def hugeSourceStage : OGLESShaderStageObject :=
  { OGLESShaderStageObject.new .Pixel false false with
    glsl_src_ := List.replicate (2 ^ 32 - 1) 97 }

/-- An effect with the textures `a_b` and `a` and the samplers `c` and `b_c`. -/
def collidingEffect : RenderEffect where
  id := 1
  params :=
    [⟨ascii "a_b", .REDT_texture2D, 0⟩, ⟨ascii "c", .REDT_sampler, 0⟩,
     ⟨ascii "a", .REDT_texture2D, 0⟩, ⟨ascii "b_c", .REDT_sampler, 0⟩]
  cbuffers := []

/-- Two calls of `AppendTexSamplerBinds` on `collidingEffect`: the vertex stage passes the
pair `a_b`/`c`, the pixel stage the pair `a`/`b_c`.  Both have the combined name `a_b_c`. -/
def collidingCalls : List (ShaderStage × RenderEffect × List (Str × Str)) :=
  [(.Vertex, collidingEffect, [(ascii "a_b", ascii "c")]),
   (.Pixel, collidingEffect, [(ascii "a", ascii "b_c")])]


/-! ## Lemmas: monad, loops, integers, streams -/

@[simp] theorem Except.ok_bind {ε α β : Type} (a : α) (f : α → Except ε β) :
    (Except.ok a >>= f) = f a := rfl

@[simp] theorem Except.error_bind {ε α β : Type} (e : ε) (f : α → Except ε β) :
    ((Except.error e : Except ε α) >>= f) = Except.error e := rfl

theorem bind_eq_ok {α β : Type} (x : Except Fault α) (f : α → Except Fault β) (b : β) :
    (x >>= f) = .ok b ↔ ∃ a, x = .ok a ∧ f a = .ok b := by
  cases x with
  | error e => simp
  | ok a => simp

@[simp] theorem Except.pure_eq_ok {ε α : Type} (a : α) : (pure a : Except ε α) = Except.ok a := rfl

theorem forLoop_take {σ α : Type} (f : α → σ → σ) (d : α) (l : List α) (n : Nat)
    (hn : n ≤ l.length) (st : σ) :
    forLoop n (fun i st => f (l.getD i d) st) st = (l.take n).foldl (fun st x => f x st) st := by
  induction n generalizing st with
  | zero => simp [forLoop]
  | succ n ih =>
    have hlt : n < l.length := hn
    have ih' := ih (Nat.le_of_lt hlt)
    unfold forLoop at ih' ⊢
    rw [List.range_succ, List.foldl_append, ih']
    rw [List.take_succ, List.foldl_append]
    simp [List.getD_eq_getElem?_getD, List.getElem?_eq_getElem hlt]

theorem forLoop_getD {σ α : Type} (f : α → σ → σ) (d : α) (l : List α) (st : σ) :
    forLoop l.length (fun i st => f (l.getD i d) st) st = l.foldl (fun st x => f x st) st := by
  rw [forLoop_take f d l l.length (Nat.le_refl _), List.take_length]

theorem foldl_append_flatMap {α β : Type} (g : α → List β) (l : List α) (os : List β) :
    l.foldl (fun os x => os ++ g x) os = os ++ l.flatMap g := by
  induction l generalizing os with
  | nil => simp
  | cons x xs ih => simp [ih, List.flatMap_cons, List.append_assoc]

theorem Native2LE_length (w n : Nat) : (Native2LE w n).length = w := by
  induction w generalizing n with
  | zero => rfl
  | succ w ih => simp [Native2LE, ih]

theorem LE2Native_Native2LE (w n : Nat) : LE2Native (Native2LE w n) = n % 256 ^ w := by
  induction w generalizing n with
  | zero => simp [Native2LE, LE2Native, Nat.mod_one]
  | succ w ih =>
    simp only [Native2LE, LE2Native, ih, Fin.ofNat, Nat.pow_succ]
    rw [Nat.mul_comm (256 ^ w) 256, Nat.mod_mul]
    
theorem read_append (dest l rest : List Byte) (h : dest.length = l.length) :
    read dest (l ++ rest) = (l, rest) := by
  simp [read, h]

theorem read_Native2LE (w x n : Nat) (rest : List Byte) :
    read (Native2LE w x) (Native2LE w n ++ rest) = (Native2LE w n, rest) :=
  read_append _ _ _ (by rw [Native2LE_length, Native2LE_length])

@[simp] theorem read_u8_Native2LE (x n : Nat) (rest : List Byte) :
    read_u8 x (Native2LE 1 n ++ rest) = (n % 256, rest) := by
  simp [read_u8, read_Native2LE, LE2Native_Native2LE]

@[simp] theorem read_u16_Native2LE (x n : Nat) (rest : List Byte) :
    read_u16 x (Native2LE 2 n ++ rest) = (n % 2 ^ 16, rest) := by
  simp [read_u16, read_Native2LE, LE2Native_Native2LE]

@[simp] theorem read_u32_Native2LE (x n : Nat) (rest : List Byte) :
    read_u32 x (Native2LE 4 n ++ rest) = (n % 2 ^ 32, rest) := by
  simp [read_u32, read_Native2LE, LE2Native_Native2LE]

theorem resize_length {α : Type} (v : List α) (n : Nat) (d : α) : (resize v n d).length = n := by
  simp only [resize, List.length_append, List.length_take, List.length_replicate]
  omega

/-! ## Lemmas: the codec -/

theorem write_all (os p : List Byte) : write os p p.length = os ++ p := by
  simp [write]

theorem write_Native2LE (os : List Byte) (w n : Nat) : write os (Native2LE w n) w = os ++ Native2LE w n := by
  have h := write_all os (Native2LE w n)
  rwa [Native2LE_length] at h

theorem write_names_loop (names : List Str) (os : List Byte) :
    forLoop names.length
      (fun i os =>
        write (write os (Native2LE 1 ((names.getD i []).length % 256)) 1) (names.getD i [])
          (names.getD i []).length) os = os ++ names.flatMap enc_name := by
  rw [forLoop_getD (fun (name : Str) (os : List Byte) =>
        write (write os (Native2LE 1 (name.length % 256)) 1) name name.length) [] names os]
  rw [← foldl_append_flatMap enc_name names os]
  apply List.foldl_ext
  intro a b _
  simp [write_all, write_Native2LE, enc_name, List.append_assoc]

theorem write_pairs_loop (pairs : List (Str × Str)) (os : List Byte) :
    forLoop (pairs.length % 2 ^ 16)
      (fun i oss =>
        write (write (write (write oss (Native2LE 1 ((pairs.getD i ([], [])).1.length % 256)) 1)
          (pairs.getD i ([], [])).1 ((pairs.getD i ([], [])).1.length % 256))
          (Native2LE 1 ((pairs.getD i ([], [])).2.length % 256)) 1)
          (pairs.getD i ([], [])).2 ((pairs.getD i ([], [])).2.length % 256)) os
      = os ++ (pairs.take (pairs.length % 2 ^ 16)).flatMap enc_pair := by
  rw [forLoop_take (fun (pair : Str × Str) (oss : List Byte) =>
        write (write (write (write oss (Native2LE 1 (pair.1.length % 256)) 1) pair.1
          (pair.1.length % 256)) (Native2LE 1 (pair.2.length % 256)) 1) pair.2
          (pair.2.length % 256)) ([], []) pairs _ (Nat.mod_le _ _) os]
  rw [← foldl_append_flatMap enc_pair _ os]
  apply List.foldl_ext
  intro a b _
  simp [write, enc_pair, List.append_assoc, Native2LE]

theorem write_usages_loop (usages : List VertexElementUsage) (os : List Byte) :
    forLoop usages.length
      (fun i os => write os [(usages.getD i VEU_Position).val] 1) os
      = os ++ usages.map (fun u => u.val) := by
  rw [forLoop_getD (fun (u : VertexElementUsage) (os : List Byte) =>
        write os [u.val] 1) VEU_Position usages os]
  have h3 : ∀ l : List VertexElementUsage,
      l.flatMap (fun (u : VertexElementUsage) => [u.val]) = l.map (fun u => u.val) := by
    intro l
    induction l with
    | nil => rfl
    | cons x xs ih => simp [List.flatMap_cons, ih]
  rw [← h3, ← foldl_append_flatMap (fun (u : VertexElementUsage) => [u.val]) usages os]
  apply List.foldl_ext
  intro a b _
  simp [write]

theorem StageSpecificStreamOut_eq (s : OGLESShaderStageObject) (os : List Byte) :
    StageSpecificStreamOut s os = os ++ enc_specific s := by
  unfold StageSpecificStreamOut enc_specific
  cases hst : s.stage_ <;> simp only [reduceCtorEq, if_false, if_true, List.append_nil]
  simp only [write_names_loop, write_usages_loop]
  simp only [write_Native2LE, enc_vertex]
  by_cases hi : s.usage_indices_ = []
  · simp [hi, List.append_assoc]
  · simp [hi, write_all, List.append_assoc]

theorem StreamOut_block_eq (s : OGLESShaderStageObject) : StreamOut.block s = enc_block s := by
  unfold StreamOut.block enc_block
  simp only [write_names_loop, write_pairs_loop, StageSpecificStreamOut_eq]
  simp only [write_Native2LE, write_all]
  simp [List.append_assoc]

theorem StreamOut_eq (s : OGLESShaderStageObject) (os : List Byte) :
    StreamOut s os = os ++ (Native2LE 4 ((if s.glsl_src_ ≠ [] then enc_block s else []).length % 2 ^ 32) ++
      (if s.glsl_src_ ≠ [] then enc_block s else []).take
        ((if s.glsl_src_ ≠ [] then enc_block s else []).length % 2 ^ 32)) := by
  unfold StreamOut
  simp only [StreamOut_block_eq, write_Native2LE]
  generalize (if s.glsl_src_ ≠ [] then enc_block s else []) = blk
  by_cases h : blk.length % 2 ^ 32 > 0
  · simp only [h, if_true, write, List.append_assoc]
  · have h0 : blk.length % 4294967296 = 0 := by omega
    simp [h0]

theorem enc_name_eq_layout (name : Str) (h : name.length ≤ 255) :
    enc_name name = Layout.name name := by
  unfold enc_name Layout.name
  rw [Nat.mod_eq_of_lt (by omega)]

theorem flatMap_enc_name_eq (names : List Str) (h : ∀ name ∈ names, name.length ≤ 255) :
    names.flatMap enc_name = names.flatMap Layout.name := by
  induction names with
  | nil => rfl
  | cons x xs ih =>
    simp only [List.flatMap_cons]
    rw [enc_name_eq_layout x (h x (List.mem_cons_self _ _)),
      ih (fun n hn => h n (List.mem_cons_of_mem _ hn))]

theorem enc_pair_eq_layout (p : Str × Str) (h : p.1.length ≤ 255 ∧ p.2.length ≤ 255) :
    enc_pair p = Layout.name p.1 ++ Layout.name p.2 := by
  unfold enc_pair Layout.name
  rw [Nat.mod_eq_of_lt (show p.1.length < 256 by omega),
    Nat.mod_eq_of_lt (show p.2.length < 256 by omega), List.take_length, List.take_length]

theorem flatMap_enc_pair_eq (pairs : List (Str × Str))
    (h : ∀ p ∈ pairs, p.1.length ≤ 255 ∧ p.2.length ≤ 255) :
    pairs.flatMap enc_pair = pairs.flatMap (fun p => Layout.name p.1 ++ Layout.name p.2) := by
  induction pairs with
  | nil => rfl
  | cons x xs ih =>
    simp only [List.flatMap_cons]
    rw [enc_pair_eq_layout x (h x (List.mem_cons_self _ _)),
      ih (fun n hn => h n (List.mem_cons_of_mem _ hn))]

theorem enc_specific_eq_layout (s : OGLESShaderStageObject)
    (h : s.stage_ = .Vertex →
      s.usages_.length ≤ 255 ∧ s.usage_indices_.length ≤ 255 ∧
      s.glsl_attrib_names_.length ≤ 255 ∧ ∀ name ∈ s.glsl_attrib_names_, name.length ≤ 255) :
    enc_specific s = Layout.trailing s := by
  unfold enc_specific Layout.trailing
  cases hst : s.stage_ <;> simp only [reduceCtorEq, if_false, if_true]
  obtain ⟨h1, h2, h3, h4⟩ := h hst
  unfold enc_vertex
  rw [Nat.mod_eq_of_lt (show s.usages_.length < 256 by omega),
    Nat.mod_eq_of_lt (show s.usage_indices_.length < 256 by omega),
    Nat.mod_eq_of_lt (show s.glsl_attrib_names_.length < 256 by omega),
    flatMap_enc_name_eq _ h4]

theorem enc_block_eq_layout (s : OGLESShaderStageObject) (h : FitsRecord s) :
    enc_block s = Layout.block s := by
  obtain ⟨h1, h2, h3, h4, h5, h6, h7, h8⟩ := h
  rw [StreamOut_block_eq] at h8
  have hsrc : s.glsl_src_.length < 2 ^ 32 := by
    have : s.glsl_src_.length ≤ (enc_block s).length := by
      unfold enc_block
      simp only [List.length_append]
      omega
    omega
  unfold enc_block Layout.block Layout.names Layout.pairs
  rw [Nat.mod_eq_of_lt hsrc, Nat.mod_eq_of_lt (show s.pnames_.length < 2 ^ 16 by omega),
    Nat.mod_eq_of_lt (show s.glsl_res_names_.length < 2 ^ 16 by omega),
    Nat.mod_eq_of_lt (show s.tex_sampler_pairs_.length < 2 ^ 16 by omega), List.take_length,
    flatMap_enc_name_eq _ h1, flatMap_enc_name_eq _ h2, flatMap_enc_pair_eq _ h3,
    enc_specific_eq_layout s h7]

theorem enc_block_ne_nil (s : OGLESShaderStageObject) : enc_block s ≠ [] := by
  unfold enc_block
  simp [Native2LE]

/-- Under the field widths, what `StreamOut` appends is the record of the specification. -/
theorem StreamOut_eq_layout (s : OGLESShaderStageObject) (os : List Byte) (h : FitsRecord s) :
    StreamOut s os = os ++ Layout.record s := by
  rw [StreamOut_eq]
  have h8 := h.2.2.2.2.2.2.2
  rw [StreamOut_block_eq] at h8
  unfold Layout.record
  by_cases hsrc : s.glsl_src_ = []
  · simp [hsrc]
  · simp only [hsrc, ne_eq, not_false_eq_true, if_true, if_false]
    rw [Nat.mod_eq_of_lt h8, List.take_length, enc_block_eq_layout s h]

/-! ### Decoding what was encoded -/

theorem read_names_enc (len8 : Nat → Nat) (names : List Str)
    (h : ∀ name ∈ names, name.length ≤ 255) (i : Nat) (old : List Str)
    (hl : old.length = names.length) (rest : List Byte) :
    read_names len8 i old (names.flatMap enc_name ++ rest) = (names, rest) := by
  induction names generalizing i old with
  | nil =>
    cases old with
    | nil => rfl
    | cons o os => simp at hl
  | cons x xs ih =>
    cases old with
    | nil => simp at hl
    | cons o os =>
      have hx : x.length % 256 = x.length :=
        Nat.mod_eq_of_lt (by have := h x (List.mem_cons_self _ _); omega)
      have hos : os.length = xs.length := by simpa using hl
      simp only [read_names, List.flatMap_cons, enc_name, List.append_assoc,
        read_u8_Native2LE, Nat.mod_mod, hx, read_append _ x _ (resize_length o x.length 0),
        ih (fun n hn => h n (List.mem_cons_of_mem _ hn)) (i + 1) os hos]

theorem read_pairs_enc (len8 : Nat → Nat) (pairs : List (Str × Str))
    (h : ∀ p ∈ pairs, p.1.length ≤ 255 ∧ p.2.length ≤ 255) (i : Nat) (rest : List Byte) :
    read_pairs len8 i pairs.length (pairs.flatMap enc_pair ++ rest) = (pairs, rest) := by
  induction pairs generalizing i with
  | nil => rfl
  | cons x xs ih =>
    have hx := h x (List.mem_cons_self _ _)
    have hx1 : x.1.length % 256 = x.1.length := Nat.mod_eq_of_lt (by omega)
    have hx2 : x.2.length % 256 = x.2.length := Nat.mod_eq_of_lt (by omega)
    simp only [List.length_cons, read_pairs, List.flatMap_cons, enc_pair, List.append_assoc,
      read_u8_Native2LE, Nat.mod_mod, hx1, hx2, List.take_length,
      read_append _ x.1 _ (resize_length [] x.1.length 0),
      read_append _ x.2 _ (resize_length [] x.2.length 0),
      ih (fun n hn => h n (List.mem_cons_of_mem _ hn)) (i + 1)]

theorem read_usages_enc (veu : Nat → Nat) (usages : List VertexElementUsage) (i : Nat)
    (rest : List Byte) :
    read_usages veu i usages.length (usages.map (fun u => u.val) ++ rest) = (usages, rest) := by
  induction usages generalizing i with
  | nil => rfl
  | cons x xs ih =>
    have hx : (Fin.ofNat x.val.val : Byte) = x.val := by
      apply Fin.ext
      simp [Fin.ofNat, Nat.mod_eq_of_lt x.val.isLt]
    have h1 : ∀ y : Nat, read_u8 y (x.val :: (xs.map (fun u => u.val) ++ rest))
        = (x.val.val, xs.map (fun u => u.val) ++ rest) := by
      intro y
      simp [read_u8, read, Native2LE, LE2Native]
    simp only [List.length_cons, read_usages, List.map_cons, List.cons_append, h1, ih, hx]

theorem StageSpecificStreamIn_enc (ind : Indeterminate) (t s : OGLESShaderStageObject)
    (rest : List Byte) (hst : t.stage_ = s.stage_)
    (h : s.stage_ = .Vertex →
      s.usages_.length ≤ 255 ∧ s.usage_indices_.length ≤ 255 ∧
      s.glsl_attrib_names_.length ≤ 255 ∧ ∀ name ∈ s.glsl_attrib_names_, name.length ≤ 255) :
    StageSpecificStreamIn ind t (enc_specific s ++ rest) =
      ({ t with
          usages_ := if s.stage_ = .Vertex then s.usages_ else t.usages_
          usage_indices_ :=
            if s.stage_ = .Vertex ∧ s.usage_indices_ ≠ [] then s.usage_indices_
            else t.usage_indices_
          glsl_attrib_names_ :=
            if s.stage_ = .Vertex then s.glsl_attrib_names_ else t.glsl_attrib_names_ },
        rest) := by
  unfold StageSpecificStreamIn enc_specific
  rw [hst]
  cases hs : s.stage_ <;>
    simp only [reduceCtorEq, if_false, if_true, false_and, List.nil_append]
  case Vertex =>
    obtain ⟨h1, h2, h3, h4⟩ := h hs
    have e1 : s.usages_.length % 256 = s.usages_.length := Nat.mod_eq_of_lt (by omega)
    have e2 : s.usage_indices_.length % 256 = s.usage_indices_.length :=
      Nat.mod_eq_of_lt (by omega)
    have e3 : s.glsl_attrib_names_.length % 256 = s.glsl_attrib_names_.length :=
      Nat.mod_eq_of_lt (by omega)
    unfold StageSpecificStreamIn.vertex
    simp only [enc_vertex, List.append_assoc, read_u8_Native2LE, Nat.mod_mod, e1,
      e2, e3, read_usages_enc]
    by_cases hi : s.usage_indices_ = []
    · simp [hi, e3, read_names_enc _ _ h4 0 _ (resize_length _ _ _), hst.trans hs]
    · have hpos : s.usage_indices_.length > 0 := List.length_pos.mpr hi
      simp [hi, hpos, e3, read_append _ s.usage_indices_ _ (resize_length _ _ _),
        read_names_enc _ _ h4 0 _ (resize_length _ _ _), hst.trans hs]
  all_goals (cases t; simp_all)

/-- The decoder on a well-formed block behind any block length of at least 24: when the
bytes after the block length are the block of a stage `s` whose fields are within the
widths of the record, `StreamIn` returns `decoded t s sd` and leaves the bytes after the
block unread, whatever length `n` the stream announces and whatever the locals held. -/
theorem StreamIn_enc_block (ind : Indeterminate) (t s : OGLESShaderStageObject)
    (sd : ShaderDesc) (n : Nat) (rest : List Byte) (hst : t.stage_ = s.stage_)
    (hfit : FitsRecord s) (hn : 24 ≤ n) (hn' : n < 2 ^ 32) :
    StreamIn ind t sd (Native2LE 4 n ++ (enc_block s ++ rest)) = (decoded t s sd, rest) := by
  obtain ⟨h1, h2, h3, h4, h5, h6, h7, h8⟩ := hfit
  rw [StreamOut_block_eq] at h8
  have hsl : s.glsl_src_.length < 2 ^ 32 := by
    have : s.glsl_src_.length ≤ (enc_block s).length := by
      unfold enc_block
      simp only [List.length_append]
      omega
    omega
  unfold StreamIn
  simp only [read_u32_Native2LE, Nat.mod_eq_of_lt hn']
  rw [if_pos (by omega)]
  have e0 : s.glsl_src_.length % 2 ^ 32 = s.glsl_src_.length := Nat.mod_eq_of_lt hsl
  have e1 : s.pnames_.length % 2 ^ 16 = s.pnames_.length := Nat.mod_eq_of_lt (by omega)
  have e2 : s.glsl_res_names_.length % 2 ^ 16 = s.glsl_res_names_.length :=
    Nat.mod_eq_of_lt (by omega)
  have e3 : s.tex_sampler_pairs_.length % 2 ^ 16 = s.tex_sampler_pairs_.length :=
    Nat.mod_eq_of_lt (by omega)
  unfold StreamIn.block
  simp only [enc_block, List.append_assoc, read_u32_Native2LE, read_u16_Native2LE,
    Nat.mod_mod, e0, e1, e2, e3, read_append _ s.glsl_src_ _ (resize_length _ _ _),
    read_names_enc _ _ h1 0 _ (resize_length _ _ _),
    read_names_enc _ _ h2 0 _ (resize_length _ _ _), List.take_length, read_pairs_enc _ _ h3]
  rw [StageSpecificStreamIn_enc ind _ s rest (by exact hst) h7]
  rfl

/-- The round trip of the codec into any target stage of the same kind: on the record that
`StreamOut` writes for a stage `s` with non-empty source, a block of at least 24 bytes and
fields within the widths of the record, `StreamIn` returns `decoded t s sd` and leaves the
bytes after the record unread. -/
theorem StreamIn_StreamOut (ind : Indeterminate) (t s : OGLESShaderStageObject)
    (sd : ShaderDesc) (rest : List Byte)
    (hst : t.stage_ = s.stage_) (hsrc : s.glsl_src_ ≠ []) (hfit : FitsRecord s)
    (h24 : 24 ≤ (StreamOut.block s).length) :
    StreamIn ind t sd (StreamOut s [] ++ rest) = (decoded t s sd, rest) := by
  have h8 := hfit.2.2.2.2.2.2.2
  rw [StreamOut_eq]
  simp only [hsrc, ne_eq, not_false_eq_true, if_true, List.nil_append]
  rw [StreamOut_block_eq] at h8 h24
  rw [Nat.mod_eq_of_lt h8, List.take_length, List.append_assoc]
  exact StreamIn_enc_block ind t s sd _ rest hst hfit h24 h8

/-! ## Lemmas: `CompileShader` -/

theorem push_all_nil (s : OGLESShaderStageObject) : push_all s [] [] = s := by
  simp [push_all]

theorem push_all_push_all (s : OGLESShaderStageObject) (a b : List Str)
    (p q : List (Str × Str)) :
    push_all (push_all s a p) b q = push_all s (a ++ b) (p ++ q) := by
  simp [push_all, List.append_assoc]

theorem push_name_eq (s : OGLESShaderStageObject) (name : Str) :
    push_name s name = push_all s [name] [] := by
  simp [push_name, push_all]

theorem variables_cbuffer (s : OGLESShaderStageObject) (cbuffer : List DXBCVariable) :
    cbuffer.foldl (fun s v => if v.used then push_name s v.name else s) s =
      push_all s ((cbuffer.filter (fun v => v.used)).map (fun v => v.name)) [] := by
  induction cbuffer generalizing s with
  | nil => simp [push_all_nil]
  | cons v vs ih =>
    simp only [List.foldl_cons, ih]
    by_cases hv : v.used = true
    · simp [hv, push_name_eq, push_all_push_all]
    · simp [hv]

theorem CompileShader_variables_eq (s : OGLESShaderStageObject) (tr : DXBC2GLSL) :
    CompileShader.variables s tr = push_all s (usedVariables tr) [] := by
  unfold CompileShader.variables usedVariables
  simp only [variables_cbuffer]
  generalize tr.cbuffers = cbs
  induction cbs generalizing s with
  | nil => simp [push_all_nil]
  | cons c cs ih =>
    simp only [List.foldl_cons, ih, push_all_push_all, List.flatMap_cons, List.append_nil]

theorem resources_fold (rs : List DXBCResource) (s : OGLESShaderStageObject)
    (tex_names sampler_names : List Str) :
    rs.foldl
      (fun (st : OGLESShaderStageObject × List Str × List Str) r =>
        let (s, tex_names, sampler_names) := st
        if r.used then
          let res_name := r.name
          if r.type = .SIT_TEXTURE then
            if r.dimension = .SSD_BUFFER then (push_name s res_name, tex_names, sampler_names)
            else (s, tex_names ++ [res_name], sampler_names)
          else if r.type = .SIT_SAMPLER then (s, tex_names, sampler_names ++ [res_name])
          else (s, tex_names, sampler_names)
        else (s, tex_names, sampler_names))
      (s, tex_names, sampler_names) =
    (push_all s ((rs.filter
        (fun r => r.used ∧ r.type = .SIT_TEXTURE ∧ r.dimension = .SSD_BUFFER)).map
          (fun r => r.name)) [],
      tex_names ++ (rs.filter
        (fun r => r.used ∧ r.type = .SIT_TEXTURE ∧ r.dimension ≠ .SSD_BUFFER)).map
          (fun r => r.name),
      sampler_names ++ (rs.filter (fun r => r.used ∧ r.type = .SIT_SAMPLER)).map
          (fun r => r.name)) := by
  induction rs generalizing s tex_names sampler_names with
  | nil => simp [push_all_nil]
  | cons r rs ih =>
    rw [List.foldl_cons]
    by_cases hu : r.used = true
    · by_cases ht : r.type = .SIT_TEXTURE
      · by_cases hd : r.dimension = .SSD_BUFFER
        · simp only [hu, ht, hd, if_true]
          rw [ih]
          simp [List.filter_cons, hu, ht, hd, push_name_eq, push_all_push_all]
        · simp only [hu, ht, hd, if_true, if_false]
          rw [ih]
          simp [List.filter_cons, hu, ht, hd]
      · by_cases hsm : r.type = .SIT_SAMPLER
        · simp only [hu, hsm, if_true, if_false, reduceCtorEq]
          rw [ih]
          simp [List.filter_cons, hu, hsm]
        · simp only [hu, ht, hsm, if_true, if_false]
          rw [ih]
          simp [List.filter_cons, hu, ht, hsm]
    · simp only [hu, if_false, Bool.false_eq_true]
      rw [ih]
      simp [List.filter_cons, hu]

theorem CompileShader_resources_eq (s : OGLESShaderStageObject) (tr : DXBC2GLSL) :
    CompileShader.resources s tr =
      (push_all s (usedBufferTextures tr) [], usedTextures tr, usedSamplers tr) := by
  unfold CompileShader.resources usedBufferTextures usedTextures usedSamplers
  rw [resources_fold]
  simp

theorem combine_samplers (s : OGLESShaderStageObject) (tex_name : Str)
    (sampler_names : List Str) :
    sampler_names.foldl
      (fun s sampler_name =>
        let combined_sampler_name := tex_name ++ ascii "_" ++ sampler_name
        let s := { s with tex_sampler_pairs_ := s.tex_sampler_pairs_ ++ [(tex_name, sampler_name)] }
        push_name s combined_sampler_name) s =
      push_all s ((sampler_names.map (fun sm => (tex_name, sm))).map combinedName)
        (sampler_names.map (fun sm => (tex_name, sm))) := by
  induction sampler_names generalizing s with
  | nil => simp [push_all_nil]
  | cons sm sms ih =>
    simp only [List.foldl_cons, ih]
    simp [push_all, push_name, combinedName, List.append_assoc]

theorem CompileShader_combine_eq (s : OGLESShaderStageObject)
    (tex_names sampler_names : List Str) :
    CompileShader.combine s tex_names sampler_names =
      push_all s
        ((tex_names.flatMap (fun t => sampler_names.map (fun sm => (t, sm)))).map combinedName)
        (tex_names.flatMap (fun t => sampler_names.map (fun sm => (t, sm)))) := by
  unfold CompileShader.combine
  simp only [combine_samplers]
  induction tex_names generalizing s with
  | nil => simp [push_all_nil]
  | cons t ts ih =>
    simp only [List.foldl_cons, ih, push_all_push_all, List.flatMap_cons, List.map_append]

theorem StageSpecificAttachShader_input_names (s t : OGLESShaderStageObject)
    (p : DXBCInputParam) (h : StageSpecificAttachShader.input s p = .ok t) :
    t.glsl_src_ = s.glsl_src_ ∧ t.pnames_ = s.pnames_ ∧
    t.glsl_res_names_ = s.glsl_res_names_ ∧ t.tex_sampler_pairs_ = s.tex_sampler_pairs_ ∧
    t.is_validate_ = s.is_validate_ := by
  unfold StageSpecificAttachShader.input at h
  by_cases hmask : p.mask ≠ 0
  · rw [if_pos hmask] at h
    by_cases hsv : p.semantic_name ≠ ascii "SV_VertexID" ∧ p.semantic_name ≠ ascii "SV_InstanceID"
    · simp only [if_pos hsv] at h
      cases hm : StageSpecificAttachShader.semantic p.semantic_name p.semantic_index with
      | error e => rw [hm] at h; simp at h
      | ok a =>
        rw [hm] at h
        simp only [Except.ok_bind, Except.pure_eq_ok, Except.ok.injEq] at h
        subst h
        exact ⟨rfl, rfl, rfl, rfl, rfl⟩
    · simp only [if_neg hsv, Except.pure_eq_ok, Except.ok.injEq] at h
      subst h
      exact ⟨rfl, rfl, rfl, rfl, rfl⟩
  · rw [if_neg hmask] at h
    simp only [Except.pure_eq_ok, Except.ok.injEq] at h
    subst h
    exact ⟨rfl, rfl, rfl, rfl, rfl⟩

theorem StageSpecificAttachShader_inputs_names (ps : List DXBCInputParam)
    (s t : OGLESShaderStageObject) (h : StageSpecificAttachShader.inputs s ps = .ok t) :
    t.glsl_src_ = s.glsl_src_ ∧ t.pnames_ = s.pnames_ ∧
    t.glsl_res_names_ = s.glsl_res_names_ ∧ t.tex_sampler_pairs_ = s.tex_sampler_pairs_ ∧
    t.is_validate_ = s.is_validate_ := by
  induction ps generalizing s with
  | nil =>
    simp only [StageSpecificAttachShader.inputs, Except.pure_eq_ok, Except.ok.injEq] at h
    subst h
    exact ⟨rfl, rfl, rfl, rfl, rfl⟩
  | cons p ps ih =>
    simp only [StageSpecificAttachShader.inputs] at h
    cases h1 : StageSpecificAttachShader.input s p with
    | error e => rw [h1] at h; simp at h
    | ok s1 =>
      rw [h1] at h
      simp only [Except.ok_bind] at h
      obtain ⟨a1, a2, a3, a4, a5⟩ := StageSpecificAttachShader_input_names s s1 p h1
      obtain ⟨b1, b2, b3, b4, b5⟩ := ih s1 h
      exact ⟨b1.trans a1, b2.trans a2, b3.trans a3, b4.trans a4, b5.trans a5⟩

theorem StageSpecificAttachShader_names (s t : OGLESShaderStageObject) (tr : DXBC2GLSL)
    (h : StageSpecificAttachShader s tr = .ok t) :
    t.glsl_src_ = s.glsl_src_ ∧ t.pnames_ = s.pnames_ ∧
    t.glsl_res_names_ = s.glsl_res_names_ ∧ t.tex_sampler_pairs_ = s.tex_sampler_pairs_ ∧
    t.is_validate_ = s.is_validate_ := by
  unfold StageSpecificAttachShader at h
  split at h
  · exact StageSpecificAttachShader_inputs_names _ s t h
  all_goals
    simp only [Except.pure_eq_ok, Except.ok.injEq] at h
    subst h
    exact ⟨rfl, rfl, rfl, rfl, rfl⟩

/-- What the `try` block of `CompileShader` records for a translation `tr`, when it returns:
the source of `tr`; on both name lists the used variables, then the used buffer textures,
then the combined names of the cross product; on the pair list the cross product, after the
pairs that the stage held before. -/
theorem CompileShader_translated_names (s t : OGLESShaderStageObject) (tr : DXBC2GLSL)
    (h : CompileShader.translated s tr = .ok t) :
    t.glsl_src_ = tr.GLSLString ∧
    t.pnames_ = usedVariables tr ++ usedBufferTextures tr ++ (crossProduct tr).map combinedName ∧
    t.glsl_res_names_ =
      usedVariables tr ++ usedBufferTextures tr ++ (crossProduct tr).map combinedName ∧
    t.tex_sampler_pairs_ = s.tex_sampler_pairs_ ++ crossProduct tr ∧
    t.is_validate_ = s.is_validate_ := by
  unfold CompileShader.translated at h
  simp only [CompileShader_variables_eq, CompileShader_resources_eq, CompileShader_combine_eq,
    push_all_push_all] at h
  obtain ⟨a1, a2, a3, a4, a5⟩ := StageSpecificAttachShader_names _ t tr h
  refine ⟨a1, ?_, ?_, ?_, a5⟩
  · rw [a2]; simp [push_all, crossProduct, List.append_assoc]
  · rw [a3]; simp [push_all, crossProduct, List.append_assoc]
  · rw [a4]; simp [push_all, crossProduct]

theorem CompileShader_dispatch_frame (env : CompileEnv) (s s1 : OGLESShaderStageObject)
    (h : CompileShader.dispatch env s = .ok s1) :
    s1.stage_ = s.stage_ ∧ s1.tex_sampler_pairs_ = s.tex_sampler_pairs_ ∧
    s1.is_available_ = s.is_available_ := by
  unfold CompileShader.dispatch at h
  cases hst : s.stage_ <;> simp only [hst, Except.pure_eq_ok, Except.ok.injEq] at h
  case Domain =>
    by_cases hdev : env.KLAYGE_IS_DEV_PLATFORM = true
    · rw [if_pos hdev] at h
      cases hhs : env.hs_stage with
      | none => simp [hhs, BOOST_ASSERT] at h
      | some hs =>
        simp only [hhs, BOOST_ASSERT, Option.isSome_some, if_true, deref, Except.ok_bind,
          Except.ok.injEq] at h
        subst h
        exact ⟨rfl, rfl, rfl⟩
    · rw [if_neg hdev] at h
      simp only [Except.ok.injEq] at h
      subst h
      exact ⟨hst, rfl, rfl⟩
  all_goals
    subst h
    exact ⟨by simp [hst], rfl, rfl⟩

theorem CompileShader_compile_valid (env : CompileEnv) (has_ps : Bool)
    (s t : OGLESShaderStageObject) (hdev : env.KLAYGE_IS_DEV_PLATFORM = true)
    (h : CompileShader.compile env has_ps s = .ok t) (hvalid : t.is_validate_ = true) :
    ∃ code tr,
      env.FeedDXBC s.stage_ code has_ps s.ds_partitioning_ s.ds_output_primitive_ = some tr ∧
      CompileShader.translated { s with is_validate_ := true } tr = .ok t := by
  unfold CompileShader.compile at h
  by_cases hv : s.is_validate_ = true
  · rw [if_pos hv, if_pos hdev] at h
    by_cases hp : GetShaderProfile s env.sd ≠ []
    · simp only [if_pos hp, if_true] at h
      by_cases hc : env.CompileToDXBC s.stage_ env.sd.func_name (GetShaderProfile s env.sd) = []
      · rw [if_pos hc] at h
        simp only [Except.pure_eq_ok, Except.ok.injEq] at h
        subst h
        simp at hvalid
      · rw [if_neg hc] at h
        cases hf : env.FeedDXBC s.stage_
            (env.CompileToDXBC s.stage_ env.sd.func_name (GetShaderProfile s env.sd)) has_ps
            s.ds_partitioning_ s.ds_output_primitive_ with
        | none =>
          rw [hf] at h
          simp only [Except.pure_eq_ok, Except.ok.injEq] at h
          subst h
          simp at hvalid
        | some tr =>
          rw [hf] at h
          exact ⟨_, tr, hf, h⟩
    · simp only [if_neg hp] at h
      simp only [Bool.false_eq_true, if_false, Except.pure_eq_ok, Except.ok.injEq] at h
      subst h
      simp at hvalid
  · rw [if_neg hv] at h
    simp only [Except.pure_eq_ok, Except.ok.injEq] at h
    subst h
    exact absurd hvalid hv

/-! ## Lemmas: `AttachUBOs` -/

theorem find_index_some {α : Type} (p : α → Bool) (l : List α) (i j : Nat)
    (h : find_index p l i = some j) :
    i ≤ j ∧ ∃ x, l[j - i]? = some x ∧ p x = true := by
  induction l generalizing i with
  | nil => simp [find_index] at h
  | cons x xs ih =>
    unfold find_index at h
    by_cases hp : p x = true
    · simp only [hp, if_true, Option.some.injEq] at h
      subst h
      exact ⟨Nat.le_refl _, x, by simp, hp⟩
    · simp only [hp, if_false, Bool.false_eq_true] at h
      obtain ⟨h1, y, h2, h3⟩ := ih (i + 1) h
      refine ⟨by omega, y, ?_, h3⟩
      have : j - i = (j - (i + 1)) + 1 := by omega
      rw [this, List.getElem?_cons_succ]
      exact h2

theorem find_index_none {α : Type} (p : α → Bool) (l : List α) (i : Nat)
    (h : find_index p l i = none) : ∀ x ∈ l, p x = false := by
  induction l generalizing i with
  | nil => simp
  | cons x xs ih =>
    unfold find_index at h
    by_cases hp : p x = true
    · simp [hp] at h
    · simp only [hp, if_false, Bool.false_eq_true] at h
      intro y hy
      rcases List.mem_cons.mp hy with rfl | hy
      · simpa using hp
      · exact ih (i + 1) h y hy

theorem find_index_isSome {α : Type} (p : α → Bool) (l : List α) (i : Nat) (x : α)
    (hx : x ∈ l) (hp : p x = true) : ∃ j, find_index p l i = some j := by
  cases h : find_index p l i with
  | some j => exact ⟨j, rfl⟩
  | none =>
    have := find_index_none p l i h x hx
    rw [hp] at this
    cases this

theorem ParameterByName_some (effect : RenderEffect) (name : Str) (param : RenderEffectParameter)
    (h : effect.ParameterByName name = some param) :
    param.Name = name ∧ param.effect = effect.id ∧ effect.params[param.index]? = some param.decl := by
  unfold RenderEffect.ParameterByName at h
  cases hf : find_index (fun d => decide (d.name = name)) effect.params 0 with
  | none => simp [hf] at h
  | some i =>
    simp only [hf] at h
    obtain ⟨_, d, hd, hp⟩ := find_index_some _ _ _ _ hf
    simp only [Nat.sub_zero] at hd
    simp only [hd, Option.some.injEq] at h
    subst h
    exact ⟨by simpa using hp, rfl, hd⟩

theorem ParameterByName_of_mem (effect : RenderEffect) (d : ParameterDecl)
    (hd : d ∈ effect.params) : ∃ param, effect.ParameterByName d.name = some param := by
  unfold RenderEffect.ParameterByName
  obtain ⟨j, hj⟩ := find_index_isSome (fun e => decide (e.name = d.name)) effect.params 0 d hd
    (by simp)
  obtain ⟨_, x, hx, _⟩ := find_index_some _ _ _ _ hj
  simp only [Nat.sub_zero] at hx
  simp [hj, hx]

theorem cb_index_eq (effect : RenderEffect) (name : Str) (c : Nat)
    (h : effect.CBufferByName name = some c) :
    ((List.range effect.NumCBuffers).find? (fun j => effect.CBufferByIndex j = some c)).getD 0
      = c := by
  unfold RenderEffect.CBufferByName at h
  obtain ⟨_, x, hx, _⟩ := find_index_some _ _ _ _ h
  simp only [Nat.sub_zero] at hx
  have hlt : c < effect.cbuffers.length := by
    by_contra hge
    rw [List.getElem?_eq_none (by omega)] at hx
    cases hx
  have key : ∀ (n : Nat), c < n →
      (List.range n).find? (fun j => effect.CBufferByIndex j = some c) = some c := by
    intro n hn
    induction n with
    | zero => omega
    | succ n ih =>
      rw [List.range_succ, List.find?_append]
      by_cases hc : c < n
      · rw [ih hc]; rfl
      · have hcn : c = n := by omega
        subst hcn
        have hnone : (List.range c).find? (fun j => effect.CBufferByIndex j = some c) = none := by
          rw [List.find?_eq_none]
          intro j hj
          rw [List.mem_range] at hj
          simp only [RenderEffect.CBufferByIndex, decide_eq_true_eq]
          split
          · intro he
            simp only [Option.some.injEq] at he
            omega
          · simp
        rw [hnone]
        simp [RenderEffect.CBufferByIndex, hlt]
  unfold RenderEffect.NumCBuffers
  rw [key _ hlt]
  rfl

/-! ### The cut names -/

theorem find_and_cut_eq_none (c : Byte) (v : List Byte) :
    find_and_cut c v = none ↔ c ∉ v := by
  induction v with
  | nil => simp [find_and_cut]
  | cons x xs ih =>
    rw [find_and_cut]
    by_cases hx : x = c
    · simp [hx]
    · simp only [hx, if_false]
      cases hf : find_and_cut c xs with
      | none =>
        have := ih.mp hf
        simp [this, Ne.symm hx]
      | some ys =>
        have : ¬ (c ∉ xs) := fun hn => by rw [ih.mpr hn] at hf; cases hf
        simp only [reduceCtorEq, false_iff, List.mem_cons, not_or, not_and, not_not]
        intro _
        exact not_not.mp this

theorem find_and_cut_cons (c x : Byte) (xs : List Byte) :
    find_and_cut c (x :: xs) =
      if x = c then some (0 :: xs) else (find_and_cut c xs).map (fun ys => x :: ys) := by
  rw [find_and_cut]
  by_cases hx : x = c
  · simp [hx]
  · simp only [hx, if_false]
    cases find_and_cut c xs <;> rfl

theorem after_bracket_cons (x : Byte) (xs : List Byte) :
    after_bracket (x :: xs) = if x = 91 then 0 :: xs else x :: after_bracket xs := by
  simp only [after_bracket, find_and_cut_cons]
  by_cases hx : x = 91
  · simp [hx]
  · simp only [hx, if_false]
    cases find_and_cut 91 xs <;> rfl

theorem mem_after_bracket_46 (v : List Byte) : (46 : Byte) ∈ after_bracket v ↔ (46 : Byte) ∈ v := by
  induction v with
  | nil => simp [after_bracket, find_and_cut]
  | cons x xs ih =>
    rw [after_bracket_cons]
    by_cases hx : x = 91
    · subst hx
      simp only [if_true, List.mem_cons]
      constructor
      · rintro (h | h)
        · exact absurd h (by decide)
        · exact Or.inr h
      · rintro (h | h)
        · exact absurd h (by decide)
        · exact Or.inr h
    · simp only [hx, if_false, List.mem_cons, ih]

theorem member_name_eq (name : Str) (hnul : (0 : Byte) ∉ name) :
    c_str (after_bracket (name ++ [0])) = cutAtBracket name := by
  induction name with
  | nil => simp [after_bracket, find_and_cut, c_str, cutAtBracket]
  | cons x xs ih =>
    have hx0 : x ≠ 0 := fun h => hnul (by simp [h])
    have hxs : (0 : Byte) ∉ xs := fun h => hnul (List.mem_cons_of_mem _ h)
    rw [List.cons_append, after_bracket_cons]
    by_cases hx : x = 91
    · subst hx
      simp [c_str, cutAtBracket]
    · have := ih hxs
      simp only [hx, if_false]
      unfold c_str cutAtBracket at *
      simp only [List.takeWhile_cons, hx0, hx, ne_eq, not_false_eq_true, decide_True, if_true,
        List.cons.injEq, true_and]
      exact this

theorem struct_name_eq (name : Str) (hnul : (0 : Byte) ∉ name) :
    (find_and_cut 46 (after_bracket (name ++ [0]))).map c_str =
      if (46 : Byte) ∈ name then some (cutAtBracketAndDot name) else none := by
  induction name with
  | nil => simp [after_bracket, find_and_cut]
  | cons x xs ih =>
    have hx0 : x ≠ 0 := fun h => hnul (by simp [h])
    have hxs : (0 : Byte) ∉ xs := fun h => hnul (List.mem_cons_of_mem _ h)
    have ih' := ih hxs
    rw [List.cons_append, after_bracket_cons]
    by_cases hx : x = 91
    · subst hx
      have h46 : ((46 : Byte) ∈ (91 : Byte) :: xs) ↔ (46 : Byte) ∈ xs := by
        simp only [List.mem_cons]
        constructor
        · rintro (h | h)
          · exact absurd h (by decide)
          · exact h
        · exact Or.inr
      simp only [if_true, h46]
      rw [find_and_cut_cons]
      simp only [show ¬ ((0 : Byte) = 46) by decide, if_false]
      by_cases hm : (46 : Byte) ∈ xs
      · have hm' : (46 : Byte) ∈ xs ++ [0] := List.mem_append_left _ hm
        cases hf : find_and_cut 46 (xs ++ [0]) with
        | none => exact absurd hm' ((find_and_cut_eq_none _ _).mp hf)
        | some ys => simp [hm, c_str, cutAtBracketAndDot]
      · have hm' : (46 : Byte) ∉ xs ++ [0] := by
          simp only [List.mem_append, List.mem_singleton, not_or]
          exact ⟨hm, by decide⟩
        rw [(find_and_cut_eq_none _ _).mpr hm']
        simp [hm]
    · simp only [hx, if_false]
      rw [find_and_cut_cons]
      by_cases hd : x = 46
      · subst hd
        simp [c_str, cutAtBracketAndDot]
      · simp only [hd, if_false]
        have h46 : ((46 : Byte) ∈ x :: xs) ↔ (46 : Byte) ∈ xs := by
          simp only [List.mem_cons]
          constructor
          · rintro (h | h)
            · exact absurd h.symm hd
            · exact h
          · exact Or.inr
        simp only [h46]
        cases hf : find_and_cut 46 (after_bracket (xs ++ [0])) with
        | none =>
          rw [hf] at ih'
          simp only [Option.map_none'] at ih' ⊢
          split at ih'
          · cases ih'
          · rename_i hm
            simp [hm]
        | some ys =>
          rw [hf] at ih'
          simp only [Option.map_some'] at ih' ⊢
          split at ih'
          · rename_i hm
            simp only [Option.some.injEq] at ih'
            simp only [hm, if_true, Option.some.injEq]
            unfold c_str cutAtBracketAndDot at *
            simp only [List.takeWhile_cons, hx0, hx, hd, ne_eq, not_false_eq_true, decide_True,
              if_true, and_self, List.cons.injEq, true_and]
            exact ih'
          · cases ih'

/-! ### The map `struct_offsets` -/

theorem map_find_insert (m : List (Str × Int)) (k k' : Str) (v : Int)
    (hk : map_find m k = none) :
    map_find (map_insert m k v) k' = if k = k' then some v else map_find m k' := by
  induction m with
  | nil => simp [map_insert, map_find]
  | cons e m ih =>
    have he : e.1 ≠ k := by
      intro h
      simp [map_find, h] at hk
    have hk' : map_find m k = none := by
      simpa [map_find, he] using hk
    unfold map_insert
    by_cases hlt : k < e.1
    · simp only [hlt, if_true]
      rw [map_find]
    · simp only [hlt, if_false]
      rw [map_find, ih hk']
      by_cases h1 : e.1 = k'
      · have : k ≠ k' := fun h => he (h1.trans h.symm)
        simp [h1, this, map_find]
      · simp [h1, map_find]

theorem map_find_assign (m : List (Str × Int)) (k k' : Str) (v : Int) :
    map_find (map_assign m k v) k' =
      if k = k' then (map_find m k).map (fun _ => v) else map_find m k' := by
  induction m with
  | nil => simp [map_assign, map_find]
  | cons e m ih =>
    unfold map_assign
    by_cases h1 : e.1 = k
    · simp only [h1, if_true]
      by_cases h2 : k = k'
      · simp [map_find, h1, h2]
      · simp [map_find, h1, h2]
    · simp only [h1, if_false]
      rw [map_find, ih]
      by_cases h2 : k = k'
      · subst h2
        simp [map_find, h1]
      · simp [map_find, h2]

theorem map_find_foldStruct (m : List (Str × Int)) (u : ActiveUniform) (k : Str) :
    map_find (foldStruct m u) k = foldMin k (map_find m k) u := by
  unfold foldStruct foldMin
  by_cases hd : (46 : Byte) ∈ u.name
  · simp only [hd, if_true, true_and]
    cases hf : map_find m (cutAtBracketAndDot u.name) with
    | none =>
      simp only []
      rw [map_find_insert _ _ _ _ hf]
      by_cases hk : cutAtBracketAndDot u.name = k
      · subst hk
        simp [hf]
      · simp [hk]
    | some second =>
      simp only []
      rw [map_find_assign]
      by_cases hk : cutAtBracketAndDot u.name = k
      · subst hk
        simp [hf]
      · simp [hk]
  · simp [hd]

theorem map_find_foldl (us : List ActiveUniform) (m : List (Str × Int)) (k : Str) :
    map_find (us.foldl foldStruct m) k = us.foldl (foldMin k) (map_find m k) := by
  induction us generalizing m with
  | nil => rfl
  | cons u us ih => simp only [List.foldl_cons, ih, map_find_foldStruct]

/-- The fold of `foldMin` from a value `a` ends at a value that is `a` or the offset of a
leaf, and is at most `a` and at most the offset of every leaf. -/
theorem foldMin_some (k : Str) (us : List ActiveUniform) (a : Int) :
    ∃ v, us.foldl (foldMin k) (some a) = some v ∧ v ≤ a ∧
      (v = a ∨ ∃ u ∈ leavesOf k us, u.offset = v) ∧ ∀ u ∈ leavesOf k us, v ≤ u.offset := by
  induction us generalizing a with
  | nil => exact ⟨a, rfl, Int.le_refl _, Or.inl rfl, by simp [leavesOf]⟩
  | cons u us ih =>
    simp only [List.foldl_cons]
    by_cases hl : (46 : Byte) ∈ u.name ∧ cutAtBracketAndDot u.name = k
    · have hstep : foldMin k (some a) u = some (min a u.offset) := by simp [foldMin, hl]
      rw [hstep]
      obtain ⟨v, h1, h2, h3, h4⟩ := ih (min a u.offset)
      have hleaves : leavesOf k (u :: us) = u :: leavesOf k us := by
        simp [leavesOf, List.filter_cons, hl]
      refine ⟨v, h1, le_trans h2 (min_le_left _ _), ?_, ?_⟩
      · rw [hleaves]
        rcases h3 with h3 | ⟨w, hw, hwv⟩
        · rcases min_choice a u.offset with hm | hm
          · exact Or.inl (h3.trans hm)
          · exact Or.inr ⟨u, List.mem_cons_self _ _, (h3.trans hm).symm⟩
        · exact Or.inr ⟨w, List.mem_cons_of_mem _ hw, hwv⟩
      · rw [hleaves]
        intro w hw
        rcases List.mem_cons.mp hw with rfl | hw
        · exact le_trans h2 (min_le_right _ _)
        · exact h4 w hw
    · have hstep : foldMin k (some a) u = some a := by simp [foldMin, hl]
      rw [hstep]
      have hleaves : leavesOf k (u :: us) = leavesOf k us := by
        simp [leavesOf, List.filter_cons, hl]
      rw [hleaves]
      exact ih a

/-- The fold of `foldMin` from the empty value: nothing when the struct has no leaf,
otherwise the least offset of its leaves. -/
theorem foldMin_none (k : Str) (us : List ActiveUniform) :
    (leavesOf k us = [] ∧ us.foldl (foldMin k) none = none) ∨
    ∃ v, us.foldl (foldMin k) none = some v ∧
      (∃ u ∈ leavesOf k us, u.offset = v) ∧ ∀ u ∈ leavesOf k us, v ≤ u.offset := by
  induction us with
  | nil => exact Or.inl ⟨rfl, rfl⟩
  | cons u us ih =>
    simp only [List.foldl_cons]
    by_cases hl : (46 : Byte) ∈ u.name ∧ cutAtBracketAndDot u.name = k
    · have hstep : foldMin k none u = some u.offset := by simp [foldMin, hl]
      rw [hstep]
      have hleaves : leavesOf k (u :: us) = u :: leavesOf k us := by
        simp [leavesOf, List.filter_cons, hl]
      obtain ⟨v, h1, h2, h3, h4⟩ := foldMin_some k us u.offset
      refine Or.inr ⟨v, h1, ?_, ?_⟩
      · rw [hleaves]
        rcases h3 with h3 | ⟨w, hw, hwv⟩
        · exact ⟨u, List.mem_cons_self _ _, h3.symm⟩
        · exact ⟨w, List.mem_cons_of_mem _ hw, hwv⟩
      · rw [hleaves]
        intro w hw
        rcases List.mem_cons.mp hw with rfl | hw
        · exact h2
        · exact h4 w hw
    · have hstep : foldMin k none u = none := by simp [foldMin, hl]
      rw [hstep]
      have hleaves : leavesOf k (u :: us) = leavesOf k us := by
        simp [leavesOf, List.filter_cons, hl]
      rw [hleaves]
      exact ih

theorem map_find_none_iff (m : List (Str × Int)) (k : Str) :
    map_find m k = none ↔ k ∉ m.map Prod.fst := by
  induction m with
  | nil => simp [map_find]
  | cons e m ih =>
    rw [map_find]
    by_cases h : e.1 = k
    · simp [h]
    · simp only [h, if_false, ih, List.map_cons, List.mem_cons, not_or]
      exact ⟨fun hm => ⟨fun hk => h hk.symm, hm⟩, fun hm => hm.2⟩

theorem map_find_mem (m : List (Str × Int)) (k : Str) (v : Int) (h : map_find m k = some v) :
    (k, v) ∈ m := by
  induction m with
  | nil => simp [map_find] at h
  | cons e m ih =>
    rw [map_find] at h
    by_cases h1 : e.1 = k
    · simp only [h1, if_true, Option.some.injEq] at h
      have : e = (k, v) := Prod.ext h1 h
      simp [this]
    · simp only [h1, if_false] at h
      exact List.mem_cons_of_mem _ (ih h)

theorem map_find_of_mem (m : List (Str × Int)) (k : Str) (v : Int)
    (hnd : (m.map Prod.fst).Nodup) (h : (k, v) ∈ m) : map_find m k = some v := by
  induction m with
  | nil => simp at h
  | cons e m ih =>
    rw [List.map_cons, List.nodup_cons] at hnd
    rw [map_find]
    rcases List.mem_cons.mp h with h | h
    · simp [← h]
    · have hne : e.1 ≠ k := by
        intro he
        apply hnd.1
        rw [he]
        exact List.mem_map.mpr ⟨(k, v), h, rfl⟩
      simp only [hne, if_false]
      exact ih hnd.2 h

theorem map_insert_keys (m : List (Str × Int)) (k : Str) (v : Int) :
    ((map_insert m k v).map Prod.fst).Perm (k :: m.map Prod.fst) := by
  induction m with
  | nil => simp [map_insert]
  | cons e m ih =>
    unfold map_insert
    by_cases hlt : k < e.1
    · simp [hlt]
    · simp only [hlt, if_false, List.map_cons]
      exact (List.Perm.cons _ ih).trans (List.Perm.swap _ _ _)

theorem map_assign_keys (m : List (Str × Int)) (k : Str) (v : Int) :
    (map_assign m k v).map Prod.fst = m.map Prod.fst := by
  induction m with
  | nil => rfl
  | cons e m ih =>
    unfold map_assign
    by_cases h : e.1 = k
    · simp [h]
    · simp [h, ih]

theorem foldStruct_keys (m : List (Str × Int)) (u : ActiveUniform)
    (hnd : (m.map Prod.fst).Nodup) :
    ((foldStruct m u).map Prod.fst).Nodup ∧
    ∀ k ∈ (foldStruct m u).map Prod.fst,
      k ∈ m.map Prod.fst ∨ ((46 : Byte) ∈ u.name ∧ cutAtBracketAndDot u.name = k) := by
  unfold foldStruct
  by_cases hd : (46 : Byte) ∈ u.name
  · simp only [hd, if_true, true_and]
    cases hf : map_find m (cutAtBracketAndDot u.name) with
    | none =>
      simp only []
      have hp := map_insert_keys m (cutAtBracketAndDot u.name) u.offset
      refine ⟨hp.nodup_iff.mpr (List.nodup_cons.mpr ⟨(map_find_none_iff _ _).mp hf, hnd⟩), ?_⟩
      intro k hk
      rcases List.mem_cons.mp (hp.mem_iff.mp hk) with h | h
      · exact Or.inr h.symm
      · exact Or.inl h
    | some second =>
      simp only []
      rw [map_assign_keys]
      exact ⟨hnd, fun k hk => Or.inl hk⟩
  · simp only [hd, if_false]
    exact ⟨hnd, fun k hk => Or.inl hk⟩

theorem foldl_foldStruct_keys (us : List ActiveUniform) (m : List (Str × Int))
    (hnd : (m.map Prod.fst).Nodup) :
    ((us.foldl foldStruct m).map Prod.fst).Nodup ∧
    ∀ k ∈ (us.foldl foldStruct m).map Prod.fst,
      k ∈ m.map Prod.fst ∨ ∃ u ∈ us, (46 : Byte) ∈ u.name ∧ cutAtBracketAndDot u.name = k := by
  induction us generalizing m with
  | nil => exact ⟨hnd, fun k hk => Or.inl hk⟩
  | cons u us ih =>
    simp only [List.foldl_cons]
    obtain ⟨h1, h2⟩ := foldStruct_keys m u hnd
    obtain ⟨h3, h4⟩ := ih (foldStruct m u) h1
    refine ⟨h3, ?_⟩
    intro k hk
    rcases h4 k hk with h | ⟨w, hw, hwk⟩
    · rcases h2 k h with h | h
      · exact Or.inl h
      · exact Or.inr ⟨u, List.mem_cons_self _ _, h⟩
    · exact Or.inr ⟨w, List.mem_cons_of_mem _ hw, hwk⟩

/-! ### The loops of `AttachUBOs` -/

theorem AttachUBOs_uniform_eq (effect : RenderEffect) (cb_index : Nat) (m : List (Str × Int))
    (calls : List Call) (u : ActiveUniform) (hnul : (0 : Byte) ∉ u.name) :
    AttachUBOs.uniform effect cb_index (m, calls) u =
      if (46 : Byte) ∈ u.name then .ok (foldStruct m u, calls)
      else
        match effect.ParameterByName (cutAtBracket u.name) with
        | some param =>
          .ok (m, calls ++ [Call.BindToCBuffer param cb_index u.offset (selectStride param u)])
        | none => .error .null_deref := by
  have hs := struct_name_eq u.name hnul
  have hm := member_name_eq u.name hnul
  unfold AttachUBOs.uniform
  simp only []
  change (match find_and_cut 46 (after_bracket (u.name ++ [0])) with
    | some uniform_name =>
      match map_find m (c_str uniform_name) with
      | none => pure (map_insert m (c_str uniform_name) u.offset, calls)
      | some second => pure (map_assign m (c_str uniform_name) (min second u.offset), calls)
    | none => do
      let param ← deref (effect.ParameterByName (c_str (after_bracket (u.name ++ [0]))))
      let stride :=
        if param.ArraySize ≠ 0 then u.array_stride
        else if param.type ≠ .REDT_float4x4 then 4
        else u.matrix_stride
      pure (m, calls ++ [Call.BindToCBuffer param cb_index u.offset stride])) = _
  rw [hm]
  by_cases hd : (46 : Byte) ∈ u.name
  · simp only [hd, if_true] at hs ⊢
    cases hf : find_and_cut 46 (after_bracket (u.name ++ [0])) with
    | none => rw [hf] at hs; cases hs
    | some v =>
      rw [hf] at hs
      simp only [Option.map_some', Option.some.injEq] at hs
      simp only [hs, foldStruct, hd, if_true]
      cases map_find m (cutAtBracketAndDot u.name) <;> rfl
  · simp only [hd, if_false] at hs ⊢
    cases hf : find_and_cut 46 (after_bracket (u.name ++ [0])) with
    | some v => rw [hf] at hs; cases hs
    | none =>
      simp only []
      cases effect.ParameterByName (cutAtBracket u.name) with
      | none => rfl
      | some param => rfl

/-- The loop over the uniforms of a block, when it returns: the map is the fold of
`foldStruct`, the calls are those of the members that are not struct members, in order. -/
theorem AttachUBOs_uniforms_ok (effect : RenderEffect) (cb_index : Nat)
    (us : List ActiveUniform) (m m' : List (Str × Int)) (calls calls' : List Call)
    (hnul : ∀ u ∈ us, (0 : Byte) ∉ u.name)
    (h : AttachUBOs.uniforms effect cb_index (m, calls) us = .ok (m', calls')) :
    m' = us.foldl foldStruct m ∧ calls' = calls ++ us.filterMap (memberCall effect cb_index) ∧
    ∀ u ∈ us, (46 : Byte) ∉ u.name → ∃ p, effect.ParameterByName (cutAtBracket u.name) = some p := by
  induction us generalizing m calls with
  | nil =>
    simp only [AttachUBOs.uniforms, Except.pure_eq_ok, Except.ok.injEq, Prod.mk.injEq] at h
    simp [h.1, h.2]
  | cons u us ih =>
    have hu := hnul u (List.mem_cons_self _ _)
    have hus : ∀ w ∈ us, (0 : Byte) ∉ w.name := fun w hw => hnul w (List.mem_cons_of_mem _ hw)
    simp only [AttachUBOs.uniforms] at h
    rw [AttachUBOs_uniform_eq _ _ _ _ _ hu] at h
    by_cases hd : (46 : Byte) ∈ u.name
    · simp only [hd, if_true, Except.ok_bind] at h
      obtain ⟨h1, h2, h3⟩ := ih _ _ hus h
      refine ⟨h1, ?_, ?_⟩
      · rw [h2]
        simp [List.filterMap_cons, memberCall, hd]
      · intro w hw hwd
        rcases List.mem_cons.mp hw with rfl | hw
        · exact absurd hd hwd
        · exact h3 w hw hwd
    · simp only [hd, if_false] at h
      cases hp : effect.ParameterByName (cutAtBracket u.name) with
      | none => rw [hp] at h; simp at h
      | some param =>
        rw [hp] at h
        simp only [Except.ok_bind] at h
        obtain ⟨h1, h2, h3⟩ := ih _ _ hus h
        refine ⟨by rw [h1]; simp [foldStruct, hd], ?_, ?_⟩
        · rw [h2]
          simp [List.filterMap_cons, memberCall, hd, hp]
        · intro w hw hwd
          rcases List.mem_cons.mp hw with rfl | hw
          · exact ⟨param, hp⟩
          · exact h3 w hw hwd

/-- The loop over the uniforms of a block returns when every member that is not a struct
member has a parameter. -/
theorem AttachUBOs_uniforms_total (effect : RenderEffect) (cb_index : Nat)
    (us : List ActiveUniform) (m : List (Str × Int)) (calls : List Call)
    (hnul : ∀ u ∈ us, (0 : Byte) ∉ u.name)
    (hdecl : ∀ u ∈ us, (46 : Byte) ∉ u.name →
      ∃ p, effect.ParameterByName (cutAtBracket u.name) = some p) :
    ∃ st, AttachUBOs.uniforms effect cb_index (m, calls) us = .ok st := by
  induction us generalizing m calls with
  | nil => exact ⟨_, rfl⟩
  | cons u us ih =>
    have hu := hnul u (List.mem_cons_self _ _)
    have hus : ∀ w ∈ us, (0 : Byte) ∉ w.name := fun w hw => hnul w (List.mem_cons_of_mem _ hw)
    have hds : ∀ w ∈ us, (46 : Byte) ∉ w.name →
        ∃ p, effect.ParameterByName (cutAtBracket w.name) = some p :=
      fun w hw => hdecl w (List.mem_cons_of_mem _ hw)
    simp only [AttachUBOs.uniforms]
    rw [AttachUBOs_uniform_eq _ _ _ _ _ hu]
    by_cases hd : (46 : Byte) ∈ u.name
    · simp only [hd, if_true, Except.ok_bind]
      exact ih _ _ hus hds
    · obtain ⟨p, hp⟩ := hdecl u (List.mem_cons_self _ _) hd
      simp only [hd, if_false, hp, Except.ok_bind]
      exact ih _ _ hus hds

/-- The loop over `struct_offsets`, when it returns: one call per entry of the map, in
order, for the parameter named by the key, at the value of the entry, with stride 1. -/
theorem AttachUBOs_structs_ok (effect : RenderEffect) (cb_index : Nat) (m : List (Str × Int))
    (calls : List Call) (h : AttachUBOs.structs effect cb_index m = .ok calls) :
    List.Forall₂
      (fun (item : Str × Int) (call : Call) =>
        ∃ param, effect.ParameterByName item.1 = some param ∧ param.type = .REDT_struct ∧
          call = Call.BindToCBuffer param cb_index item.2 1) m calls := by
  induction m generalizing calls with
  | nil =>
    simp only [AttachUBOs.structs, Except.pure_eq_ok, Except.ok.injEq] at h
    subst h
    exact List.Forall₂.nil
  | cons item items ih =>
    simp only [AttachUBOs.structs] at h
    cases hp : effect.ParameterByName item.1 with
    | none => rw [hp] at h; simp [deref] at h
    | some param =>
      rw [hp] at h
      simp only [deref, Except.ok_bind] at h
      by_cases ht : param.type = .REDT_struct
      · simp only [BOOST_ASSERT, ht, decide_True, if_true, Except.ok_bind] at h
        cases hr : AttachUBOs.structs effect cb_index items with
        | error e => rw [hr] at h; simp at h
        | ok rest =>
          rw [hr] at h
          simp only [Except.ok_bind, Except.pure_eq_ok, Except.ok.injEq] at h
          subst h
          exact List.Forall₂.cons ⟨param, hp, ht, rfl⟩ (ih rest hr)
      · simp [BOOST_ASSERT, ht] at h

/-- The loop over `struct_offsets` returns when every key names a struct parameter. -/
theorem AttachUBOs_structs_total (effect : RenderEffect) (cb_index : Nat)
    (m : List (Str × Int))
    (hdecl : ∀ k ∈ m.map Prod.fst,
      ∃ p, effect.ParameterByName k = some p ∧ p.type = .REDT_struct) :
    ∃ calls, AttachUBOs.structs effect cb_index m = .ok calls := by
  induction m with
  | nil => exact ⟨_, rfl⟩
  | cons item items ih =>
    obtain ⟨p, hp, ht⟩ := hdecl item.1 (by simp)
    obtain ⟨calls, hc⟩ := ih (fun k hk => hdecl k (by
      rw [List.map_cons]; exact List.mem_cons_of_mem _ hk))
    refine ⟨Call.BindToCBuffer p cb_index item.2 1 :: calls, ?_⟩
    simp [AttachUBOs.structs, hp, deref, BOOST_ASSERT, ht, hc]

/-- One iteration of the outer loop of `AttachUBOs`, when it returns. -/
theorem AttachUBOs_block_ok (gl : GLProgram) (effect : RenderEffect) (i : Nat)
    (block : ActiveUniformBlock) (att : BlockAttachment)
    (hnul : ∀ u ∈ block.uniforms, (0 : Byte) ∉ u.name)
    (h : AttachUBOs.block gl effect i block = .ok att) :
    effect.CBufferByName block.name = some att.cb_index ∧
    att.setup = [Call.glUniformBlockBinding (gl.glGetUniformBlockIndex block.name) i,
      Call.Resize att.cb_index block.data_size] ∧
    att.member_binds = block.uniforms.filterMap (memberCall effect att.cb_index) ∧
    (∀ u ∈ block.uniforms, (46 : Byte) ∉ u.name →
      ∃ p, effect.ParameterByName (cutAtBracket u.name) = some p) ∧
    AttachUBOs.structs effect att.cb_index (block.uniforms.foldl foldStruct []) =
      .ok att.struct_binds := by
  unfold AttachUBOs.block at h
  cases hc : effect.CBufferByName block.name with
  | none => simp [hc, BOOST_ASSERT] at h
  | some c =>
    simp only [hc, BOOST_ASSERT, Option.isSome_some, if_true, deref, Except.ok_bind,
      cb_index_eq effect block.name c hc] at h
    cases hu : AttachUBOs.uniforms effect c ([], []) block.uniforms with
    | error e => rw [hu] at h; simp at h
    | ok st =>
      obtain ⟨m', calls'⟩ := st
      rw [hu] at h
      simp only [Except.ok_bind] at h
      obtain ⟨h1, h2, h3⟩ := AttachUBOs_uniforms_ok effect c block.uniforms [] m' [] calls' hnul hu
      cases hs : AttachUBOs.structs effect c m' with
      | error e => rw [hs] at h; simp at h
      | ok sb =>
        rw [hs] at h
        simp only [Except.ok_bind, Except.pure_eq_ok, Except.ok.injEq] at h
        subst h
        refine ⟨rfl, rfl, ?_, h3, ?_⟩
        · simpa using h2
        · rw [← h1]; exact hs

/-- One iteration of the outer loop of `AttachUBOs` returns when the effect declares what
the block needs. -/
theorem AttachUBOs_block_total (gl : GLProgram) (effect : RenderEffect) (i : Nat)
    (block : ActiveUniformBlock) (hnul : ∀ u ∈ block.uniforms, (0 : Byte) ∉ u.name)
    (hc : ∃ c, effect.CBufferByName block.name = some c)
    (hm : ∀ u ∈ block.uniforms, (46 : Byte) ∉ u.name →
      ∃ p, effect.ParameterByName (cutAtBracket u.name) = some p)
    (hs : ∀ u ∈ block.uniforms, (46 : Byte) ∈ u.name →
      ∃ p, effect.ParameterByName (cutAtBracketAndDot u.name) = some p ∧
        p.type = .REDT_struct) :
    ∃ att, AttachUBOs.block gl effect i block = .ok att := by
  obtain ⟨c, hc⟩ := hc
  obtain ⟨st, hst⟩ := AttachUBOs_uniforms_total effect c block.uniforms [] [] hnul hm
  obtain ⟨m', calls'⟩ := st
  obtain ⟨h1, _, _⟩ := AttachUBOs_uniforms_ok effect c block.uniforms [] m' [] calls' hnul hst
  have hkeys : ∀ k ∈ m'.map Prod.fst,
      ∃ p, effect.ParameterByName k = some p ∧ p.type = .REDT_struct := by
    intro k hk
    rw [h1] at hk
    rcases (foldl_foldStruct_keys block.uniforms [] (by simp)).2 k hk with h | ⟨u, hu, hd, hk'⟩
    · simp at h
    · rw [← hk']; exact hs u hu hd
  obtain ⟨sb, hsb⟩ := AttachUBOs_structs_total effect c m' hkeys
  unfold AttachUBOs.block
  simp only [hc, BOOST_ASSERT, Option.isSome_some, if_true, deref, Except.ok_bind,
    cb_index_eq effect block.name c hc, hst, hsb, Except.pure_eq_ok]
  exact ⟨_, rfl⟩

theorem AttachUBOs_blocks_ok (gl : GLProgram) (effect : RenderEffect) (blocks : List ActiveUniformBlock)
    (i0 : Nat) (r : List BlockAttachment) (h : AttachUBOs.blocks gl effect i0 blocks = .ok r) :
    r.length = blocks.length ∧
    ∀ i block att, blocks[i]? = some block → r[i]? = some att →
      AttachUBOs.block gl effect (i0 + i) block = .ok att := by
  induction blocks generalizing i0 r with
  | nil =>
    simp only [AttachUBOs.blocks, Except.pure_eq_ok, Except.ok.injEq] at h
    subst h
    simp
  | cons b bs ih =>
    simp only [AttachUBOs.blocks] at h
    cases hb : AttachUBOs.block gl effect i0 b with
    | error e => rw [hb] at h; simp at h
    | ok att0 =>
      rw [hb] at h
      simp only [Except.ok_bind] at h
      cases hr : AttachUBOs.blocks gl effect (i0 + 1) bs with
      | error e => rw [hr] at h; simp at h
      | ok rest =>
        rw [hr] at h
        simp only [Except.ok_bind, Except.pure_eq_ok, Except.ok.injEq] at h
        subst h
        obtain ⟨h1, h2⟩ := ih (i0 + 1) rest hr
        refine ⟨by simp [h1], ?_⟩
        intro i block att hblock hatt
        cases i with
        | zero =>
          simp only [List.getElem?_cons_zero, Option.some.injEq] at hblock hatt
          subst hblock hatt
          exact hb
        | succ i =>
          simp only [List.getElem?_cons_succ] at hblock hatt
          have := h2 i block att hblock hatt
          rwa [show i0 + 1 + i = i0 + (i + 1) by omega] at this

theorem AttachUBOs_blocks_total (gl : GLProgram) (effect : RenderEffect)
    (blocks : List ActiveUniformBlock) (i0 : Nat)
    (h : ∀ block ∈ blocks, ∀ i, ∃ att, AttachUBOs.block gl effect i block = .ok att) :
    ∃ r, AttachUBOs.blocks gl effect i0 blocks = .ok r := by
  induction blocks generalizing i0 with
  | nil => exact ⟨_, rfl⟩
  | cons b bs ih =>
    obtain ⟨att, ha⟩ := h b (List.mem_cons_self _ _) i0
    obtain ⟨r, hr⟩ := ih (i0 + 1) (fun block hb => h block (List.mem_cons_of_mem _ hb))
    exact ⟨att :: r, by simp [AttachUBOs.blocks, ha, hr]⟩

/-- The method `AttachUBOs` returns when the effect declares what the reflection needs. -/
theorem AttachUBOs_total (gl : GLProgram) (effect : RenderEffect) (hnul : NulFree gl)
    (hdecl : Declares effect gl) : ∃ r, AttachUBOs gl effect = .ok r := by
  unfold AttachUBOs
  apply AttachUBOs_blocks_total
  intro block hb i
  obtain ⟨hc, hm, hs⟩ := hdecl block hb
  refine AttachUBOs_block_total gl effect i block (hnul block hb)
    (Option.isSome_iff_exists.mp hc) (fun u hu hd => Option.isSome_iff_exists.mp (hm u hu hd)) ?_
  intro u hu hd
  have := hs u hu hd
  cases hp : effect.ParameterByName (cutAtBracketAndDot u.name) with
  | none => rw [hp] at this; cases this
  | some p =>
    rw [hp] at this
    simp only [Option.map_some', Option.some.injEq] at this
    exact ⟨p, rfl, this⟩

/-- The method `AttachUBOs`, when it returns: the attachment of each active block. -/
theorem AttachUBOs_ok (gl : GLProgram) (effect : RenderEffect) (r : List BlockAttachment)
    (h : AttachUBOs gl effect = .ok r) :
    r.length = gl.blocks.length ∧
    ∀ i block att, gl.blocks[i]? = some block → r[i]? = some att →
      AttachUBOs.block gl effect i block = .ok att := by
  obtain ⟨h1, h2⟩ := AttachUBOs_blocks_ok gl effect gl.blocks 0 r h
  refine ⟨h1, ?_⟩
  intro i block att hb ha
  have := h2 i block att hb ha
  rwa [Nat.zero_add] at this

theorem forall₂_left_mem {α β : Type} {R : α → β → Prop} {l₁ : List α} {l₂ : List β}
    (h : List.Forall₂ R l₁ l₂) {a : α} (ha : a ∈ l₁) : ∃ b ∈ l₂, R a b := by
  induction h with
  | nil => simp at ha
  | cons hab _ ih =>
    rcases List.mem_cons.mp ha with rfl | ha
    · exact ⟨_, List.mem_cons_self _ _, hab⟩
    · obtain ⟨b, hb, hr⟩ := ih ha
      exact ⟨b, List.mem_cons_of_mem _ hb, hr⟩

theorem forall₂_right_mem {α β : Type} {R : α → β → Prop} {l₁ : List α} {l₂ : List β}
    (h : List.Forall₂ R l₁ l₂) {b : β} (hb : b ∈ l₂) : ∃ a ∈ l₁, R a b := by
  induction h with
  | nil => simp at hb
  | cons hab _ ih =>
    rcases List.mem_cons.mp hb with rfl | hb
    · exact ⟨_, List.mem_cons_self _ _, hab⟩
    · obtain ⟨a, ha, hr⟩ := ih hb
      exact ⟨a, List.mem_cons_of_mem _ ha, hr⟩

theorem find_index_map {α β : Type} (p : β → Bool) (g : α → β) (l : List α) (i : Nat) :
    find_index p (l.map g) i = find_index (fun a => p (g a)) l i := by
  induction l generalizing i with
  | nil => rfl
  | cons x xs ih => simp only [List.map_cons, find_index, ih]

theorem AttachUBOs_uniforms_row_major (effect : RenderEffect) (cb_index : Nat)
    (f : ActiveUniform → Int) (us : List ActiveUniform) (st : List (Str × Int) × List Call) :
    AttachUBOs.uniforms effect cb_index st (us.map (fun u => { u with is_row_major := f u })) =
      AttachUBOs.uniforms effect cb_index st us := by
  induction us generalizing st with
  | nil => rfl
  | cons u us ih =>
    simp only [List.map_cons, AttachUBOs.uniforms]
    have hstep : AttachUBOs.uniform effect cb_index st { u with is_row_major := f u } =
        AttachUBOs.uniform effect cb_index st u := rfl
    rw [hstep]
    cases AttachUBOs.uniform effect cb_index st u with
    | error e => rfl
    | ok st1 => simp only [Except.ok_bind, ih]

theorem AttachUBOs_blocks_row_major (gl : GLProgram) (effect : RenderEffect)
    (f : ActiveUniform → Int) (blocks : List ActiveUniformBlock) (i : Nat) :
    AttachUBOs.blocks (gl.withRowMajor f) effect i
        (blocks.map (fun b =>
          { b with uniforms := b.uniforms.map (fun u => { u with is_row_major := f u }) })) =
      AttachUBOs.blocks gl effect i blocks := by
  induction blocks generalizing i with
  | nil => rfl
  | cons b bs ih =>
    simp only [List.map_cons, AttachUBOs.blocks, ih]
    have hidx : ∀ name, (gl.withRowMajor f).glGetUniformBlockIndex name =
        gl.glGetUniformBlockIndex name := by
      intro name
      simp only [GLProgram.glGetUniformBlockIndex, GLProgram.withRowMajor, find_index_map]
    have hblock : AttachUBOs.block (gl.withRowMajor f) effect i
          { b with uniforms := b.uniforms.map (fun u => { u with is_row_major := f u }) } =
        AttachUBOs.block gl effect i b := by
      simp only [AttachUBOs.block, hidx, AttachUBOs_uniforms_row_major]
    rw [hblock]

/-! ## Lemmas: `DoLinkShaders` -/

theorem grow_slots_length (prog : OGLESShaderObject) :
    SlotsOfLength (grow_slots prog) (prog.textures_.length + 1) := by
  simp only [SlotsOfLength, grow_slots, resize_length, and_self]

theorem forLoopM_invariant {σ : Type} (I : σ → Prop) (body : Nat → σ → Except Fault σ)
    (hbody : ∀ i st st', I st → body i st = .ok st' → I st') (k i : Nat) (st st' : σ)
    (h0 : I st) (h : forLoopM body k i st = .ok st') : I st' := by
  induction k generalizing i st with
  | zero =>
    simp only [forLoopM, Except.pure_eq_ok, Except.ok.injEq] at h
    exact h ▸ h0
  | succ k ih =>
    simp only [forLoopM] at h
    cases hb : body i st with
    | error e => rw [hb] at h; simp at h
    | ok st1 =>
      rw [hb] at h
      simp only [Except.ok_bind] at h
      exact ih (i + 1) st1 (hbody i st st1 h0 hb) h

theorem WellBound_none (table : List TexSamplerBind) (pb : ParameterBind)
    (h : WellBound table pb) (hnull : pb.param = none) :
    ∃ (i : Nat) (e : TexSamplerBind), pb.tex_sampler_bind_index = some i ∧
      table[i]? = some e ∧ e.1 = pb.combined_sampler_name := by
  unfold WellBound at h
  rw [hnull] at h
  simp only [] at h
  cases hi : pb.tex_sampler_bind_index with
  | none => rw [hi] at h; cases h
  | some i =>
    rw [hi] at h
    simp only [Option.some_bind] at h
    cases he : table[i]? with
    | none => rw [he] at h; cases h
    | some e =>
      rw [he] at h
      simp only [Option.map_some', Option.some.injEq] at h
      exact ⟨i, e, rfl, he, h⟩

theorem at_index_ok {α : Type} (v : List α) (i : Nat) (a : α) (h : v[i]? = some a) :
    at_index v i = .ok a := by
  simp [at_index, h]

theorem at_index_eq_ok {α : Type} (v : List α) (i : Nat) (a : α) (h : at_index v i = .ok a) :
    v[i]? = some a := by
  unfold at_index at h
  cases hv : v[i]? with
  | none => rw [hv] at h; cases h
  | some b =>
    rw [hv] at h
    simp only [Except.ok.injEq] at h
    rw [h]

theorem find_index_first {α : Type} (p : α → Bool) (l : List α) (i : Nat) (x : α)
    (hx : l[i]? = some x) (hp : p x = true)
    (hfirst : ∀ j < i, ∀ y, l[j]? = some y → p y = false) (i0 : Nat) :
    find_index p l i0 = some (i0 + i) := by
  induction l generalizing i i0 with
  | nil => simp at hx
  | cons a as ih =>
    unfold find_index
    cases i with
    | zero =>
      simp only [List.getElem?_cons_zero, Option.some.injEq] at hx
      subst hx
      simp [hp]
    | succ i =>
      have ha : p a = false := hfirst 0 (by omega) a (by simp)
      simp only [ha, Bool.false_eq_true, if_false]
      simp only [List.getElem?_cons_succ] at hx
      have := ih i hx (fun j hj y hy => hfirst (j + 1) (by omega) y (by simpa using hy)) (i0 + 1)
      rw [this]
      congr 1
      omega

theorem find_index_eq_none {α : Type} (p : α → Bool) (l : List α) (i0 : Nat)
    (h : ∀ x ∈ l, p x = false) : find_index p l i0 = none := by
  induction l generalizing i0 with
  | nil => rfl
  | cons a as ih =>
    unfold find_index
    simp only [h a (List.mem_cons_self _ _), Bool.false_eq_true, if_false]
    exact ih (i0 + 1) (fun x hx => h x (List.mem_cons_of_mem _ hx))

/-- What one iteration of the loop over the used names leaves of the program: the table is
untouched, and the bindings stay `WellBound`. -/
theorem bind_param_invariant (gl : GLProgram) (effect : RenderEffect)
    (shader_stage : OGLESShaderStageObject) (table : List TexSamplerBind) (pi : Nat)
    (prog prog' : OGLESShaderObject)
    (h0 : prog.tex_sampler_binds_ = table ∧ ∀ pb ∈ prog.param_binds_, WellBound table pb)
    (h : DoLinkShaders.bind_param gl effect shader_stage pi prog = .ok prog') :
    prog'.tex_sampler_binds_ = table ∧ ∀ pb ∈ prog'.param_binds_, WellBound table pb := by
  obtain ⟨ht, hb⟩ := h0
  unfold DoLinkShaders.bind_param at h
  cases hr : at_index shader_stage.glsl_res_names_ pi with
  | error e => rw [hr] at h; simp at h
  | ok rn =>
    rw [hr] at h
    simp only [Except.ok_bind] at h
    by_cases hloc : gl.glGetUniformLocation rn ≠ -1
    · rw [if_pos hloc] at h
      cases hn : at_index shader_stage.pnames_ pi with
      | error e => rw [hn] at h; simp at h
      | ok pn =>
        rw [hn] at h
        simp only [Except.ok_bind] at h
        cases hp : effect.ParameterByName pn with
        | some p =>
          rw [hp] at h
          simp only [] at h
          by_cases hty : p.type = .REDT_buffer
          · simp only [BOOST_ASSERT, hty, decide_True, if_true, Except.ok_bind,
              Except.pure_eq_ok, Except.ok.injEq] at h
            subst h
            refine ⟨ht, ?_⟩
            intro pb hpb
            simp only [List.mem_append, List.mem_singleton] at hpb
            rcases hpb with hpb | hpb
            · exact hb pb hpb
            · subst hpb
              exact ⟨rfl, rfl⟩
          · simp [BOOST_ASSERT, hty] at h
        | none =>
          rw [hp] at h
          simp only [] at h
          cases hf : find_index (fun e => decide (e.1 = pn)) prog.tex_sampler_binds_ 0 with
          | none =>
            rw [hf] at h
            simp only [Except.pure_eq_ok, Except.ok.injEq] at h
            subst h
            exact ⟨ht, hb⟩
          | some i =>
            rw [hf] at h
            simp only [] at h
            obtain ⟨_, e, he, hpe⟩ := find_index_some _ _ _ _ hf
            simp only [Nat.sub_zero] at he
            rw [at_index_ok _ _ _ he] at h
            simp only [Except.ok_bind, Except.pure_eq_ok, Except.ok.injEq] at h
            subst h
            refine ⟨ht, ?_⟩
            intro pb hpb
            simp only [List.mem_append, List.mem_singleton] at hpb
            rcases hpb with hpb | hpb
            · exact hb pb hpb
            · subst hpb
              subst ht
              simp [WellBound, he]
    · rw [if_neg hloc] at h
      simp only [Except.pure_eq_ok, Except.ok.injEq] at h
      subst h
      exact ⟨ht, hb⟩

theorem bind_stage_invariant (gl : GLProgram) (effect : RenderEffect)
    (table : List TexSamplerBind) (stage : Nat) (prog prog' : OGLESShaderObject)
    (h0 : prog.tex_sampler_binds_ = table ∧ ∀ pb ∈ prog.param_binds_, WellBound table pb)
    (h : DoLinkShaders.bind_stage gl effect stage prog = .ok prog') :
    prog'.tex_sampler_binds_ = table ∧ ∀ pb ∈ prog'.param_binds_, WellBound table pb := by
  unfold DoLinkShaders.bind_stage at h
  cases hs : prog.Stage (ShaderStage.ofIndex stage) with
  | none =>
    rw [hs] at h
    simp only [Except.pure_eq_ok, Except.ok.injEq] at h
    exact h ▸ h0
  | some st =>
    rw [hs] at h
    exact forLoopM_invariant
      (fun p => p.tex_sampler_binds_ = table ∧ ∀ pb ∈ p.param_binds_, WellBound table pb) _
      (fun i a b ha hab => bind_param_invariant gl effect st table i a b ha hab) _ _ _ _ h0 h

theorem attribs_frame (gl : GLProgram) (prog prog' : OGLESShaderObject)
    (h : DoLinkShaders.attribs gl prog = .ok prog') :
    prog'.tex_sampler_binds_ = prog.tex_sampler_binds_ ∧ prog'.param_binds_ = prog.param_binds_ := by
  unfold DoLinkShaders.attribs at h
  cases hv : prog.Stage .Vertex with
  | none => rw [hv] at h; simp [deref] at h
  | some vs =>
    rw [hv] at h
    simp only [deref, Except.ok_bind] at h
    refine forLoopM_invariant
      (fun p => p.tex_sampler_binds_ = prog.tex_sampler_binds_ ∧
        p.param_binds_ = prog.param_binds_) _ ?_ _ _ _ _ ⟨rfl, rfl⟩ h
    intro i a b ha hab
    cases h1 : at_index vs.usages_ i with
    | error e => rw [h1] at hab; simp at hab
    | ok u =>
      cases h2 : at_index vs.usage_indices_ i with
      | error e => rw [h1, h2] at hab; simp at hab
      | ok ui =>
        cases h3 : at_index vs.glsl_attrib_names_ i with
        | error e => rw [h1, h2, h3] at hab; simp at hab
        | ok nm =>
          rw [h1, h2, h3] at hab
          simp only [Except.ok_bind, Except.pure_eq_ok, Except.ok.injEq] at hab
          subst hab
          exact ha

theorem LinkGLSL_frame (gl : GLProgram) (prog prog' : OGLESShaderObject) (calls : List Call)
    (h : LinkGLSL gl prog = .ok (prog', calls)) :
    prog' = { prog with is_validate_ := prog.is_validate_ && gl.link_status } := by
  unfold LinkGLSL at h
  cases ha : LinkGLSL.attach prog with
  | error e => rw [ha] at h; simp at h
  | ok u =>
    rw [ha] at h
    simp only [Except.ok_bind, Except.pure_eq_ok, Except.ok.injEq, Prod.mk.injEq] at h
    exact h.1.symm

theorem retrieve_binary_frame (gl : GLProgram) (prog : OGLESShaderObject) :
    (DoLinkShaders.retrieve_binary gl prog).tex_sampler_binds_ = prog.tex_sampler_binds_ ∧
    (DoLinkShaders.retrieve_binary gl prog).param_binds_ = prog.param_binds_ := by
  unfold DoLinkShaders.retrieve_binary
  split
  · split
    · exact ⟨rfl, rfl⟩
    · exact ⟨rfl, rfl⟩
  · exact ⟨rfl, rfl⟩

/-- The bindings of a program after `DoLinkShaders`, when it returns: the table is the one
before, and the bindings are `WellBound` against it if those before were. -/
theorem DoLinkShaders_invariant (gl : GLProgram) (effect : RenderEffect)
    (prog r : OGLESShaderObject) (calls : List Call)
    (h : DoLinkShaders gl effect prog = .ok (r, calls))
    (h0 : ∀ pb ∈ prog.param_binds_, WellBound prog.tex_sampler_binds_ pb) :
    r.tex_sampler_binds_ = prog.tex_sampler_binds_ ∧
    ∀ pb ∈ r.param_binds_, WellBound r.tex_sampler_binds_ pb := by
  unfold DoLinkShaders at h
  by_cases hv : prog.is_validate_ = true
  · rw [if_pos hv] at h
    obtain ⟨lr, hl, h⟩ := (bind_eq_ok _ _ _).mp h
    obtain ⟨p1, c1⟩ := lr
    simp only [] at h
    obtain ⟨atts, _, h⟩ := (bind_eq_ok _ _ _).mp h
    obtain ⟨p2, hs, h⟩ := (bind_eq_ok _ _ _).mp h
    obtain ⟨p3, hat, h⟩ := (bind_eq_ok _ _ _).mp h
    simp only [Except.pure_eq_ok, Except.ok.injEq, Prod.mk.injEq] at h
    obtain ⟨h3, _⟩ := h
    subst h3
    have hp1 := LinkGLSL_frame gl prog p1 c1 hl
    obtain ⟨f1, f2⟩ := attribs_frame gl p2 p3 hat
    obtain ⟨g1, g2⟩ := retrieve_binary_frame gl
      { p1 with all_cbuff_indices_ := atts.map BlockAttachment.cb_index }
    have hinit := forLoopM_invariant
      (fun p => p.tex_sampler_binds_ = prog.tex_sampler_binds_ ∧
        ∀ pb ∈ p.param_binds_, WellBound prog.tex_sampler_binds_ pb) _
      (fun i a b ha hab =>
        bind_stage_invariant gl effect prog.tex_sampler_binds_ i a b ha hab)
      _ _ _ _ (by
        subst hp1
        exact ⟨g1, fun pb hpb => h0 pb (g2 ▸ hpb)⟩) hs
    refine ⟨f1.trans hinit.1, ?_⟩
    rw [f1, f2, hinit.1]
    exact hinit.2
  · rw [if_neg hv] at h
    simp only [Except.pure_eq_ok, Except.ok.injEq, Prod.mk.injEq] at h
    obtain ⟨h1, _⟩ := h
    subst h1
    exact ⟨rfl, h0⟩


/-! ### Clone -/

theorem Clone_tex_sampler_binds_ok (effect : RenderEffect) (table : List TexSamplerBind)
    (h : ∀ e ∈ table, e.2.1.isSome = true ∧ e.2.2.1.isSome = true) :
    Clone.tex_sampler_binds effect table = .ok (table.map (rebound effect)) := by
  induction table with
  | nil => rfl
  | cons e es ih =>
    obtain ⟨h1, h2⟩ := h e (List.mem_cons_self _ _)
    obtain ⟨tex, htex⟩ := Option.isSome_iff_exists.mp h1
    obtain ⟨sampler, hsampler⟩ := Option.isSome_iff_exists.mp h2
    unfold Clone.tex_sampler_binds
    rw [ih (fun x hx => h x (List.mem_cons_of_mem _ hx)), htex, hsampler]
    simp only [deref, Except.ok_bind, Except.pure_eq_ok, List.map_cons, rebound, htex, hsampler,
      Option.some_bind]

theorem find_index_exists {α : Type} (p : α → Bool) (l : List α) (i : Nat) (x : α)
    (hx : l[i]? = some x) (hp : p x = true) (i0 : Nat) :
    ∃ j, find_index p l i0 = some j := by
  induction l generalizing i i0 with
  | nil => simp at hx
  | cons a as ih =>
    unfold find_index
    by_cases ha : p a = true
    · exact ⟨i0, by simp [ha]⟩
    · cases i with
      | zero =>
        simp only [List.getElem?_cons_zero, Option.some.injEq] at hx
        subst hx
        exact absurd hp ha
      | succ i =>
        simp only [List.getElem?_cons_succ] at hx
        simp only [ha, Bool.false_eq_true, if_false]
        exact ih i hx (i0 + 1)

/-- One pass of the loop of `Clone` over the bindings: for a binding that is `WellBound`
against the original table, with the table of `ret` being the rebound one, the body returns
`ret` with its slot arrays grown by one and one binding appended that is `ClonedFrom` the
original binding. -/
theorem Clone_param_bind_ok (effect : RenderEffect) (ret : OGLESShaderObject)
    (table : List TexSamplerBind) (pb : ParameterBind)
    (ht : ret.tex_sampler_binds_ = table.map (rebound effect))
    (hw : WellBound table pb) (hb : BufferDeclared effect pb) :
    ∃ new_pb, Clone.param_bind effect ret pb =
        .ok { grow_slots ret with param_binds_ := (grow_slots ret).param_binds_ ++ [new_pb] } ∧
      ClonedFrom effect table pb new_pb := by
  cases hp : pb.param with
  | some p =>
    unfold BufferDeclared at hb
    rw [hp] at hb
    simp only [] at hb
    unfold WellBound at hw
    rw [hp] at hw
    simp only [] at hw
    cases hq : effect.ParameterByName p.Name with
    | none => rw [hq] at hb; cases hb
    | some q =>
      rw [hq] at hb
      simp only [Option.map_some', Option.some.injEq] at hb
      have hqe := ParameterByName_some effect p.Name q hq
      refine ⟨⟨[], some q, pb.location, none,
        .GraphicsBufferPtr pb.location ret.textures_.length (some q)⟩, ?_, ?_⟩
      · unfold Clone.param_bind
        rw [hp]
        simp only [hq, deref, Except.ok_bind, BOOST_ASSERT, hb, decide_True, if_true,
          Except.pure_eq_ok]
      · refine ⟨rfl, hw.1.symm, hw.2.symm, ?_, ?_⟩
        · intro p' hp'
          rw [hp] at hp'
          simp only [Option.some.injEq] at hp'
          subst hp'
          exact ⟨hq.symm, ⟨q, rfl, hqe.1, hqe.2.1⟩, ret.textures_.length, by rw [hq]⟩
        · intro hnone
          rw [hp] at hnone
          cases hnone
  | none =>
    obtain ⟨i, e, hi, he, hname⟩ := WellBound_none table pb hw hp
    have he' : ret.tex_sampler_binds_[i]? = some (rebound effect e) := by
      rw [ht, List.getElem?_map, he]
      rfl
    obtain ⟨j, hj⟩ := find_index_exists (fun x => decide (x.1 = pb.combined_sampler_name))
      ret.tex_sampler_binds_ i (rebound effect e) he' (by simp [rebound, hname]) 0
    refine ⟨⟨pb.combined_sampler_name, none, pb.location, some i,
      .TexturePtr pb.location ret.textures_.length (rebound effect e).2.1
        (rebound effect e).2.2.1⟩, ?_, ?_⟩
    · unfold Clone.param_bind
      rw [hp]
      simp only [hj, hi, assigned, Except.ok_bind, at_index_ok _ _ _ he', Except.pure_eq_ok]
    · refine ⟨rfl, rfl, hi.symm, ?_, ?_⟩
      · intro p' hp'
        rw [hp] at hp'
        cases hp'
      · intro _
        exact ⟨rfl, ret.textures_.length, i, e, hi, he, rfl⟩

/-- The loop of `Clone` over the bindings of the original returns, appends one binding per
original binding, each `ClonedFrom` its original, in order, leaves the table alone and
grows the slot arrays by one per binding. -/
theorem Clone_param_binds_ok (effect : RenderEffect) (table : List TexSamplerBind)
    (pbs : List ParameterBind) (ret : OGLESShaderObject)
    (ht : ret.tex_sampler_binds_ = table.map (rebound effect))
    (hw : ∀ pb ∈ pbs, WellBound table pb) (hb : ∀ pb ∈ pbs, BufferDeclared effect pb) :
    ∃ ret' news, Clone.param_binds effect ret pbs = .ok ret' ∧
      ret'.param_binds_ = ret.param_binds_ ++ news ∧
      List.Forall₂ (ClonedFrom effect table) pbs news ∧
      ret'.tex_sampler_binds_ = ret.tex_sampler_binds_ ∧
      (∀ n, SlotsOfLength ret n → SlotsOfLength ret' (n + pbs.length)) := by
  induction pbs generalizing ret with
  | nil =>
    exact ⟨ret, [], rfl, (List.append_nil _).symm, List.Forall₂.nil, rfl, fun n hn => hn⟩
  | cons pb pbs ih =>
    obtain ⟨new_pb, hstep, hcl⟩ := Clone_param_bind_ok effect ret table pb ht
      (hw pb (List.mem_cons_self _ _)) (hb pb (List.mem_cons_self _ _))
    obtain ⟨ret', news, hrest, hpbs, hall, htab, hslots⟩ :=
      ih { grow_slots ret with param_binds_ := (grow_slots ret).param_binds_ ++ [new_pb] }
        ht (fun x hx => hw x (List.mem_cons_of_mem _ hx))
        (fun x hx => hb x (List.mem_cons_of_mem _ hx))
    refine ⟨ret', new_pb :: news, ?_, ?_, List.Forall₂.cons hcl hall, ?_, ?_⟩
    · unfold Clone.param_binds
      rw [hstep]
      exact hrest
    · rw [hpbs]
      simp only [grow_slots, List.append_assoc, List.singleton_append]
    · rw [htab]
      rfl
    · intro n hn
      have hg := grow_slots_length ret
      rw [hn.1] at hg
      have := hslots (n + 1) hg
      rw [List.length_cons]
      rw [show n + (pbs.length + 1) = n + 1 + pbs.length by omega]
      exact this

theorem forall₂_getElem {α β : Type} {R : α → β → Prop} {l₁ : List α} {l₂ : List β}
    (h : List.Forall₂ R l₁ l₂) (i : Nat) (a : α) (ha : l₁[i]? = some a) :
    ∃ b, l₂[i]? = some b ∧ R a b := by
  induction h generalizing i with
  | nil => simp at ha
  | cons hab _ ih =>
    cases i with
    | zero =>
      simp only [List.getElem?_cons_zero, Option.some.injEq] at ha
      subst ha
      exact ⟨_, List.getElem?_cons_zero, hab⟩
    | succ i =>
      simp only [List.getElem?_cons_succ] at ha ⊢
      exact ih i ha

theorem forLoopM_unit_ok (body : Nat → Unit → Except Fault Unit)
    (hbody : ∀ i, body i () = .ok ()) (k i : Nat) : forLoopM body k i () = .ok () := by
  induction k generalizing i with
  | zero => rfl
  | succ k ih =>
    simp only [forLoopM, hbody i, Except.ok_bind]
    exact ih (i + 1)

theorem LinkGLSL_attach_ok (prog : OGLESShaderObject)
    (h : ∀ stage st, prog.Stage stage = some st → st.gl_shader_ ≠ 0) :
    LinkGLSL.attach prog = .ok () := by
  unfold LinkGLSL.attach
  apply forLoopM_unit_ok
  intro i
  cases hs : prog.Stage (ShaderStage.ofIndex i) with
  | none => rfl
  | some st =>
    simp only [BOOST_ASSERT, h _ st hs, ne_eq, not_false_eq_true, decide_True, if_true]

/-- The link step of `Clone` returns, and changes nothing but `is_validate_`. -/
theorem Clone_link_ok (gl : GLProgram) (binary : List Byte) (ret : OGLESShaderObject)
    (h : binary ≠ [] ∨ ∀ stage st, ret.Stage stage = some st → st.gl_shader_ ≠ 0) :
    ∃ v calls, Clone.link gl binary ret = .ok ({ ret with is_validate_ := v }, calls) := by
  unfold Clone.link
  by_cases hbin : binary ≠ []
  · rw [if_pos hbin]
    exact ⟨ret.is_validate_, [], rfl⟩
  · rw [if_neg hbin]
    have hatt := LinkGLSL_attach_ok ret (h.resolve_left hbin)
    unfold LinkGLSL
    rw [hatt]
    exact ⟨_, _, rfl⟩

/-! ### The slot arrays after `DoLinkShaders` -/

theorem grow_slots_push (prog : OGLESShaderObject) (pb : ParameterBind)
    (h0 : SlotsOfLength prog prog.param_binds_.length) :
    SlotsOfLength { grow_slots prog with param_binds_ := (grow_slots prog).param_binds_ ++ [pb] }
      ({ grow_slots prog with
        param_binds_ := (grow_slots prog).param_binds_ ++ [pb] } : OGLESShaderObject).param_binds_.length := by
  have hg := grow_slots_length prog
  rw [h0.1] at hg
  simp only [List.length_append, List.length_singleton]
  exact hg

theorem bind_param_slots (gl : GLProgram) (effect : RenderEffect)
    (shader_stage : OGLESShaderStageObject) (pi : Nat) (prog prog' : OGLESShaderObject)
    (h0 : SlotsOfLength prog prog.param_binds_.length)
    (h : DoLinkShaders.bind_param gl effect shader_stage pi prog = .ok prog') :
    SlotsOfLength prog' prog'.param_binds_.length := by
  unfold DoLinkShaders.bind_param at h
  cases hr : at_index shader_stage.glsl_res_names_ pi with
  | error e => rw [hr] at h; simp at h
  | ok rn =>
    rw [hr] at h
    simp only [Except.ok_bind] at h
    by_cases hloc : gl.glGetUniformLocation rn ≠ -1
    · rw [if_pos hloc] at h
      cases hn : at_index shader_stage.pnames_ pi with
      | error e => rw [hn] at h; simp at h
      | ok pn =>
        rw [hn] at h
        simp only [Except.ok_bind] at h
        cases hp : effect.ParameterByName pn with
        | some p =>
          rw [hp] at h
          simp only [] at h
          by_cases hty : p.type = .REDT_buffer
          · simp only [BOOST_ASSERT, hty, decide_True, if_true, Except.ok_bind,
              Except.pure_eq_ok, Except.ok.injEq] at h
            subst h
            exact grow_slots_push prog _ h0
          · simp [BOOST_ASSERT, hty] at h
        | none =>
          rw [hp] at h
          simp only [] at h
          cases hf : find_index (fun e => decide (e.1 = pn)) prog.tex_sampler_binds_ 0 with
          | none =>
            rw [hf] at h
            simp only [Except.pure_eq_ok, Except.ok.injEq] at h
            subst h
            exact h0
          | some i =>
            rw [hf] at h
            simp only [] at h
            obtain ⟨_, e, he, hpe⟩ := find_index_some _ _ _ _ hf
            simp only [Nat.sub_zero] at he
            rw [at_index_ok _ _ _ he] at h
            simp only [Except.ok_bind, Except.pure_eq_ok, Except.ok.injEq] at h
            subst h
            exact grow_slots_push prog _ h0
    · rw [if_neg hloc] at h
      simp only [Except.pure_eq_ok, Except.ok.injEq] at h
      subst h
      exact h0

theorem bind_stage_slots (gl : GLProgram) (effect : RenderEffect) (stage : Nat)
    (prog prog' : OGLESShaderObject) (h0 : SlotsOfLength prog prog.param_binds_.length)
    (h : DoLinkShaders.bind_stage gl effect stage prog = .ok prog') :
    SlotsOfLength prog' prog'.param_binds_.length := by
  unfold DoLinkShaders.bind_stage at h
  cases hs : prog.Stage (ShaderStage.ofIndex stage) with
  | none =>
    rw [hs] at h
    simp only [Except.pure_eq_ok, Except.ok.injEq] at h
    exact h ▸ h0
  | some st =>
    rw [hs] at h
    exact forLoopM_invariant (fun p => SlotsOfLength p p.param_binds_.length) _
      (fun i a b ha hab => bind_param_slots gl effect st i a b ha hab) _ _ _ _ h0 h

theorem attribs_slots (gl : GLProgram) (prog prog' : OGLESShaderObject)
    (h0 : SlotsOfLength prog prog.param_binds_.length)
    (h : DoLinkShaders.attribs gl prog = .ok prog') :
    SlotsOfLength prog' prog'.param_binds_.length := by
  unfold DoLinkShaders.attribs at h
  cases hv : prog.Stage .Vertex with
  | none => rw [hv] at h; simp [deref] at h
  | some vs =>
    rw [hv] at h
    simp only [deref, Except.ok_bind] at h
    refine forLoopM_invariant (fun p => SlotsOfLength p p.param_binds_.length) _ ?_ _ _ _ _ h0 h
    intro i a b ha hab
    cases h1 : at_index vs.usages_ i with
    | error e => rw [h1] at hab; simp at hab
    | ok u =>
      cases h2 : at_index vs.usage_indices_ i with
      | error e => rw [h1, h2] at hab; simp at hab
      | ok ui =>
        cases h3 : at_index vs.glsl_attrib_names_ i with
        | error e => rw [h1, h2, h3] at hab; simp at hab
        | ok nm =>
          rw [h1, h2, h3] at hab
          simp only [Except.ok_bind, Except.pure_eq_ok, Except.ok.injEq] at hab
          subst hab
          exact ha

theorem retrieve_binary_slots (gl : GLProgram) (prog : OGLESShaderObject)
    (h0 : SlotsOfLength prog prog.param_binds_.length) :
    SlotsOfLength (DoLinkShaders.retrieve_binary gl prog)
      (DoLinkShaders.retrieve_binary gl prog).param_binds_.length := by
  unfold DoLinkShaders.retrieve_binary
  split
  · split
    · exact h0
    · exact h0
  · exact h0

/-- The slot arrays of a program after `DoLinkShaders`, when it returns: one slot per
binding in each of the four arrays, if that held before (as it does for a new program). -/
theorem DoLinkShaders_slots (gl : GLProgram) (effect : RenderEffect)
    (prog r : OGLESShaderObject) (calls : List Call)
    (h : DoLinkShaders gl effect prog = .ok (r, calls))
    (h0 : SlotsOfLength prog prog.param_binds_.length) :
    SlotsOfLength r r.param_binds_.length := by
  unfold DoLinkShaders at h
  by_cases hv : prog.is_validate_ = true
  · rw [if_pos hv] at h
    obtain ⟨lr, hl, h⟩ := (bind_eq_ok _ _ _).mp h
    obtain ⟨p1, c1⟩ := lr
    simp only [] at h
    obtain ⟨atts, _, h⟩ := (bind_eq_ok _ _ _).mp h
    obtain ⟨p2, hs, h⟩ := (bind_eq_ok _ _ _).mp h
    obtain ⟨p3, hat, h⟩ := (bind_eq_ok _ _ _).mp h
    simp only [Except.pure_eq_ok, Except.ok.injEq, Prod.mk.injEq] at h
    obtain ⟨h3, _⟩ := h
    subst h3
    have hp1 := LinkGLSL_frame gl prog p1 c1 hl
    have hinit := forLoopM_invariant (fun p => SlotsOfLength p p.param_binds_.length) _
      (fun i a b ha hab => bind_stage_slots gl effect i a b ha hab)
      _ _ _ _ (by
        subst hp1
        exact retrieve_binary_slots gl _ h0) hs
    exact attribs_slots gl p2 p3 hinit hat
  · rw [if_neg hv] at h
    simp only [Except.pure_eq_ok, Except.ok.injEq, Prod.mk.injEq] at h
    rw [← h.1]
    exact h0


/-! ### RetrieveTfbVaryings -/

theorem RetrieveTfbVaryings_name_ok (d : StreamOutputDecl)
    (h : d.usage ∈ vertex_element_usages) : ∃ n, RetrieveTfbVaryings.name d = .ok n := by
  simp only [vertex_element_usages, List.mem_cons, List.mem_singleton, List.not_mem_nil,
    or_false] at h
  unfold RetrieveTfbVaryings.name
  rcases h with h | h | h | h | h | h | h | h | h <;> rw [h] <;> exact ⟨_, rfl⟩

/-- The loop of `RetrieveTfbVaryings` from a state whose `slot` is already taken from a
declaration: the slot stays, the flag is raised by every declaration with another slot, one
name is appended per declaration. -/
theorem RetrieveTfbVaryings_decls_set (ds : List StreamOutputDecl) (slot : Int) (flag : Bool)
    (names : List Str) (hslot : 0 ≤ slot)
    (husage : ∀ d ∈ ds, d.usage ∈ vertex_element_usages) :
    ∃ more, RetrieveTfbVaryings.decls (slot, flag, names) ds =
        .ok (slot, flag || ds.any (fun d => decide (d.slot ≠ slot)), names ++ more) ∧
      more.length = ds.length := by
  induction ds generalizing flag names with
  | nil => exact ⟨[], by simp [RetrieveTfbVaryings.decls], rfl⟩
  | cons d ds ih =>
    obtain ⟨n, hn⟩ := RetrieveTfbVaryings_name_ok d (husage d (List.mem_cons_self _ _))
    have hnot : ¬ slot < 0 := not_lt.mpr hslot
    by_cases hd : slot ≠ d.slot
    · obtain ⟨more, hmore, hlen⟩ := ih true (names ++ [n])
        (fun x hx => husage x (List.mem_cons_of_mem _ hx))
      refine ⟨n :: more, ?_, by simp [hlen]⟩
      unfold RetrieveTfbVaryings.decls RetrieveTfbVaryings.decl
      simp only [hnot, if_false, hd, ne_eq, not_false_eq_true, if_true, hn, Except.ok_bind,
        Except.pure_eq_ok]
      rw [hmore]
      have hd' : d.slot ≠ slot := fun h => hd h.symm
      simp [hd']
    · obtain ⟨more, hmore, hlen⟩ := ih flag (names ++ [n])
        (fun x hx => husage x (List.mem_cons_of_mem _ hx))
      refine ⟨n :: more, ?_, by simp [hlen]⟩
      unfold RetrieveTfbVaryings.decls RetrieveTfbVaryings.decl
      simp only [hnot, if_false, hd, if_false, hn, Except.ok_bind, Except.pure_eq_ok]
      rw [hmore]
      have hd' : d.slot = slot := (not_not.mp hd).symm
      simp [hd']

theorem slots_differ_iff (d : StreamOutputDecl) (ds : List StreamOutputDecl) :
    ds.any (fun x => decide (x.slot ≠ d.slot)) = true ↔
      ∃ a ∈ d :: ds, ∃ b ∈ d :: ds, a.slot ≠ b.slot := by
  constructor
  · intro h
    obtain ⟨x, hx, hne⟩ := List.any_eq_true.mp h
    exact ⟨x, List.mem_cons_of_mem _ hx, d, List.mem_cons_self _ _, of_decide_eq_true hne⟩
  · rintro ⟨a, ha, b, hb, hab⟩
    apply List.any_eq_true.mpr
    by_cases h1 : a.slot = d.slot
    · have hb' : b.slot ≠ d.slot := fun h => hab (h1.trans h.symm)
      rcases List.mem_cons.mp hb with rfl | hb
      · exact absurd rfl hb'
      · exact ⟨b, hb, decide_eq_true hb'⟩
    · rcases List.mem_cons.mp ha with rfl | ha
      · exact absurd rfl h1
      · exact ⟨a, ha, decide_eq_true h1⟩


/-! ### The vertex input semantics -/

theorem texcoord_prefix_ne (sem name : Str) (hp : (ascii "TEXCOORD").isPrefixOf sem = true)
    (hn : (ascii "TEXCOORD").isPrefixOf name = false) : sem ≠ name := by
  rintro rfl
  rw [hp] at hn
  cases hn

theorem semantic_entry (sem : Str) (idx mask : Nat) (e : VertexElementUsage × Byte × Str)
    (h : StageSpecificAttachShader.semantic sem idx = .ok e) :
    SemanticEntry ⟨sem, idx, mask⟩ e := by
  unfold StageSpecificAttachShader.semantic at h
  unfold SemanticEntry
  dsimp only
  by_cases h1 : sem = ascii "POSITION"
  · subst h1
    simp only [if_true, Except.pure_eq_ok, Except.ok.injEq] at h
    subst h
    refine ⟨?_, ?_, ?_, ?_, ?_, ?_, ?_, ?_, ?_⟩ <;> intro h <;>
      first | rfl | exact absurd h (by decide)
  rw [if_neg h1] at h
  by_cases h2 : sem = ascii "NORMAL"
  · subst h2
    simp only [if_true, Except.pure_eq_ok, Except.ok.injEq] at h
    subst h
    refine ⟨?_, ?_, ?_, ?_, ?_, ?_, ?_, ?_, ?_⟩ <;> intro h <;>
      first | rfl | exact absurd h (by decide)
  rw [if_neg h2] at h
  by_cases h3 : sem = ascii "COLOR"
  · subst h3
    rw [if_pos rfl] at h
    by_cases h0 : idx = 0
    · simp only [h0, if_true, Except.pure_eq_ok, Except.ok.injEq] at h
      subst h
      refine ⟨?_, ?_, ?_, ?_, ?_, ?_, ?_, ?_, ?_⟩ <;> intro h <;>
        first | rfl | exact absurd h (by decide) | (intro h'; first | rfl | exact absurd h0 h')
    · simp only [h0, if_false, Except.pure_eq_ok, Except.ok.injEq] at h
      subst h
      refine ⟨?_, ?_, ?_, ?_, ?_, ?_, ?_, ?_, ?_⟩ <;> intro h <;>
        first | rfl | exact absurd h (by decide) | (intro h'; first | rfl | exact absurd h' h0)
  rw [if_neg h3] at h
  by_cases h4 : sem = ascii "BLENDWEIGHT"
  · subst h4
    simp only [if_true, Except.pure_eq_ok, Except.ok.injEq] at h
    subst h
    refine ⟨?_, ?_, ?_, ?_, ?_, ?_, ?_, ?_, ?_⟩ <;> intro h <;>
      first | rfl | exact absurd h (by decide)
  rw [if_neg h4] at h
  by_cases h5 : sem = ascii "BLENDINDICES"
  · subst h5
    simp only [if_true, Except.pure_eq_ok, Except.ok.injEq] at h
    subst h
    refine ⟨?_, ?_, ?_, ?_, ?_, ?_, ?_, ?_, ?_⟩ <;> intro h <;>
      first | rfl | exact absurd h (by decide)
  rw [if_neg h5] at h
  by_cases h6 : (ascii "TEXCOORD").isPrefixOf sem = true
  · simp only [h6, if_true, Except.pure_eq_ok, Except.ok.injEq] at h
    subst h
    refine ⟨?_, ?_, ?_, ?_, ?_, ?_, ?_, ?_, ?_⟩ <;> intro h
    · exact absurd h h1
    · exact absurd h h2
    · exact absurd h h3
    · exact absurd h h3
    · exact absurd h h4
    · exact absurd h h5
    · exact ⟨rfl, rfl, rfl⟩
    · exact absurd h (texcoord_prefix_ne _ _ h6 (by decide))
    · exact absurd h (texcoord_prefix_ne _ _ h6 (by decide))
  rw [if_neg h6] at h
  by_cases h7 : sem = ascii "TANGENT"
  · subst h7
    simp only [if_true, Except.pure_eq_ok, Except.ok.injEq] at h
    subst h
    refine ⟨?_, ?_, ?_, ?_, ?_, ?_, ?_, ?_, ?_⟩ <;> intro h <;>
      first | rfl | exact absurd h (by decide)
  rw [if_neg h7] at h
  by_cases h8 : sem = ascii "BINORMAL"
  · subst h8
    simp only [if_true, Except.pure_eq_ok, Except.ok.injEq] at h
    subst h
    refine ⟨?_, ?_, ?_, ?_, ?_, ?_, ?_, ?_, ?_⟩ <;> intro h <;>
      first | rfl | exact absurd h (by decide)
  rw [if_neg h8] at h
  cases h

theorem semantic_known_ok (sem : Str) (idx : Nat) (h : KnownSemantic sem) :
    ∃ e, StageSpecificAttachShader.semantic sem idx = .ok e := by
  unfold StageSpecificAttachShader.semantic
  by_cases h1 : sem = ascii "POSITION"
  · rw [if_pos h1]; exact ⟨_, rfl⟩
  rw [if_neg h1]
  by_cases h2 : sem = ascii "NORMAL"
  · rw [if_pos h2]; exact ⟨_, rfl⟩
  rw [if_neg h2]
  by_cases h3 : sem = ascii "COLOR"
  · rw [if_pos h3]
    by_cases h0 : idx = 0
    · rw [if_pos h0]; exact ⟨_, rfl⟩
    · rw [if_neg h0]; exact ⟨_, rfl⟩
  rw [if_neg h3]
  by_cases h4 : sem = ascii "BLENDWEIGHT"
  · rw [if_pos h4]; exact ⟨_, rfl⟩
  rw [if_neg h4]
  by_cases h5 : sem = ascii "BLENDINDICES"
  · rw [if_pos h5]; exact ⟨_, rfl⟩
  rw [if_neg h5]
  by_cases h6 : (ascii "TEXCOORD").isPrefixOf sem = true
  · rw [if_pos h6]; exact ⟨_, rfl⟩
  rw [if_neg h6]
  by_cases h7 : sem = ascii "TANGENT"
  · rw [if_pos h7]; exact ⟨_, rfl⟩
  rw [if_neg h7]
  by_cases h8 : sem = ascii "BINORMAL"
  · rw [if_pos h8]; exact ⟨_, rfl⟩
  exfalso
  unfold KnownSemantic at h
  simp only [List.mem_cons, List.mem_singleton, List.not_mem_nil, or_false] at h
  rcases h with (h | h | h | h | h | h | h) | h
  · exact h1 h
  · exact h2 h
  · exact h3 h
  · exact h4 h
  · exact h5 h
  · exact h7 h
  · exact h8 h
  · exact h6 h


theorem StageSpecificAttachShader_input_skip (s : OGLESShaderStageObject) (p : DXBCInputParam)
    (h : emitted p = false) : StageSpecificAttachShader.input s p = .ok s := by
  unfold StageSpecificAttachShader.input
  by_cases hm : p.mask ≠ 0
  · rw [if_pos hm]
    by_cases hsv : p.semantic_name ≠ ascii "SV_VertexID" ∧ p.semantic_name ≠ ascii "SV_InstanceID"
    · exfalso
      have : emitted p = true := by
        unfold emitted
        exact decide_eq_true ⟨hm, hsv⟩
      rw [h] at this
      cases this
    · simp only []
      rw [if_neg hsv]
      rfl
  · rw [if_neg hm]
    rfl

theorem StageSpecificAttachShader_input_emit (s : OGLESShaderStageObject) (p : DXBCInputParam)
    (h : emitted p = true) (hk : KnownSemantic p.semantic_name) :
    ∃ e, StageSpecificAttachShader.input s p = .ok { s with
        usages_ := s.usages_ ++ [e.1]
        usage_indices_ := s.usage_indices_ ++ [e.2.1]
        glsl_attrib_names_ := s.glsl_attrib_names_ ++ [e.2.2] } ∧
      SemanticEntry p e := by
  unfold emitted at h
  obtain ⟨hm, hsv⟩ := of_decide_eq_true h
  obtain ⟨e, he⟩ := semantic_known_ok p.semantic_name p.semantic_index hk
  refine ⟨e, ?_, semantic_entry p.semantic_name p.semantic_index p.mask e he⟩
  unfold StageSpecificAttachShader.input
  rw [if_pos hm]
  simp only []
  rw [if_pos hsv, he]
  rfl

/-- The loop of the vertex stage over the input parameters appends one entry to each of
the three arrays per emitted input, in order, each as the table says. -/
theorem StageSpecificAttachShader_inputs_entries (ps : List DXBCInputParam)
    (s : OGLESShaderStageObject)
    (hk : ∀ p ∈ ps, emitted p = true → KnownSemantic p.semantic_name) :
    ∃ entries : List (VertexElementUsage × Byte × Str),
      StageSpecificAttachShader.inputs s ps = .ok { s with
        usages_ := s.usages_ ++ entries.map (fun e => e.1)
        usage_indices_ := s.usage_indices_ ++ entries.map (fun e => e.2.1)
        glsl_attrib_names_ := s.glsl_attrib_names_ ++ entries.map (fun e => e.2.2) } ∧
      List.Forall₂ SemanticEntry (ps.filter emitted) entries := by
  induction ps generalizing s with
  | nil =>
    refine ⟨[], ?_, List.Forall₂.nil⟩
    simp [StageSpecificAttachShader.inputs]
  | cons p ps ih =>
    cases hp : emitted p with
    | false =>
      obtain ⟨entries, hrun, hall⟩ := ih s (fun x hx => hk x (List.mem_cons_of_mem _ hx))
      refine ⟨entries, ?_, ?_⟩
      · unfold StageSpecificAttachShader.inputs
        rw [StageSpecificAttachShader_input_skip s p hp]
        exact hrun
      · rw [List.filter_cons_of_neg (by simp [hp])]
        exact hall
    | true =>
      obtain ⟨e, hstep, he⟩ := StageSpecificAttachShader_input_emit s p hp
        (hk p (List.mem_cons_self _ _) hp)
      obtain ⟨entries, hrun, hall⟩ := ih _ (fun x hx => hk x (List.mem_cons_of_mem _ hx))
      refine ⟨e :: entries, ?_, ?_⟩
      · unfold StageSpecificAttachShader.inputs
        rw [hstep]
        simp only [Except.ok_bind]
        rw [hrun]
        simp only [List.append_assoc, List.singleton_append, List.map_cons]
      · rw [List.filter_cons_of_pos hp]
        exact List.Forall₂.cons he hall


/-! ### The domain stage in CompileShader -/

theorem StageSpecificAttachShader_domain (s : OGLESShaderStageObject) (tr : DXBC2GLSL)
    (h : s.stage_ = .Domain) : StageSpecificAttachShader s tr = .ok s := by
  unfold StageSpecificAttachShader
  rw [h]
  rfl

theorem CompileShader_translated_domain (s : OGLESShaderStageObject) (tr : DXBC2GLSL)
    (h : s.stage_ = .Domain) :
    ∃ t, CompileShader.translated s tr = .ok t ∧
      t.ds_partitioning_ = s.ds_partitioning_ ∧
      t.ds_output_primitive_ = s.ds_output_primitive_ := by
  unfold CompileShader.translated
  simp only [CompileShader_variables_eq, CompileShader_resources_eq, CompileShader_combine_eq]
  refine ⟨_, StageSpecificAttachShader_domain _ tr ?_, rfl, rfl⟩
  exact h

/-- The block `if (is_validate_)` of `CompileShader` returns for a domain stage and leaves
its tessellation enums as they are. -/
theorem CompileShader_compile_domain (env : CompileEnv) (has_ps : Bool)
    (s : OGLESShaderStageObject) (h : s.stage_ = .Domain) :
    ∃ t, CompileShader.compile env has_ps s = .ok t ∧
      t.ds_partitioning_ = s.ds_partitioning_ ∧
      t.ds_output_primitive_ = s.ds_output_primitive_ := by
  unfold CompileShader.compile
  by_cases hv : s.is_validate_ = true
  · rw [if_pos hv]
    by_cases hdev : env.KLAYGE_IS_DEV_PLATFORM = true
    · rw [if_pos hdev]
      by_cases hp : GetShaderProfile s env.sd ≠ []
      · simp only [if_pos hp, if_true]
        by_cases hc : env.CompileToDXBC s.stage_ env.sd.func_name (GetShaderProfile s env.sd) = []
        · rw [if_pos hc]
          exact ⟨_, rfl, rfl, rfl⟩
        · rw [if_neg hc]
          cases hf : env.FeedDXBC s.stage_
              (env.CompileToDXBC s.stage_ env.sd.func_name (GetShaderProfile s env.sd)) has_ps
              s.ds_partitioning_ s.ds_output_primitive_ with
          | none => exact ⟨_, rfl, rfl, rfl⟩
          | some tr => exact CompileShader_translated_domain _ tr h
      · simp only [if_neg hp, Bool.false_eq_true, if_false]
        exact ⟨_, rfl, rfl, rfl⟩
    · rw [if_neg hdev]
      exact ⟨_, rfl, rfl, rfl⟩
  · rw [if_neg hv]
    exact ⟨_, rfl, rfl, rfl⟩


/-! ### Bind and Unbind -/

theorem assign_index_ok {α : Type} (v : List α) (i : Nat) (x : α) (h : i < v.length) :
    assign_index v i x = .ok (v.set i x) := by
  unfold assign_index
  rw [if_pos h]

theorem at_index_lt {α : Type} (v : List α) (i : Nat) (h : i < v.length) :
    ∃ a, at_index v i = .ok a :=
  ⟨_, at_index_ok v i _ (List.getElem?_eq_getElem h)⟩

/-- A binding function that is ready returns, keeps the lengths of the slot arrays and
touches nothing but the slot arrays. -/
theorem SetOGLESShaderParameter_call_ok (env : BindEnv) (n : Nat)
    (func : SetOGLESShaderParameter) (prog : OGLESShaderObject)
    (hslots : SlotsOfLength prog n) (hready : FuncReady env n func) :
    ∃ prog' calls, SetOGLESShaderParameter.call env func prog = .ok (prog', calls) ∧
      SlotsOfLength prog' n ∧ prog'.Stage = prog.Stage ∧
      prog'.param_binds_ = prog.param_binds_ ∧
      prog'.all_cbuff_indices_ = prog.all_cbuff_indices_ := by
  obtain ⟨s1, s2, s3, s4⟩ := hslots
  cases func with
  | empty => exact absurd hready (by simp [FuncReady])
  | GraphicsBufferPtr location stage buff_param =>
    obtain ⟨hlt, hsome⟩ := hready
    obtain ⟨p, hp⟩ := Option.isSome_iff_exists.mp hsome
    subst hp
    unfold SetOGLESShaderParameter.call
    simp only [deref, Except.ok_bind]
    obtain ⟨slot, hslot⟩ := at_index_lt prog.textures_ stage (s1 ▸ hlt)
    rw [hslot]
    simp only [Except.ok_bind]
    rw [assign_index_ok _ _ _ (s1 ▸ hlt), assign_index_ok _ _ _ (s2 ▸ hlt),
      assign_index_ok _ _ _ (s3 ▸ hlt), assign_index_ok _ _ _ (s4 ▸ hlt)]
    simp only [Except.ok_bind, Except.pure_eq_ok]
    refine ⟨_, _, rfl, ⟨?_, ?_, ?_, ?_⟩, rfl, rfl, rfl⟩ <;>
      simp only [List.length_set] <;> assumption
  | TexturePtr location stage tex_param sampler_param =>
    obtain ⟨hlt, hrest⟩ := hready
    cases tex_param with
    | none => exact absurd hrest (by simp)
    | some t =>
      cases sampler_param with
      | none => exact absurd hrest (by simp)
      | some s =>
        simp only [] at hrest
        unfold SetOGLESShaderParameter.call
        simp only [deref, Except.ok_bind]
        obtain ⟨slot, hslot⟩ := at_index_lt prog.textures_ stage (s1 ▸ hlt)
        rw [hslot]
        simp only [Except.ok_bind]
        rw [assign_index_ok _ _ _ (s1 ▸ hlt)]
        simp only [Except.ok_bind]
        have hlt' : stage < (prog.textures_.set stage
            { slot with tex_srv := env.srv t }).length := by
          rw [List.length_set]
          exact s1 ▸ hlt
        obtain ⟨slot', hslot'⟩ := at_index_lt _ stage hlt'
        rw [hslot']
        simp only [Except.ok_bind]
        rw [assign_index_ok _ _ _ hlt']
        simp only [Except.ok_bind]
        cases hsrv : env.srv t with
        | none =>
          simp only []
          rw [assign_index_ok _ _ _ (s2 ▸ hlt), assign_index_ok _ _ _ (s3 ▸ hlt),
            assign_index_ok _ _ _ (s4 ▸ hlt)]
          simp only [Except.ok_bind, Except.pure_eq_ok]
          refine ⟨_, _, rfl, ⟨?_, ?_, ?_, ?_⟩, rfl, rfl, rfl⟩ <;>
            simp only [List.length_set] <;> assumption
        | some v =>
          obtain ⟨sm, hsm⟩ := Option.isSome_iff_exists.mp (hrest (by rw [hsrv]; rfl))
          simp only [hsm, deref, Except.ok_bind]
          rw [assign_index_ok _ _ _ (s2 ▸ hlt), assign_index_ok _ _ _ (s3 ▸ hlt),
            assign_index_ok _ _ _ (s4 ▸ hlt)]
          simp only [Except.ok_bind, Except.pure_eq_ok]
          refine ⟨_, _, rfl, ⟨?_, ?_, ?_, ?_⟩, rfl, rfl, rfl⟩ <;>
            simp only [List.length_set] <;> assumption

theorem Bind_params_ok (env : BindEnv) (n : Nat) (pbs : List ParameterBind)
    (prog : OGLESShaderObject) (hslots : SlotsOfLength prog n)
    (hready : ∀ pb ∈ pbs, FuncReady env n pb.func) :
    ∃ prog' calls, Bind.params env prog pbs = .ok (prog', calls) ∧
      SlotsOfLength prog' n ∧ prog'.Stage = prog.Stage ∧
      prog'.param_binds_ = prog.param_binds_ ∧
      prog'.all_cbuff_indices_ = prog.all_cbuff_indices_ := by
  induction pbs generalizing prog with
  | nil => exact ⟨prog, [], rfl, hslots, rfl, rfl, rfl⟩
  | cons pb pbs ih =>
    obtain ⟨p1, c1, h1, hs1, f1, f2, f3⟩ := SetOGLESShaderParameter_call_ok env n pb.func prog
      hslots (hready pb (List.mem_cons_self _ _))
    obtain ⟨p2, c2, h2, hs2, g1, g2, g3⟩ := ih p1 hs1
      (fun x hx => hready x (List.mem_cons_of_mem _ hx))
    refine ⟨p2, c1 ++ c2, ?_, hs2, g1.trans f1, g2.trans f2, g3.trans f3⟩
    unfold Bind.params
    rw [h1]
    simp only [Except.ok_bind]
    rw [h2]
    rfl

/-- The loop of `Bind` over the recorded constant-buffer indices returns: one `Update` per
index, in order, and the driver names of the hardware buffers of these constant buffers, in
the same order. -/
theorem Bind_cbuffers_ok (env : BindEnv) (effect : RenderEffect) (indices : List Nat)
    (h : ∀ cb ∈ indices, cb < effect.cbuffers.length ∧ (env.GLvbo cb).isSome = true) :
    ∃ gl_bind_cbuffs, Bind.cbuffers env effect indices =
        .ok (indices.map EngineCall.Update, gl_bind_cbuffs) ∧
      indices.map env.GLvbo = gl_bind_cbuffs.map some := by
  induction indices with
  | nil => exact ⟨[], rfl, rfl⟩
  | cons cb rest ih =>
    obtain ⟨hlt, hsome⟩ := h cb (List.mem_cons_self _ _)
    obtain ⟨vbo, hvbo⟩ := Option.isSome_iff_exists.mp hsome
    obtain ⟨bufs, hrun, hbufs⟩ := ih (fun x hx => h x (List.mem_cons_of_mem _ hx))
    refine ⟨vbo :: bufs, ?_, ?_⟩
    · unfold Bind.cbuffers
      simp only [RenderEffect.CBufferByIndex, hlt, if_true, deref, Except.ok_bind, hvbo, hrun,
        Except.pure_eq_ok, List.map_cons]
    · simp only [List.map_cons, hvbo, hbufs]

theorem Bind_bind_textures_ok (prog : OGLESShaderObject) (n : Nat)
    (hslots : SlotsOfLength prog n) : ∃ calls, Bind.bind_textures prog = .ok calls := by
  unfold Bind.bind_textures
  by_cases h : prog.gl_bind_textures_ ≠ []
  · rw [if_pos h]
    unfold first_n
    rw [if_pos (by rw [hslots.2.1, hslots.2.2.1])]
    exact ⟨_, rfl⟩
  · rw [if_neg h]
    exact ⟨_, rfl⟩

/-- `Bind` on a program that can be bound returns.  The state of the driver is switched by
the first statement alone; the stage table and the recorded constant-buffer indices are
untouched; the calls on the constant buffers follow the calls of the binding functions. -/
theorem Bind_ok (env : BindEnv) (effect : RenderEffect) (prog : OGLESShaderObject)
    (gl : GLState) (h : Bindable env effect prog) :
    ∃ prog' param_calls gl_bind_cbuffs rest,
      Bind env effect prog gl =
        .ok (prog',
          (if (match prog.Stage .Pixel with
              | none => true
              | some ps => decide (ps.glsl_src_ = [])) then
            { gl with GL_RASTERIZER_DISCARD := true }
          else gl),
          [EngineCall.UseProgram] ++ param_calls ++
            (if prog.all_cbuff_indices_ ≠ [] then
              prog.all_cbuff_indices_.map EngineCall.Update ++
                [EngineCall.BindBuffersBase GL_UNIFORM_BUFFER 0 gl_bind_cbuffs]
            else []) ++ rest) ∧
      prog.all_cbuff_indices_.map env.GLvbo = gl_bind_cbuffs.map some ∧
      prog'.Stage = prog.Stage := by
  obtain ⟨hslots, hready, hcb⟩ := h
  obtain ⟨p1, c1, h1, hs1, f1, _, f3⟩ := Bind_params_ok env _ prog.param_binds_ prog hslots hready
  obtain ⟨bufs, hrun, hbufs⟩ := Bind_cbuffers_ok env effect prog.all_cbuff_indices_ hcb
  obtain ⟨tex, htex⟩ := Bind_bind_textures_ok p1 _ hs1
  refine ⟨p1, c1, bufs, tex ++ Bind.bind_samplers p1, ?_, hbufs, f1⟩
  unfold Bind
  simp only [h1, Except.ok_bind, htex, Bind.bind_cbuffers, f3]
  by_cases hne : prog.all_cbuff_indices_ ≠ []
  · simp only [if_pos hne, hrun, Except.ok_bind, Except.pure_eq_ok, List.append_assoc]
  · simp only [if_neg hne, Except.ok_bind, Except.pure_eq_ok, List.append_assoc]


theorem discard_condition_iff (prog : OGLESShaderObject) :
    (match prog.Stage .Pixel with
      | none => true
      | some ps => decide (ps.glsl_src_ = [])) = true ↔ NoPixelOutput prog := by
  unfold NoPixelOutput
  cases h : prog.Stage .Pixel with
  | none => simp
  | some ps => simp

theorem discard_condition_false (prog : OGLESShaderObject) (ps : OGLESShaderStageObject)
    (h : prog.Stage .Pixel = some ps) (hsrc : ps.glsl_src_ ≠ []) :
    (match prog.Stage .Pixel with
      | none => true
      | some ps => decide (ps.glsl_src_ = [])) = false := by
  rw [h]
  simp [hsrc]


/-! ### The bind points of the constant buffers -/

theorem glGetUniformBlockIndex_nodup (gl : GLProgram) (i : Nat) (block : ActiveUniformBlock)
    (hnames : (gl.blocks.map (fun b => b.name)).Nodup) (hb : gl.blocks[i]? = some block) :
    gl.glGetUniformBlockIndex block.name = some i := by
  unfold GLProgram.glGetUniformBlockIndex
  have h := find_index_first (fun b => decide (b.name = block.name)) gl.blocks i block hb
    (by simp) ?_ 0
  · rw [Nat.zero_add] at h
    exact h
  · intro j hj y hy
    apply decide_eq_false
    intro heq
    have h1 : (gl.blocks.map (fun b => b.name))[j]? = some y.name := by
      rw [List.getElem?_map, hy]; rfl
    have h2 : (gl.blocks.map (fun b => b.name))[i]? = some block.name := by
      rw [List.getElem?_map, hb]; rfl
    have := List.nodup_iff_getElem?_ne_getElem?.mp hnames j i hj (by
      have := (List.getElem?_eq_some_iff.mp h2).1
      exact this)
    rw [h1, h2, heq] at this
    exact this rfl

theorem CBufferByName_getElem (effect : RenderEffect) (name : Str) (c : Nat)
    (h : effect.CBufferByName name = some c) : effect.cbuffers[c]? = some name := by
  unfold RenderEffect.CBufferByName at h
  obtain ⟨_, x, hx, hp⟩ := find_index_some _ _ _ _ h
  simp only [Nat.sub_zero] at hx
  have : x = name := of_decide_eq_true hp
  rw [hx, this]

theorem map_some_getElem {α β : Type} (f : α → Option β) (l : List α) (r : List β)
    (h : l.map f = r.map some) (i : Nat) (a : α) (ha : l[i]? = some a) :
    ∃ b, r[i]? = some b ∧ f a = some b := by
  have h1 : (l.map f)[i]? = some (f a) := by rw [List.getElem?_map, ha]; rfl
  rw [h, List.getElem?_map] at h1
  cases hr : r[i]? with
  | none => rw [hr] at h1; cases h1
  | some b =>
    rw [hr] at h1
    simp only [Option.map_some', Option.some.injEq] at h1
    exact ⟨b, rfl, h1.symm⟩


/-! ### The attribute locations -/

theorem at_index_some {α : Type} (v : List α) (i : Nat) (a : α) (h : at_index v i = .ok a) :
    v[i]? = some a := by
  unfold at_index at h
  cases hv : v[i]? with
  | none => rw [hv] at h; cases h
  | some b =>
    rw [hv] at h
    simp only [Except.ok.injEq] at h
    rw [h]

theorem find_emplace (m : List ((VertexElementUsage × Byte) × Int))
    (k key : VertexElementUsage × Byte) (v : Int) :
    (emplace m k v).find? (fun e => decide (e.1 = key)) =
      match m.find? (fun e => decide (e.1 = key)) with
      | some e => some e
      | none => if k = key ∧ ¬ (m.any (fun e => decide (e.1 = k)) = true) then some (k, v)
        else none := by
  unfold emplace
  by_cases hany : m.any (fun e => decide (e.1 = k)) = true
  · rw [if_pos hany]
    cases hm : m.find? (fun e => decide (e.1 = key)) with
    | some e => rfl
    | none => simp [hany]
  · rw [if_neg hany, List.find?_append]
    cases hm : m.find? (fun e => decide (e.1 = key)) with
    | some e => rfl
    | none =>
      by_cases hk : k = key
      · subst hk
        rw [if_pos ⟨rfl, hany⟩]
        simp
      · rw [if_neg (fun h => hk h.1)]
        simp [hk]

/-- The map after a run of `emplace`: a key of the map keeps its value, another key gets the
value of the first entry of the run that has it. -/
theorem find_emplace_all (gl : GLProgram) (es : List ((VertexElementUsage × Byte) × Str))
    (m : List ((VertexElementUsage × Byte) × Int)) (key : VertexElementUsage × Byte) :
    ((es.foldl (fun m e => emplace m e.1 (gl.glGetAttribLocation e.2)) m).find?
        (fun e => decide (e.1 = key))).map (fun e => e.2) =
      match m.find? (fun e => decide (e.1 = key)) with
      | some e => some e.2
      | none => (es.find? (fun e => decide (e.1 = key))).map
          (fun e => gl.glGetAttribLocation e.2) := by
  induction es generalizing m with
  | nil =>
    cases hm : m.find? (fun e => decide (e.1 = key)) with
    | some e => simp [hm]
    | none => simp [hm]
  | cons e es ih =>
    rw [List.foldl_cons, ih, find_emplace]
    cases hm : m.find? (fun x => decide (x.1 = key)) with
    | some x => rfl
    | none =>
      simp only []
      by_cases hk : e.1 = key
      · have hany : ¬ (m.any (fun x => decide (x.1 = e.1)) = true) := by
          intro h
          obtain ⟨x, hx, hxe⟩ := List.any_eq_true.mp h
          have := List.find?_eq_none.mp hm x hx
          rw [hk] at hxe
          exact this hxe
        rw [if_pos ⟨hk, hany⟩]
        simp [hk]
      · rw [if_neg (fun h => hk h.1)]
        simp [hk]


/-- What one pass of the loop of `DoLinkShaders` over the used names does, when it returns:
nothing for a resource name without a location; for a name with a location, one plain
binding when the effect has the parameter, else one combined binding when the table has the
name, else nothing. -/
theorem bind_param_cases (gl : GLProgram) (effect : RenderEffect)
    (shader_stage : OGLESShaderStageObject) (pi : Nat) (prog prog' : OGLESShaderObject)
    (h : DoLinkShaders.bind_param gl effect shader_stage pi prog = .ok prog') :
    ∃ rn, shader_stage.glsl_res_names_[pi]? = some rn ∧
      ((gl.glGetUniformLocation rn = -1 ∧ prog' = prog) ∨
       (gl.glGetUniformLocation rn ≠ -1 ∧ ∃ pn, shader_stage.pnames_[pi]? = some pn ∧
        ((∃ p, effect.ParameterByName pn = some p ∧
            prog' = { grow_slots prog with
              param_binds_ := (grow_slots prog).param_binds_ ++
                [⟨[], some p, gl.glGetUniformLocation rn, none,
                  .GraphicsBufferPtr (gl.glGetUniformLocation rn) prog.textures_.length
                    (some p)⟩] }) ∨
         (effect.ParameterByName pn = none ∧
            ∃ i entry, find_index (fun e => decide (e.1 = pn)) prog.tex_sampler_binds_ 0 =
                some i ∧
              prog.tex_sampler_binds_[i]? = some entry ∧
              prog' = { grow_slots prog with
                param_binds_ := (grow_slots prog).param_binds_ ++
                  [⟨entry.1, none, gl.glGetUniformLocation rn, some i,
                    .TexturePtr (gl.glGetUniformLocation rn) prog.textures_.length entry.2.1
                      entry.2.2.1⟩] }) ∨
         (effect.ParameterByName pn = none ∧
            find_index (fun e => decide (e.1 = pn)) prog.tex_sampler_binds_ 0 = none ∧
            prog' = prog)))) := by
  unfold DoLinkShaders.bind_param at h
  cases hr : at_index shader_stage.glsl_res_names_ pi with
  | error e => rw [hr] at h; simp at h
  | ok rn =>
    rw [hr] at h
    simp only [Except.ok_bind] at h
    refine ⟨rn, at_index_some _ _ _ hr, ?_⟩
    by_cases hloc : gl.glGetUniformLocation rn ≠ -1
    · rw [if_pos hloc] at h
      right
      refine ⟨hloc, ?_⟩
      cases hn : at_index shader_stage.pnames_ pi with
      | error e => rw [hn] at h; simp at h
      | ok pn =>
        rw [hn] at h
        simp only [Except.ok_bind] at h
        refine ⟨pn, at_index_some _ _ _ hn, ?_⟩
        cases hp : effect.ParameterByName pn with
        | some p =>
          rw [hp] at h
          simp only [] at h
          by_cases hty : p.type = .REDT_buffer
          · simp only [BOOST_ASSERT, hty, decide_True, if_true, Except.ok_bind,
              Except.pure_eq_ok, Except.ok.injEq] at h
            exact Or.inl ⟨p, rfl, h.symm⟩
          · simp [BOOST_ASSERT, hty] at h
        | none =>
          rw [hp] at h
          simp only [] at h
          cases hf : find_index (fun e => decide (e.1 = pn)) prog.tex_sampler_binds_ 0 with
          | none =>
            rw [hf] at h
            simp only [Except.pure_eq_ok, Except.ok.injEq] at h
            exact Or.inr (Or.inr ⟨rfl, rfl, h.symm⟩)
          | some i =>
            rw [hf] at h
            simp only [] at h
            obtain ⟨_, e, he, hpe⟩ := find_index_some _ _ _ _ hf
            simp only [Nat.sub_zero] at he
            rw [at_index_ok _ _ _ he] at h
            simp only [Except.ok_bind, Except.pure_eq_ok, Except.ok.injEq] at h
            exact Or.inr (Or.inl ⟨rfl, i, e, rfl, he, h.symm⟩)
    · rw [if_neg hloc] at h
      simp only [Except.pure_eq_ok, Except.ok.injEq] at h
      exact Or.inl ⟨not_not.mp hloc, h.symm⟩

/-- The loops of `DoLinkShaders` over the used names leave the stage table, the bind table,
the attribute locations and the recorded constant-buffer indices alone. -/
theorem bind_param_frame (gl : GLProgram) (effect : RenderEffect)
    (shader_stage : OGLESShaderStageObject) (pi : Nat) (prog prog' : OGLESShaderObject)
    (h : DoLinkShaders.bind_param gl effect shader_stage pi prog = .ok prog') :
    prog'.Stage = prog.Stage ∧ prog'.tex_sampler_binds_ = prog.tex_sampler_binds_ ∧
    prog'.attrib_locs_ = prog.attrib_locs_ ∧
    prog'.all_cbuff_indices_ = prog.all_cbuff_indices_ := by
  obtain ⟨rn, _, hc⟩ := bind_param_cases gl effect shader_stage pi prog prog' h
  rcases hc with ⟨_, rfl⟩ | ⟨_, pn, _, ⟨p, _, rfl⟩ | ⟨_, i, e, _, _, rfl⟩ | ⟨_, _, rfl⟩⟩ <;>
    exact ⟨rfl, rfl, rfl, rfl⟩

theorem bind_stage_frame (gl : GLProgram) (effect : RenderEffect) (stage : Nat)
    (prog prog' : OGLESShaderObject)
    (h : DoLinkShaders.bind_stage gl effect stage prog = .ok prog') :
    prog'.Stage = prog.Stage ∧ prog'.tex_sampler_binds_ = prog.tex_sampler_binds_ ∧
    prog'.attrib_locs_ = prog.attrib_locs_ ∧
    prog'.all_cbuff_indices_ = prog.all_cbuff_indices_ := by
  unfold DoLinkShaders.bind_stage at h
  cases hs : prog.Stage (ShaderStage.ofIndex stage) with
  | none =>
    rw [hs] at h
    simp only [Except.pure_eq_ok, Except.ok.injEq] at h
    subst h
    exact ⟨rfl, rfl, rfl, rfl⟩
  | some st =>
    rw [hs] at h
    refine forLoopM_invariant
      (fun p => p.Stage = prog.Stage ∧ p.tex_sampler_binds_ = prog.tex_sampler_binds_ ∧
        p.attrib_locs_ = prog.attrib_locs_ ∧
        p.all_cbuff_indices_ = prog.all_cbuff_indices_) _ ?_ _ _ _ _ ⟨rfl, rfl, rfl, rfl⟩ h
    intro i a b ha hab
    obtain ⟨f1, f2, f3, f4⟩ := bind_param_frame gl effect st i a b hab
    exact ⟨f1.trans ha.1, f2.trans ha.2.1, f3.trans ha.2.2.1, f4.trans ha.2.2.2⟩

theorem bind_stages_frame (gl : GLProgram) (effect : RenderEffect) (k i : Nat)
    (prog prog' : OGLESShaderObject)
    (h : forLoopM (DoLinkShaders.bind_stage gl effect) k i prog = .ok prog') :
    prog'.Stage = prog.Stage ∧ prog'.tex_sampler_binds_ = prog.tex_sampler_binds_ ∧
    prog'.attrib_locs_ = prog.attrib_locs_ ∧
    prog'.all_cbuff_indices_ = prog.all_cbuff_indices_ := by
  refine forLoopM_invariant
    (fun p => p.Stage = prog.Stage ∧ p.tex_sampler_binds_ = prog.tex_sampler_binds_ ∧
      p.attrib_locs_ = prog.attrib_locs_ ∧
      p.all_cbuff_indices_ = prog.all_cbuff_indices_) _ ?_ _ _ _ _ ⟨rfl, rfl, rfl, rfl⟩ h
  intro j a b ha hab
  obtain ⟨f1, f2, f3, f4⟩ := bind_stage_frame gl effect j a b hab
  exact ⟨f1.trans ha.1, f2.trans ha.2.1, f3.trans ha.2.2.1, f4.trans ha.2.2.2⟩

/-- The loop of `DoLinkShaders` over the attributes of the vertex stage, from index `i` on:
the map is extended by `emplace` with the declared attributes from `i` on, in order. -/
theorem attribs_loop (gl : GLProgram) (vs : OGLESShaderStageObject) (k i : Nat)
    (prog prog' : OGLESShaderObject) (hk : i + k = vs.glsl_attrib_names_.length)
    (h : forLoopM
      (fun pi prog => do
        let usage ← at_index vs.usages_ pi
        let usage_index ← at_index vs.usage_indices_ pi
        let name ← at_index vs.glsl_attrib_names_ pi
        pure { prog with
          attrib_locs_ :=
            emplace prog.attrib_locs_ (usage, usage_index) (gl.glGetAttribLocation name) })
      k i prog = .ok prog') :
    prog'.attrib_locs_ =
      ((declaredAttribs vs).drop i).foldl
        (fun m e => emplace m e.1 (gl.glGetAttribLocation e.2)) prog.attrib_locs_ ∧
    prog'.Stage = prog.Stage := by
  induction k generalizing i prog with
  | zero =>
    simp only [forLoopM, Except.pure_eq_ok, Except.ok.injEq] at h
    subst h
    have hlen : (declaredAttribs vs).length ≤ i := by
      unfold declaredAttribs
      rw [List.length_zip]
      omega
    rw [List.drop_eq_nil_of_le hlen]
    exact ⟨rfl, rfl⟩
  | succ k ih =>
    simp only [forLoopM] at h
    cases h1 : at_index vs.usages_ i with
    | error e => rw [h1] at h; simp at h
    | ok u =>
      cases h2 : at_index vs.usage_indices_ i with
      | error e => rw [h1, h2] at h; simp at h
      | ok ui =>
        cases h3 : at_index vs.glsl_attrib_names_ i with
        | error e => rw [h1, h2, h3] at h; simp at h
        | ok nm =>
          rw [h1, h2, h3] at h
          simp only [Except.ok_bind, Except.pure_eq_ok] at h
          obtain ⟨r1, r2⟩ := ih (i + 1) _ (by omega) h
          have hz : (declaredAttribs vs)[i]? = some ((u, ui), nm) := by
            unfold declaredAttribs
            rw [List.getElem?_zip_eq_some]
            refine ⟨?_, at_index_some _ _ _ h3⟩
            rw [List.getElem?_zip_eq_some]
            exact ⟨at_index_some _ _ _ h1, at_index_some _ _ _ h2⟩
          obtain ⟨hlt, hget⟩ := List.getElem?_eq_some_iff.mp hz
          rw [List.drop_eq_getElem_cons hlt, hget, List.foldl_cons]
          exact ⟨r1, r2⟩

theorem attribs_locs (gl : GLProgram) (prog prog' : OGLESShaderObject)
    (vs : OGLESShaderStageObject) (hvs : prog.Stage .Vertex = some vs)
    (h : DoLinkShaders.attribs gl prog = .ok prog') :
    prog'.attrib_locs_ =
      (declaredAttribs vs).foldl
        (fun m e => emplace m e.1 (gl.glGetAttribLocation e.2)) prog.attrib_locs_ ∧
    prog'.Stage = prog.Stage := by
  unfold DoLinkShaders.attribs at h
  rw [hvs] at h
  simp only [deref, Except.ok_bind] at h
  have := attribs_loop gl vs _ 0 prog prog' (Nat.zero_add _) h
  rwa [List.drop_zero] at this

/-- The attribute locations of a program after `DoLinkShaders`, when it returns for a valid
program: the map before, extended by `emplace` with the declared attributes of the vertex
stage, in order. -/
theorem DoLinkShaders_attrib_locs (gl : GLProgram) (effect : RenderEffect)
    (prog r : OGLESShaderObject) (calls : List Call) (vs : OGLESShaderStageObject)
    (hvalid : prog.is_validate_ = true) (hvs : prog.Stage .Vertex = some vs)
    (h : DoLinkShaders gl effect prog = .ok (r, calls)) :
    r.attrib_locs_ =
      (declaredAttribs vs).foldl
        (fun m e => emplace m e.1 (gl.glGetAttribLocation e.2)) prog.attrib_locs_ := by
  unfold DoLinkShaders at h
  rw [if_pos hvalid] at h
  obtain ⟨lr, hl, h⟩ := (bind_eq_ok _ _ _).mp h
  obtain ⟨p1, c1⟩ := lr
  simp only [] at h
  obtain ⟨atts, _, h⟩ := (bind_eq_ok _ _ _).mp h
  obtain ⟨p2, hs, h⟩ := (bind_eq_ok _ _ _).mp h
  obtain ⟨p3, hat, h⟩ := (bind_eq_ok _ _ _).mp h
  simp only [Except.pure_eq_ok, Except.ok.injEq, Prod.mk.injEq] at h
  obtain ⟨h3, _⟩ := h
  subst h3
  have hp1 := LinkGLSL_frame gl prog p1 c1 hl
  obtain ⟨f1, _, f3, _⟩ := bind_stages_frame gl effect _ _ _ p2 hs
  have hstage : p2.Stage = prog.Stage := by
    rw [f1, hp1]
    unfold DoLinkShaders.retrieve_binary
    split
    · split <;> rfl
    · rfl
  have hlocs : p2.attrib_locs_ = prog.attrib_locs_ := by
    rw [f3, hp1]
    unfold DoLinkShaders.retrieve_binary
    split
    · split <;> rfl
    · rfl
  obtain ⟨a1, _⟩ := attribs_locs gl p2 p3 vs (hstage ▸ hvs) hat
  rw [a1, hlocs]


theorem attribs_cbuff_indices (gl : GLProgram) (prog prog' : OGLESShaderObject)
    (h : DoLinkShaders.attribs gl prog = .ok prog') :
    prog'.all_cbuff_indices_ = prog.all_cbuff_indices_ := by
  unfold DoLinkShaders.attribs at h
  cases hv : prog.Stage .Vertex with
  | none => rw [hv] at h; simp [deref] at h
  | some vs =>
    rw [hv] at h
    simp only [deref, Except.ok_bind] at h
    refine forLoopM_invariant
      (fun p => p.all_cbuff_indices_ = prog.all_cbuff_indices_) _ ?_ _ _ _ _ rfl h
    intro i a b ha hab
    cases h1 : at_index vs.usages_ i with
    | error e => rw [h1] at hab; simp at hab
    | ok u =>
      cases h2 : at_index vs.usage_indices_ i with
      | error e => rw [h1, h2] at hab; simp at hab
      | ok ui =>
        cases h3 : at_index vs.glsl_attrib_names_ i with
        | error e => rw [h1, h2, h3] at hab; simp at hab
        | ok nm =>
          rw [h1, h2, h3] at hab
          simp only [Except.ok_bind, Except.pure_eq_ok, Except.ok.injEq] at hab
          subst hab
          exact ha

/-- The constant-buffer indices that a program holds after `DoLinkShaders`, when it returns
for a valid program: the indices that `AttachUBOs` found, block by block. -/
theorem DoLinkShaders_cbuff_indices (gl : GLProgram) (effect : RenderEffect)
    (prog r : OGLESShaderObject) (calls : List Call) (hvalid : prog.is_validate_ = true)
    (h : DoLinkShaders gl effect prog = .ok (r, calls)) :
    ∃ atts, AttachUBOs gl effect = .ok atts ∧
      r.all_cbuff_indices_ = atts.map BlockAttachment.cb_index := by
  unfold DoLinkShaders at h
  rw [if_pos hvalid] at h
  obtain ⟨lr, hl, h⟩ := (bind_eq_ok _ _ _).mp h
  obtain ⟨p1, c1⟩ := lr
  simp only [] at h
  obtain ⟨atts, hatts, h⟩ := (bind_eq_ok _ _ _).mp h
  obtain ⟨p2, hs, h⟩ := (bind_eq_ok _ _ _).mp h
  obtain ⟨p3, hat, h⟩ := (bind_eq_ok _ _ _).mp h
  simp only [Except.pure_eq_ok, Except.ok.injEq, Prod.mk.injEq] at h
  obtain ⟨h3, _⟩ := h
  subst h3
  refine ⟨atts, hatts, ?_⟩
  obtain ⟨_, _, _, f4⟩ := bind_stages_frame gl effect _ _ _ p2 hs
  rw [attribs_cbuff_indices gl p2 p3 hat, f4]
  unfold DoLinkShaders.retrieve_binary
  split
  · split <;> rfl
  · rfl


/-! ### AppendTexSamplerBinds -/

theorem AppendTexSamplerBinds_find_none (mask : Nat) (n : Str) (t : List TexSamplerBind) :
    AppendTexSamplerBinds.find mask n t = none ↔ ∀ e ∈ t, e.1 ≠ n := by
  induction t with
  | nil => simp [AppendTexSamplerBinds.find]
  | cons e es ih =>
    unfold AppendTexSamplerBinds.find
    by_cases he : e.1 = n
    · simp [he]
    · rw [if_neg he]
      cases hf : AppendTexSamplerBinds.find mask n es with
      | some r =>
        simp only [reduceCtorEq, List.mem_cons, forall_eq_or_imp, false_iff, not_and]
        intro _ hall
        rw [hf] at ih
        exact absurd (ih.mpr hall) (by simp)
      | none =>
        rw [hf] at ih
        simp only [List.mem_cons, forall_eq_or_imp, true_iff]
        exact ⟨he, ih.mp rfl⟩

/-- The inner loop keeps the names and the parameters of every entry, position by
position. -/
theorem AppendTexSamplerBinds_find_some (mask : Nat) (n : Str) (t t' : List TexSamplerBind)
    (h : AppendTexSamplerBinds.find mask n t = some t') :
    t'.map (fun e => (e.1, e.2.1, e.2.2.1)) = t.map (fun e => (e.1, e.2.1, e.2.2.1)) ∧
    n ∈ t.map (fun e => e.1) := by
  induction t generalizing t' with
  | nil => simp [AppendTexSamplerBinds.find] at h
  | cons e es ih =>
    unfold AppendTexSamplerBinds.find at h
    by_cases he : e.1 = n
    · rw [if_pos he] at h
      simp only [Option.some.injEq] at h
      subst h
      exact ⟨rfl, by simp [he]⟩
    · rw [if_neg he] at h
      cases hf : AppendTexSamplerBinds.find mask n es with
      | none => rw [hf] at h; cases h
      | some r =>
        rw [hf] at h
        simp only [Option.some.injEq] at h
        subst h
        obtain ⟨h1, h2⟩ := ih r hf
        exact ⟨by simp [h1], List.mem_cons_of_mem _ h2⟩

theorem firstMask_find (mask : Nat) (nq n : Str) (t t' : List TexSamplerBind)
    (h : AppendTexSamplerBinds.find mask nq t = some t') :
    firstMask t' n =
      if nq = n then (firstMask t n).map (fun m => m ||| mask) else firstMask t n := by
  induction t generalizing t' with
  | nil => simp [AppendTexSamplerBinds.find] at h
  | cons e es ih =>
    unfold AppendTexSamplerBinds.find at h
    by_cases he : e.1 = nq
    · rw [if_pos he] at h
      simp only [Option.some.injEq] at h
      subst h
      by_cases hn : nq = n
      · subst hn
        simp [firstMask, he]
      · have : ¬ e.1 = n := fun h => hn (he ▸ h)
        simp [firstMask, hn, this]
    · rw [if_neg he] at h
      cases hf : AppendTexSamplerBinds.find mask nq es with
      | none => rw [hf] at h; cases h
      | some r =>
        rw [hf] at h
        simp only [Option.some.injEq] at h
        subst h
        have := ih r hf
        by_cases hn : nq = n
        · subst hn
          simp only [if_true] at this ⊢
          simp only [firstMask, List.find?_cons, he, decide_False] at this ⊢
          exact this
        · simp only [hn, if_false] at this ⊢
          by_cases hen : e.1 = n
          · simp [firstMask, hen]
          · simp only [firstMask, List.find?_cons, hen, decide_False] at this ⊢
            exact this

theorem firstMask_none_iff (t : List TexSamplerBind) (n : Str) :
    firstMask t n = none ↔ ∀ e ∈ t, e.1 ≠ n := by
  unfold firstMask
  simp [List.find?_eq_none]

/-- The stage mask of the first entry with a name after one pass of the outer loop: the
name of the pair gets the mask or-ed in (from 0 when it had no entry), every other name
keeps its mask. -/
theorem firstMask_pair (effect : RenderEffect) (mask : Nat) (t : List TexSamplerBind)
    (q : Str × Str) (n : Str) :
    firstMask (AppendTexSamplerBinds.pair effect mask t q) n =
      if combinedName q = n then some ((firstMask t n).getD 0 ||| mask)
      else firstMask t n := by
  unfold AppendTexSamplerBinds.pair
  simp only []
  change firstMask (match AppendTexSamplerBinds.find mask (combinedName q) t with
    | some found => found
    | none => t ++ [(combinedName q, effect.ParameterByName q.1, effect.ParameterByName q.2,
        mask)]) n = _
  cases hf : AppendTexSamplerBinds.find mask (combinedName q) t with
  | some t' =>
    simp only []
    rw [firstMask_find mask (combinedName q) n t t' hf]
    by_cases hn : combinedName q = n
    · rw [if_pos hn, if_pos hn]
      obtain ⟨_, hmem⟩ := AppendTexSamplerBinds_find_some mask _ t t' hf
      cases hm : firstMask t n with
      | none =>
        exfalso
        rw [firstMask_none_iff] at hm
        obtain ⟨e, he, hen⟩ := List.mem_map.mp hmem
        exact hm e he (hen.trans hn)
      | some m => rfl
    · rw [if_neg hn, if_neg hn]
  | none =>
    simp only []
    have hnone := (AppendTexSamplerBinds_find_none mask _ t).mp hf
    by_cases hn : combinedName q = n
    · rw [if_pos hn]
      have hm : firstMask t n = none := (firstMask_none_iff t n).mpr (hn ▸ hnone)
      rw [hm]
      unfold firstMask
      rw [List.find?_append]
      have : t.find? (fun e => decide (e.1 = n)) = none := by
        rw [List.find?_eq_none]
        intro e he
        simpa using (hn ▸ hnone) e he
      simp [this, hn]
    · rw [if_neg hn]
      unfold firstMask
      rw [List.find?_append]
      cases ht : t.find? (fun e => decide (e.1 = n)) with
      | some e => rfl
      | none => simp [hn]


theorem AppendTexSamplerBinds_pair_cases (effect : RenderEffect) (mask : Nat)
    (t : List TexSamplerBind) (q : Str × Str) :
    ((∀ e ∈ t, e.1 ≠ combinedName q) ∧
      AppendTexSamplerBinds.pair effect mask t q =
        t ++ [(combinedName q, effect.ParameterByName q.1, effect.ParameterByName q.2, mask)]) ∨
    (∃ t', AppendTexSamplerBinds.find mask (combinedName q) t = some t' ∧
      AppendTexSamplerBinds.pair effect mask t q = t') := by
  cases hf : AppendTexSamplerBinds.find mask (combinedName q) t with
  | none =>
    left
    refine ⟨(AppendTexSamplerBinds_find_none mask _ t).mp hf, ?_⟩
    unfold AppendTexSamplerBinds.pair
    unfold combinedName at hf
    simp only [hf]
    rfl
  | some t' =>
    right
    refine ⟨t', rfl, ?_⟩
    unfold AppendTexSamplerBinds.pair
    unfold combinedName at hf
    simp only [hf]

/-- One pass of the outer loop keeps every entry at its index, with its name and its
parameters. -/
theorem AppendTexSamplerBinds_pair_keeps (effect : RenderEffect) (mask : Nat)
    (t : List TexSamplerBind) (q : Str × Str) :
    t.map (fun e => (e.1, e.2.1, e.2.2.1)) <+:
      (AppendTexSamplerBinds.pair effect mask t q).map (fun e => (e.1, e.2.1, e.2.2.1)) := by
  rcases AppendTexSamplerBinds_pair_cases effect mask t q with ⟨_, h⟩ | ⟨t', hf, h⟩
  · rw [h, List.map_append]
    exact List.prefix_append _ _
  · rw [h, (AppendTexSamplerBinds_find_some mask _ t t' hf).1]

theorem AppendTexSamplerBinds_pair_nodup (effect : RenderEffect) (mask : Nat)
    (t : List TexSamplerBind) (q : Str × Str) (hn : (t.map (fun e => e.1)).Nodup) :
    ((AppendTexSamplerBinds.pair effect mask t q).map (fun e => e.1)).Nodup := by
  rcases AppendTexSamplerBinds_pair_cases effect mask t q with ⟨hnone, h⟩ | ⟨t', hf, h⟩
  · rw [h, List.map_append]
    apply List.Nodup.append hn (List.nodup_singleton _)
    intro a ha hb
    simp only [List.map_cons, List.map_nil, List.mem_singleton] at hb
    obtain ⟨e, he, hea⟩ := List.mem_map.mp ha
    exact hnone e he (hea.trans hb)
  · rw [h]
    have := congrArg (List.map (fun x : Str × Option RenderEffectParameter ×
      Option RenderEffectParameter => x.1)) (AppendTexSamplerBinds_find_some mask _ t t' hf).1
    simp only [List.map_map] at this
    have h1 : t'.map (fun e => e.1) = t.map (fun e => e.1) := this
    rw [h1]
    exact hn

theorem AppendTexSamplerBinds_pairs_keep (effect : RenderEffect) (mask : Nat)
    (pairs : List (Str × Str)) (t : List TexSamplerBind) :
    t.map (fun e => (e.1, e.2.1, e.2.2.1)) <+:
      (pairs.foldl (AppendTexSamplerBinds.pair effect mask) t).map
        (fun e => (e.1, e.2.1, e.2.2.1)) := by
  induction pairs generalizing t with
  | nil => exact List.prefix_refl _
  | cons q qs ih =>
    rw [List.foldl_cons]
    exact (AppendTexSamplerBinds_pair_keeps effect mask t q).trans (ih _)

theorem AppendTexSamplerBinds_pairs_nodup (effect : RenderEffect) (mask : Nat)
    (pairs : List (Str × Str)) (t : List TexSamplerBind)
    (hn : (t.map (fun e => e.1)).Nodup) :
    ((pairs.foldl (AppendTexSamplerBinds.pair effect mask) t).map (fun e => e.1)).Nodup := by
  induction pairs generalizing t with
  | nil => exact hn
  | cons q qs ih =>
    rw [List.foldl_cons]
    exact ih _ (AppendTexSamplerBinds_pair_nodup effect mask t q hn)

theorem ShaderStage_toNat_inj (a b : ShaderStage) (h : a.toNat = b.toNat) : a = b := by
  cases a <;> cases b <;> first | rfl | cases h

theorem testBit_stage_mask (a b : ShaderStage) :
    (1 <<< a.toNat).testBit b.toNat = decide (a = b) := by
  rw [Nat.one_shiftLeft, Nat.testBit_two_pow]
  by_cases h : a = b
  · simp [h]
  · have : a.toNat ≠ b.toNat := fun hab => h (ShaderStage_toNat_inj a b hab)
    simp [h, this]

/-- The bits of the stage masks after the pairs of one call: the bit of stage `s` is set
for the name `n` exactly when it was set before, or the call is for `s` and passes a pair
with the combined name `n`. -/
theorem AppendTexSamplerBinds_pairs_bits (effect : RenderEffect) (s0 : ShaderStage)
    (pairs : List (Str × Str)) (t : List TexSamplerBind) (P : ShaderStage → Str → Prop)
    (h : ∀ n s, (∃ m, firstMask t n = some m ∧ m.testBit s.toNat = true) ↔ P s n) :
    ∀ n s, (∃ m, firstMask (pairs.foldl (AppendTexSamplerBinds.pair effect (1 <<< s0.toNat)) t)
        n = some m ∧ m.testBit s.toNat = true) ↔
      (P s n ∨ (s0 = s ∧ ∃ q ∈ pairs, combinedName q = n)) := by
  induction pairs generalizing t P with
  | nil =>
    intro n s
    simp only [List.foldl_nil, List.not_mem_nil, false_and, exists_false, and_false, or_false]
    exact h n s
  | cons q qs ih =>
    intro n s
    rw [List.foldl_cons]
    have hstep : ∀ n s, (∃ m, firstMask
        (AppendTexSamplerBinds.pair effect (1 <<< s0.toNat) t q) n = some m ∧
          m.testBit s.toNat = true) ↔ (P s n ∨ (s0 = s ∧ combinedName q = n)) := by
      intro n s
      rw [firstMask_pair]
      by_cases hn : combinedName q = n
      · rw [if_pos hn]
        simp only [Option.some.injEq, exists_eq_left', Nat.testBit_or, Bool.or_eq_true,
          testBit_stage_mask, decide_eq_true_eq, hn, and_true]
        rw [← h n s]
        cases hm : firstMask t n with
        | none => simp
        | some m => simp
      · rw [if_neg hn]
        simp only [hn, and_false, or_false]
        exact h n s
    rw [ih _ _ hstep n s]
    simp only [List.mem_cons, exists_eq_or_imp]
    tauto

theorem find_nodup (t : List TexSamplerBind) (e : TexSamplerBind)
    (hn : (t.map (fun x => x.1)).Nodup) (he : e ∈ t) : firstMask t e.1 = some e.2.2.2 := by
  unfold firstMask
  induction t with
  | nil => cases he
  | cons x xs ih =>
    rw [List.map_cons, List.nodup_cons] at hn
    rcases List.mem_cons.mp he with rfl | hmem
    · simp
    · have hne : ¬ x.1 = e.1 := by
        intro hx
        exact hn.1 (hx ▸ List.mem_map.mpr ⟨e, hmem, rfl⟩)
      simp only [List.find?_cons, hne, decide_False]
      exact ih hn.2 hmem

theorem AppendTexSamplerBinds_find_fixed (mask : Nat) (n : Str) (t : List TexSamplerBind)
    (h : ∃ m, firstMask t n = some m ∧ m ||| mask = m) :
    AppendTexSamplerBinds.find mask n t = some t := by
  induction t with
  | nil =>
    obtain ⟨m, hm, _⟩ := h
    simp [firstMask] at hm
  | cons e es ih =>
    obtain ⟨m, hm, hor⟩ := h
    unfold AppendTexSamplerBinds.find
    by_cases he : e.1 = n
    · rw [if_pos he]
      simp only [firstMask, List.find?_cons, he, decide_True, Option.map_some',
        Option.some.injEq] at hm
      rw [hm, hor, ← hm]
    · rw [if_neg he]
      simp only [firstMask, List.find?_cons, he, decide_False] at hm
      rw [ih ⟨m, hm, hor⟩]

theorem AppendTexSamplerBinds_pair_fixed (effect : RenderEffect) (mask : Nat)
    (t : List TexSamplerBind) (q : Str × Str)
    (h : ∃ m, firstMask t (combinedName q) = some m ∧ m ||| mask = m) :
    AppendTexSamplerBinds.pair effect mask t q = t := by
  rcases AppendTexSamplerBinds_pair_cases effect mask t q with ⟨hnone, _⟩ | ⟨t', hf, h'⟩
  · exfalso
    obtain ⟨m, hm, _⟩ := h
    rw [(firstMask_none_iff t _).mpr hnone] at hm
    cases hm
  · rw [h', ← Option.some.injEq, ← hf]
    exact AppendTexSamplerBinds_find_fixed mask _ t h

/-- After the pairs of one call, a further pass with the same mask for any of these pairs,
or for a pair that changed nothing before, changes nothing. -/
theorem AppendTexSamplerBinds_pairs_fixed (effect : RenderEffect) (mask : Nat)
    (pairs : List (Str × Str)) (t : List TexSamplerBind) (n : Str)
    (h : (∃ m, firstMask t n = some m ∧ m ||| mask = m) ∨ ∃ q ∈ pairs, combinedName q = n) :
    ∃ m, firstMask (pairs.foldl (AppendTexSamplerBinds.pair effect mask) t) n = some m ∧
      m ||| mask = m := by
  induction pairs generalizing t with
  | nil =>
    rcases h with h | ⟨q, hq, _⟩
    · exact h
    · cases hq
  | cons q qs ih =>
    rw [List.foldl_cons]
    apply ih
    by_cases hn : combinedName q = n
    · left
      rw [firstMask_pair, if_pos hn]
      refine ⟨_, rfl, ?_⟩
      rw [Nat.or_assoc, Nat.or_self]
    · rcases h with ⟨m, hm, hor⟩ | ⟨q', hq', hq'n⟩
      · left
        rw [firstMask_pair, if_neg hn]
        exact ⟨m, hm, hor⟩
      · rcases List.mem_cons.mp hq' with rfl | hmem
        · exact absurd hq'n hn
        · exact Or.inr ⟨q', hmem, hq'n⟩

theorem AppendTexSamplerBinds_pairs_again (effect : RenderEffect) (mask : Nat)
    (pairs : List (Str × Str)) (t : List TexSamplerBind)
    (h : ∀ q ∈ pairs, ∃ m, firstMask t (combinedName q) = some m ∧ m ||| mask = m) :
    pairs.foldl (AppendTexSamplerBinds.pair effect mask) t = t := by
  induction pairs with
  | nil => rfl
  | cons q qs ih =>
    rw [List.foldl_cons, AppendTexSamplerBinds_pair_fixed effect mask t q
      (h q (List.mem_cons_self _ _))]
    exact ih (fun x hx => h x (List.mem_cons_of_mem _ hx))


theorem AppendTexSamplerBinds_sequence_nodup
    (calls : List (ShaderStage × RenderEffect × List (Str × Str))) (prog : OGLESShaderObject)
    (hn : (prog.tex_sampler_binds_.map (fun e => e.1)).Nodup) :
    ((AppendTexSamplerBinds.sequence calls prog).tex_sampler_binds_.map (fun e => e.1)).Nodup := by
  unfold AppendTexSamplerBinds.sequence
  induction calls generalizing prog with
  | nil => exact hn
  | cons c cs ih =>
    rw [List.foldl_cons]
    apply ih
    exact AppendTexSamplerBinds_pairs_nodup c.2.1 _ c.2.2 _ hn

theorem AppendTexSamplerBinds_sequence_bits
    (calls : List (ShaderStage × RenderEffect × List (Str × Str))) (prog : OGLESShaderObject)
    (P : ShaderStage → Str → Prop)
    (h : ∀ n s, (∃ m, firstMask prog.tex_sampler_binds_ n = some m ∧
      m.testBit s.toNat = true) ↔ P s n) :
    ∀ n s, (∃ m, firstMask (AppendTexSamplerBinds.sequence calls prog).tex_sampler_binds_ n =
        some m ∧ m.testBit s.toNat = true) ↔
      (P s n ∨ ∃ c ∈ calls, c.1 = s ∧ ∃ q ∈ c.2.2, combinedName q = n) := by
  unfold AppendTexSamplerBinds.sequence
  induction calls generalizing prog P with
  | nil =>
    intro n s
    simp only [List.foldl_nil, List.not_mem_nil, false_and, exists_false, or_false]
    exact h n s
  | cons c cs ih =>
    intro n s
    rw [List.foldl_cons]
    have hstep := AppendTexSamplerBinds_pairs_bits c.2.1 c.1 c.2.2 prog.tex_sampler_binds_ P h
    rw [ih (AppendTexSamplerBinds c.1 c.2.1 c.2.2 prog) _ hstep n s]
    simp only [List.mem_cons, exists_eq_or_imp]
    exact or_assoc


/-! ### The bindings that DoLinkShaders registers -/

/-- One pass of the loop over the used names appends the location that the index resolves
to, if any, to the locations of the bindings. -/
theorem bind_param_locations (gl : GLProgram) (effect : RenderEffect)
    (shader_stage : OGLESShaderStageObject) (pi : Nat) (prog prog' : OGLESShaderObject)
    (hpi : pi < shader_stage.pnames_.length)
    (h : DoLinkShaders.bind_param gl effect shader_stage pi prog = .ok prog') :
    prog'.param_binds_.map (fun pb => pb.location) =
      prog.param_binds_.map (fun pb => pb.location) ++
        (resolvedLocation gl effect prog.tex_sampler_binds_ shader_stage pi).toList := by
  obtain ⟨rn, hrn, hc⟩ := bind_param_cases gl effect shader_stage pi prog prog' h
  obtain ⟨pn0, hpn0⟩ : ∃ pn, shader_stage.pnames_[pi]? = some pn :=
    ⟨_, List.getElem?_eq_getElem hpi⟩
  unfold resolvedLocation
  rw [hrn, hpn0]
  simp only []
  rcases hc with ⟨hloc, rfl⟩ | ⟨hloc, pn, hpn, hres⟩
  · rw [if_neg (fun hh => hh.1 hloc)]
    simp
  · rw [hpn0] at hpn
    simp only [Option.some.injEq] at hpn
    subst hpn
    rcases hres with ⟨p, hp, rfl⟩ | ⟨hp, i, e, hf, he, rfl⟩ | ⟨hp, hf, heq⟩
    · rw [if_pos ⟨hloc, Or.inl (by rw [hp]; rfl)⟩]
      simp [grow_slots]
    · have hmem : pn0 ∈ prog.tex_sampler_binds_.map (fun e => e.1) := by
        obtain ⟨_, x, hx, hpx⟩ := find_index_some _ _ _ _ hf
        simp only [Nat.sub_zero] at hx
        exact List.mem_map.mpr ⟨x, List.mem_iff_getElem?.mpr ⟨i, hx⟩, of_decide_eq_true hpx⟩
      rw [if_pos ⟨hloc, Or.inr hmem⟩]
      simp [grow_slots]
    · have hnot : ¬ ((effect.ParameterByName pn0).isSome = true ∨
          pn0 ∈ prog.tex_sampler_binds_.map (fun e => e.1)) := by
        rintro (h1 | h2)
        · rw [hp] at h1
          cases h1
        · obtain ⟨x, hx, hxn⟩ := List.mem_map.mp h2
          have := find_index_none _ _ _ hf x hx
          simp only [decide_eq_false_iff_not] at this
          exact this hxn
      rw [if_neg (fun hh => hnot hh.2), heq]
      simp

theorem bind_params_locations (gl : GLProgram) (effect : RenderEffect)
    (shader_stage : OGLESShaderStageObject) (table : List TexSamplerBind) (k i : Nat)
    (prog prog' : OGLESShaderObject) (hk : i + k ≤ shader_stage.pnames_.length)
    (ht : prog.tex_sampler_binds_ = table)
    (h : forLoopM (DoLinkShaders.bind_param gl effect shader_stage) k i prog = .ok prog') :
    prog'.param_binds_.map (fun pb => pb.location) =
      prog.param_binds_.map (fun pb => pb.location) ++
        (List.range' i k).filterMap (resolvedLocation gl effect table shader_stage) := by
  induction k generalizing i prog with
  | zero =>
    simp only [forLoopM, Except.pure_eq_ok, Except.ok.injEq] at h
    subst h
    simp
  | succ k ih =>
    simp only [forLoopM] at h
    obtain ⟨p1, h1, h2⟩ := (bind_eq_ok _ _ _).mp h
    have hstep := bind_param_locations gl effect shader_stage i prog p1 (by omega) h1
    obtain ⟨_, f2, _, _⟩ := bind_param_frame gl effect shader_stage i prog p1 h1
    rw [ih (i + 1) p1 (by omega) (f2.trans ht) h2, hstep, ht, List.range'_succ,
      List.filterMap_cons, List.append_assoc]
    cases resolvedLocation gl effect table shader_stage i <;> rfl

theorem bind_stage_locations (gl : GLProgram) (effect : RenderEffect) (stage : Nat)
    (prog prog' : OGLESShaderObject)
    (h : DoLinkShaders.bind_stage gl effect stage prog = .ok prog') :
    prog'.param_binds_.map (fun pb => pb.location) =
      prog.param_binds_.map (fun pb => pb.location) ++
        (match prog.Stage (ShaderStage.ofIndex stage) with
          | some shader_stage =>
            (List.range shader_stage.pnames_.length).filterMap
              (resolvedLocation gl effect prog.tex_sampler_binds_ shader_stage)
          | none => []) := by
  unfold DoLinkShaders.bind_stage at h
  cases hs : prog.Stage (ShaderStage.ofIndex stage) with
  | none =>
    rw [hs] at h
    simp only [Except.pure_eq_ok, Except.ok.injEq] at h
    subst h
    simp
  | some st =>
    rw [hs] at h
    simp only []
    rw [List.range_eq_range']
    exact bind_params_locations gl effect st _ _ 0 prog prog' (by omega) rfl h

theorem bind_stages_locations (gl : GLProgram) (effect : RenderEffect)
    (table : List TexSamplerBind) (Stage : ShaderStage → Option OGLESShaderStageObject)
    (k i : Nat) (prog prog' : OGLESShaderObject)
    (ht : prog.tex_sampler_binds_ = table) (hst : prog.Stage = Stage)
    (h : forLoopM (DoLinkShaders.bind_stage gl effect) k i prog = .ok prog') :
    prog'.param_binds_.map (fun pb => pb.location) =
      prog.param_binds_.map (fun pb => pb.location) ++
        (List.range' i k).flatMap (fun stage =>
          match Stage (ShaderStage.ofIndex stage) with
          | some shader_stage =>
            (List.range shader_stage.pnames_.length).filterMap
              (resolvedLocation gl effect table shader_stage)
          | none => []) := by
  induction k generalizing i prog with
  | zero =>
    simp only [forLoopM, Except.pure_eq_ok, Except.ok.injEq] at h
    subst h
    simp
  | succ k ih =>
    simp only [forLoopM] at h
    obtain ⟨p1, h1, h2⟩ := (bind_eq_ok _ _ _).mp h
    have hstep := bind_stage_locations gl effect i prog p1 h1
    obtain ⟨f1, f2, _, _⟩ := bind_stage_frame gl effect i prog p1 h1
    rw [ih (i + 1) p1 (f2.trans ht) (f1.trans hst) h2, hstep, ht, hst, List.range'_succ,
      List.flatMap_cons, List.append_assoc]

/-- The locations of the bindings after `DoLinkShaders`, when it returns for a valid
program: those before, followed by the resolved locations of all stages. -/
theorem DoLinkShaders_locations (gl : GLProgram) (effect : RenderEffect)
    (prog r : OGLESShaderObject) (calls : List Call) (hvalid : prog.is_validate_ = true)
    (h : DoLinkShaders gl effect prog = .ok (r, calls)) :
    r.param_binds_.map (fun pb => pb.location) =
      prog.param_binds_.map (fun pb => pb.location) ++
        resolvedLocations gl effect prog.tex_sampler_binds_ prog.Stage := by
  unfold DoLinkShaders at h
  rw [if_pos hvalid] at h
  obtain ⟨lr, hl, h⟩ := (bind_eq_ok _ _ _).mp h
  obtain ⟨p1, c1⟩ := lr
  simp only [] at h
  obtain ⟨atts, _, h⟩ := (bind_eq_ok _ _ _).mp h
  obtain ⟨p2, hs, h⟩ := (bind_eq_ok _ _ _).mp h
  obtain ⟨p3, hat, h⟩ := (bind_eq_ok _ _ _).mp h
  simp only [Except.pure_eq_ok, Except.ok.injEq, Prod.mk.injEq] at h
  obtain ⟨h3, _⟩ := h
  subst h3
  have hp1 := LinkGLSL_frame gl prog p1 c1 hl
  obtain ⟨_, a2⟩ := attribs_frame gl p2 p3 hat
  have hinit : ∀ q : OGLESShaderObject,
      q = DoLinkShaders.retrieve_binary gl
        { p1 with all_cbuff_indices_ := atts.map BlockAttachment.cb_index } →
      q.tex_sampler_binds_ = prog.tex_sampler_binds_ ∧ q.Stage = prog.Stage ∧
      q.param_binds_ = prog.param_binds_ := by
    intro q hq
    subst hq
    subst hp1
    unfold DoLinkShaders.retrieve_binary
    split
    · split
      · exact ⟨rfl, rfl, rfl⟩
      · exact ⟨rfl, rfl, rfl⟩
    · exact ⟨rfl, rfl, rfl⟩
  obtain ⟨i1, i2, i3⟩ := hinit _ rfl
  have := bind_stages_locations gl effect prog.tex_sampler_binds_ prog.Stage _ 0 _ p2 i1 i2 hs
  rw [a2, this, i3]
  unfold resolvedLocations
  rw [List.range_eq_range']


/-! ### The two name lists -/

theorem CompileShader_dispatch_names (env : CompileEnv) (s s1 : OGLESShaderStageObject)
    (h : CompileShader.dispatch env s = .ok s1) :
    s1.pnames_ = s.pnames_ ∧ s1.glsl_res_names_ = s.glsl_res_names_ := by
  unfold CompileShader.dispatch at h
  cases hst : s.stage_ <;> simp only [hst, Except.pure_eq_ok, Except.ok.injEq] at h
  case Domain =>
    by_cases hdev : env.KLAYGE_IS_DEV_PLATFORM = true
    · rw [if_pos hdev] at h
      cases hhs : env.hs_stage with
      | none => simp [hhs, BOOST_ASSERT] at h
      | some hs =>
        simp only [hhs, BOOST_ASSERT, Option.isSome_some, if_true, deref, Except.ok_bind,
          Except.ok.injEq] at h
        subst h
        exact ⟨rfl, rfl⟩
    · rw [if_neg hdev] at h
      simp only [Except.ok.injEq] at h
      subst h
      exact ⟨rfl, rfl⟩
  all_goals
    subst h
    exact ⟨rfl, rfl⟩

/-- The block `if (is_validate_)` of `CompileShader`, when it returns, either leaves both
name lists as they were or has rebuilt them as one and the same list. -/
theorem CompileShader_compile_names (env : CompileEnv) (has_ps : Bool)
    (s t : OGLESShaderStageObject) (h : CompileShader.compile env has_ps s = .ok t) :
    (t.pnames_ = s.pnames_ ∧ t.glsl_res_names_ = s.glsl_res_names_) ∨
      t.glsl_res_names_ = t.pnames_ := by
  unfold CompileShader.compile at h
  by_cases hv : s.is_validate_ = true
  · rw [if_pos hv] at h
    by_cases hdev : env.KLAYGE_IS_DEV_PLATFORM = true
    · rw [if_pos hdev] at h
      by_cases hp : GetShaderProfile s env.sd ≠ []
      · simp only [if_pos hp, if_true] at h
        by_cases hc : env.CompileToDXBC s.stage_ env.sd.func_name (GetShaderProfile s env.sd) = []
        · rw [if_pos hc] at h
          simp only [Except.pure_eq_ok, Except.ok.injEq] at h
          subst h
          exact Or.inl ⟨rfl, rfl⟩
        · rw [if_neg hc] at h
          cases hf : env.FeedDXBC s.stage_
              (env.CompileToDXBC s.stage_ env.sd.func_name (GetShaderProfile s env.sd)) has_ps
              s.ds_partitioning_ s.ds_output_primitive_ with
          | none =>
            rw [hf] at h
            simp only [Except.pure_eq_ok, Except.ok.injEq] at h
            subst h
            exact Or.inl ⟨rfl, rfl⟩
          | some tr =>
            rw [hf] at h
            simp only [] at h
            obtain ⟨_, a2, a3, _⟩ := CompileShader_translated_names _ t tr h
            exact Or.inr (a3.trans a2.symm)
      · simp only [if_neg hp, Bool.false_eq_true, if_false, Except.pure_eq_ok,
          Except.ok.injEq] at h
        subst h
        exact Or.inl ⟨rfl, rfl⟩
    · rw [if_neg hdev] at h
      simp only [Except.pure_eq_ok, Except.ok.injEq] at h
      subst h
      exact Or.inl ⟨rfl, rfl⟩
  · rw [if_neg hv] at h
    simp only [Except.pure_eq_ok, Except.ok.injEq] at h
    subst h
    exact Or.inl ⟨rfl, rfl⟩

theorem CompileShader_names (env : CompileEnv) (s t : OGLESShaderStageObject)
    (h : CompileShader env s = .ok t) :
    (t.pnames_ = s.pnames_ ∧ t.glsl_res_names_ = s.glsl_res_names_) ∨
      t.glsl_res_names_ = t.pnames_ := by
  unfold CompileShader at h
  simp only [] at h
  obtain ⟨s1, hd, hc⟩ := (bind_eq_ok _ _ _).mp h
  obtain ⟨d1, d2⟩ := CompileShader_dispatch_names env _ s1 hd
  rcases CompileShader_compile_names env _ s1 t hc with ⟨c1, c2⟩ | c
  · exact Or.inl ⟨c1.trans d1, c2.trans d2⟩
  · exact Or.inr c


/-! ### The slot arrays -/

/-- Registering a binding whose function captured the size of `textures_` keeps the slot
arrays indexed. -/
theorem SlotIndexed_push (prog : OGLESShaderObject) (pb : ParameterBind)
    (h : SlotIndexed prog) (hslot : pb.func.slot = some prog.textures_.length) :
    SlotIndexed { grow_slots prog with
      param_binds_ := (grow_slots prog).param_binds_ ++ [pb] } := by
  obtain ⟨hs, hk⟩ := h
  refine ⟨grow_slots_push prog pb hs, ?_⟩
  have hlen : prog.textures_.length = prog.param_binds_.length := hs.1
  simp only [grow_slots, List.map_append, List.map_cons, List.map_nil, List.length_append,
    List.length_singleton, List.range_succ, hk, hslot, hlen]

theorem SlotIndexed_of_eq (prog prog' : OGLESShaderObject) (h : SlotIndexed prog)
    (h1 : prog'.param_binds_ = prog.param_binds_) (h2 : prog'.textures_ = prog.textures_)
    (h3 : prog'.gl_bind_targets_ = prog.gl_bind_targets_)
    (h4 : prog'.gl_bind_textures_ = prog.gl_bind_textures_)
    (h5 : prog'.gl_bind_samplers_ = prog.gl_bind_samplers_) : SlotIndexed prog' := by
  unfold SlotIndexed SlotsOfLength at h ⊢
  rw [h1, h2, h3, h4, h5]
  exact h

/-- One pass of the loop of `DoLinkShaders` over the used names keeps the slot arrays
indexed, keeps the bindings registered before, and does not shrink the arrays. -/
theorem bind_param_indexed (gl : GLProgram) (effect : RenderEffect)
    (shader_stage : OGLESShaderStageObject) (pi : Nat) (prog prog' : OGLESShaderObject)
    (h0 : SlotIndexed prog)
    (h : DoLinkShaders.bind_param gl effect shader_stage pi prog = .ok prog') :
    SlotIndexed prog' ∧ prog.param_binds_ <+: prog'.param_binds_ ∧
      prog.textures_.length ≤ prog'.textures_.length := by
  obtain ⟨rn, _, hc⟩ := bind_param_cases gl effect shader_stage pi prog prog' h
  rcases hc with ⟨_, heq⟩ | ⟨_, pn, _, ⟨p, _, heq⟩ | ⟨_, i, e, _, _, heq⟩ | ⟨_, _, heq⟩⟩
  · rw [heq]
    exact ⟨h0, List.prefix_refl _, Nat.le_refl _⟩
  · rw [heq]
    refine ⟨SlotIndexed_push prog _ h0 rfl, List.prefix_append _ _, ?_⟩
    simp [grow_slots, resize_length]
  · rw [heq]
    refine ⟨SlotIndexed_push prog _ h0 rfl, List.prefix_append _ _, ?_⟩
    simp [grow_slots, resize_length]
  · rw [heq]
    exact ⟨h0, List.prefix_refl _, Nat.le_refl _⟩

theorem bind_stage_indexed (gl : GLProgram) (effect : RenderEffect) (stage : Nat)
    (prog prog' : OGLESShaderObject) (h0 : SlotIndexed prog)
    (h : DoLinkShaders.bind_stage gl effect stage prog = .ok prog') :
    SlotIndexed prog' ∧ prog.param_binds_ <+: prog'.param_binds_ ∧
      prog.textures_.length ≤ prog'.textures_.length := by
  unfold DoLinkShaders.bind_stage at h
  cases hs : prog.Stage (ShaderStage.ofIndex stage) with
  | none =>
    rw [hs] at h
    simp only [Except.pure_eq_ok, Except.ok.injEq] at h
    subst h
    exact ⟨h0, List.prefix_refl _, Nat.le_refl _⟩
  | some st =>
    rw [hs] at h
    refine forLoopM_invariant
      (fun p => SlotIndexed p ∧ prog.param_binds_ <+: p.param_binds_ ∧
        prog.textures_.length ≤ p.textures_.length) _ ?_ _ _ _ _
      ⟨h0, List.prefix_refl _, Nat.le_refl _⟩ h
    intro i a b ha hab
    obtain ⟨b1, b2, b3⟩ := bind_param_indexed gl effect st i a b ha.1 hab
    exact ⟨b1, ha.2.1.trans b2, Nat.le_trans ha.2.2 b3⟩

/-- The slot arrays after `DoLinkShaders`, when it returns: they are indexed if they were
before, and the bindings registered before are kept. -/
theorem DoLinkShaders_indexed (gl : GLProgram) (effect : RenderEffect)
    (prog r : OGLESShaderObject) (calls : List Call) (h0 : SlotIndexed prog)
    (h : DoLinkShaders gl effect prog = .ok (r, calls)) :
    SlotIndexed r ∧ prog.param_binds_ <+: r.param_binds_ ∧
      prog.textures_.length ≤ r.textures_.length := by
  unfold DoLinkShaders at h
  by_cases hv : prog.is_validate_ = true
  · rw [if_pos hv] at h
    obtain ⟨lr, hl, h⟩ := (bind_eq_ok _ _ _).mp h
    obtain ⟨p1, c1⟩ := lr
    simp only [] at h
    obtain ⟨atts, _, h⟩ := (bind_eq_ok _ _ _).mp h
    obtain ⟨p2, hs, h⟩ := (bind_eq_ok _ _ _).mp h
    obtain ⟨p3, hat, h⟩ := (bind_eq_ok _ _ _).mp h
    simp only [Except.pure_eq_ok, Except.ok.injEq, Prod.mk.injEq] at h
    obtain ⟨h3, _⟩ := h
    subst h3
    have hp1 := LinkGLSL_frame gl prog p1 c1 hl
    have hinit : ∀ q : OGLESShaderObject,
        q = DoLinkShaders.retrieve_binary gl
          { p1 with all_cbuff_indices_ := atts.map BlockAttachment.cb_index } →
        q.param_binds_ = prog.param_binds_ ∧ q.textures_ = prog.textures_ ∧
        q.gl_bind_targets_ = prog.gl_bind_targets_ ∧
        q.gl_bind_textures_ = prog.gl_bind_textures_ ∧
        q.gl_bind_samplers_ = prog.gl_bind_samplers_ := by
      intro q hq
      subst hq
      subst hp1
      unfold DoLinkShaders.retrieve_binary
      split
      · split
        · exact ⟨rfl, rfl, rfl, rfl, rfl⟩
        · exact ⟨rfl, rfl, rfl, rfl, rfl⟩
      · exact ⟨rfl, rfl, rfl, rfl, rfl⟩
    obtain ⟨i1, i2, i3, i4, i5⟩ := hinit _ rfl
    have hstart := SlotIndexed_of_eq prog _ h0 i1 i2 i3 i4 i5
    have hloop := forLoopM_invariant
      (fun p => SlotIndexed p ∧ prog.param_binds_ <+: p.param_binds_ ∧
        prog.textures_.length ≤ p.textures_.length) _
      (fun i a b ha hab => by
        obtain ⟨b1, b2, b3⟩ := bind_stage_indexed gl effect i a b ha.1 hab
        exact ⟨b1, ha.2.1.trans b2, Nat.le_trans ha.2.2 b3⟩)
      _ _ _ _ ⟨hstart, by rw [i1], by rw [i2]⟩ hs
    obtain ⟨_, a2⟩ := attribs_frame gl p2 p3 hat
    have hslots := attribs_slots gl p2 p3 hloop.1.1 hat
    refine ⟨⟨hslots, ?_⟩, by rw [a2]; exact hloop.2.1, ?_⟩
    · rw [a2]
      exact hloop.1.2
    · have h1 := hslots.1
      have h2 := hloop.1.1.1
      rw [a2] at h1
      rw [h1, ← h2]
      exact hloop.2.2
  · rw [if_neg hv] at h
    simp only [Except.pure_eq_ok, Except.ok.injEq, Prod.mk.injEq] at h
    rw [← h.1]
    exact ⟨h0, List.prefix_refl _, Nat.le_refl _⟩


/-- One pass of the loop of `Clone` over the bindings of the original keeps the slot arrays
of the new program indexed, keeps the bindings registered before, and does not shrink the
arrays. -/
theorem Clone_param_bind_indexed (effect : RenderEffect) (ret ret' : OGLESShaderObject)
    (pb : ParameterBind) (h0 : SlotIndexed ret)
    (h : Clone.param_bind effect ret pb = .ok ret') :
    SlotIndexed ret' ∧ ret.param_binds_ <+: ret'.param_binds_ ∧
      ret.textures_.length ≤ ret'.textures_.length := by
  unfold Clone.param_bind at h
  cases hp : pb.param with
  | some p =>
    rw [hp] at h
    simp only [] at h
    obtain ⟨q, _, h⟩ := (bind_eq_ok _ _ _).mp h
    obtain ⟨_, _, h⟩ := (bind_eq_ok _ _ _).mp h
    simp only [Except.pure_eq_ok, Except.ok.injEq] at h
    subst h
    refine ⟨SlotIndexed_push ret _ h0 rfl, List.prefix_append _ _, ?_⟩
    simp [grow_slots, resize_length]
  | none =>
    rw [hp] at h
    simp only [] at h
    cases hf : find_index (fun e => e.1 = pb.combined_sampler_name) ret.tex_sampler_binds_ 0 with
    | none =>
      rw [hf] at h
      simp only [Except.pure_eq_ok, Except.ok.injEq] at h
      subst h
      exact ⟨h0, List.prefix_refl _, Nat.le_refl _⟩
    | some i =>
      rw [hf] at h
      simp only [] at h
      obtain ⟨ti, _, h⟩ := (bind_eq_ok _ _ _).mp h
      obtain ⟨entry, _, h⟩ := (bind_eq_ok _ _ _).mp h
      simp only [Except.pure_eq_ok, Except.ok.injEq] at h
      subst h
      refine ⟨SlotIndexed_push ret _ h0 rfl, List.prefix_append _ _, ?_⟩
      simp [grow_slots, resize_length]

theorem Clone_param_binds_indexed (effect : RenderEffect) (pbs : List ParameterBind)
    (ret ret' : OGLESShaderObject) (h0 : SlotIndexed ret)
    (h : Clone.param_binds effect ret pbs = .ok ret') :
    SlotIndexed ret' ∧ ret.param_binds_ <+: ret'.param_binds_ := by
  induction pbs generalizing ret with
  | nil =>
    simp only [Clone.param_binds, Except.pure_eq_ok, Except.ok.injEq] at h
    subst h
    exact ⟨h0, List.prefix_refl _⟩
  | cons pb pbs ih =>
    unfold Clone.param_binds at h
    obtain ⟨r1, h1, h⟩ := (bind_eq_ok _ _ _).mp h
    obtain ⟨a, b, _⟩ := Clone_param_bind_indexed effect ret r1 pb h0 h1
    obtain ⟨c, d⟩ := ih r1 a h
    exact ⟨c, b.trans d⟩

/-- The link step of `Clone` changes at most the validity flag. -/
theorem Clone_link_frame (gl : GLProgram) (binary : List Byte) (ret r : OGLESShaderObject)
    (calls : List Call) (h : Clone.link gl binary ret = .ok (r, calls)) :
    ∃ v, r = { ret with is_validate_ := v } := by
  unfold Clone.link at h
  by_cases hbin : binary ≠ []
  · rw [if_pos hbin] at h
    simp only [Except.pure_eq_ok, Except.ok.injEq, Prod.mk.injEq] at h
    exact ⟨ret.is_validate_, h.1.symm⟩
  · rw [if_neg hbin] at h
    have := LinkGLSL_frame gl ret r calls h
    exact ⟨_, this⟩

/-- The slot arrays of the program that `Clone` returns are indexed, whatever the
original. -/
theorem Clone_indexed (gl : GLProgram) (effect : RenderEffect) (prog r : OGLESShaderObject)
    (calls : List Call) (h : Clone gl effect prog = .ok (r, calls)) : SlotIndexed r := by
  unfold Clone at h
  obtain ⟨binds, _, h⟩ := (bind_eq_ok _ _ _).mp h
  simp only [] at h
  by_cases hv : prog.is_validate_ = true
  · rw [if_pos hv] at h
    obtain ⟨lr, hl, h⟩ := (bind_eq_ok _ _ _).mp h
    obtain ⟨p1, c1⟩ := lr
    simp only [] at h
    obtain ⟨atts, _, h⟩ := (bind_eq_ok _ _ _).mp h
    obtain ⟨p2, hpb, h⟩ := (bind_eq_ok _ _ _).mp h
    simp only [Except.pure_eq_ok, Except.ok.injEq, Prod.mk.injEq] at h
    rw [← h.1]
    obtain ⟨v, hp1⟩ := Clone_link_frame gl _ _ p1 c1 hl
    refine (Clone_param_binds_indexed effect _ _ p2 ?_ hpb).1
    subst hp1
    exact ⟨⟨rfl, rfl, rfl, rfl⟩, rfl⟩
  · rw [if_neg hv] at h
    simp only [Except.pure_eq_ok, Except.ok.injEq, Prod.mk.injEq] at h
    rw [← h.1]
    exact ⟨⟨rfl, rfl, rfl, rfl⟩, rfl⟩

/-- In a program with indexed slot arrays every binding has a slot inside each of the four
arrays, and no two bindings have the same slot. -/
theorem SlotIndexed_bounds (prog : OGLESShaderObject) (h : SlotIndexed prog) :
    (∀ (k : Nat) (pb : ParameterBind), prog.param_binds_[k]? = some pb →
      pb.func.slot = some k ∧ k < prog.textures_.length ∧ k < prog.gl_bind_targets_.length ∧
        k < prog.gl_bind_textures_.length ∧ k < prog.gl_bind_samplers_.length) ∧
    (prog.param_binds_.map (fun pb => pb.func.slot)).Nodup := by
  obtain ⟨⟨h1, h2, h3, h4⟩, hk⟩ := h
  constructor
  · intro k pb hpb
    have hlt : k < prog.param_binds_.length := (List.getElem?_eq_some_iff.mp hpb).1
    have := congrArg (fun l => l[k]?) hk
    simp only [List.getElem?_map, hpb, Option.map_some', List.getElem?_range hlt] at this
    exact ⟨Option.some.inj this, by omega, by omega, by omega, by omega⟩
  · rw [hk]
    exact (List.nodup_range _).map (fun a b hab => Option.some.inj hab)


/-! ### The validity threshold of the decoder -/

theorem read_u32_snd (x : Nat) (res : List Byte) : (read_u32 x res).2 = res.drop 4 := by
  simp only [read_u32, read, Native2LE_length]

theorem read_u32_eq (x : Nat) (res : List Byte) (h : 4 ≤ res.length) :
    read_u32 x res = (LE2Native (res.take 4), res.drop 4) := by
  simp only [read_u32, read, Native2LE_length]
  rw [List.drop_eq_nil_of_le (by rw [Native2LE_length]; exact h), List.append_nil]

/-- On a stream whose block length is below 24, `StreamIn` sets the function name, marks
the stage not valid, and reads nothing after the 4 bytes of the length. -/
theorem StreamIn_below_24 (ind : Indeterminate) (t : OGLESShaderStageObject) (sd : ShaderDesc)
    (res : List Byte) (h : (read_u32 ind.native_shader_block_len res).1 < 24) :
    StreamIn ind t sd res =
      ({ t with shader_func_name_ := sd.func_name, is_validate_ := false }, res.drop 4) := by
  unfold StreamIn
  simp only []
  rw [if_neg (by omega), read_u32_snd]

/-- On a stream whose block length is at least 24, `StreamIn` marks the stage valid and
decodes the bytes after the 4 bytes of the length. -/
theorem StreamIn_from_24 (ind : Indeterminate) (t : OGLESShaderStageObject) (sd : ShaderDesc)
    (res : List Byte) (h : 24 ≤ (read_u32 ind.native_shader_block_len res).1) :
    StreamIn ind t sd res =
      StreamIn.block ind { t with shader_func_name_ := sd.func_name, is_validate_ := true }
        (res.drop 4) := by
  unfold StreamIn
  simp only []
  rw [if_pos (by omega), read_u32_snd]

/-- The stage-specific decoder leaves the validity flag as it is. -/
theorem StageSpecificStreamIn_valid (ind : Indeterminate) (s : OGLESShaderStageObject)
    (res : List Byte) : (StageSpecificStreamIn ind s res).1.is_validate_ = s.is_validate_ := by
  unfold StageSpecificStreamIn
  split <;> rfl

theorem StreamIn_block_valid (ind : Indeterminate) (s : OGLESShaderStageObject)
    (res : List Byte) : (StreamIn.block ind s res).1.is_validate_ = s.is_validate_ := by
  unfold StreamIn.block
  simp only [StageSpecificStreamIn_valid]

/-- On every stream, the stage that `StreamIn` returns is valid exactly when the block
length is at least 24. -/
theorem StreamIn_valid_iff (ind : Indeterminate) (t : OGLESShaderStageObject) (sd : ShaderDesc)
    (res : List Byte) :
    (StreamIn ind t sd res).1.is_validate_ = true ↔
      24 ≤ (read_u32 ind.native_shader_block_len res).1 := by
  by_cases hn : 24 ≤ (read_u32 ind.native_shader_block_len res).1
  · rw [StreamIn_from_24 ind t sd res hn, StreamIn_block_valid]
    simp [hn]
  · rw [StreamIn_below_24 ind t sd res (by omega)]
    simp [hn]


/-! ### A block longer than its length field -/

/-- The block of a stage other than a vertex stage with no names and no pairs is its source
and 10 bytes of length and count fields. -/
theorem enc_block_plain (s : OGLESShaderStageObject) (hstage : s.stage_ ≠ .Vertex)
    (hp : s.pnames_ = []) (hr : s.glsl_res_names_ = []) (ht : s.tex_sampler_pairs_ = []) :
    enc_block s = Native2LE 4 (s.glsl_src_.length % 2 ^ 32) ++
      (s.glsl_src_ ++ [0, 0, 0, 0, 0, 0]) := by
  unfold enc_block enc_specific
  rw [hp, hr, ht, if_neg hstage]
  simp only [List.length_nil, Nat.zero_mod, List.flatMap_nil, List.take_nil, List.append_nil,
    List.append_assoc]
  rfl

/-- The bytes that `StreamOut` writes for such a stage when its source has 2^32 - 1 bytes:
the block has 2^32 + 9 bytes, the length field holds 9, and 9 bytes of the block follow. -/
theorem StreamOut_wrapped (s : OGLESShaderStageObject) (hstage : s.stage_ ≠ .Vertex)
    (hp : s.pnames_ = []) (hr : s.glsl_res_names_ = []) (ht : s.tex_sampler_pairs_ = [])
    (hlen : s.glsl_src_.length = 2 ^ 32 - 1) :
    (StreamOut.block s).length = 2 ^ 32 + 9 ∧
    StreamOut s [] = Native2LE 4 9 ++ (Native2LE 4 (2 ^ 32 - 1) ++ s.glsl_src_.take 5) := by
  have hsrc : s.glsl_src_ ≠ [] := by
    intro h
    rw [h] at hlen
    exact absurd hlen (by decide)
  have hb := enc_block_plain s hstage hp hr ht
  have hbl : (enc_block s).length = 2 ^ 32 + 9 := by
    rw [hb]
    simp only [List.length_append, Native2LE_length, hlen, List.length_cons, List.length_nil]
    decide
  constructor
  · rw [StreamOut_block_eq, hbl]
  · rw [StreamOut_eq, if_pos hsrc, hbl, List.nil_append]
    have h9 : (2 ^ 32 + 9) % 2 ^ 32 = 9 := by decide
    rw [h9, hb, hlen]
    have hm : (2 ^ 32 - 1) % 2 ^ 32 = 2 ^ 32 - 1 := by decide
    rw [hm]
    congr 1
    rw [List.take_append_eq_append_take, Native2LE_length, List.take_of_length_le
      (by rw [Native2LE_length]; decide), List.take_append_eq_append_take, hlen]
    have h0 : 9 - 4 - (2 ^ 32 - 1) = 0 := by decide
    rw [h0, List.take_zero, List.append_nil]


/-! ### The parameters of a table entry -/

theorem firstParams_of_map (t t' : List TexSamplerBind) (n : Str)
    (h : t'.map (fun e => (e.1, e.2.1, e.2.2.1)) = t.map (fun e => (e.1, e.2.1, e.2.2.1))) :
    firstParams t' n = firstParams t n := by
  induction t generalizing t' with
  | nil =>
    cases t' with
    | nil => rfl
    | cons a as => simp at h
  | cons e es ih =>
    cases t' with
    | nil => simp at h
    | cons a as =>
      simp only [List.map_cons, List.cons.injEq, Prod.mk.injEq] at h
      obtain ⟨⟨h1, h2, h3⟩, h4⟩ := h
      have := ih as h4
      unfold firstParams at this ⊢
      simp only [List.find?_cons, h1]
      by_cases hn : e.1 = n
      · simp [hn, h2, h3]
      · simp only [hn, decide_False]
        exact this

theorem firstParams_none_iff (t : List TexSamplerBind) (n : Str) :
    firstParams t n = none ↔ ∀ e ∈ t, e.1 ≠ n := by
  unfold firstParams
  simp [List.find?_eq_none]

/-- The parameters of the first entry with a name after one pass of the outer loop: an
entry that was there keeps its parameters, and a name without an entry gets the
parameters of the pair when the pair has that combined name. -/
theorem firstParams_pair (effect : RenderEffect) (mask : Nat) (t : List TexSamplerBind)
    (q : Str × Str) (n : Str) :
    firstParams (AppendTexSamplerBinds.pair effect mask t q) n =
      (firstParams t n).or
        (if combinedName q = n then
          some (effect.ParameterByName q.1, effect.ParameterByName q.2) else none) := by
  unfold AppendTexSamplerBinds.pair
  simp only []
  change firstParams (match AppendTexSamplerBinds.find mask (combinedName q) t with
    | some found => found
    | none => t ++ [(combinedName q, effect.ParameterByName q.1, effect.ParameterByName q.2,
        mask)]) n = _
  cases hf : AppendTexSamplerBinds.find mask (combinedName q) t with
  | some t' =>
    simp only []
    obtain ⟨hmap, hmem⟩ := AppendTexSamplerBinds_find_some mask _ t t' hf
    rw [firstParams_of_map t t' n hmap]
    by_cases hn : combinedName q = n
    · cases hm : firstParams t n with
      | none =>
        exfalso
        rw [firstParams_none_iff] at hm
        obtain ⟨e, he, hen⟩ := List.mem_map.mp hmem
        exact hm e he (hen.trans hn)
      | some m => rfl
    · rw [if_neg hn, Option.or_none]
  | none =>
    simp only []
    have hnone := (AppendTexSamplerBinds_find_none mask _ t).mp hf
    unfold firstParams
    rw [List.find?_append]
    cases ht : t.find? (fun e => decide (e.1 = n)) with
    | some e => rfl
    | none =>
      by_cases hn : combinedName q = n
      · simp [hn]
      · simp [hn]

theorem firstParams_pairs (effect : RenderEffect) (mask : Nat) (pairs : List (Str × Str))
    (t : List TexSamplerBind) (n : Str) :
    firstParams (pairs.foldl (AppendTexSamplerBinds.pair effect mask) t) n =
      (firstParams t n).or ((firstPair pairs n).map
        (fun q => (effect.ParameterByName q.1, effect.ParameterByName q.2))) := by
  induction pairs generalizing t with
  | nil => simp [firstPair]
  | cons q qs ih =>
    rw [List.foldl_cons, ih, firstParams_pair, Option.or_assoc]
    congr 1
    unfold firstPair
    by_cases hn : combinedName q = n
    · simp [hn]
    · simp [hn]

/-- The parameters of the first entry with a name after a sequence of calls on one effect:
those it had before, or else those that the effect has for the first passed pair with that
combined name. -/
theorem firstParams_sequence (effect : RenderEffect)
    (calls : List (ShaderStage × RenderEffect × List (Str × Str))) (prog : OGLESShaderObject)
    (hall : ∀ c ∈ calls, c.2.1 = effect) (n : Str) :
    firstParams (AppendTexSamplerBinds.sequence calls prog).tex_sampler_binds_ n =
      (firstParams prog.tex_sampler_binds_ n).or ((firstPair (passedPairs calls) n).map
        (fun q => (effect.ParameterByName q.1, effect.ParameterByName q.2))) := by
  unfold AppendTexSamplerBinds.sequence
  induction calls generalizing prog with
  | nil => simp [firstPair, passedPairs]
  | cons c cs ih =>
    rw [List.foldl_cons, ih _ (fun x hx => hall x (List.mem_cons_of_mem _ hx))]
    have hc : c.2.1 = effect := hall c (List.mem_cons_self _ _)
    unfold AppendTexSamplerBinds
    simp only []
    rw [firstParams_pairs, hc, Option.or_assoc]
    congr 1
    unfold firstPair passedPairs
    rw [List.flatMap_cons, List.find?_append]
    cases List.find? (fun q => decide (combinedName q = n)) c.2.2 with
    | some q => rfl
    | none => rfl


/-! ### The bindings of DoLinkShaders in full -/

theorem find_index_eq_findIdx {α : Type} (p : α → Bool) (l : List α) (i : Nat) :
    find_index p l i = l.findIdx? p i := by
  induction l generalizing i with
  | nil => rfl
  | cons x xs ih =>
    rw [List.findIdx?_cons, find_index, ih]

theorem withSlots_append (n : Nat) (a b : List (Nat → ParameterBind)) :
    withSlots n (a ++ b) = withSlots n a ++ withSlots (n + a.length) b := by
  induction a generalizing n with
  | nil => rfl
  | cons f fs ih =>
    show f n :: withSlots (n + 1) (fs ++ b) =
      f n :: (withSlots (n + 1) fs ++ withSlots (n + (fs.length + 1)) b)
    rw [ih, show n + 1 + fs.length = n + (fs.length + 1) by omega]

theorem withSlots_length (n : Nat) (a : List (Nat → ParameterBind)) :
    (withSlots n a).length = a.length := by
  induction a generalizing n with
  | nil => rfl
  | cons f fs ih => simp [withSlots, ih]

/-- One pass of the loop over the used names appends the binding that the index resolves
to, if any, with the next slot, and grows the slot arrays by as much. -/
theorem bind_param_binding (gl : GLProgram) (effect : RenderEffect)
    (shader_stage : OGLESShaderStageObject) (pi : Nat) (prog prog' : OGLESShaderObject)
    (hpi : pi < shader_stage.pnames_.length)
    (h : DoLinkShaders.bind_param gl effect shader_stage pi prog = .ok prog') :
    prog'.param_binds_ = prog.param_binds_ ++ withSlots prog.textures_.length
        (resolvedBinding gl effect prog.tex_sampler_binds_ shader_stage pi).toList ∧
    prog'.textures_.length = prog.textures_.length +
        (resolvedBinding gl effect prog.tex_sampler_binds_ shader_stage pi).toList.length := by
  obtain ⟨rn, hrn, hc⟩ := bind_param_cases gl effect shader_stage pi prog prog' h
  obtain ⟨pn0, hpn0⟩ : ∃ pn, shader_stage.pnames_[pi]? = some pn :=
    ⟨_, List.getElem?_eq_getElem hpi⟩
  unfold resolvedBinding
  rw [hrn, hpn0]
  simp only []
  rcases hc with ⟨hloc, rfl⟩ | ⟨hloc, pn, hpn, hres⟩
  · rw [if_neg (fun hh => hh hloc)]
    simp [withSlots]
  · rw [hpn0] at hpn
    simp only [Option.some.injEq] at hpn
    subst hpn
    rw [if_pos hloc]
    rcases hres with ⟨p, hp, rfl⟩ | ⟨hp, i, e, hf, he, rfl⟩ | ⟨hp, hf, heq⟩
    · rw [hp]
      simp [grow_slots, withSlots, resize_length]
    · rw [hp]
      have hname : e.1 = pn0 := by
        obtain ⟨_, x, hx, hpx⟩ := find_index_some _ _ _ _ hf
        simp only [Nat.sub_zero] at hx
        rw [he] at hx
        simp only [Option.some.injEq] at hx
        subst hx
        exact of_decide_eq_true hpx
      rw [find_index_eq_findIdx] at hf
      simp only [hf, he, Option.map_some', Option.toList_some, withSlots, hname, grow_slots,
        resize_length, List.length_singleton, and_self]
    · rw [hp]
      rw [find_index_eq_findIdx] at hf
      simp only [hf, heq, Option.toList_none, withSlots, List.append_nil, List.length_nil,
        Nat.add_zero, and_self]

theorem bind_params_bindings (gl : GLProgram) (effect : RenderEffect)
    (shader_stage : OGLESShaderStageObject) (table : List TexSamplerBind) (k i : Nat)
    (prog prog' : OGLESShaderObject) (hk : i + k ≤ shader_stage.pnames_.length)
    (ht : prog.tex_sampler_binds_ = table)
    (h : forLoopM (DoLinkShaders.bind_param gl effect shader_stage) k i prog = .ok prog') :
    prog'.param_binds_ = prog.param_binds_ ++ withSlots prog.textures_.length
        ((List.range' i k).filterMap (resolvedBinding gl effect table shader_stage)) ∧
    prog'.textures_.length = prog.textures_.length +
        ((List.range' i k).filterMap (resolvedBinding gl effect table shader_stage)).length := by
  induction k generalizing i prog with
  | zero =>
    simp only [forLoopM, Except.pure_eq_ok, Except.ok.injEq] at h
    subst h
    simp [withSlots]
  | succ k ih =>
    simp only [forLoopM] at h
    obtain ⟨p1, h1, h2⟩ := (bind_eq_ok _ _ _).mp h
    obtain ⟨s1, s2⟩ := bind_param_binding gl effect shader_stage i prog p1 (by omega) h1
    obtain ⟨_, f2, _, _⟩ := bind_param_frame gl effect shader_stage i prog p1 h1
    obtain ⟨r1, r2⟩ := ih (i + 1) p1 (by omega) (f2.trans ht) h2
    rw [ht] at s1 s2
    rw [List.range'_succ, List.filterMap_cons]
    cases hres : resolvedBinding gl effect table shader_stage i with
    | none =>
      rw [hres] at s1 s2
      simp only [Option.toList_none, withSlots, List.append_nil, List.length_nil,
        Nat.add_zero] at s1 s2
      simp only []
      rw [r1, r2, s1, s2]
      exact ⟨rfl, rfl⟩
    | some f =>
      rw [hres] at s1 s2
      simp only [Option.toList_some, withSlots, List.length_singleton] at s1 s2
      simp only [withSlots, List.length_cons]
      rw [r1, r2, s1, s2, List.append_assoc]
      exact ⟨rfl, by omega⟩

theorem bind_stage_bindings (gl : GLProgram) (effect : RenderEffect) (stage : Nat)
    (prog prog' : OGLESShaderObject)
    (h : DoLinkShaders.bind_stage gl effect stage prog = .ok prog') :
    prog'.param_binds_ = prog.param_binds_ ++ withSlots prog.textures_.length
        (match prog.Stage (ShaderStage.ofIndex stage) with
          | some shader_stage =>
            (List.range shader_stage.pnames_.length).filterMap
              (resolvedBinding gl effect prog.tex_sampler_binds_ shader_stage)
          | none => []) ∧
    prog'.textures_.length = prog.textures_.length +
        (match prog.Stage (ShaderStage.ofIndex stage) with
          | some shader_stage =>
            (List.range shader_stage.pnames_.length).filterMap
              (resolvedBinding gl effect prog.tex_sampler_binds_ shader_stage)
          | none => []).length := by
  unfold DoLinkShaders.bind_stage at h
  cases hs : prog.Stage (ShaderStage.ofIndex stage) with
  | none =>
    rw [hs] at h
    simp only [Except.pure_eq_ok, Except.ok.injEq] at h
    subst h
    simp [withSlots]
  | some st =>
    rw [hs] at h
    simp only []
    rw [List.range_eq_range']
    exact bind_params_bindings gl effect st _ _ 0 prog prog' (by omega) rfl h

theorem bind_stages_bindings (gl : GLProgram) (effect : RenderEffect)
    (table : List TexSamplerBind) (Stage : ShaderStage → Option OGLESShaderStageObject)
    (k i : Nat) (prog prog' : OGLESShaderObject)
    (ht : prog.tex_sampler_binds_ = table) (hst : prog.Stage = Stage)
    (h : forLoopM (DoLinkShaders.bind_stage gl effect) k i prog = .ok prog') :
    prog'.param_binds_ = prog.param_binds_ ++ withSlots prog.textures_.length
        ((List.range' i k).flatMap (fun stage =>
          match Stage (ShaderStage.ofIndex stage) with
          | some shader_stage =>
            (List.range shader_stage.pnames_.length).filterMap
              (resolvedBinding gl effect table shader_stage)
          | none => [])) ∧
    prog'.textures_.length = prog.textures_.length +
        ((List.range' i k).flatMap (fun stage =>
          match Stage (ShaderStage.ofIndex stage) with
          | some shader_stage =>
            (List.range shader_stage.pnames_.length).filterMap
              (resolvedBinding gl effect table shader_stage)
          | none => [])).length := by
  induction k generalizing i prog with
  | zero =>
    simp only [forLoopM, Except.pure_eq_ok, Except.ok.injEq] at h
    subst h
    simp [withSlots]
  | succ k ih =>
    simp only [forLoopM] at h
    obtain ⟨p1, h1, h2⟩ := (bind_eq_ok _ _ _).mp h
    obtain ⟨s1, s2⟩ := bind_stage_bindings gl effect i prog p1 h1
    obtain ⟨f1, f2, _, _⟩ := bind_stage_frame gl effect i prog p1 h1
    obtain ⟨r1, r2⟩ := ih (i + 1) p1 (f2.trans ht) (f1.trans hst) h2
    rw [ht, hst] at s1 s2
    rw [r1, r2, s1, s2, List.range'_succ, List.flatMap_cons, withSlots_append,
      List.length_append, List.append_assoc]
    exact ⟨rfl, by omega⟩

/-- The bindings after `DoLinkShaders`, when it returns for a valid program: those before,
followed by the resolved bindings of all stages with consecutive slots from the size of
`textures_` on. -/
theorem DoLinkShaders_bindings (gl : GLProgram) (effect : RenderEffect)
    (prog r : OGLESShaderObject) (calls : List Call) (hvalid : prog.is_validate_ = true)
    (h : DoLinkShaders gl effect prog = .ok (r, calls)) :
    r.param_binds_ = prog.param_binds_ ++ withSlots prog.textures_.length
        (resolvedBindings gl effect prog.tex_sampler_binds_ prog.Stage) := by
  unfold DoLinkShaders at h
  rw [if_pos hvalid] at h
  obtain ⟨lr, hl, h⟩ := (bind_eq_ok _ _ _).mp h
  obtain ⟨p1, c1⟩ := lr
  simp only [] at h
  obtain ⟨atts, _, h⟩ := (bind_eq_ok _ _ _).mp h
  obtain ⟨p2, hs, h⟩ := (bind_eq_ok _ _ _).mp h
  obtain ⟨p3, hat, h⟩ := (bind_eq_ok _ _ _).mp h
  simp only [Except.pure_eq_ok, Except.ok.injEq, Prod.mk.injEq] at h
  obtain ⟨h3, _⟩ := h
  subst h3
  have hp1 := LinkGLSL_frame gl prog p1 c1 hl
  obtain ⟨_, a2⟩ := attribs_frame gl p2 p3 hat
  have hinit : ∀ q : OGLESShaderObject,
      q = DoLinkShaders.retrieve_binary gl
        { p1 with all_cbuff_indices_ := atts.map BlockAttachment.cb_index } →
      q.tex_sampler_binds_ = prog.tex_sampler_binds_ ∧ q.Stage = prog.Stage ∧
      q.param_binds_ = prog.param_binds_ ∧ q.textures_ = prog.textures_ := by
    intro q hq
    subst hq
    subst hp1
    unfold DoLinkShaders.retrieve_binary
    split
    · split
      · exact ⟨rfl, rfl, rfl, rfl⟩
      · exact ⟨rfl, rfl, rfl, rfl⟩
    · exact ⟨rfl, rfl, rfl, rfl⟩
  obtain ⟨i1, i2, i3, i4⟩ := hinit _ rfl
  have := (bind_stages_bindings gl effect prog.tex_sampler_binds_ prog.Stage _ 0 _ p2 i1 i2
    hs).1
  rw [a2, this, i3, i4]
  unfold resolvedBindings
  rw [List.range_eq_range']

/-- The method `DoLinkShaders` leaves the bind table as it is. -/
theorem DoLinkShaders_table (gl : GLProgram) (effect : RenderEffect)
    (prog r : OGLESShaderObject) (calls : List Call)
    (h : DoLinkShaders gl effect prog = .ok (r, calls)) :
    r.tex_sampler_binds_ = prog.tex_sampler_binds_ := by
  unfold DoLinkShaders at h
  by_cases hvalid : prog.is_validate_ = true
  · rw [if_pos hvalid] at h
    obtain ⟨lr, hl, h⟩ := (bind_eq_ok _ _ _).mp h
    obtain ⟨p1, c1⟩ := lr
    simp only [] at h
    obtain ⟨atts, _, h⟩ := (bind_eq_ok _ _ _).mp h
    obtain ⟨p2, hs, h⟩ := (bind_eq_ok _ _ _).mp h
    obtain ⟨p3, hat, h⟩ := (bind_eq_ok _ _ _).mp h
    simp only [Except.pure_eq_ok, Except.ok.injEq, Prod.mk.injEq] at h
    obtain ⟨h3, _⟩ := h
    subst h3
    have hp1 := LinkGLSL_frame gl prog p1 c1 hl
    obtain ⟨a1, _⟩ := attribs_frame gl p2 p3 hat
    obtain ⟨_, b2, _, _⟩ := bind_stages_frame gl effect _ _ _ p2 hs
    rw [a1, b2]
    subst hp1
    unfold DoLinkShaders.retrieve_binary
    split
    · split <;> rfl
    · rfl
  · rw [if_neg hvalid] at h
    simp only [Except.pure_eq_ok, Except.ok.injEq, Prod.mk.injEq] at h
    rw [← h.1]


/-! ### DoLinkShaders runs to completion -/

theorem forLoopM_total {σ : Type} (I : σ → Prop) (body : Nat → σ → Except Fault σ)
    (k i : Nat) (st : σ) (h0 : I st)
    (hbody : ∀ j st, i ≤ j → j < i + k → I st → ∃ st', body j st = .ok st' ∧ I st') :
    ∃ st', forLoopM body k i st = .ok st' ∧ I st' := by
  induction k generalizing i st with
  | zero => exact ⟨st, rfl, h0⟩
  | succ k ih =>
    obtain ⟨st1, h1, hI1⟩ := hbody i st (Nat.le_refl _) (by omega) h0
    obtain ⟨st2, h2, hI2⟩ := ih (i + 1) st1 hI1
      (fun j s hj hj' hs => hbody j s (by omega) (by omega) hs)
    refine ⟨st2, ?_, hI2⟩
    simp only [forLoopM, h1, Except.ok_bind]
    exact h2

theorem forLoopM_returns {σ : Type} (body : Nat → σ → Except Fault σ) (k i : Nat) (st : σ)
    (hbody : ∀ j st, i ≤ j → j < i + k → ∃ st', body j st = .ok st') :
    ∃ st', forLoopM body k i st = .ok st' := by
  obtain ⟨st', h, _⟩ := forLoopM_total (fun _ => True) body k i st trivial
    (fun j s hj hj' _ => by
      obtain ⟨s', hs'⟩ := hbody j s hj hj'
      exact ⟨s', hs', trivial⟩)
  exact ⟨st', h⟩

theorem ShaderStage_ofIndex_toNat (s : ShaderStage) :
    ShaderStage.ofIndex s.toNat = s ∧ s.toNat < NumShaderStages := by
  cases s <;> exact ⟨rfl, by decide⟩

/-- One pass of the loop over the used names returns for a stage that is `StageLinkable`. -/
theorem bind_param_total (gl : GLProgram) (effect : RenderEffect)
    (shader_stage : OGLESShaderStageObject) (pi : Nat) (prog : OGLESShaderObject)
    (hst : StageLinkable gl effect shader_stage) (hpi : pi < shader_stage.pnames_.length) :
    ∃ prog', DoLinkShaders.bind_param gl effect shader_stage pi prog = .ok prog' := by
  obtain ⟨_, hlen, hty⟩ := hst
  have hrn : shader_stage.glsl_res_names_[pi]? = some (shader_stage.glsl_res_names_[pi]) :=
    List.getElem?_eq_getElem (by omega)
  have hpn : shader_stage.pnames_[pi]? = some (shader_stage.pnames_[pi]) :=
    List.getElem?_eq_getElem hpi
  unfold DoLinkShaders.bind_param
  rw [at_index_ok _ _ _ hrn]
  simp only [Except.ok_bind]
  by_cases hloc : gl.glGetUniformLocation shader_stage.glsl_res_names_[pi] ≠ -1
  · rw [if_pos hloc, at_index_ok _ _ _ hpn]
    simp only [Except.ok_bind]
    have hmem : (shader_stage.glsl_res_names_[pi], shader_stage.pnames_[pi]) ∈
        List.zip shader_stage.glsl_res_names_ shader_stage.pnames_ :=
      List.mem_iff_getElem?.mpr ⟨pi, List.getElem?_zip_eq_some.mpr ⟨hrn, hpn⟩⟩
    have ht := hty _ hmem hloc
    cases hp : effect.ParameterByName shader_stage.pnames_[pi] with
    | some p =>
      rw [hp] at ht
      simp only [Option.all_some, decide_eq_true_eq] at ht
      simp only [BOOST_ASSERT, ht, decide_True, if_true, Except.ok_bind, Except.pure_eq_ok]
      exact ⟨_, rfl⟩
    | none =>
      simp only []
      cases hf : find_index (fun e => decide (e.1 = shader_stage.pnames_[pi]))
          prog.tex_sampler_binds_ 0 with
      | none => exact ⟨_, rfl⟩
      | some i =>
        obtain ⟨_, e, he, _⟩ := find_index_some _ _ _ _ hf
        simp only [Nat.sub_zero] at he
        simp only [at_index_ok _ _ _ he, Except.ok_bind, Except.pure_eq_ok]
        exact ⟨_, rfl⟩
  · rw [if_neg hloc]
    exact ⟨_, rfl⟩

theorem bind_stage_total (gl : GLProgram) (effect : RenderEffect) (stage : Nat)
    (prog : OGLESShaderObject)
    (hst : (prog.Stage (ShaderStage.ofIndex stage)).all
      (fun st => decide (StageLinkable gl effect st)) = true) :
    ∃ prog', DoLinkShaders.bind_stage gl effect stage prog = .ok prog' := by
  unfold DoLinkShaders.bind_stage
  cases hs : prog.Stage (ShaderStage.ofIndex stage) with
  | none => exact ⟨_, rfl⟩
  | some st =>
    rw [hs] at hst
    simp only [Option.all_some, decide_eq_true_eq] at hst
    simp only []
    apply forLoopM_returns
    intro j s _ hj
    exact bind_param_total gl effect st j s hst (by omega)

/-- The last block of `DoLinkShaders` returns when there is a vertex stage with a usage and
a usage index for every attribute name. -/
theorem attribs_total (gl : GLProgram) (prog : OGLESShaderObject)
    (hvs : (prog.Stage .Vertex).any (fun vs =>
      decide (vs.glsl_attrib_names_.length ≤ vs.usages_.length ∧
        vs.glsl_attrib_names_.length ≤ vs.usage_indices_.length)) = true) :
    ∃ prog', DoLinkShaders.attribs gl prog = .ok prog' := by
  unfold DoLinkShaders.attribs
  cases hv : prog.Stage .Vertex with
  | none => rw [hv] at hvs; simp at hvs
  | some vs =>
    rw [hv] at hvs
    simp only [Option.any_some, decide_eq_true_eq] at hvs
    simp only [deref, Except.ok_bind]
    apply forLoopM_returns
    intro j s _ hj
    obtain ⟨a1, h1⟩ : ∃ a, vs.usages_[j]? = some a :=
      ⟨_, List.getElem?_eq_getElem (by omega)⟩
    obtain ⟨a2, h2⟩ : ∃ a, vs.usage_indices_[j]? = some a :=
      ⟨_, List.getElem?_eq_getElem (by omega)⟩
    obtain ⟨a3, h3⟩ : ∃ a, vs.glsl_attrib_names_[j]? = some a :=
      ⟨_, List.getElem?_eq_getElem (by omega)⟩
    simp only [at_index_ok _ _ _ h1, at_index_ok _ _ _ h2, at_index_ok _ _ _ h3,
      Except.ok_bind, Except.pure_eq_ok]
    exact ⟨_, rfl⟩

/-- The method `DoLinkShaders` returns for every program that is `Linkable`. -/
theorem DoLinkShaders_total (gl : GLProgram) (effect : RenderEffect)
    (prog : OGLESShaderObject) (h : Linkable gl effect prog) :
    ∃ r calls, DoLinkShaders gl effect prog = .ok (r, calls) := by
  obtain ⟨hstages, hvs, hnul, hdecl⟩ := h
  unfold DoLinkShaders
  by_cases hvalid : prog.is_validate_ = true
  · rw [if_pos hvalid]
    have hshader : ∀ stage st, prog.Stage stage = some st → st.gl_shader_ ≠ 0 := by
      intro stage st hst
      obtain ⟨e1, e2⟩ := ShaderStage_ofIndex_toNat stage
      have := hstages stage.toNat e2
      rw [e1, hst] at this
      simp only [Option.all_some, decide_eq_true_eq] at this
      exact this.1
    have hlink : LinkGLSL gl prog = .ok ({ prog with
        is_validate_ := prog.is_validate_ && gl.link_status },
        match LinkGLSL.tfb_stage prog with
        | some tfb_stage =>
          [Call.glTransformFeedbackVaryings tfb_stage.glsl_tfb_varyings_
            tfb_stage.tfb_separate_attribs_]
        | none => []) := by
      unfold LinkGLSL
      rw [LinkGLSL_attach_ok prog hshader]
      rfl
    obtain ⟨atts, hatt⟩ := AttachUBOs_total gl effect hnul hdecl
    rw [hlink]
    simp only [Except.ok_bind, hatt]
    obtain ⟨p2, hp2, hI⟩ := forLoopM_total (fun p => p.Stage = prog.Stage)
      (DoLinkShaders.bind_stage gl effect) NumShaderStages 0
      (DoLinkShaders.retrieve_binary gl
        { prog with
          is_validate_ := prog.is_validate_ && gl.link_status
          all_cbuff_indices_ := atts.map BlockAttachment.cb_index })
      (by
        unfold DoLinkShaders.retrieve_binary
        split
        · split <;> rfl
        · rfl)
      (fun j s _ hj hs => by
        obtain ⟨s', hs'⟩ := bind_stage_total gl effect j s
          (by rw [hs]; exact hstages j (by omega))
        exact ⟨s', hs', (bind_stage_frame gl effect j s s' hs').1.trans hs⟩)
    rw [hp2]
    simp only [Except.ok_bind]
    obtain ⟨p3, hp3⟩ := attribs_total gl p2 (by rw [hI]; exact hvs)
    rw [hp3]
    exact ⟨_, _, rfl⟩
  · rw [if_neg hvalid]
    exact ⟨_, _, rfl⟩

/-! ## The stage codec: claims C1 to C3 -/

/-- C1, counterexample.  The pixel stage whose artifact is the one-byte source `a` is
written as a block of 11 bytes; `StreamIn` on these bytes finds a block length below 24,
returns the freshly constructed stage untouched (not valid, empty source) and leaves the 11
bytes of the block unread, so the source is not reproduced. -/
theorem StreamIn_StreamOut_short_block :
    StreamOut shortStage [] = [11, 0, 0, 0, 1, 0, 0, 0, 97, 0, 0, 0, 0, 0, 0] ∧
    (∀ ind : Indeterminate,
      StreamIn ind (OGLESShaderStageObject.new .Pixel false false) ⟨[], [], []⟩
          (StreamOut shortStage []) =
        (OGLESShaderStageObject.new .Pixel false false,
          [1, 0, 0, 0, 97, 0, 0, 0, 0, 0, 0])) ∧
    (OGLESShaderStageObject.new .Pixel false false).glsl_src_ ≠ shortStage.glsl_src_ := by
  have hout : StreamOut shortStage [] = [11, 0, 0, 0, 1, 0, 0, 0, 97, 0, 0, 0, 0, 0, 0] := by
    decide
  refine ⟨hout, ?_, by decide⟩
  intro ind
  rw [hout]
  exact StreamIn_below_24 ind _ _ _ (by rw [read_u32_eq _ _ (by decide)]; decide)

/-- C1, amended.  For every stage `s` with non-empty source whose fields fit the widths of
the record (`FitsRecord`) and whose block is at least 24 bytes long, `StreamIn` applied to a
freshly constructed stage of the same kind on the bytes written by `StreamOut` succeeds,
consumes them all, and reproduces the source, the used-name list, the resource-name list and
the pair list in order, and for a vertex stage the usage, usage-index and attribute-name
arrays. -/
theorem StreamIn_StreamOut_roundtrip (ind : Indeterminate) (s : OGLESShaderStageObject)
    (sd : ShaderDesc) (hs_support ds_support : Bool) (hsrc : s.glsl_src_ ≠ [])
    (hfit : FitsRecord s) (h24 : 24 ≤ (StreamOut.block s).length) :
    ∃ t, StreamIn ind (OGLESShaderStageObject.new s.stage_ hs_support ds_support) sd
          (StreamOut s []) = (t, []) ∧
      t.glsl_src_ = s.glsl_src_ ∧ t.pnames_ = s.pnames_ ∧
      t.glsl_res_names_ = s.glsl_res_names_ ∧ t.tex_sampler_pairs_ = s.tex_sampler_pairs_ ∧
      (s.stage_ = .Vertex →
        t.usages_ = s.usages_ ∧ t.usage_indices_ = s.usage_indices_ ∧
        t.glsl_attrib_names_ = s.glsl_attrib_names_) := by
  have hst : (OGLESShaderStageObject.new s.stage_ hs_support ds_support).stage_ = s.stage_ := by
    cases s.stage_ <;> rfl
  have hp : (OGLESShaderStageObject.new s.stage_ hs_support ds_support).tex_sampler_pairs_
      = [] := by
    cases s.stage_ <;> rfl
  have hu : (OGLESShaderStageObject.new s.stage_ hs_support ds_support).usage_indices_
      = [] := by
    cases s.stage_ <;> rfl
  have h := StreamIn_StreamOut ind _ s sd [] hst hsrc hfit h24
  rw [List.append_nil] at h
  refine ⟨_, h, rfl, rfl, rfl, ?_, ?_⟩
  · simp [decoded, hp]
  · intro hv
    refine ⟨by simp [decoded, hv], ?_, by simp [decoded, hv]⟩
    by_cases hi : s.usage_indices_ = []
    · rw [hv] at hu
      simp [decoded, hv, hi, hu]
    · simp [decoded, hv, hi]

/-- Witness of `StreamIn_StreamOut_roundtrip` on a vertex stage with names, a pair and
vertex attributes. -/
theorem StreamIn_StreamOut_roundtrip_witness :
    sampleVertexStage.glsl_src_ ≠ [] ∧ FitsRecord sampleVertexStage ∧
    24 ≤ (StreamOut.block sampleVertexStage).length ∧
    ∃ t, StreamIn sampleIndeterminate
          (OGLESShaderStageObject.new sampleVertexStage.stage_ false false) sampleDesc
          (StreamOut sampleVertexStage []) = (t, []) ∧
      t.glsl_src_ = sampleVertexStage.glsl_src_ ∧ t.pnames_ = sampleVertexStage.pnames_ ∧
      t.glsl_res_names_ = sampleVertexStage.glsl_res_names_ ∧
      t.tex_sampler_pairs_ = sampleVertexStage.tex_sampler_pairs_ ∧
      (sampleVertexStage.stage_ = .Vertex →
        t.usages_ = sampleVertexStage.usages_ ∧
        t.usage_indices_ = sampleVertexStage.usage_indices_ ∧
        t.glsl_attrib_names_ = sampleVertexStage.glsl_attrib_names_) :=
  ⟨by decide, by decide, by decide,
    StreamIn_StreamOut_roundtrip sampleIndeterminate sampleVertexStage sampleDesc false false
      (by decide)
      (by decide) (by decide)⟩

set_option maxRecDepth 8192 in
/-- C2, counterexample.  For a pixel stage with source `a` and one pair whose texture name
has 256 bytes, `StreamOut` writes the length byte 0 for the texture and none of its bytes:
the whole output is 18 bytes, and it is not the record of the specification, which holds
the 256 bytes of the name. -/
theorem StreamOut_long_name_not_layout :
    StreamOut longNameStage [] =
      [14, 0, 0, 0, 1, 0, 0, 0, 97, 0, 0, 0, 0, 1, 0, 0, 1, 115] ∧
    StreamOut longNameStage [] ≠ Layout.record longNameStage := by
  constructor
  · decide
  · intro h
    have hl := congrArg List.length h
    revert hl
    decide

/-- C2, amended.  For every stage the output of `StreamOut` is a 4-byte little-endian block
length followed by exactly that many bytes.  If the fields of the stage fit the widths of
the record (`FitsRecord`: names of at most 255 bytes, at most 65535 entries in each of the
three lists, at most 255 entries in each vertex array, a block shorter than 2^32 bytes),
then the block is empty exactly when the source is empty, and otherwise it is the block of
the specification: source length and source, used names, resource names, pairs, and the
stage-specific trailing data. -/
theorem StreamOut_record_layout (s : OGLESShaderStageObject) (os : List Byte) :
    ∃ block : List Byte,
      StreamOut s os = os ++ (Native2LE 4 block.length ++ block) ∧ block.length < 2 ^ 32 ∧
      (FitsRecord s →
        (block.length = 0 ↔ s.glsl_src_ = []) ∧
        (s.glsl_src_ ≠ [] → block = Layout.block s)) := by
  refine ⟨(if s.glsl_src_ ≠ [] then enc_block s else []).take
      ((if s.glsl_src_ ≠ [] then enc_block s else []).length % 2 ^ 32), ?_, ?_, ?_⟩
  · rw [StreamOut_eq, List.length_take, Nat.min_eq_left (Nat.mod_le _ _)]
  · rw [List.length_take, Nat.min_eq_left (Nat.mod_le _ _)]
    exact Nat.mod_lt _ (by norm_num)
  · intro hfit
    have h8 := hfit.2.2.2.2.2.2.2
    rw [StreamOut_block_eq] at h8
    by_cases hsrc : s.glsl_src_ = []
    · simp [hsrc]
    · simp only [hsrc, ne_eq, not_false_eq_true, if_true, iff_false, forall_true_left]
      rw [Nat.mod_eq_of_lt h8, List.take_length]
      refine ⟨?_, enc_block_eq_layout s hfit⟩
      intro h0
      exact enc_block_ne_nil s (List.length_eq_zero.mp h0)

/-- Witness of `StreamOut_record_layout` on a vertex stage: its fields fit the record, its
source is not empty, and the 85 bytes after the block length are the block of the
specification. -/
theorem StreamOut_record_layout_witness :
    FitsRecord sampleVertexStage ∧ sampleVertexStage.glsl_src_ ≠ [] ∧
    StreamOut sampleVertexStage [] =
      [] ++ (Native2LE 4 (Layout.block sampleVertexStage).length ++
        Layout.block sampleVertexStage) ∧
    (Layout.block sampleVertexStage).length = 85 := by
  obtain ⟨block, h1, _, h3⟩ := StreamOut_record_layout sampleVertexStage []
  have hb := (h3 (by decide)).2 (by decide)
  subst hb
  exact ⟨by decide, by decide, h1, by decide⟩

/-- C3.  On every input stream that starts with a block length of 0, `StreamIn` returns
the stage with `is_validate_ = false` and the entry-point name of the descriptor, leaves
the source, the name lists, the pair list and the vertex arrays as they were, and has read
exactly the four bytes of the length. -/
theorem StreamIn_absent_stage (ind : Indeterminate) (s : OGLESShaderStageObject)
    (sd : ShaderDesc) (res : List Byte)
    (hlen : 4 ≤ res.length) (hzero : LE2Native (res.take 4) = 0) :
    StreamIn ind s sd res =
      ({ s with shader_func_name_ := sd.func_name, is_validate_ := false }, res.drop 4) :=
  StreamIn_below_24 ind s sd res
    (by rw [read_u32_eq _ _ hlen, hzero]; exact (by decide : (0 : Nat) < 24))

/-- Witness of `StreamIn_absent_stage`: a stage that already holds names, followed in the
stream by two more bytes, which stay unread. -/
theorem StreamIn_absent_stage_witness :
    4 ≤ ([0, 0, 0, 0, 7, 9] : List Byte).length ∧
    LE2Native (([0, 0, 0, 0, 7, 9] : List Byte).take 4) = 0 ∧
    StreamIn sampleIndeterminate sampleVertexStage sampleDesc [0, 0, 0, 0, 7, 9] =
      ({ sampleVertexStage with
              shader_func_name_ := sampleDesc.func_name, is_validate_ := false },
        ([0, 0, 0, 0, 7, 9] : List Byte).drop 4) :=
  ⟨by decide, by decide,
    StreamIn_absent_stage sampleIndeterminate sampleVertexStage sampleDesc [0, 0, 0, 0, 7, 9]
      (by decide) (by decide)⟩

/-! ## `CompileShader` and `GetShaderProfile`: claims C4 and C10 -/

/-- C4, counterexample.  `CompileShader` on a pixel stage that already holds one pair, with
a translation that uses two textures and two samplers: the recorded pair list has five
entries, the old pair followed by the four pairs of the cross product, so it is not the
cross product. -/
theorem CompileShader_pairs_appended :
    (CompileShader (sampleEnv true) stageWithPair).map (fun t => t.tex_sampler_pairs_) =
      .ok [(ascii "old_t", ascii "old_s"), (ascii "t0", ascii "s0"), (ascii "t0", ascii "s1"),
        (ascii "t1", ascii "s0"), (ascii "t1", ascii "s1")] ∧
    crossProduct sampleTranslation =
      [(ascii "t0", ascii "s0"), (ascii "t0", ascii "s1"), (ascii "t1", ascii "s0"),
        (ascii "t1", ascii "s1")] := by
  decide

/-- C4, amended.  On a development-platform build, whenever `CompileShader` leaves a valid
stage `t`, it obtained a translation `tr` from `FeedDXBC`, and with `T` the used non-buffer
textures and `S` the used samplers of `tr`: the cross product has `T * S` pairs in
texture-major order; both name lists are the used variables, then the used buffer textures
under their own names, then the combined name `texture_sampler` of each pair of the cross
product, once each and in that order; and the pair list is the pair list the stage held
before followed by the cross product, hence the cross product itself when the stage held no
pair, as a newly constructed stage does. -/
theorem CompileShader_cross_product (env : CompileEnv) (s t : OGLESShaderStageObject)
    (hdev : env.KLAYGE_IS_DEV_PLATFORM = true) (hok : CompileShader env s = .ok t)
    (hvalid : t.is_validate_ = true) :
    ∃ code has_ps partitioning output_primitive tr,
      env.FeedDXBC s.stage_ code has_ps partitioning output_primitive = some tr ∧
      t.glsl_src_ = tr.GLSLString ∧
      (crossProduct tr).length = (usedTextures tr).length * (usedSamplers tr).length ∧
      crossProduct tr = List.product (usedTextures tr) (usedSamplers tr) ∧
      t.pnames_ =
        usedVariables tr ++ usedBufferTextures tr ++
          (crossProduct tr).map (fun p => p.1 ++ ascii "_" ++ p.2) ∧
      t.glsl_res_names_ = t.pnames_ ∧
      t.tex_sampler_pairs_ = s.tex_sampler_pairs_ ++ crossProduct tr ∧
      (s.tex_sampler_pairs_ = [] → t.tex_sampler_pairs_ = crossProduct tr) := by
  unfold CompileShader at hok
  simp only [] at hok
  cases hd : CompileShader.dispatch env
      { s with shader_func_name_ := env.sd.func_name, is_validate_ := true } with
  | error e => rw [hd] at hok; simp at hok
  | ok s1 =>
    rw [hd] at hok
    simp only [Except.ok_bind] at hok
    obtain ⟨d1, d2, _⟩ := CompileShader_dispatch_frame env _ s1 hd
    obtain ⟨code, tr, hfeed, htr⟩ := CompileShader_compile_valid env _ s1 t hdev hok hvalid
    obtain ⟨a1, a2, a3, a4, _⟩ := CompileShader_translated_names _ t tr htr
    have hcross : crossProduct tr = List.product (usedTextures tr) (usedSamplers tr) := by
      simp [crossProduct, List.product]
    simp only [] at d1 d2 a4
    refine ⟨code, _, _, _, tr, d1 ▸ hfeed, a1, ?_, hcross, a2, by rw [a3, a2], ?_, ?_⟩
    · rw [hcross]; exact List.length_product _ _
    · rw [a4, d2]
    · intro he
      rw [a4, d2, he, List.nil_append]

/-- Witness of `CompileShader_cross_product`: a newly constructed vertex stage compiled
with a translation that uses one variable, one buffer texture, two textures and two
samplers. -/
theorem CompileShader_cross_product_witness :
    (sampleEnv true).KLAYGE_IS_DEV_PLATFORM = true ∧
    CompileShader (sampleEnv true) (OGLESShaderStageObject.new .Vertex false false) =
      .ok sampleCompiled ∧
    sampleCompiled.is_validate_ = true ∧
    ∃ code has_ps partitioning output_primitive tr,
      (sampleEnv true).FeedDXBC (OGLESShaderStageObject.new .Vertex false false).stage_ code
        has_ps partitioning output_primitive = some tr ∧
      sampleCompiled.glsl_src_ = tr.GLSLString ∧
      (crossProduct tr).length = (usedTextures tr).length * (usedSamplers tr).length ∧
      crossProduct tr = List.product (usedTextures tr) (usedSamplers tr) ∧
      sampleCompiled.pnames_ =
        usedVariables tr ++ usedBufferTextures tr ++
          (crossProduct tr).map (fun p => p.1 ++ ascii "_" ++ p.2) ∧
      sampleCompiled.glsl_res_names_ = sampleCompiled.pnames_ ∧
      sampleCompiled.tex_sampler_pairs_ =
        (OGLESShaderStageObject.new .Vertex false false).tex_sampler_pairs_ ++ crossProduct tr ∧
      ((OGLESShaderStageObject.new .Vertex false false).tex_sampler_pairs_ = [] →
        sampleCompiled.tex_sampler_pairs_ = crossProduct tr) :=
  ⟨rfl, by decide, rfl,
    CompileShader_cross_product (sampleEnv true) (OGLESShaderStageObject.new .Vertex false false)
      sampleCompiled rfl (by decide) rfl⟩

/-- C10, counterexample.  On a build that is not a development platform, `CompileShader`
on a hull stage that is unavailable returns the stage with `is_validate_ = true`, although
`GetShaderProfile` gives the empty profile for it. -/
theorem CompileShader_unavailable_not_dev :
    (OGLESShaderStageObject.new .Hull false false).is_available_ = false ∧
    GetShaderProfile (OGLESShaderStageObject.new .Hull false false) (sampleEnv false).sd = [] ∧
    (CompileShader (sampleEnv false) (OGLESShaderStageObject.new .Hull false false)).map
      (fun t => t.is_validate_) = .ok true := by
  decide

/-- C10, amended.  For every stage object and shader descriptor: if the stage is available
and the profile of the descriptor is `auto`, `GetShaderProfile` returns the default profile
of the stage (`vs_5_0`, `ps_5_0`, `gs_5_0`, `cs_5_0`, `hs_5_0`, `ds_5_0` for vertex, pixel,
geometry, compute, hull, domain); if the stage is available and the profile is anything
else, it returns that profile unchanged; if the stage is unavailable it returns the empty
profile whatever the descriptor says, and on a development-platform build `CompileShader`
(for a domain stage: given the hull stage of the program) then returns the stage with
`is_validate_ = false`. -/
theorem GetShaderProfile_resolution (s : OGLESShaderStageObject) (sd : ShaderDesc) :
    (s.is_available_ = true → sd.profile = ascii "auto" →
      GetShaderProfile s sd =
        match s.stage_ with
        | .Vertex => ascii "vs_5_0"
        | .Pixel => ascii "ps_5_0"
        | .Geometry => ascii "gs_5_0"
        | .Compute => ascii "cs_5_0"
        | .Hull => ascii "hs_5_0"
        | .Domain => ascii "ds_5_0") ∧
    (s.is_available_ = true → sd.profile ≠ ascii "auto" → GetShaderProfile s sd = sd.profile) ∧
    (s.is_available_ = false →
      GetShaderProfile s sd = [] ∧
      ∀ env : CompileEnv, env.sd = sd → env.KLAYGE_IS_DEV_PLATFORM = true →
        (s.stage_ = .Domain → env.hs_stage ≠ none) →
        ∃ t, CompileShader env s = .ok t ∧ t.is_validate_ = false) := by
  refine ⟨?_, ?_, ?_⟩
  · intro ha hp
    unfold GetShaderProfile
    simp only [ha, hp, if_true]
    cases s.stage_ <;> rfl
  · intro ha hp
    unfold GetShaderProfile
    simp only [ha, hp, if_true, if_false]
  · intro ha
    refine ⟨by simp [GetShaderProfile, ha], ?_⟩
    intro env hsd hdev hhull
    have hprof : ∀ s1 : OGLESShaderStageObject, s1.is_available_ = false →
        ∀ has_ps, s1.is_validate_ = true ∨ s1.is_validate_ = false →
        ∃ t, CompileShader.compile env has_ps s1 = .ok t ∧ t.is_validate_ = false := by
      intro s1 h1 has_ps _
      unfold CompileShader.compile
      by_cases hv : s1.is_validate_ = true
      · have hp : GetShaderProfile s1 env.sd = [] := by simp [GetShaderProfile, h1]
        simp only [hv, hdev, if_true, hp, ne_eq, not_true_eq_false, if_false,
          Bool.false_eq_true, Except.pure_eq_ok]
        exact ⟨_, rfl, rfl⟩
      · simp only [hv, if_false, Except.pure_eq_ok]
        exact ⟨_, rfl, by simpa using hv⟩
    unfold CompileShader
    simp only []
    cases hd : CompileShader.dispatch env
        { s with shader_func_name_ := env.sd.func_name, is_validate_ := true } with
    | error e =>
      exfalso
      unfold CompileShader.dispatch at hd
      cases hst : s.stage_ <;> simp only [hst, Except.pure_eq_ok, reduceCtorEq] at hd
      case Domain =>
        cases hhs : env.hs_stage with
        | none => exact hhull hst hhs
        | some hs => simp [hdev, hhs, BOOST_ASSERT, deref] at hd
    | ok s1 =>
      obtain ⟨_, _, d3⟩ := CompileShader_dispatch_frame env _ s1 hd
      simp only [Except.ok_bind]
      exact hprof s1 (d3.trans ha) _ (by cases s1.is_validate_ <;> simp)

/-- Witness of `GetShaderProfile_resolution`: an available vertex stage with profile
`auto` and with profile `vs_4_0`, and an unavailable hull stage on a development-platform
build. -/
theorem GetShaderProfile_resolution_witness :
    GetShaderProfile (OGLESShaderStageObject.new .Vertex false false) ⟨[], ascii "auto", []⟩ =
      ascii "vs_5_0" ∧
    GetShaderProfile (OGLESShaderStageObject.new .Vertex false false) ⟨[], ascii "vs_4_0", []⟩ =
      ascii "vs_4_0" ∧
    GetShaderProfile (OGLESShaderStageObject.new .Hull false false) sampleDesc = [] ∧
    ∃ t, CompileShader (sampleEnv true) (OGLESShaderStageObject.new .Hull false false) = .ok t ∧
      t.is_validate_ = false :=
  ⟨(GetShaderProfile_resolution (OGLESShaderStageObject.new .Vertex false false)
      ⟨[], ascii "auto", []⟩).1 rfl rfl,
    (GetShaderProfile_resolution (OGLESShaderStageObject.new .Vertex false false)
      ⟨[], ascii "vs_4_0", []⟩).2.1 rfl (by decide),
    ((GetShaderProfile_resolution (OGLESShaderStageObject.new .Hull false false)
      sampleDesc).2.2 rfl).1,
    ((GetShaderProfile_resolution (OGLESShaderStageObject.new .Hull false false)
      sampleDesc).2.2 rfl).2 (sampleEnv true) rfl rfl (by decide)⟩

/-! ## `AttachUBOs`: claims C5 to C7 -/

/-- C5.  When the effect declares what the reflection needs, `AttachUBOs` returns, and for
every active uniform block and every struct `k` that has at least one leaf uniform in the
block (a uniform with a `.` whose name, cut at its first `[` and `.`, is `k`), the struct
parameter `k` is bound to the constant buffer of the block with stride 1 at an offset that
is the offset of one of the leaves and is at most the offset of every leaf: the minimum,
whatever the order of the uniforms.  No other binding of a struct parameter named `k` is
made for the block. -/
theorem AttachUBOs_struct_offset_min (gl : GLProgram) (effect : RenderEffect)
    (hnul : NulFree gl) (hdecl : Declares effect gl) :
    StructOffsetsFolded gl effect := by
  obtain ⟨r, hr⟩ := AttachUBOs_total gl effect hnul hdecl
  refine ⟨r, hr, ?_⟩
  intro i block att hb ha
  have hmem : block ∈ gl.blocks := List.mem_iff_getElem?.mpr ⟨i, hb⟩
  obtain ⟨h1, _, _, _, h5⟩ :=
    AttachUBOs_block_ok gl effect i block att (hnul block hmem)
      ((AttachUBOs_ok gl effect r hr).2 i block att hb ha)
  refine ⟨h1, ?_⟩
  intro k hk
  have hall := AttachUBOs_structs_ok effect att.cb_index _ _ h5
  have hnd := (foldl_foldStruct_keys block.uniforms [] (by simp)).1
  have hfind := map_find_foldl block.uniforms [] k
  simp only [map_find] at hfind
  rcases foldMin_none k block.uniforms with ⟨hempty, _⟩ | ⟨off, hoff, hex, hle⟩
  · exact absurd hempty hk
  · rw [hoff] at hfind
    have hin := map_find_mem _ _ _ hfind
    obtain ⟨call, hcall, param, hp, _, hceq⟩ := forall₂_left_mem hall hin
    refine ⟨param, off, hp, hceq ▸ hcall, hex, hle, ?_⟩
    intro p cb off' stride hc hname
    obtain ⟨item, hitem, q, hq, _, hqeq⟩ := forall₂_right_mem hall hc
    simp only [Call.BindToCBuffer.injEq] at hqeq
    obtain ⟨hpq, _, hoff', _⟩ := hqeq
    subst hpq
    have hkey := (ParameterByName_some effect _ p hq).1
    rw [hname] at hkey
    have he : item = (k, off') := Prod.ext hkey.symm hoff'.symm
    rw [he] at hitem
    have := map_find_of_mem _ _ _ hnd hitem
    rw [hfind] at this
    exact (Option.some.inj this).symm

/-- Witness of `AttachUBOs_struct_offset_min`: a block whose struct `light` has leaves at
the raw offsets 40, 24 and 56, reported in that order; the struct is bound at offset 24. -/
theorem AttachUBOs_struct_offset_min_witness :
    NulFree (sampleProgram 0) ∧ Declares (sampleEffect 1) (sampleProgram 0) ∧
    (leavesOf (ascii "light") (sampleUniforms 0)).map (fun u => u.offset) = [40, 24, 56] ∧
    AttachUBOs (sampleProgram 0) (sampleEffect 1) = .ok [sampleAttachment] ∧
    sampleAttachment.struct_binds = [Call.BindToCBuffer sampleLight 1 24 1] ∧
    StructOffsetsFolded (sampleProgram 0) (sampleEffect 1) :=
  ⟨by decide, by decide, by decide, by decide, rfl,
    AttachUBOs_struct_offset_min (sampleProgram 0) (sampleEffect 1) (by decide) (by decide)⟩

/-- C6.  When the effect declares what the reflection needs, `AttachUBOs` returns, and for
every active block and every member of it that is not a struct member (no `.` in its
name), the parameter named by the name of the member cut at its first `[` is bound to the
constant buffer of the block at the reflected offset of the member, with the reflected
array stride if the array size of the parameter is not zero, else 4 if the type of the
parameter is not `REDT_float4x4`, else the reflected matrix stride. -/
theorem AttachUBOs_member_stride (gl : GLProgram) (effect : RenderEffect)
    (hnul : NulFree gl) (hdecl : Declares effect gl) : MembersBound gl effect := by
  obtain ⟨r, hr⟩ := AttachUBOs_total gl effect hnul hdecl
  refine ⟨r, hr, ?_⟩
  intro i block att hb ha
  have hmem : block ∈ gl.blocks := List.mem_iff_getElem?.mpr ⟨i, hb⟩
  obtain ⟨h1, _, h3, h4, _⟩ :=
    AttachUBOs_block_ok gl effect i block att (hnul block hmem)
      ((AttachUBOs_ok gl effect r hr).2 i block att hb ha)
  refine ⟨h1, ?_⟩
  intro u hu hd
  obtain ⟨param, hp⟩ := h4 u hu hd
  refine ⟨param, hp, ?_⟩
  rw [h3, List.mem_filterMap]
  exact ⟨u, hu, by simp [memberCall, hd, hp, selectStride]⟩

/-- Witness of `AttachUBOs_member_stride`: the matrix `mvp` is bound with its matrix stride
16 at offset 64, the array `weights` with its array stride 16 at offset 128. -/
theorem AttachUBOs_member_stride_witness :
    NulFree (sampleProgram 0) ∧ Declares (sampleEffect 1) (sampleProgram 0) ∧
    AttachUBOs (sampleProgram 0) (sampleEffect 1) = .ok [sampleAttachment] ∧
    sampleAttachment.member_binds =
      [Call.BindToCBuffer sampleMvp 1 64 16, Call.BindToCBuffer sampleWeights 1 128 16] ∧
    MembersBound (sampleProgram 0) (sampleEffect 1) :=
  ⟨by decide, by decide, by decide, rfl,
    AttachUBOs_member_stride (sampleProgram 0) (sampleEffect 1) (by decide) (by decide)⟩

/-- C7, counterexample.  Two reflections that differ only in the row-major flag of the
matrix member `mvp` give the same calls on the effect: the parameter `mvp` is bound with
`(1, 64, 16)` in both. -/
theorem AttachUBOs_row_major_same_binding :
    (sampleProgram 0).blocks ≠ (sampleProgram 1).blocks ∧
    (sampleProgram 0).blocks.map (fun b => b.uniforms.map (fun u => { u with is_row_major := 0 }))
      = (sampleProgram 1).blocks.map
          (fun b => b.uniforms.map (fun u => { u with is_row_major := 0 })) ∧
    AttachUBOs (sampleProgram 0) (sampleEffect 1) = .ok [sampleAttachment] ∧
    AttachUBOs (sampleProgram 1) (sampleEffect 1) = .ok [sampleAttachment] := by
  decide

/-- C7, amended.  What `AttachUBOs` writes back onto a parameter of the effect for a
member of an active uniform block is the constant-buffer index, the byte offset and the
stride, through `BindToCBuffer`; the row-major flag is queried from the driver and not
written back, so that two reflections that differ only in row-major flags produce the same
bindings. -/
theorem AttachUBOs_row_major_not_written (gl : GLProgram) (effect : RenderEffect) :
    (∀ f : ActiveUniform → Int, AttachUBOs (gl.withRowMajor f) effect = AttachUBOs gl effect) ∧
    (∀ r, AttachUBOs gl effect = .ok r → NulFree gl →
      ∀ att ∈ r, ∀ call ∈ att.member_binds ++ att.struct_binds,
        ∃ param cb_index offset stride,
          call = Call.BindToCBuffer param cb_index offset stride ∧ cb_index = att.cb_index) := by
  constructor
  · intro f
    exact AttachUBOs_blocks_row_major gl effect f gl.blocks 0
  · intro r hr hnul att hatt call hcall
    obtain ⟨i, hi⟩ := List.mem_iff_getElem?.mp hatt
    have hlen := (AttachUBOs_ok gl effect r hr).1
    have hlt : i < gl.blocks.length := by
      rw [← hlen]
      by_contra hge
      rw [List.getElem?_eq_none (by omega)] at hi
      cases hi
    have hb : gl.blocks[i]? = some gl.blocks[i] := List.getElem?_eq_getElem hlt
    obtain ⟨_, _, h3, _, h5⟩ :=
      AttachUBOs_block_ok gl effect i _ att (hnul _ (List.getElem_mem hlt))
        ((AttachUBOs_ok gl effect r hr).2 i _ att hb hi)
    rcases List.mem_append.mp hcall with hc | hc
    · rw [h3, List.mem_filterMap] at hc
      obtain ⟨u, _, hu⟩ := hc
      unfold memberCall at hu
      split at hu
      · cases hu
      · split at hu
        · simp only [Option.some.injEq] at hu
          exact ⟨_, _, _, _, hu.symm, rfl⟩
        · cases hu
    · obtain ⟨item, _, q, _, _, hq⟩ :=
        forall₂_right_mem (AttachUBOs_structs_ok effect att.cb_index _ _ h5) hc
      exact ⟨_, _, _, _, hq, rfl⟩

/-- Witness of `AttachUBOs_row_major_not_written`: the calls on the effect for the sample
program are bindings with the constant-buffer index 1, whatever the row-major flags. -/
theorem AttachUBOs_row_major_not_written_witness :
    AttachUBOs ((sampleProgram 1).withRowMajor (fun _ => 0)) (sampleEffect 1) =
      AttachUBOs (sampleProgram 1) (sampleEffect 1) ∧
    AttachUBOs (sampleProgram 1) (sampleEffect 1) = .ok [sampleAttachment] ∧
    NulFree (sampleProgram 1) ∧
    ∀ att ∈ [sampleAttachment], ∀ call ∈ att.member_binds ++ att.struct_binds,
      ∃ param cb_index offset stride,
        call = Call.BindToCBuffer param cb_index offset stride ∧ cb_index = att.cb_index :=
  ⟨(AttachUBOs_row_major_not_written (sampleProgram 1) (sampleEffect 1)).1 (fun _ => 0),
    by decide, by decide,
    (AttachUBOs_row_major_not_written (sampleProgram 1) (sampleEffect 1)).2 [sampleAttachment]
      (by decide) (by decide)⟩

/-! ## `DoLinkShaders`: claim C8 -/

/-- C8.  Parameter binding resolution in `DoLinkShaders`, for a valid program.
`resolvedBindings` lists, for every stage in stage order and every index `pi` of its
used-name list in list order whose resource name has a driver location other than -1: one
plain binding with the parameter and that location if the effect has a parameter named by
the used name; otherwise, if the bind table has an entry whose combined name is the used
name, one combined binding with a null parameter, that location, the index of the first
such entry and the texture and sampler parameters of that entry; otherwise nothing.
`DoLinkShaders` runs to completion on every program that is `Linkable` (compiled stages, a
resource name for every used name, the buffer type that the code asserts of a parameter it
binds, a vertex stage, an effect that declares what the reflection names).  Whenever it
returns, the table is unchanged and the bindings are those the program had before followed
by exactly the bindings of `resolvedBindings`, each with the next free slot.  Hence, if the
bindings before were `WellBound`, every binding with a null parameter has a table index
that is in range and points at the entry with its combined name. -/
theorem DoLinkShaders_binding_resolution (gl : GLProgram) (effect : RenderEffect)
    (prog : OGLESShaderObject) (hvalid : prog.is_validate_ = true) :
    (Linkable gl effect prog → ∃ r calls, DoLinkShaders gl effect prog = .ok (r, calls)) ∧
    (∀ (r : OGLESShaderObject) (calls : List Call),
      DoLinkShaders gl effect prog = .ok (r, calls) →
      r.tex_sampler_binds_ = prog.tex_sampler_binds_ ∧
      r.param_binds_ = prog.param_binds_ ++ withSlots prog.textures_.length
        (resolvedBindings gl effect prog.tex_sampler_binds_ prog.Stage) ∧
      ((∀ pb ∈ prog.param_binds_, WellBound prog.tex_sampler_binds_ pb) →
        ∀ pb ∈ r.param_binds_, pb.param = none →
          ∃ (i : Nat) (e : TexSamplerBind), pb.tex_sampler_bind_index = some i ∧
            i < r.tex_sampler_binds_.length ∧ r.tex_sampler_binds_[i]? = some e ∧
            e.1 = pb.combined_sampler_name)) := by
  refine ⟨fun h => DoLinkShaders_total gl effect prog h, ?_⟩
  intro r calls hok
  have hframe : r.tex_sampler_binds_ = prog.tex_sampler_binds_ :=
    DoLinkShaders_table gl effect prog r calls hok
  refine ⟨hframe, DoLinkShaders_bindings gl effect prog r calls hvalid hok, ?_⟩
  intro h0 pb hpb hnull
  obtain ⟨_, h2⟩ := DoLinkShaders_invariant gl effect prog r calls hok h0
  obtain ⟨i, e, hi, he, hname⟩ := WellBound_none _ pb (h2 pb hpb) hnull
  refine ⟨i, e, hi, ?_, he, hname⟩
  by_contra hge
  rw [List.getElem?_eq_none (by omega)] at he
  cases he

/-- Witness of `DoLinkShaders_binding_resolution` on the sample program with a vertex stage
and a pixel stage.  The vertex stage has the used names `mvp` (no location), `buf` (a
buffer parameter, location 3), `tex_samp` (the second entry of the table, location 5) and
`t_s` (location 9, neither a parameter nor in the table); the pixel stage uses `buf`.
`DoLinkShaders` returns, and registers exactly the plain binding of `buf` in slot 0, the
combined binding of `tex_samp` with table index 1 in slot 1, and the plain binding of `buf`
for the pixel stage in slot 2. -/
theorem DoLinkShaders_binding_resolution_witness :
    sampleTwoStages.is_validate_ = true ∧
    Linkable (sampleProgram 0) (sampleEffect 1) sampleTwoStages ∧
    (∃ r calls, DoLinkShaders (sampleProgram 0) (sampleEffect 1) sampleTwoStages =
      .ok (r, calls)) ∧
    DoLinkShaders (sampleProgram 0) (sampleEffect 1) sampleTwoStages =
      .ok (sampleTwoLinked, sampleLinkCalls) ∧
    sampleTwoStages.param_binds_ = [] ∧ sampleTwoStages.textures_ = [] ∧
    withSlots 0 (resolvedBindings (sampleProgram 0) (sampleEffect 1)
        sampleTwoStages.tex_sampler_binds_ sampleTwoStages.Stage) =
      [⟨[], some (sampleBuf 1), 3, none, .GraphicsBufferPtr 3 0 (some (sampleBuf 1))⟩,
       ⟨ascii "tex_samp", none, 5, some 1,
         .TexturePtr 5 1 (some (sampleTex 1)) (some (sampleSamp 1))⟩,
       ⟨[], some (sampleBuf 1), 3, none, .GraphicsBufferPtr 3 2 (some (sampleBuf 1))⟩] ∧
    (sampleTwoLinked.tex_sampler_binds_ = sampleTwoStages.tex_sampler_binds_ ∧
      sampleTwoLinked.param_binds_ =
        sampleTwoStages.param_binds_ ++ withSlots sampleTwoStages.textures_.length
          (resolvedBindings (sampleProgram 0) (sampleEffect 1)
            sampleTwoStages.tex_sampler_binds_ sampleTwoStages.Stage) ∧
      ((∀ pb ∈ sampleTwoStages.param_binds_,
          WellBound sampleTwoStages.tex_sampler_binds_ pb) →
        ∀ pb ∈ sampleTwoLinked.param_binds_, pb.param = none →
          ∃ (i : Nat) (e : TexSamplerBind), pb.tex_sampler_bind_index = some i ∧
            i < sampleTwoLinked.tex_sampler_binds_.length ∧
            sampleTwoLinked.tex_sampler_binds_[i]? = some e ∧
            e.1 = pb.combined_sampler_name)) :=
  ⟨rfl, by decide,
    (DoLinkShaders_binding_resolution (sampleProgram 0) (sampleEffect 1) sampleTwoStages
      rfl).1 (by decide),
    by rfl, rfl, rfl, by decide,
    (DoLinkShaders_binding_resolution (sampleProgram 0) (sampleEffect 1) sampleTwoStages
      rfl).2 sampleTwoLinked sampleLinkCalls (by rfl)⟩


/-! ### C9 -/

/-- C9. `Clone` rebinds by name and keeps the shape.  Let `prog` be a valid program whose
table entries have a texture and a sampler parameter, whose bindings are `WellBound` against
its table and whose four slot arrays have one slot per binding (both are what
`DoLinkShaders` leaves: `DoLinkShaders_invariant`, `DoLinkShaders_slots`), with a cached
binary or a compiled shader in every stage; let `effect` declare a
buffer parameter for every plain binding and what the reflection `gl` names.  Then
`Clone` returns a program `ret` such that: the table of `ret` is the table of `prog` with
the names and masks kept, in order, and each texture and sampler parameter replaced by the
parameter of `effect` with the same name; the bindings of `ret` are as many as those of
`prog` and, position by position, have the same location, combined name and table index,
a parameter being replaced by the parameter of `effect` with the same name (which belongs
to `effect`) and a null parameter staying null; the function of the binding at position
`i`, which is what `Bind` runs, has the location of the original and the slot `i`, and
captures that parameter of `effect` for a plain binding, and for a combined binding the
parameters of `effect` with the names of the texture and the sampler of the table entry
that the binding points at; and the four slot arrays of `ret` have the lengths of those of
`prog`. -/
theorem Clone_rebinds_by_name (gl : GLProgram) (effect : RenderEffect)
    (prog : OGLESShaderObject)
    (hvalid : prog.is_validate_ = true)
    (htable : ∀ e ∈ prog.tex_sampler_binds_, e.2.1.isSome = true ∧ e.2.2.1.isSome = true)
    (hbinds : ∀ pb ∈ prog.param_binds_, WellBound prog.tex_sampler_binds_ pb)
    (hslots : SlotsOfLength prog prog.param_binds_.length)
    (hlink : prog.glsl_bin_program_ ≠ [] ∨
      ∀ stage st, prog.Stage stage = some st → st.gl_shader_ ≠ 0)
    (hparams : ∀ pb ∈ prog.param_binds_, BufferDeclared effect pb)
    (hnul : NulFree gl) (hdecl : Declares effect gl) :
    ∃ (ret : OGLESShaderObject) (calls : List Call), Clone gl effect prog = .ok (ret, calls) ∧
      ret.tex_sampler_binds_.length = prog.tex_sampler_binds_.length ∧
      (∀ (i : Nat) (e : TexSamplerBind), prog.tex_sampler_binds_[i]? = some e →
        ∃ e' : TexSamplerBind, ret.tex_sampler_binds_[i]? = some e' ∧
          e'.1 = e.1 ∧ e'.2.2.2 = e.2.2.2 ∧
          e'.2.1 = e.2.1.bind (fun p => effect.ParameterByName p.Name) ∧
          e'.2.2.1 = e.2.2.1.bind (fun p => effect.ParameterByName p.Name)) ∧
      ret.param_binds_.length = prog.param_binds_.length ∧
      (∀ (i : Nat) (pb : ParameterBind), prog.param_binds_[i]? = some pb →
        ∃ new_pb : ParameterBind, ret.param_binds_[i]? = some new_pb ∧
          new_pb.location = pb.location ∧
          new_pb.combined_sampler_name = pb.combined_sampler_name ∧
          new_pb.tex_sampler_bind_index = pb.tex_sampler_bind_index ∧
          (∀ p : RenderEffectParameter, pb.param = some p →
            new_pb.param = effect.ParameterByName p.Name ∧
            (∃ q : RenderEffectParameter,
              new_pb.param = some q ∧ q.Name = p.Name ∧ q.effect = effect.id) ∧
            new_pb.func =
              .GraphicsBufferPtr pb.location i (effect.ParameterByName p.Name)) ∧
          (pb.param = none →
            new_pb.param = none ∧
            ∃ (j : Nat) (e : TexSamplerBind),
              pb.tex_sampler_bind_index = some j ∧ prog.tex_sampler_binds_[j]? = some e ∧
              new_pb.func = .TexturePtr pb.location i
                (e.2.1.bind (fun p => effect.ParameterByName p.Name))
                (e.2.2.1.bind (fun p => effect.ParameterByName p.Name)))) ∧
      ret.textures_.length = prog.textures_.length ∧
      ret.gl_bind_targets_.length = prog.gl_bind_targets_.length ∧
      ret.gl_bind_textures_.length = prog.gl_bind_textures_.length ∧
      ret.gl_bind_samplers_.length = prog.gl_bind_samplers_.length := by
  obtain ⟨v, link_calls, hl⟩ := Clone_link_ok gl prog.glsl_bin_program_
    { OGLESShaderObject.new prog.Stage prog.glsl_bin_format_ prog.glsl_bin_program_ false false
      with
      is_validate_ := true
      hw_res_ready_ := prog.hw_res_ready_
      tex_sampler_binds_ := prog.tex_sampler_binds_.map (rebound effect) } hlink
  obtain ⟨attachments, hatt⟩ := AttachUBOs_total gl effect hnul hdecl
  obtain ⟨ret, news, hloop, hpbs, hall, htab, hgrow⟩ :=
    Clone_param_binds_ok effect prog.tex_sampler_binds_ prog.param_binds_
      { OGLESShaderObject.new prog.Stage prog.glsl_bin_format_ prog.glsl_bin_program_ false
          false with
        is_validate_ := v
        hw_res_ready_ := prog.hw_res_ready_
        tex_sampler_binds_ := prog.tex_sampler_binds_.map (rebound effect)
        all_cbuff_indices_ := attachments.map BlockAttachment.cb_index
        attrib_locs_ := prog.attrib_locs_ } rfl hbinds hparams
  have hs := hgrow 0 ⟨rfl, rfl, rfl, rfl⟩
  rw [Nat.zero_add] at hs
  simp only [OGLESShaderObject.new, List.nil_append] at hpbs htab
  subst hpbs
  have hclone : Clone gl effect prog =
      .ok (ret, link_calls ++ attachments.flatMap BlockAttachment.calls) := by
    simp only [OGLESShaderObject.new] at hl hloop
    unfold Clone
    rw [Clone_tex_sampler_binds_ok effect _ htable]
    simp only [Except.ok_bind, hvalid, if_true, OGLESShaderObject.new]
    rw [hl]
    simp only [Except.ok_bind, hatt]
    rw [hloop]
    rfl
  have hidx := (SlotIndexed_bounds ret (Clone_indexed gl effect prog ret _ hclone)).1
  refine ⟨ret, link_calls ++ attachments.flatMap BlockAttachment.calls, hclone, ?_, ?_, ?_,
    ?_, ?_, ?_, ?_, ?_⟩
  · rw [htab, List.length_map]
  · intro i e he
    refine ⟨rebound effect e, ?_, rfl, rfl, rfl, rfl⟩
    rw [htab, List.getElem?_map, he]
    rfl
  · exact (List.Forall₂.length_eq hall).symm
  · intro i pb hpb
    obtain ⟨new_pb, hnew, h1, h2, h3, h4, h5⟩ := forall₂_getElem hall i pb hpb
    have hslot := (hidx i new_pb hnew).1
    refine ⟨new_pb, hnew, h1, h2, h3, ?_, ?_⟩
    · intro p hp
      obtain ⟨a, b, slot, hf⟩ := h4 p hp
      refine ⟨a, b, ?_⟩
      rw [hf] at hslot ⊢
      simp only [SetOGLESShaderParameter.slot, Option.some.injEq] at hslot
      rw [hslot]
    · intro hp
      obtain ⟨a, slot, j, e, hj, he, hf⟩ := h5 hp
      refine ⟨a, j, e, hj, he, ?_⟩
      rw [hf] at hslot ⊢
      simp only [SetOGLESShaderParameter.slot, Option.some.injEq] at hslot
      rw [hslot]
  · rw [hs.1, hslots.1]
  · rw [hs.2.1, hslots.2.1]
  · rw [hs.2.2.1, hslots.2.2.1]
  · rw [hs.2.2.2, hslots.2.2.2]

/-- C9, witness.  The sample program linked against `sampleEffect 1` is cloned against
`sampleEffect 2`: the clone has the same table and the same two bindings, position by
position, with the parameter objects of `sampleEffect 2` in place of those of
`sampleEffect 1`, and two slots in each slot array. -/
theorem Clone_rebinds_by_name_witness :
    sampleLinked.is_validate_ = true ∧
    (∀ e ∈ sampleLinked.tex_sampler_binds_, e.2.1.isSome = true ∧ e.2.2.1.isSome = true) ∧
    (∀ pb ∈ sampleLinked.param_binds_, WellBound sampleLinked.tex_sampler_binds_ pb) ∧
    SlotsOfLength sampleLinked sampleLinked.param_binds_.length ∧
    sampleLinked.glsl_bin_program_ ≠ [] ∧
    (∀ pb ∈ sampleLinked.param_binds_, BufferDeclared (sampleEffect 2) pb) ∧
    NulFree (sampleProgram 0) ∧ Declares (sampleEffect 2) (sampleProgram 0) ∧
    Clone (sampleProgram 0) (sampleEffect 2) sampleLinked =
      .ok (sampleCloned, sampleCloneCalls) ∧
    sampleLinked.tex_sampler_binds_ = sampleTable 1 ∧
    sampleCloned.tex_sampler_binds_ = sampleTable 2 ∧
    sampleLinked.param_binds_ = sampleBinds 1 ∧
    sampleCloned.param_binds_ = sampleBinds 2 ∧
    ∃ (ret : OGLESShaderObject) (calls : List Call),
      Clone (sampleProgram 0) (sampleEffect 2) sampleLinked = .ok (ret, calls) ∧
      ret.tex_sampler_binds_.length = sampleLinked.tex_sampler_binds_.length ∧
      ret.param_binds_.length = sampleLinked.param_binds_.length ∧
      ret.textures_.length = sampleLinked.textures_.length ∧
      ret.gl_bind_targets_.length = sampleLinked.gl_bind_targets_.length ∧
      ret.gl_bind_textures_.length = sampleLinked.gl_bind_textures_.length ∧
      ret.gl_bind_samplers_.length = sampleLinked.gl_bind_samplers_.length :=
  ⟨rfl, by decide, by decide, by decide, by decide, by decide, by decide, by decide, by rfl,
    rfl, rfl, rfl, rfl,
    match Clone_rebinds_by_name (sampleProgram 0) (sampleEffect 2) sampleLinked rfl
        (by decide) (by decide) (by decide) (Or.inl (by decide)) (by decide) (by decide)
        (by decide) with
    | ⟨ret, calls, h, htab, _, hlen, _, h1, h2, h3, h4⟩ =>
      ⟨ret, calls, h, htab, hlen, h1, h2, h3, h4⟩⟩


/-! ## Transform feedback, vertex inputs and the domain stage: claims C11 to C13 -/

/-- C11.  For every list of stream-output declarations with non-negative slots (and usages
among the enumerators of the switch), `RetrieveTfbVaryings` returns, appends one varying
name per declaration, and sets the separate-attribs flag to true if and only if two
declarations of the list have different slots; the flag before the call plays no part. -/
theorem RetrieveTfbVaryings_separate_attribs (sd : ShaderDesc) (tfb_varyings : List Str)
    (tfb_separate_attribs : Bool) (hslot : ∀ d ∈ sd.so_decl, 0 ≤ d.slot)
    (husage : ∀ d ∈ sd.so_decl, d.usage ∈ vertex_element_usages) :
    ∃ (names : List Str) (flag : Bool),
      RetrieveTfbVaryings sd tfb_varyings tfb_separate_attribs =
        .ok (tfb_varyings ++ names, flag) ∧
      RetrieveTfbVaryings sd tfb_varyings (!tfb_separate_attribs) =
        .ok (tfb_varyings ++ names, flag) ∧
      names.length = sd.so_decl.length ∧
      (flag = true ↔ ∃ a ∈ sd.so_decl, ∃ b ∈ sd.so_decl, a.slot ≠ b.slot) := by
  cases hds : sd.so_decl with
  | nil =>
    refine ⟨[], false, ?_, ?_, rfl, ?_⟩
    · simp [RetrieveTfbVaryings, hds, RetrieveTfbVaryings.decls]
    · simp [RetrieveTfbVaryings, hds, RetrieveTfbVaryings.decls]
    · simp
  | cons d ds =>
    rw [hds] at hslot husage
    obtain ⟨n, hn⟩ := RetrieveTfbVaryings_name_ok d (husage d (List.mem_cons_self _ _))
    obtain ⟨more, hmore, hlen⟩ := RetrieveTfbVaryings_decls_set ds d.slot false
      (tfb_varyings ++ [n]) (hslot d (List.mem_cons_self _ _))
      (fun x hx => husage x (List.mem_cons_of_mem _ hx))
    have hrun : ∀ f : Bool, RetrieveTfbVaryings sd tfb_varyings f =
        .ok (tfb_varyings ++ (n :: more), ds.any (fun x => decide (x.slot ≠ d.slot))) := by
      intro f
      unfold RetrieveTfbVaryings
      rw [hds]
      unfold RetrieveTfbVaryings.decls RetrieveTfbVaryings.decl
      simp only [hn, Except.ok_bind, Except.pure_eq_ok]
      rw [if_pos (by decide : (-1 : Int) < 0)]
      simp only [hmore, Except.ok_bind, Bool.false_or, List.append_assoc, List.singleton_append]
    refine ⟨n :: more, _, hrun _, hrun _, by simp [hlen], slots_differ_iff d ds⟩

/-- C11, witness.  Two declarations with slots 0 and 0 give interleaved mode, two with slots
0 and 1 give separate-attribs mode, whatever the flag was. -/
theorem RetrieveTfbVaryings_separate_attribs_witness :
    RetrieveTfbVaryings ⟨[], [], [⟨VEU_Position, 0, 0⟩, ⟨VEU_TextureCoord, 3, 0⟩]⟩ [] true =
      .ok ([ascii "gl_Position", ascii "v_TEXCOORD3"], false) ∧
    RetrieveTfbVaryings ⟨[], [], [⟨VEU_Position, 0, 0⟩, ⟨VEU_TextureCoord, 3, 1⟩]⟩ [] false =
      .ok ([ascii "gl_Position", ascii "v_TEXCOORD3"], true) ∧
    ∃ (names : List Str) (flag : Bool),
      RetrieveTfbVaryings ⟨[], [], [⟨VEU_Position, 0, 0⟩, ⟨VEU_TextureCoord, 3, 1⟩]⟩ [] false =
        .ok ([] ++ names, flag) ∧
      RetrieveTfbVaryings ⟨[], [], [⟨VEU_Position, 0, 0⟩, ⟨VEU_TextureCoord, 3, 1⟩]⟩ []
        (!false) = .ok ([] ++ names, flag) ∧
      names.length = 2 ∧
      (flag = true ↔
        ∃ a ∈ [(⟨VEU_Position, 0, 0⟩ : StreamOutputDecl), ⟨VEU_TextureCoord, 3, 1⟩],
          ∃ b ∈ [(⟨VEU_Position, 0, 0⟩ : StreamOutputDecl), ⟨VEU_TextureCoord, 3, 1⟩],
            a.slot ≠ b.slot) :=
  ⟨by decide, by decide,
    RetrieveTfbVaryings_separate_attribs
      ⟨[], [], [⟨VEU_Position, 0, 0⟩, ⟨VEU_TextureCoord, 3, 1⟩]⟩ [] false (by decide)
      (by decide)⟩


/-- C12, counterexample.  A vertex stage with the one input `TEXCOORD` of semantic index
256 and mask 15: the attribute name is `TEXCOORD256`, and the usage index stored for it is
0, not 256. -/
theorem StageSpecificAttachShader_texcoord_256 :
    StageSpecificAttachShader (OGLESShaderStageObject.new .Vertex false false)
        ⟨[], [], [], [⟨ascii "TEXCOORD", 256, 15⟩], 0, 0⟩ =
      .ok { OGLESShaderStageObject.new .Vertex false false with
        usages_ := [VEU_TextureCoord]
        usage_indices_ := [0]
        glsl_attrib_names_ := [ascii "TEXCOORD256"] } ∧
    ([0] : List Byte).map (fun b => b.val) ≠ [256] := by
  decide

/-- C12, amended.  For every list of input parameters whose emitted inputs (non-zero mask,
semantic other than `SV_VertexID` and `SV_InstanceID`) have a semantic of the table, the
vertex override of `StageSpecificAttachShader` returns, and the usage, usage-index and
attribute-name arrays each grow by one entry per emitted input, in input order, the entry
being the one of the table (`SemanticEntry`); for a semantic that starts with `TEXCOORD`
and has index `n` the usage index is `n` cut to a byte (`n` itself below 256) and the name
is `TEXCOORD<n>`.  Inputs with mask 0 and the two built-in index semantics emit nothing. -/
theorem StageSpecificAttachShader_vertex_inputs (s : OGLESShaderStageObject)
    (dxbc2glsl : DXBC2GLSL) (hv : s.stage_ = .Vertex)
    (hk : ∀ p ∈ dxbc2glsl.input_params, emitted p = true → KnownSemantic p.semantic_name) :
    ∃ entries : List (VertexElementUsage × Byte × Str),
      StageSpecificAttachShader s dxbc2glsl = .ok { s with
        usages_ := s.usages_ ++ entries.map (fun e => e.1)
        usage_indices_ := s.usage_indices_ ++ entries.map (fun e => e.2.1)
        glsl_attrib_names_ := s.glsl_attrib_names_ ++ entries.map (fun e => e.2.2) } ∧
      entries.length = (dxbc2glsl.input_params.filter emitted).length ∧
      List.Forall₂ SemanticEntry (dxbc2glsl.input_params.filter emitted) entries := by
  obtain ⟨entries, hrun, hall⟩ :=
    StageSpecificAttachShader_inputs_entries dxbc2glsl.input_params s hk
  refine ⟨entries, ?_, (List.Forall₂.length_eq hall).symm, hall⟩
  have hvertex : StageSpecificAttachShader s dxbc2glsl =
      StageSpecificAttachShader.inputs s dxbc2glsl.input_params := by
    unfold StageSpecificAttachShader
    rw [hv]
  rw [hvertex]
  exact hrun

/-- C12, witness.  Six inputs, of which four are emitted: a position, a second colour, a
texture coordinate with index 3 and one with index 258, whose usage index is 2. -/
theorem StageSpecificAttachShader_vertex_inputs_witness :
    (OGLESShaderStageObject.new .Vertex false false).stage_ = .Vertex ∧
    (∀ p ∈ sampleInputs.input_params, emitted p = true → KnownSemantic p.semantic_name) ∧
    StageSpecificAttachShader (OGLESShaderStageObject.new .Vertex false false) sampleInputs =
      .ok { OGLESShaderStageObject.new .Vertex false false with
        usages_ := [VEU_Position, VEU_Specular, VEU_TextureCoord, VEU_TextureCoord]
        usage_indices_ := [0, 0, 3, 2]
        glsl_attrib_names_ :=
          [ascii "POSITION0", ascii "COLOR1", ascii "TEXCOORD3", ascii "TEXCOORD258"] } ∧
    ∃ entries : List (VertexElementUsage × Byte × Str),
      StageSpecificAttachShader (OGLESShaderStageObject.new .Vertex false false) sampleInputs =
        .ok { OGLESShaderStageObject.new .Vertex false false with
          usages_ := (OGLESShaderStageObject.new .Vertex false false).usages_ ++
            entries.map (fun e => e.1)
          usage_indices_ := (OGLESShaderStageObject.new .Vertex false false).usage_indices_ ++
            entries.map (fun e => e.2.1)
          glsl_attrib_names_ :=
            (OGLESShaderStageObject.new .Vertex false false).glsl_attrib_names_ ++
              entries.map (fun e => e.2.2) } ∧
      entries.length = (sampleInputs.input_params.filter emitted).length ∧
      List.Forall₂ SemanticEntry (sampleInputs.input_params.filter emitted) entries :=
  ⟨rfl, by decide, by decide,
    StageSpecificAttachShader_vertex_inputs (OGLESShaderStageObject.new .Vertex false false)
      sampleInputs rfl (by decide)⟩


/-- C13, counterexample.  A domain stage of a program without a hull stage: on a
development-platform build `CompileShader` fails the assertion on the hull stage, and on
another build it returns with the domain stage valid. -/
theorem CompileShader_domain_without_hull :
    (sampleEnv true).hs_stage = none ∧
    CompileShader (sampleEnv true) (OGLESShaderStageObject.new .Domain false true) =
      .error .assert_failed ∧
    (CompileShader (sampleEnv false) (OGLESShaderStageObject.new .Domain false true)).map
      (fun t => t.is_validate_) = .ok true := by
  decide

/-- C13, amended.  `CompileShader` on a domain stage relies on the hull stage of the
program.  On a development-platform build it asserts that the program has a hull stage:
without one the assertion fails, and with one it terminates normally with the domain stage
holding the partitioning and the output primitive of the hull stage.  On another build it
does not look at the hull stage and returns with the domain stage marked valid. -/
theorem CompileShader_domain_needs_hull (env : CompileEnv) (s : OGLESShaderStageObject)
    (hstage : s.stage_ = .Domain) :
    (env.KLAYGE_IS_DEV_PLATFORM = true → env.hs_stage = none →
      CompileShader env s = .error .assert_failed) ∧
    (env.KLAYGE_IS_DEV_PLATFORM = true → ∀ hs, env.hs_stage = some hs →
      ∃ t, CompileShader env s = .ok t ∧
        t.ds_partitioning_ = hs.ds_partitioning_ ∧
        t.ds_output_primitive_ = hs.ds_output_primitive_) ∧
    (env.KLAYGE_IS_DEV_PLATFORM = false →
      CompileShader env s =
        .ok { s with shader_func_name_ := env.sd.func_name, is_validate_ := true }) := by
  refine ⟨?_, ?_, ?_⟩
  · intro hdev hnone
    unfold CompileShader CompileShader.dispatch
    simp only [hstage, hdev, hnone, if_true, BOOST_ASSERT, Option.isSome_none,
      Bool.false_eq_true, if_false, Except.error_bind]
  · intro hdev hs hsome
    have hdisp : CompileShader.dispatch env
        { s with shader_func_name_ := env.sd.func_name, is_validate_ := true } =
        .ok { s with
          shader_func_name_ := env.sd.func_name
          is_validate_ := true
          ds_partitioning_ := hs.ds_partitioning_
          ds_output_primitive_ := hs.ds_output_primitive_ } := by
      unfold CompileShader.dispatch
      simp only [hstage, hdev, hsome, if_true, BOOST_ASSERT, Option.isSome_some, deref,
        Except.ok_bind, Except.pure_eq_ok]
    unfold CompileShader
    simp only [hdisp, Except.ok_bind]
    exact CompileShader_compile_domain env _ _ hstage
  · intro hdev
    unfold CompileShader CompileShader.dispatch CompileShader.compile
    simp only [hstage, hdev, Bool.false_eq_true, if_false, Except.pure_eq_ok, Except.ok_bind,
      if_true]

/-- C13, witness.  A domain stage compiled on a development-platform build of a program
whose hull stage has partitioning 3 and output primitive 2 takes both over. -/
theorem CompileShader_domain_needs_hull_witness :
    (OGLESShaderStageObject.new .Domain false true).stage_ = .Domain ∧
    ∃ t, CompileShader
        { sampleEnv true with hs_stage := some sampleHullStage }
        (OGLESShaderStageObject.new .Domain false true) = .ok t ∧
      t.ds_partitioning_ = sampleHullStage.ds_partitioning_ ∧
      t.ds_output_primitive_ = sampleHullStage.ds_output_primitive_ :=
  ⟨rfl,
    (CompileShader_domain_needs_hull { sampleEnv true with hs_stage := some sampleHullStage }
      (OGLESShaderStageObject.new .Domain false true) rfl).2.1 rfl sampleHullStage rfl⟩


/-! ## `Bind`, `Unbind` and the attribute locations: claims C14 to C17 -/

/-- C14.  `Bind` on a program that can be bound returns, and it enables the
rasterizer-discard mode exactly when the pixel stage of the program is absent or has empty
translated source; for a program whose pixel stage has non-empty source the state of the
driver is left as it was. -/
theorem Bind_discard_mode (env : BindEnv) (effect : RenderEffect) (prog : OGLESShaderObject)
    (gl : GLState) (h : Bindable env effect prog) :
    ∃ prog' gl' calls, Bind env effect prog gl = .ok (prog', gl', calls) ∧
      (NoPixelOutput prog → gl'.GL_RASTERIZER_DISCARD = true) ∧
      (∀ ps, prog.Stage .Pixel = some ps → ps.glsl_src_ ≠ [] → gl' = gl) := by
  obtain ⟨prog', param_calls, bufs, rest, hrun, _, _⟩ := Bind_ok env effect prog gl h
  refine ⟨prog', _, _, hrun, ?_, ?_⟩
  · intro hno
    rw [if_pos ((discard_condition_iff prog).mpr hno)]
  · intro ps hps hsrc
    rw [discard_condition_false prog ps hps hsrc]
    rfl

/-- C14, witness.  The linked sample program has no pixel stage: `Bind` turns the discard
mode on.  With a pixel stage that has source, `Bind` leaves the mode off. -/
theorem Bind_discard_mode_witness :
    Bindable sampleBindEnv (sampleEffect 1) sampleLinked ∧
    NoPixelOutput sampleLinked ∧
    (Bind sampleBindEnv (sampleEffect 1) sampleLinked ⟨false⟩).map (fun r => r.2.1) =
      .ok ⟨true⟩ ∧
    (Bind sampleBindEnv (sampleEffect 1) samplePixelProgram ⟨false⟩).map (fun r => r.2.1) =
      .ok ⟨false⟩ ∧
    ∃ prog' gl' calls,
      Bind sampleBindEnv (sampleEffect 1) sampleLinked ⟨false⟩ = .ok (prog', gl', calls) ∧
      (NoPixelOutput sampleLinked → gl'.GL_RASTERIZER_DISCARD = true) ∧
      (∀ ps, sampleLinked.Stage .Pixel = some ps → ps.glsl_src_ ≠ [] → gl' = ⟨false⟩) :=
  ⟨by decide, Or.inl rfl, by decide, by decide,
    Bind_discard_mode sampleBindEnv (sampleEffect 1) sampleLinked ⟨false⟩ (by decide)⟩

/-- C15, counterexample.  For a program whose pixel stage has source, and a driver in which
the discard mode is on before the call, the discard mode is still on after `Unbind`. -/
theorem Unbind_keeps_discard_mode :
    samplePixelProgram.Stage .Pixel = some samplePixelStage ∧
    samplePixelStage.glsl_src_ ≠ [] ∧
    (Unbind samplePixelProgram ⟨true⟩).GL_RASTERIZER_DISCARD = true := by
  decide

/-- C15, amended.  `Unbind` disables the rasterizer-discard mode when the pixel stage of
the program is absent or has empty translated source, the condition under which `Bind`
enables it; for a program whose pixel stage has non-empty source `Unbind` leaves the state
of the driver as it was.  Hence, from a state with the discard mode off, `Bind` followed by
`Unbind` leaves the discard mode off for every program. -/
theorem Unbind_discard_mode (prog : OGLESShaderObject) (gl : GLState) :
    (NoPixelOutput prog → (Unbind prog gl).GL_RASTERIZER_DISCARD = false) ∧
    (∀ ps, prog.Stage .Pixel = some ps → ps.glsl_src_ ≠ [] → Unbind prog gl = gl) ∧
    (∀ env effect, Bindable env effect prog → gl.GL_RASTERIZER_DISCARD = false →
      ∃ prog' gl' calls, Bind env effect prog gl = .ok (prog', gl', calls) ∧
        (Unbind prog' gl').GL_RASTERIZER_DISCARD = false) := by
  refine ⟨?_, ?_, ?_⟩
  · intro hno
    unfold Unbind
    rw [if_pos ((discard_condition_iff prog).mpr hno)]
  · intro ps hps hsrc
    unfold Unbind
    rw [discard_condition_false prog ps hps hsrc]
    rfl
  · intro env effect hb hoff
    obtain ⟨prog', param_calls, bufs, rest, hrun, _, hstage⟩ := Bind_ok env effect prog gl hb
    refine ⟨prog', _, _, hrun, ?_⟩
    unfold Unbind
    rw [hstage]
    cases hc : (match prog.Stage .Pixel with
      | none => true
      | some ps => decide (ps.glsl_src_ = [])) with
    | true => rfl
    | false => exact hoff

/-- C15, witness.  The linked sample program, which has no pixel stage: `Unbind` turns the
discard mode off, and so does `Bind` followed by `Unbind`. -/
theorem Unbind_discard_mode_witness :
    NoPixelOutput sampleLinked ∧
    (Unbind sampleLinked ⟨true⟩).GL_RASTERIZER_DISCARD = false ∧
    Bindable sampleBindEnv (sampleEffect 1) sampleLinked ∧
    ∃ prog' gl' calls,
      Bind sampleBindEnv (sampleEffect 1) sampleLinked ⟨false⟩ = .ok (prog', gl', calls) ∧
      (Unbind prog' gl').GL_RASTERIZER_DISCARD = false :=
  ⟨Or.inl rfl, (Unbind_discard_mode sampleLinked ⟨true⟩).1 (Or.inl rfl), by decide,
    (Unbind_discard_mode sampleLinked ⟨false⟩).2.2 sampleBindEnv (sampleEffect 1) (by decide)
      rfl⟩


/-- C17.  Let the reflection `gl` name its blocks distinctly and in C strings, and let
`effect` declare what it names.  Then `AttachUBOs` returns; for the `i`-th active block it
assigns bind point `i` to the block and records the index of the constant buffer of the
effect that has the name of the block.  For every program that holds the recorded indices
(as `DoLinkShaders` leaves them, `DoLinkShaders_cbuff_indices`) and can be bound, `Bind` returns and calls
`BindBuffersBase` on the uniform-buffer target from bind point 0 with a list of buffers
whose `i`-th entry is the hardware buffer of the constant buffer with the name of the
`i`-th block, each of these constant buffers being updated before. -/
theorem Bind_constant_buffers (gl : GLProgram) (effect : RenderEffect) (env : BindEnv)
    (prog : OGLESShaderObject) (state : GLState)
    (hnul : NulFree gl) (hdecl : Declares effect gl)
    (hnames : (gl.blocks.map (fun b => b.name)).Nodup)
    (hprog : Bindable env effect prog) :
    ∃ atts, AttachUBOs gl effect = .ok atts ∧
      (∀ (i : Nat) (block : ActiveUniformBlock), gl.blocks[i]? = some block →
        ∃ att, atts[i]? = some att ∧
          Call.glUniformBlockBinding (some i) i ∈ att.calls ∧
          effect.cbuffers[att.cb_index]? = some block.name) ∧
      (prog.all_cbuff_indices_ = atts.map BlockAttachment.cb_index →
        ∃ prog' state' calls buffers,
          Bind env effect prog state = .ok (prog', state', calls) ∧
          (gl.blocks ≠ [] →
            EngineCall.BindBuffersBase GL_UNIFORM_BUFFER 0 buffers ∈ calls) ∧
          ∀ (i : Nat) (block : ActiveUniformBlock), gl.blocks[i]? = some block →
            ∃ cb vbo, effect.cbuffers[cb]? = some block.name ∧
              EngineCall.Update cb ∈ calls ∧
              buffers[i]? = some vbo ∧ env.GLvbo cb = some vbo) := by
  obtain ⟨atts, hatts⟩ := AttachUBOs_total gl effect hnul hdecl
  obtain ⟨hlen, hblocks⟩ := AttachUBOs_ok gl effect atts hatts
  have hatt : ∀ (i : Nat) (block : ActiveUniformBlock), gl.blocks[i]? = some block →
      ∃ att, atts[i]? = some att ∧
        Call.glUniformBlockBinding (some i) i ∈ att.calls ∧
        effect.cbuffers[att.cb_index]? = some block.name := by
    intro i block hb
    have hi : i < atts.length := by
      rw [hlen]
      exact (List.getElem?_eq_some_iff.mp hb).1
    obtain ⟨att, ha⟩ : ∃ att, atts[i]? = some att := ⟨atts[i], List.getElem?_eq_getElem hi⟩
    obtain ⟨hcb, hsetup, _⟩ := AttachUBOs_block_ok gl effect i block att
      (hnul block (List.mem_iff_getElem?.mpr ⟨i, hb⟩)) (hblocks i block att hb ha)
    refine ⟨att, ha, ?_, CBufferByName_getElem effect block.name _ hcb⟩
    unfold BlockAttachment.calls
    rw [hsetup, glGetUniformBlockIndex_nodup gl i block hnames hb]
    simp
  refine ⟨atts, hatts, hatt, ?_⟩
  intro hidx
  obtain ⟨prog', param_calls, bufs, rest, hrun, hbufs, _⟩ :=
    Bind_ok env effect prog state hprog
  refine ⟨prog', _, _, bufs, hrun, ?_, ?_⟩
  · intro hne
    have hne' : prog.all_cbuff_indices_ ≠ [] := by
      intro h0
      apply hne
      have := congrArg List.length h0
      rw [hidx, List.length_map, hlen] at this
      exact List.length_eq_zero.mp this
    rw [if_pos hne']
    simp
  · intro i block hb
    obtain ⟨att, ha, _, hname⟩ := hatt i block hb
    have hcb : prog.all_cbuff_indices_[i]? = some att.cb_index := by
      rw [hidx, List.getElem?_map, ha]
      rfl
    obtain ⟨vbo, hv1, hv2⟩ := map_some_getElem env.GLvbo _ bufs hbufs i att.cb_index hcb
    refine ⟨att.cb_index, vbo, hname, ?_, hv1, hv2⟩
    have hne' : prog.all_cbuff_indices_ ≠ [] := by
      intro h0
      rw [h0] at hcb
      cases hcb
    rw [if_pos hne']
    have hmem : att.cb_index ∈ prog.all_cbuff_indices_ := List.mem_iff_getElem?.mpr ⟨i, hcb⟩
    apply List.mem_append_left
    apply List.mem_append_right
    apply List.mem_append_left
    exact List.mem_map.mpr ⟨_, hmem, rfl⟩

/-- C17, witness.  The sample reflection has one block, `per_frame`; the effect has the
constant buffers `global` and `per_frame`.  The block gets bind point 0 and the recorded
index is 1; `Bind` updates the constant buffer 1 and binds its hardware buffer, 301, at
bind point 0. -/
theorem Bind_constant_buffers_witness :
    NulFree (sampleProgram 0) ∧ Declares (sampleEffect 1) (sampleProgram 0) ∧
    ((sampleProgram 0).blocks.map (fun b => b.name)).Nodup ∧
    Bindable sampleBindEnv (sampleEffect 1) sampleLinked ∧
    (sampleProgram 0).blocks.map (fun b => b.name) = [ascii "per_frame"] ∧
    (AttachUBOs (sampleProgram 0) (sampleEffect 1)).map
      (fun atts => atts.map BlockAttachment.cb_index) = .ok sampleLinked.all_cbuff_indices_ ∧
    (Bind sampleBindEnv (sampleEffect 1) sampleLinked ⟨false⟩).map
      (fun r => r.2.2.filter (fun c =>
        c = EngineCall.Update 1 ∨ c = EngineCall.BindBuffersBase GL_UNIFORM_BUFFER 0 [301])) =
      .ok [EngineCall.Update 1, EngineCall.BindBuffersBase GL_UNIFORM_BUFFER 0 [301]] ∧
    ∃ atts, AttachUBOs (sampleProgram 0) (sampleEffect 1) = .ok atts ∧
      (∀ (i : Nat) (block : ActiveUniformBlock), (sampleProgram 0).blocks[i]? = some block →
        ∃ att, atts[i]? = some att ∧
          Call.glUniformBlockBinding (some i) i ∈ att.calls ∧
          (sampleEffect 1).cbuffers[att.cb_index]? = some block.name) ∧
      (sampleLinked.all_cbuff_indices_ = atts.map BlockAttachment.cb_index →
        ∃ prog' state' calls buffers,
          Bind sampleBindEnv (sampleEffect 1) sampleLinked ⟨false⟩ =
            .ok (prog', state', calls) ∧
          ((sampleProgram 0).blocks ≠ [] →
            EngineCall.BindBuffersBase GL_UNIFORM_BUFFER 0 buffers ∈ calls) ∧
          ∀ (i : Nat) (block : ActiveUniformBlock), (sampleProgram 0).blocks[i]? = some block →
            ∃ cb vbo, (sampleEffect 1).cbuffers[cb]? = some block.name ∧
              EngineCall.Update cb ∈ calls ∧
              buffers[i]? = some vbo ∧ sampleBindEnv.GLvbo cb = some vbo) :=
  ⟨by decide, by decide, by decide, by decide, by decide, by decide, by decide,
    Bind_constant_buffers (sampleProgram 0) (sampleEffect 1) sampleBindEnv sampleLinked
      ⟨false⟩ (by decide) (by decide) (by decide) (by decide)⟩


/-- C16.  After `DoLinkShaders` has returned for a valid program that held no attribute
location before, `GetAttribLocation` gives, for every pair of usage and usage index, the
location that the driver reports for the name of the first attribute that the vertex stage
declares with that pair, and -1 when the vertex stage declares no attribute with that pair.
On a newly constructed program it gives -1 for every pair. -/
theorem GetAttribLocation_first_declared (gl : GLProgram) (effect : RenderEffect)
    (prog r : OGLESShaderObject) (calls : List Call) (vs : OGLESShaderStageObject)
    (hvalid : prog.is_validate_ = true) (hfresh : prog.attrib_locs_ = [])
    (hvs : prog.Stage .Vertex = some vs)
    (hlink : DoLinkShaders gl effect prog = .ok (r, calls))
    (usage : VertexElementUsage) (usage_index : Byte) :
    GetAttribLocation r usage usage_index =
      (match (declaredAttribs vs).find? (fun e => e.1 = (usage, usage_index)) with
        | some e => gl.glGetAttribLocation e.2
        | none => -1) ∧
    ∀ Stage fmt bin v h,
      GetAttribLocation (OGLESShaderObject.new Stage fmt bin v h) usage usage_index = -1 := by
  refine ⟨?_, fun _ _ _ _ _ => rfl⟩
  have hlocs := DoLinkShaders_attrib_locs gl effect prog r calls vs hvalid hvs hlink
  have hfind := find_emplace_all gl (declaredAttribs vs) prog.attrib_locs_ (usage, usage_index)
  rw [← hlocs, hfresh] at hfind
  simp only [List.find?_nil] at hfind
  unfold GetAttribLocation
  cases hr : r.attrib_locs_.find? (fun e => decide (e.1 = (usage, usage_index))) with
  | none =>
    rw [hr] at hfind
    cases hd : (declaredAttribs vs).find? (fun e => decide (e.1 = (usage, usage_index))) with
    | none => rfl
    | some e => rw [hd] at hfind; cases hfind
  | some x =>
    rw [hr] at hfind
    cases hd : (declaredAttribs vs).find? (fun e => decide (e.1 = (usage, usage_index))) with
    | none => rw [hd] at hfind; cases hfind
    | some e =>
      rw [hd] at hfind
      simp only [Option.map_some', Option.some.injEq] at hfind
      exact hfind

/-- C16, witness.  The sample vertex stage declares a position and a texture coordinate
with index 1; the driver reports location 0 for the first and none for the second.  After
`DoLinkShaders` the position is found at 0, and the texture coordinate, and a normal that
is not declared, give -1. -/
theorem GetAttribLocation_first_declared_witness :
    sampleShaderObject.is_validate_ = true ∧ sampleShaderObject.attrib_locs_ = [] ∧
    sampleShaderObject.Stage .Vertex = some sampleLinkStage ∧
    DoLinkShaders (sampleProgram 0) (sampleEffect 1) sampleShaderObject =
      .ok (sampleLinked, sampleLinkCalls) ∧
    GetAttribLocation sampleLinked VEU_Position 0 = 0 ∧
    GetAttribLocation sampleLinked VEU_TextureCoord 1 = -1 ∧
    GetAttribLocation sampleLinked VEU_Normal 0 = -1 ∧
    (GetAttribLocation sampleLinked VEU_Position 0 =
      (match (declaredAttribs sampleLinkStage).find? (fun e => e.1 = (VEU_Position, 0)) with
        | some e => (sampleProgram 0).glGetAttribLocation e.2
        | none => -1) ∧
    ∀ Stage fmt bin v h,
      GetAttribLocation (OGLESShaderObject.new Stage fmt bin v h) VEU_Position 0 = -1) :=
  ⟨rfl, rfl, rfl, by rfl, by decide, by decide, by decide,
    GetAttribLocation_first_declared (sampleProgram 0) (sampleEffect 1) sampleShaderObject
      sampleLinked sampleLinkCalls sampleLinkStage rfl rfl rfl (by rfl) VEU_Position 0⟩


/-! ## The bind table, the bindings and the name lists: claims C18 to C20 -/

/-- C18.  For every sequence of calls of `AppendTexSamplerBinds` on a program that starts
with an empty table: no two entries of the table have the same combined name, and the
stage mask of each entry has the bit of stage `s` set exactly when a call for `s` passed a
pair with the combined name of the entry.  For every call on every table, an entry keeps
its index, its name and its parameters; and a second call with the same stage and pairs
leaves the program as the first call left it. -/
theorem AppendTexSamplerBinds_deduplicated
    (calls : List (ShaderStage × RenderEffect × List (Str × Str))) (prog : OGLESShaderObject)
    (hempty : prog.tex_sampler_binds_ = []) :
    ((AppendTexSamplerBinds.sequence calls prog).tex_sampler_binds_.map
      (fun e => e.1)).Nodup ∧
    (∀ e ∈ (AppendTexSamplerBinds.sequence calls prog).tex_sampler_binds_,
      ∀ s : ShaderStage, e.2.2.2.testBit s.toNat = true ↔
        ∃ c ∈ calls, c.1 = s ∧ ∃ q ∈ c.2.2, q.1 ++ ascii "_" ++ q.2 = e.1) ∧
    (∀ (p : OGLESShaderObject) (stage : ShaderStage) (effect : RenderEffect)
      (pairs : List (Str × Str)) (k : Nat) (e : TexSamplerBind),
      p.tex_sampler_binds_[k]? = some e →
      ∃ e', (AppendTexSamplerBinds stage effect pairs p).tex_sampler_binds_[k]? = some e' ∧
        e'.1 = e.1 ∧ e'.2.1 = e.2.1 ∧ e'.2.2.1 = e.2.2.1) ∧
    (∀ (p : OGLESShaderObject) (stage : ShaderStage) (effect effect' : RenderEffect)
      (pairs : List (Str × Str)),
      AppendTexSamplerBinds stage effect' pairs (AppendTexSamplerBinds stage effect pairs p) =
        AppendTexSamplerBinds stage effect pairs p) := by
  have hnodup := AppendTexSamplerBinds_sequence_nodup calls prog (by rw [hempty]; exact List.nodup_nil)
  refine ⟨hnodup, ?_, ?_, ?_⟩
  · intro e he s
    have hbits := AppendTexSamplerBinds_sequence_bits calls prog (fun _ _ => False)
      (by
        intro n s
        rw [hempty]
        simp [firstMask]) e.1 s
    rw [find_nodup _ e hnodup he] at hbits
    simp only [Option.some.injEq, exists_eq_left', false_or] at hbits
    exact hbits
  · intro p stage effect pairs k e hk
    have hpre := AppendTexSamplerBinds_pairs_keep effect (1 <<< stage.toNat) pairs
      p.tex_sampler_binds_
    obtain ⟨rest, hrest⟩ := hpre
    have hlt : k < p.tex_sampler_binds_.length := (List.getElem?_eq_some_iff.mp hk).1
    have h1 : ((List.foldl (AppendTexSamplerBinds.pair effect (1 <<< stage.toNat))
        p.tex_sampler_binds_ pairs).map (fun e => (e.1, e.2.1, e.2.2.1)))[k]? =
        some (e.1, e.2.1, e.2.2.1) := by
      rw [← hrest, List.getElem?_append_left (by rw [List.length_map]; exact hlt),
        List.getElem?_map, hk]
      rfl
    rw [List.getElem?_map] at h1
    cases he' : (List.foldl (AppendTexSamplerBinds.pair effect (1 <<< stage.toNat))
        p.tex_sampler_binds_ pairs)[k]? with
    | none => rw [he'] at h1; cases h1
    | some e' =>
      rw [he'] at h1
      simp only [Option.map_some', Option.some.injEq, Prod.mk.injEq] at h1
      exact ⟨e', he', h1.1, h1.2.1, h1.2.2⟩
  · intro p stage effect effect' pairs
    unfold AppendTexSamplerBinds
    simp only []
    rw [AppendTexSamplerBinds_pairs_again effect' (1 <<< stage.toNat) pairs]
    intro q hq
    exact AppendTexSamplerBinds_pairs_fixed effect (1 <<< stage.toNat) pairs _ _
      (Or.inr ⟨q, hq, rfl⟩)

/-- C18, witness.  The vertex stage passes `tex`/`samp` and `a`/`b`, then the pixel stage
passes `a`/`b` twice: the table has the two entries `tex_samp` with mask 1 and `a_b` with
mask 3. -/
theorem AppendTexSamplerBinds_deduplicated_witness :
    (OGLESShaderObject.new (fun _ => none) 0 [] true false).tex_sampler_binds_ = [] ∧
    (AppendTexSamplerBinds.sequence sampleAppendCalls
        (OGLESShaderObject.new (fun _ => none) 0 [] true false)).tex_sampler_binds_ =
      [(ascii "tex_samp", some (sampleTex 1), some (sampleSamp 1), 1),
       (ascii "a_b", none, none, 3)] ∧
    ((AppendTexSamplerBinds.sequence sampleAppendCalls
        (OGLESShaderObject.new (fun _ => none) 0 [] true false)).tex_sampler_binds_.map
      (fun e => e.1)).Nodup :=
  ⟨rfl, by decide,
    (AppendTexSamplerBinds_deduplicated sampleAppendCalls
      (OGLESShaderObject.new (fun _ => none) 0 [] true false) rfl).1⟩


/-- C19, counterexample.  The sample program with a vertex stage and a pixel stage that
both use the buffer `buf`: `DoLinkShaders` registers three bindings, with the locations 3, 5
and 3, so two entries have the same driver location. -/
theorem DoLinkShaders_same_location_twice :
    sampleTwoStages.param_binds_ = [] ∧
    (DoLinkShaders (sampleProgram 0) (sampleEffect 1) sampleTwoStages).map
      (fun r => r.1.param_binds_.map (fun pb => pb.location)) = .ok [3, 5, 3] ∧
    ¬ ([3, 5, 3] : List Int).Nodup := by
  decide

/-- C19, amended.  After `DoLinkShaders` has returned for a valid program, the
parameter-binding list holds the bindings it held before followed by exactly one binding
for each index of the used-name list of each stage that resolves (the resource name has a
location other than -1 and the used name is a parameter of the effect or a combined name of
the bind table), in the order of the stages and of the used names, with the location of the
resource name.  A name that resolves in the lists of several stages has one binding per
stage. -/
theorem DoLinkShaders_one_binding_per_use (gl : GLProgram) (effect : RenderEffect)
    (prog r : OGLESShaderObject) (calls : List Call) (hvalid : prog.is_validate_ = true)
    (hlink : DoLinkShaders gl effect prog = .ok (r, calls)) :
    r.param_binds_.map (fun pb => pb.location) =
      prog.param_binds_.map (fun pb => pb.location) ++
        resolvedLocations gl effect prog.tex_sampler_binds_ prog.Stage ∧
    (prog.param_binds_ = [] →
      r.param_binds_.length =
        (resolvedLocations gl effect prog.tex_sampler_binds_ prog.Stage).length) := by
  have hloc := DoLinkShaders_locations gl effect prog r calls hvalid hlink
  refine ⟨hloc, ?_⟩
  intro hnil
  have := congrArg List.length hloc
  rw [hnil] at this
  simpa using this

/-- C19, witness.  The sample program with a vertex stage and a pixel stage that both use
`buf`: three indices resolve, to the locations 3, 5 and 3, and three bindings are
registered. -/
theorem DoLinkShaders_one_binding_per_use_witness :
    sampleTwoStages.is_validate_ = true ∧
    DoLinkShaders (sampleProgram 0) (sampleEffect 1) sampleTwoStages =
      .ok (sampleTwoLinked, sampleLinkCalls) ∧
    resolvedLocations (sampleProgram 0) (sampleEffect 1) sampleTwoStages.tex_sampler_binds_
      sampleTwoStages.Stage = [3, 5, 3] ∧
    sampleTwoLinked.param_binds_.map (fun pb => pb.location) =
      sampleTwoStages.param_binds_.map (fun pb => pb.location) ++
        resolvedLocations (sampleProgram 0) (sampleEffect 1)
          sampleTwoStages.tex_sampler_binds_ sampleTwoStages.Stage :=
  ⟨rfl, by rfl, by decide,
    (DoLinkShaders_one_binding_per_use (sampleProgram 0) (sampleEffect 1) sampleTwoStages
      sampleTwoLinked sampleLinkCalls rfl (by rfl)).1⟩


/-- C20, counterexample.  A stream whose block announces one used name and no resource
name: `StreamIn` reads it to the end and leaves the stage with one used name and an empty
resource-name list, and the lookup of the resource name at index 0 in `DoLinkShaders` is
then out of bounds. -/
theorem StreamIn_unequal_name_lists :
    (∀ ind : Indeterminate,
      StreamIn ind (OGLESShaderStageObject.new .Pixel false false) sampleDesc
          sampleUnequalStream = (sampleUnequalStage, [])) ∧
    sampleUnequalStage.pnames_ = [ascii "a"] ∧ sampleUnequalStage.glsl_res_names_ = [] ∧
    (DoLinkShaders.bind_param (sampleProgram 0) (sampleEffect 1) sampleUnequalStage 0
        sampleShaderObject).map (fun _ => ()) = .error .out_of_range := by
  refine ⟨?_, rfl, rfl, by decide⟩
  intro ind
  have hs : sampleUnequalStream = Native2LE 4 25 ++ (enc_block sampleUnequalStage ++ []) := by
    decide
  rw [hs, StreamIn_enc_block ind (OGLESShaderStageObject.new .Pixel false false)
    sampleUnequalStage sampleDesc 25 [] rfl (by decide) (by decide) (by decide)]
  decide

/-- C20, amended.  `CompileShader`, when it returns, leaves the used-name list and the
resource-name list of equal length if they were so before: it either leaves both alone or
rebuilds both as the same list.  `StreamIn` takes the two lists with their two counts from
the stream: on the record that `StreamOut` wrote for a stage with lists of equal length (a
non-empty source, a block of at least 24 bytes, fields within the widths of the record) it
leaves the two lists of equal length.  For a stage with lists of equal length the lookup of
the resource name at each index of the used-name list is in bounds. -/
theorem CompileShader_name_lists_equal_length :
    (∀ (env : CompileEnv) (s t : OGLESShaderStageObject), CompileShader env s = .ok t →
      s.pnames_.length = s.glsl_res_names_.length →
      t.pnames_.length = t.glsl_res_names_.length) ∧
    (∀ (ind : Indeterminate) (t s : OGLESShaderStageObject) (sd : ShaderDesc),
      t.stage_ = s.stage_ →
      s.glsl_src_ ≠ [] → FitsRecord s → 24 ≤ (StreamOut.block s).length →
      s.pnames_.length = s.glsl_res_names_.length →
      ∃ r, StreamIn ind t sd (StreamOut s []) = (r, []) ∧
        r.pnames_.length = r.glsl_res_names_.length) ∧
    (∀ (shader_stage : OGLESShaderStageObject),
      shader_stage.pnames_.length = shader_stage.glsl_res_names_.length →
      ∀ pi < shader_stage.pnames_.length,
        ∃ res_name, at_index shader_stage.glsl_res_names_ pi = .ok res_name) := by
  refine ⟨?_, ?_, ?_⟩
  · intro env s t h heq
    rcases CompileShader_names env s t h with ⟨h1, h2⟩ | h3
    · rw [h1, h2]
      exact heq
    · rw [h3]
  · intro ind t s sd hst hsrc hfit h24 heq
    have h := StreamIn_StreamOut ind t s sd [] hst hsrc hfit h24
    rw [List.append_nil] at h
    exact ⟨_, h, heq⟩
  · intro shader_stage heq pi hpi
    exact ⟨_, at_index_ok _ _ _ (List.getElem?_eq_getElem (heq ▸ hpi))⟩

/-- C20, witness.  The sample vertex stage, which `CompileShader` produced, has six names
in each list; written by `StreamOut` and read back, the sample stage of the codec has two
names in each list. -/
theorem CompileShader_name_lists_equal_length_witness :
    CompileShader (sampleEnv true) (OGLESShaderStageObject.new .Vertex false false) =
      .ok sampleCompiled ∧
    sampleCompiled.pnames_.length = 6 ∧ sampleCompiled.glsl_res_names_.length = 6 ∧
    sampleCompiled.pnames_.length = sampleCompiled.glsl_res_names_.length ∧
    (∃ r, StreamIn sampleIndeterminate (OGLESShaderStageObject.new .Vertex false false)
        sampleDesc (StreamOut sampleVertexStage []) = (r, []) ∧
      r.pnames_.length = r.glsl_res_names_.length) ∧
    ∃ res_name, at_index sampleCompiled.glsl_res_names_ 5 = .ok res_name :=
  ⟨by decide, rfl, rfl,
    CompileShader_name_lists_equal_length.1 (sampleEnv true) (OGLESShaderStageObject.new .Vertex false false)
      sampleCompiled (by decide) rfl,
    CompileShader_name_lists_equal_length.2.1 sampleIndeterminate
      (OGLESShaderStageObject.new .Vertex false false) sampleVertexStage sampleDesc rfl (by decide) (by decide) (by decide) rfl,
    CompileShader_name_lists_equal_length.2.2 sampleCompiled rfl 5 (by decide)⟩


/-! ## The slot arrays, the bounded round trip, the validity threshold and the parameters
of a table entry: claims C21 to C24 -/

/-- C21.  The slot arrays of a program are indexed (`SlotIndexed`) when `textures_`,
`gl_bind_targets_`, `gl_bind_textures_` and `gl_bind_samplers_` each have as many slots as
there are registered bindings and the `k`-th registered binding has the slot index `k`.
Every pass of the loop of `DoLinkShaders` over the used names, and every pass of the loop
of `Clone` over the bindings of the original, keeps the arrays indexed, keeps every binding
registered before in its place (so with its slot index), and does not shrink the arrays.
The program that `DoLinkShaders` returns has indexed arrays if the program had them before
(a new program has), with the earlier bindings in place; the program that `Clone` returns
has indexed arrays.  In a program with indexed arrays the slot of every binding is inside
each of the four arrays, and no two bindings have the same slot. -/
theorem DoLinkShaders_Clone_slot_arrays :
    (∀ (gl : GLProgram) (effect : RenderEffect) (shader_stage : OGLESShaderStageObject)
      (pi : Nat) (prog prog' : OGLESShaderObject), SlotIndexed prog →
      DoLinkShaders.bind_param gl effect shader_stage pi prog = .ok prog' →
      SlotIndexed prog' ∧ prog.param_binds_ <+: prog'.param_binds_ ∧
        prog.textures_.length ≤ prog'.textures_.length) ∧
    (∀ (effect : RenderEffect) (ret ret' : OGLESShaderObject) (pb : ParameterBind),
      SlotIndexed ret → Clone.param_bind effect ret pb = .ok ret' →
      SlotIndexed ret' ∧ ret.param_binds_ <+: ret'.param_binds_ ∧
        ret.textures_.length ≤ ret'.textures_.length) ∧
    (∀ (gl : GLProgram) (effect : RenderEffect) (prog r : OGLESShaderObject)
      (calls : List Call), SlotIndexed prog → DoLinkShaders gl effect prog = .ok (r, calls) →
      SlotIndexed r ∧ prog.param_binds_ <+: r.param_binds_ ∧
        prog.textures_.length ≤ r.textures_.length) ∧
    (∀ (gl : GLProgram) (effect : RenderEffect) (prog r : OGLESShaderObject)
      (calls : List Call), Clone gl effect prog = .ok (r, calls) → SlotIndexed r) ∧
    (∀ prog : OGLESShaderObject, SlotIndexed prog →
      (∀ (k : Nat) (pb : ParameterBind), prog.param_binds_[k]? = some pb →
        pb.func.slot = some k ∧ k < prog.textures_.length ∧
          k < prog.gl_bind_targets_.length ∧ k < prog.gl_bind_textures_.length ∧
          k < prog.gl_bind_samplers_.length) ∧
      (prog.param_binds_.map (fun pb => pb.func.slot)).Nodup) :=
  ⟨fun gl effect shader_stage pi prog prog' h0 h =>
      bind_param_indexed gl effect shader_stage pi prog prog' h0 h,
    fun effect ret ret' pb h0 h => Clone_param_bind_indexed effect ret ret' pb h0 h,
    fun gl effect prog r calls h0 h => DoLinkShaders_indexed gl effect prog r calls h0 h,
    fun gl effect prog r calls h => Clone_indexed gl effect prog r calls h,
    fun prog h => SlotIndexed_bounds prog h⟩

/-- Witness of `DoLinkShaders_Clone_slot_arrays`.  `DoLinkShaders` on the sample program
registers two bindings with the slots 0 and 1 in arrays of two slots; one more pass of its
loop for the buffer `buf` registers a third binding with the slot 2 and leaves the two
before it in place; `Clone` of the linked program has indexed arrays again. -/
theorem DoLinkShaders_Clone_slot_arrays_witness :
    SlotIndexed sampleShaderObject ∧
    DoLinkShaders (sampleProgram 0) (sampleEffect 1) sampleShaderObject =
      .ok (sampleLinked, sampleLinkCalls) ∧
    (SlotIndexed sampleLinked ∧
      sampleShaderObject.param_binds_ <+: sampleLinked.param_binds_ ∧
      sampleShaderObject.textures_.length ≤ sampleLinked.textures_.length) ∧
    sampleLinked.param_binds_.map (fun pb => pb.func.slot) = [some 0, some 1] ∧
    sampleLinked.textures_.length = 2 ∧
    DoLinkShaders.bind_param (sampleProgram 0) (sampleEffect 1) sampleLinkStage 1
        sampleLinked = .ok
      { grow_slots sampleLinked with
        param_binds_ := sampleLinked.param_binds_ ++
          [⟨[], some (sampleBuf 1), 3, none, .GraphicsBufferPtr 3 2 (some (sampleBuf 1))⟩] } ∧
    (SlotIndexed
        { grow_slots sampleLinked with
          param_binds_ := sampleLinked.param_binds_ ++
            [⟨[], some (sampleBuf 1), 3, none,
              .GraphicsBufferPtr 3 2 (some (sampleBuf 1))⟩] } ∧
      sampleLinked.param_binds_ <+:
        sampleLinked.param_binds_ ++
          [⟨[], some (sampleBuf 1), 3, none, .GraphicsBufferPtr 3 2 (some (sampleBuf 1))⟩] ∧
      sampleLinked.textures_.length ≤ (grow_slots sampleLinked).textures_.length) ∧
    Clone (sampleProgram 0) (sampleEffect 2) sampleLinked =
      .ok (sampleCloned, sampleCloneCalls) ∧
    SlotIndexed sampleCloned ∧
    ((∀ (k : Nat) (pb : ParameterBind), sampleCloned.param_binds_[k]? = some pb →
        pb.func.slot = some k ∧ k < sampleCloned.textures_.length ∧
          k < sampleCloned.gl_bind_targets_.length ∧
          k < sampleCloned.gl_bind_textures_.length ∧
          k < sampleCloned.gl_bind_samplers_.length) ∧
      (sampleCloned.param_binds_.map (fun pb => pb.func.slot)).Nodup) :=
  ⟨by decide, by rfl,
    DoLinkShaders_Clone_slot_arrays.2.2.1 (sampleProgram 0) (sampleEffect 1)
      sampleShaderObject sampleLinked sampleLinkCalls (by decide) (by rfl),
    by decide, by decide, by rfl,
    DoLinkShaders_Clone_slot_arrays.1 (sampleProgram 0) (sampleEffect 1) sampleLinkStage 1
      sampleLinked _ (by decide) (by rfl),
    by rfl,
    DoLinkShaders_Clone_slot_arrays.2.2.2.1 (sampleProgram 0) (sampleEffect 2) sampleLinked
      sampleCloned sampleCloneCalls (by rfl),
    DoLinkShaders_Clone_slot_arrays.2.2.2.2 sampleCloned (by decide)⟩


/-- C22, counterexample.  The pixel stage `hugeSourceStage` is within every bound of the
claim: its source is non-empty and 2^32 - 1 bytes long, its block is 2^32 + 9 bytes long,
and it has no names and no pairs.  `StreamOut` casts the block length to 32 bits, writes
the length 9 and only the first 9 bytes of the block; `StreamIn` on these bytes finds a
block length below 24, leaves the freshly constructed stage not valid with an empty source,
and leaves the 9 bytes unread. -/
theorem StreamOut_block_length_wraps :
    hugeSourceStage.glsl_src_ ≠ [] ∧ hugeSourceStage.glsl_src_.length < 2 ^ 32 ∧
    24 ≤ (StreamOut.block hugeSourceStage).length ∧
    hugeSourceStage.pnames_ = [] ∧ hugeSourceStage.glsl_res_names_ = [] ∧
    hugeSourceStage.tex_sampler_pairs_ = [] ∧ hugeSourceStage.usages_ = [] ∧
    hugeSourceStage.usage_indices_ = [] ∧ hugeSourceStage.glsl_attrib_names_ = [] ∧
    StreamOut hugeSourceStage [] = [9, 0, 0, 0, 255, 255, 255, 255, 97, 97, 97, 97, 97] ∧
    (∀ ind : Indeterminate,
      StreamIn ind (OGLESShaderStageObject.new hugeSourceStage.stage_ false false) sampleDesc
          (StreamOut hugeSourceStage []) =
        ({ OGLESShaderStageObject.new .Pixel false false with
            shader_func_name_ := sampleDesc.func_name, is_validate_ := false },
          [255, 255, 255, 255, 97, 97, 97, 97, 97])) ∧
    ({ OGLESShaderStageObject.new .Pixel false false with
        shader_func_name_ := sampleDesc.func_name,
        is_validate_ := false } : OGLESShaderStageObject).glsl_src_ = [] := by
  have hlen : hugeSourceStage.glsl_src_.length = 2 ^ 32 - 1 := List.length_replicate _ _
  have htake : hugeSourceStage.glsl_src_.take 5 = [97, 97, 97, 97, 97] := by
    show (List.replicate (2 ^ 32 - 1) (97 : Byte)).take 5 = _
    rw [List.take_replicate]
    rfl
  obtain ⟨hblock, hout⟩ := StreamOut_wrapped hugeSourceStage (by decide) rfl rfl rfl hlen
  rw [htake] at hout
  have hbytes : StreamOut hugeSourceStage [] =
      [9, 0, 0, 0, 255, 255, 255, 255, 97, 97, 97, 97, 97] := by
    rw [hout]
    rfl
  refine ⟨?_, ?_, ?_, rfl, rfl, rfl, rfl, rfl, rfl, hbytes, ?_, rfl⟩
  · intro h
    rw [h] at hlen
    exact absurd hlen (by decide)
  · rw [hlen]
    decide
  · rw [hblock]
    decide
  · intro ind
    rw [hbytes]
    exact StreamIn_below_24 ind _ _ _ (by rw [read_u32_eq _ _ (by decide)]; decide)

set_option linter.unusedVariables false in
/-- C22, amended.  For every stage `s` (vertex included) within the bounds of the claim
and, in addition, with an encoded block shorter than 2^32 bytes: the source is non-empty
and shorter than 2^32 bytes, the block is at least 24 bytes long, every used name, resource
name, texture name, sampler name and attribute name is at most 255 bytes long, there are at
most 65535 used names, resource names and pairs, and at most 255 vertex usages, usage
indices and attribute names.  Then `StreamIn` applied to a freshly constructed stage of the
same kind on the bytes written by `StreamOut`, followed by any bytes `rest`, returns with
`rest` unread, marks the stage valid, and reproduces the source and every list. -/
theorem StreamIn_StreamOut_bounded (ind : Indeterminate) (s : OGLESShaderStageObject)
    (sd : ShaderDesc) (hs_support ds_support : Bool) (rest : List Byte)
    (hsrc : s.glsl_src_ ≠ []) (hlen : s.glsl_src_.length < 2 ^ 32)
    (h24 : 24 ≤ (StreamOut.block s).length)
    (hblock : (StreamOut.block s).length < 2 ^ 32)
    (hpn : ∀ name ∈ s.pnames_, name.length ≤ 255)
    (hrn : ∀ name ∈ s.glsl_res_names_, name.length ≤ 255)
    (hts : ∀ p ∈ s.tex_sampler_pairs_, p.1.length ≤ 255 ∧ p.2.length ≤ 255)
    (han : ∀ name ∈ s.glsl_attrib_names_, name.length ≤ 255)
    (hnp : s.pnames_.length ≤ 65535) (hnr : s.glsl_res_names_.length ≤ 65535)
    (hnt : s.tex_sampler_pairs_.length ≤ 65535)
    (hnu : s.usages_.length ≤ 255) (hni : s.usage_indices_.length ≤ 255)
    (hna : s.glsl_attrib_names_.length ≤ 255) :
    ∃ t, StreamIn ind (OGLESShaderStageObject.new s.stage_ hs_support ds_support) sd
          (StreamOut s [] ++ rest) = (t, rest) ∧
      t.is_validate_ = true ∧ t.glsl_src_ = s.glsl_src_ ∧ t.pnames_ = s.pnames_ ∧
      t.glsl_res_names_ = s.glsl_res_names_ ∧ t.tex_sampler_pairs_ = s.tex_sampler_pairs_ ∧
      (s.stage_ = .Vertex →
        t.usages_ = s.usages_ ∧ t.usage_indices_ = s.usage_indices_ ∧
        t.glsl_attrib_names_ = s.glsl_attrib_names_) := by
  have hst : (OGLESShaderStageObject.new s.stage_ hs_support ds_support).stage_ = s.stage_ := by
    cases s.stage_ <;> rfl
  have hp : (OGLESShaderStageObject.new s.stage_ hs_support ds_support).tex_sampler_pairs_
      = [] := by
    cases s.stage_ <;> rfl
  have hu : (OGLESShaderStageObject.new s.stage_ hs_support ds_support).usage_indices_
      = [] := by
    cases s.stage_ <;> rfl
  have hfit : FitsRecord s :=
    ⟨hpn, hrn, hts, hnp, hnr, hnt, fun _ => ⟨hnu, hni, hna, han⟩, hblock⟩
  refine ⟨_, StreamIn_StreamOut ind _ s sd rest hst hsrc hfit h24, rfl, rfl, rfl, rfl, ?_, ?_⟩
  · simp [decoded, hp]
  · intro hv
    refine ⟨by simp [decoded, hv], ?_, by simp [decoded, hv]⟩
    by_cases hi : s.usage_indices_ = []
    · rw [hv] at hu
      simp [decoded, hv, hi, hu]
    · simp [decoded, hv, hi]

/-- Witness of `StreamIn_StreamOut_bounded` on the sample vertex stage, with one byte of a
next record after its bytes. -/
theorem StreamIn_StreamOut_bounded_witness :
    ∃ t, StreamIn sampleIndeterminate
          (OGLESShaderStageObject.new sampleVertexStage.stage_ false false) sampleDesc
          (StreamOut sampleVertexStage [] ++ [7]) = (t, [7]) ∧
      t.is_validate_ = true ∧ t.glsl_src_ = sampleVertexStage.glsl_src_ ∧
      t.pnames_ = sampleVertexStage.pnames_ ∧
      t.glsl_res_names_ = sampleVertexStage.glsl_res_names_ ∧
      t.tex_sampler_pairs_ = sampleVertexStage.tex_sampler_pairs_ ∧
      (sampleVertexStage.stage_ = .Vertex →
        t.usages_ = sampleVertexStage.usages_ ∧
        t.usage_indices_ = sampleVertexStage.usage_indices_ ∧
        t.glsl_attrib_names_ = sampleVertexStage.glsl_attrib_names_) :=
  StreamIn_StreamOut_bounded sampleIndeterminate sampleVertexStage sampleDesc false false [7]
    (by decide)
    (by decide) (by decide) (by decide) (by decide) (by decide) (by decide) (by decide)
    (by decide) (by decide) (by decide) (by decide) (by decide) (by decide)


/-- C23.  The validity threshold of `StreamIn`, for every target stage, descriptor and
stream, whatever the locals without an initialiser held.  The block length is what the
local `native_shader_block_len` holds after the first read: on a stream of at least 4 bytes,
the little-endian value of the first 4 bytes.  On every stream `StreamIn` returns, and the
stage is valid exactly when the block length is at least 24.  With a block length below 24
it marks the stage not valid, changes nothing but the function name, and leaves all bytes
after the 4-byte length unread.  With block lengths of at least 24, two streams with the
same bytes after the length give the same stage and the same unread rest; and when the
bytes after the length start with the block of a stage `s` whose fields are within the
widths of the record, `StreamIn` decodes every field of `s` and leaves exactly the bytes
after that block unread, whatever block length of at least 24 the stream announces: what is
consumed depends on the fields inside the block and not on the block length. -/
theorem StreamIn_validity_threshold (ind : Indeterminate) (t : OGLESShaderStageObject)
    (sd : ShaderDesc) :
    (∀ res : List Byte, 4 ≤ res.length →
      (read_u32 ind.native_shader_block_len res).1 = LE2Native (res.take 4)) ∧
    (∀ res : List Byte,
      (StreamIn ind t sd res).1.is_validate_ = true ↔
        24 ≤ (read_u32 ind.native_shader_block_len res).1) ∧
    (∀ res : List Byte, (read_u32 ind.native_shader_block_len res).1 < 24 →
      StreamIn ind t sd res =
        ({ t with shader_func_name_ := sd.func_name, is_validate_ := false }, res.drop 4)) ∧
    (∀ res res' : List Byte,
      24 ≤ (read_u32 ind.native_shader_block_len res).1 →
      24 ≤ (read_u32 ind.native_shader_block_len res').1 →
      res.drop 4 = res'.drop 4 → StreamIn ind t sd res = StreamIn ind t sd res') ∧
    (∀ (n : Nat) (s : OGLESShaderStageObject) (rest : List Byte),
      24 ≤ n → n < 2 ^ 32 → t.stage_ = s.stage_ → FitsRecord s →
      StreamIn ind t sd (Native2LE 4 n ++ (StreamOut.block s ++ rest)) =
        (decoded t s sd, rest)) := by
  refine ⟨?_, ?_, ?_, ?_, ?_⟩
  · intro res h4
    rw [read_u32_eq _ _ h4]
  · intro res
    exact StreamIn_valid_iff ind t sd res
  · intro res h
    exact StreamIn_below_24 ind t sd res h
  · intro res res' h h' hbody
    rw [StreamIn_from_24 ind t sd res h, StreamIn_from_24 ind t sd res' h', hbody]
  · intro n s rest hn hn' hst hfit
    rw [StreamOut_block_eq]
    exact StreamIn_enc_block ind t s sd n rest hst hfit hn hn'

/-- Witness of `StreamIn_validity_threshold` on a fresh pixel stage.  A stream that ends
inside the source of its block, after 20 bytes, with the block length 25: `StreamIn` returns
a valid stage and has read the stream to its end.  A stream that announces 23 bytes leaves
the stage not valid and all 23 bytes unread.  A stream that announces a block of 1000 bytes
but holds the block of `sampleUnequalStage` is decoded by the fields of the block, as with
the block length 25, and the two bytes after the block stay unread. -/
theorem StreamIn_validity_threshold_witness :
    sampleTruncatedStream.length = 20 ∧
    (read_u32 sampleIndeterminate.native_shader_block_len sampleTruncatedStream).1 = 25 ∧
    ((StreamIn sampleIndeterminate (OGLESShaderStageObject.new .Pixel false false) sampleDesc
        sampleTruncatedStream).1.is_validate_ = true ↔
      24 ≤ (read_u32 sampleIndeterminate.native_shader_block_len sampleTruncatedStream).1) ∧
    (StreamIn sampleIndeterminate (OGLESShaderStageObject.new .Pixel false false) sampleDesc
        sampleTruncatedStream).1.is_validate_ = true ∧
    (StreamIn sampleIndeterminate (OGLESShaderStageObject.new .Pixel false false) sampleDesc
        sampleTruncatedStream).2 = [] ∧
    StreamIn sampleIndeterminate (OGLESShaderStageObject.new .Pixel false false) sampleDesc
        sampleBlock23Stream =
      ({ OGLESShaderStageObject.new .Pixel false false with
          shader_func_name_ := sampleDesc.func_name, is_validate_ := false },
        sampleBlock23Stream.drop 4) ∧
    (sampleBlock23Stream.drop 4).length = 23 ∧
    StreamIn sampleIndeterminate (OGLESShaderStageObject.new .Pixel false false) sampleDesc
        sampleWrongLengthStream =
      StreamIn sampleIndeterminate (OGLESShaderStageObject.new .Pixel false false) sampleDesc
        (sampleUnequalStream ++ [7, 7]) ∧
    sampleWrongLengthStream =
      Native2LE 4 1000 ++ (StreamOut.block sampleUnequalStage ++ [7, 7]) ∧
    StreamIn sampleIndeterminate (OGLESShaderStageObject.new .Pixel false false) sampleDesc
        (Native2LE 4 1000 ++ (StreamOut.block sampleUnequalStage ++ [7, 7])) =
      (decoded (OGLESShaderStageObject.new .Pixel false false) sampleUnequalStage sampleDesc,
        [7, 7]) ∧
    decoded (OGLESShaderStageObject.new .Pixel false false) sampleUnequalStage sampleDesc =
      sampleUnequalStage :=
  ⟨by decide, by decide,
    (StreamIn_validity_threshold sampleIndeterminate
      (OGLESShaderStageObject.new .Pixel false false) sampleDesc).2.1 sampleTruncatedStream,
    by decide, by decide,
    (StreamIn_validity_threshold sampleIndeterminate
      (OGLESShaderStageObject.new .Pixel false false) sampleDesc).2.2.1 sampleBlock23Stream
      (by decide),
    by decide,
    (StreamIn_validity_threshold sampleIndeterminate
      (OGLESShaderStageObject.new .Pixel false false) sampleDesc).2.2.2.1
      sampleWrongLengthStream (sampleUnequalStream ++ [7, 7]) (by decide) (by decide)
      (by decide),
    by decide,
    (StreamIn_validity_threshold sampleIndeterminate
      (OGLESShaderStageObject.new .Pixel false false) sampleDesc).2.2.2.2 1000
      sampleUnequalStage [7, 7] (by decide) (by decide) rfl (by decide),
    by decide⟩


/-- C24, counterexample.  On `collidingEffect` the vertex stage passes the pair `a_b`/`c`
and the pixel stage the pair `a`/`b_c`; both have the combined name `a_b_c`.  The table has
one entry `a_b_c`, made for the first pair: its texture parameter is the parameter `a_b`
and its sampler parameter is the parameter `c`, not the parameters `a` and `b_c` of the
second pair. -/
theorem AppendTexSamplerBinds_colliding_names :
    (∀ c ∈ collidingCalls, c.2.1 = collidingEffect) ∧
    (ascii "a", ascii "b_c") ∈ passedPairs collidingCalls ∧
    ascii "a" ++ ascii "_" ++ ascii "b_c" = ascii "a_b_c" ∧
    (AppendTexSamplerBinds.sequence collidingCalls
        (OGLESShaderObject.new (fun _ => none) 0 [] true false)).tex_sampler_binds_ =
      [(ascii "a_b_c", some ⟨1, 0, ⟨ascii "a_b", .REDT_texture2D, 0⟩⟩,
        some ⟨1, 1, ⟨ascii "c", .REDT_sampler, 0⟩⟩, 3)] ∧
    collidingEffect.ParameterByName (ascii "a") =
      some ⟨1, 2, ⟨ascii "a", .REDT_texture2D, 0⟩⟩ ∧
    collidingEffect.ParameterByName (ascii "b_c") =
      some ⟨1, 3, ⟨ascii "b_c", .REDT_sampler, 0⟩⟩ ∧
    ¬ ∃ e ∈ (AppendTexSamplerBinds.sequence collidingCalls
        (OGLESShaderObject.new (fun _ => none) 0 [] true false)).tex_sampler_binds_,
      e.1 = ascii "a" ++ ascii "_" ++ ascii "b_c" ∧
      e.2.1 = collidingEffect.ParameterByName (ascii "a") ∧
      e.2.2.1 = collidingEffect.ParameterByName (ascii "b_c") := by
  decide

/-- C24, amended.  For every sequence of calls of `AppendTexSamplerBinds` on one effect
that starts with an empty table, and every pair `p` passed in one of the calls: the table
has exactly one entry with the combined name of `p`, and that entry holds the effect's
parameters named by the texture and the sampler of the first passed pair `q` with that
combined name.  They are the parameters named by `p` itself whenever every passed pair
with the combined name of `p` is `p`. -/
theorem AppendTexSamplerBinds_entry_of_first_pair (effect : RenderEffect)
    (calls : List (ShaderStage × RenderEffect × List (Str × Str))) (prog : OGLESShaderObject)
    (hempty : prog.tex_sampler_binds_ = []) (hall : ∀ c ∈ calls, c.2.1 = effect)
    (p : Str × Str) (hp : p ∈ passedPairs calls) :
    ∃ q e, firstPair (passedPairs calls) (p.1 ++ ascii "_" ++ p.2) = some q ∧
      e ∈ (AppendTexSamplerBinds.sequence calls prog).tex_sampler_binds_ ∧
      e.1 = p.1 ++ ascii "_" ++ p.2 ∧
      (∀ e' ∈ (AppendTexSamplerBinds.sequence calls prog).tex_sampler_binds_,
        e'.1 = p.1 ++ ascii "_" ++ p.2 → e' = e) ∧
      e.2.1 = effect.ParameterByName q.1 ∧ e.2.2.1 = effect.ParameterByName q.2 ∧
      ((∀ q' ∈ passedPairs calls, q'.1 ++ ascii "_" ++ q'.2 = p.1 ++ ascii "_" ++ p.2 →
          q' = p) →
        e.2.1 = effect.ParameterByName p.1 ∧ e.2.2.1 = effect.ParameterByName p.2) := by
  have hq : ∃ q, firstPair (passedPairs calls) (combinedName p) = some q := by
    cases hf : firstPair (passedPairs calls) (combinedName p) with
    | some q => exact ⟨q, rfl⟩
    | none =>
      exfalso
      unfold firstPair at hf
      rw [List.find?_eq_none] at hf
      exact hf p hp (by simp)
  obtain ⟨q, hq⟩ := hq
  have hqn : combinedName q = combinedName p := by
    have := List.find?_some hq
    simpa using this
  have hqm : q ∈ passedPairs calls := List.mem_of_find?_eq_some hq
  have hfp := firstParams_sequence effect calls prog hall (combinedName p)
  rw [hempty, hq] at hfp
  simp only [firstParams, List.find?_nil, Option.map_none', Option.none_or,
    Option.map_some'] at hfp
  cases he : List.find? (fun e => decide (e.1 = combinedName p))
      (AppendTexSamplerBinds.sequence calls prog).tex_sampler_binds_ with
  | none => rw [he] at hfp; cases hfp
  | some e =>
    rw [he] at hfp
    simp only [Option.map_some', Option.some.injEq, Prod.mk.injEq] at hfp
    have hen : e.1 = combinedName p := by
      have := List.find?_some he
      simpa using this
    have hem := List.mem_of_find?_eq_some he
    have hnodup := AppendTexSamplerBinds_sequence_nodup calls prog
      (by rw [hempty]; exact List.nodup_nil)
    refine ⟨q, e, hq, hem, hen, ?_, hfp.1, hfp.2, ?_⟩
    · intro e' he' hn'
      exact List.inj_on_of_nodup_map hnodup he' hem (hn'.trans hen.symm)
    · intro hall'
      have : q = p := hall' q hqm hqn
      rw [← this]
      exact hfp

/-- Witness of `AppendTexSamplerBinds_entry_of_first_pair` on the sample calls, for the pair
`tex`/`samp` that the vertex stage passes. -/
theorem AppendTexSamplerBinds_entry_of_first_pair_witness :
    (OGLESShaderObject.new (fun _ => none) 0 [] true false).tex_sampler_binds_ = [] ∧
    (∀ c ∈ sampleAppendCalls, c.2.1 = sampleEffect 1) ∧
    (ascii "tex", ascii "samp") ∈ passedPairs sampleAppendCalls ∧
    (AppendTexSamplerBinds.sequence sampleAppendCalls
        (OGLESShaderObject.new (fun _ => none) 0 [] true false)).tex_sampler_binds_ =
      [(ascii "tex_samp", some (sampleTex 1), some (sampleSamp 1), 1),
       (ascii "a_b", none, none, 3)] ∧
    (sampleEffect 1).ParameterByName (ascii "tex") = some (sampleTex 1) ∧
    ∃ q e, firstPair (passedPairs sampleAppendCalls) (ascii "tex" ++ ascii "_" ++ ascii "samp")
        = some q ∧
      e ∈ (AppendTexSamplerBinds.sequence sampleAppendCalls
        (OGLESShaderObject.new (fun _ => none) 0 [] true false)).tex_sampler_binds_ ∧
      e.1 = ascii "tex" ++ ascii "_" ++ ascii "samp" ∧
      (∀ e' ∈ (AppendTexSamplerBinds.sequence sampleAppendCalls
          (OGLESShaderObject.new (fun _ => none) 0 [] true false)).tex_sampler_binds_,
        e'.1 = ascii "tex" ++ ascii "_" ++ ascii "samp" → e' = e) ∧
      e.2.1 = (sampleEffect 1).ParameterByName q.1 ∧
      e.2.2.1 = (sampleEffect 1).ParameterByName q.2 ∧
      ((∀ q' ∈ passedPairs sampleAppendCalls,
          q'.1 ++ ascii "_" ++ q'.2 = ascii "tex" ++ ascii "_" ++ ascii "samp" →
          q' = (ascii "tex", ascii "samp")) →
        e.2.1 = (sampleEffect 1).ParameterByName (ascii "tex") ∧
        e.2.2.1 = (sampleEffect 1).ParameterByName (ascii "samp")) :=
  ⟨rfl, by decide, by decide, by decide, by decide,
    AppendTexSamplerBinds_entry_of_first_pair (sampleEffect 1) sampleAppendCalls
      (OGLESShaderObject.new (fun _ => none) 0 [] true false) rfl (by decide)
      (ascii "tex", ascii "samp") (by decide)⟩

end KlayGE
